import Mathlib

/-!
# capuchinos: buffer pool, worker state machine and disk queue

A shallow embedding of `src/main.cpp` (classes `disk_sim`, `pool`, `capuch`,
`simulation`) and the properties proved about it.

Conventions of the embedding.

* Time points and durations are integers counting nanoseconds.
* `long`/`int` values are `Int`, `unsigned long` values are `Nat`.  Where the
  source converts between widths or computes in `unsigned long`, the
  conversion is written out (`to_u64`, `to_i32`, `to_i64`, `% 2 ^ 64`).
  Signed counters that are only ever incremented (`batch_id`, `batch_size`,
  the statistics) are unbounded integers: signed overflow is undefined in C++.
* `assert` is fatal: an operation whose assertion fails returns `none`.
* The mutex only serialises the operations; every operation is one atomic
  step of the model.
-/

namespace Capuchinos

/-! ## Machine integers -/

/-- Conversion of a signed value to `unsigned long` (64 bit, modular). -/
def to_u64 (x : Int) : Nat := (x % 2 ^ 64).toNat

/-- Narrowing conversion to `int` (32 bit, two's complement). -/
def to_i32 (x : Int) : Int := (x + 2 ^ 31) % 2 ^ 32 - 2 ^ 31

/-- Conversion to a signed 64 bit value (`long`, the tick count of a duration). -/
def to_i64 (x : Int) : Int := (x + 2 ^ 63) % 2 ^ 64 - 2 ^ 63

/-- The `int` expression `1 << g`.  For `0 ≤ g ≤ 30` this is `2 ^ g`; outside
that range C++ leaves the result open and the model follows x86-64 (count
taken modulo 32, result wrapped to `int`). -/
def shl1 (g : Int) : Int := to_i32 (2 ^ (g % 32).toNat)

/-! ## Data model -/

/-- `struct resource`. -/
structure resource where
  id : Int
  batch_id : Int
  deriving DecidableEq, Repr

/-- `disk_sim::disk_conf`. -/
structure disk_conf where
  consume_per_second : Int := 32
  deriving DecidableEq, Repr

/-- `pool::pool_conf`. -/
structure pool_conf where
  total_rsc : Int := 1000
  flush_size : Int := 8
  flush_timeout_ns : Int := 2000000000
  min_greed : Int := 1
  max_greed : Int := 20
  min_bufs : Int := 2
  reserve : Int := 100
  deriving DecidableEq, Repr

/-- `class disk_sim`: the completion clock. -/
structure disk_sim where
  expected_finish : Int
  deriving DecidableEq, Repr

/-- `class pool`: `run.free`, `run.total_pressure` and the two statistics. -/
structure pool where
  free : List resource
  total_pressure : Nat := 0
  locks_taken : Int := 0
  bufs_lost : Int := 0
  deriving DecidableEq, Repr

/-- `class capuch`: the worker.  `thread_state` and `stats` are flattened. -/
structure capuch where
  id : Int
  free_list : List resource := []
  ready_list : List resource := []
  active_rsc : Option resource := none
  batch_size : Int := 0
  batch_id : Int := 0
  greed : Int := 0
  last_ready : Int
  flush_start : Int
  flush_finish : Int
  flush_ready : Bool := false
  flushing : Bool := false
  priority : Int := 10
  running : Bool := true
  ready_per_sec : Int := 1
  greed_inc : Int := 0
  greed_dec : Int := 0
  timeout : Int := 0
  deriving DecidableEq, Repr

/-- Constructor `pool::pool`: `total_rsc` resources with ids `0, 1, ...`,
each with `batch_id` zero. -/
def pool.init (cf : pool_conf) : pool :=
  { free := (List.range cf.total_rsc.toNat).map (fun i : Nat => { id := (i : Int), batch_id := 0 }) }

/-- Constructor `capuch::capuch` followed by the initialisation of
`thread_state` at the top of `capuch::main` (the constructor leaves those
fields indeterminate and nothing reads them before `main` sets them). -/
def capuch.init (id : Int) (t0 : Int) : capuch :=
  { id := id, last_ready := t0, flush_start := t0, flush_finish := t0 }

/-! ## disk_sim -/

/-- `disk_sim::add_jobs`, one pass of the retry loop in which the
compare-exchange succeeds (the sequential case); `now` is the reading of the
steady clock.  A zero divisor is a crash (`none`). -/
def add_jobs (dcf : disk_conf) (now : Int) (d : disk_sim) (count : Int) :
    Option (Int × disk_sim) :=
  if to_u64 dcf.consume_per_second = 0 then none
  else
    let excpected_duration : Int :=
      to_i64 (((1000000000 * to_u64 count) % 2 ^ 64 / to_u64 dcf.consume_per_second : Nat) : Int)
    let prev_expected_finish := d.expected_finish
    let new_expected_finish :=
      (if prev_expected_finish < now then now else prev_expected_finish) + excpected_duration
    some (new_expected_finish, { expected_finish := new_expected_finish })

/-! ## capuch: calculated properties -/

/-- `capuch::nbufs`. -/
def nbufs (c : capuch) : Int :=
  (c.free_list.length : Int) + (c.ready_list.length : Int) + (if c.active_rsc.isSome then 1 else 0)

/-- `capuch::pressure`: `(unsigned long)(1 << greed) * priority`. -/
def pressure (c : capuch) : Nat :=
  (to_u64 (shl1 c.greed) * to_u64 c.priority) % 2 ^ 64

/-- `capuch::quota`. -/
def quota (cf : pool_conf) (p : pool) (c : capuch) : Int :=
  let tp := p.total_pressure
  if tp = 0 then 0
  else to_i32 ((max (to_u64 cf.min_bufs)
      ((pressure c * to_u64 (cf.total_rsc - cf.reserve)) % 2 ^ 64 / tp) : Nat) : Int)

/-! ## capuch: greed and priority -/

/-- `total_pressure -= x` on `unsigned long`. -/
def tp_sub (tp x : Nat) : Nat := (tp + (2 ^ 64 - x % 2 ^ 64)) % 2 ^ 64

/-- `total_pressure += x` on `unsigned long`. -/
def tp_add (tp x : Nat) : Nat := (tp + x) % 2 ^ 64

/-- `capuch::set_priority`. -/
def set_priority (cf : pool_conf) (p : pool) (c : capuch) (priority : Int) : pool × capuch :=
  if c.greed < cf.max_greed then
    let p1 := if c.greed ≠ 0 then { p with total_pressure := tp_sub p.total_pressure (pressure c) } else p
    let c1 := { c with priority := priority }
    ({ p1 with total_pressure := tp_add p1.total_pressure (pressure c1) }, c1)
  else (p, c)

/-- `capuch::inc_greed`. -/
def inc_greed (cf : pool_conf) (p : pool) (c : capuch) : pool × capuch :=
  if c.greed < cf.max_greed then
    let c1 := { c with greed_inc := c.greed_inc + 1 }
    let p1 := { p with locks_taken := p.locks_taken + 1 }
    let p2 := if c1.greed ≠ 0 then { p1 with total_pressure := tp_sub p1.total_pressure (pressure c1) } else p1
    let c2 := { c1 with greed := c1.greed + 1 }
    let c3 := if c2.greed < cf.min_greed then { c2 with greed := to_i32 cf.min_greed } else c2
    ({ p2 with total_pressure := tp_add p2.total_pressure (pressure c3) }, c3)
  else (p, c)

/-- `capuch::dec_greed`. -/
def dec_greed (cf : pool_conf) (p : pool) (c : capuch) : pool × capuch :=
  if c.greed > cf.min_greed then
    let c1 := { c with greed_dec := c.greed_dec + 1 }
    let p1 := { p with locks_taken := p.locks_taken + 1 }
    let p2 := if c1.greed ≠ 0 then { p1 with total_pressure := tp_sub p1.total_pressure (pressure c1) } else p1
    let c2 := { c1 with greed := c1.greed - 1 }
    let c3 := if c2.greed > cf.max_greed then { c2 with greed := to_i32 cf.max_greed } else c2
    ({ p2 with total_pressure := tp_add p2.total_pressure (pressure c3) }, c3)
  else (p, c)

/-! ## capuch: sync_quota -/

/-- Over-quota loop of `sync_quota` while `free_list` is empty: the list
argument is `ready_list`; each pass moves its front to the back of the pool
free list and the loop condition `quota() < nbufs()` is evaluated on the
updated state.  An empty `ready_list` is the `assert(false)`. -/
def sync_quota_return_ready (cf : pool_conf) : List resource → pool → capuch → Option (pool × capuch)
  | [], _, _ => none
  | r :: rs, p, c =>
    let p1 := { p with free := p.free ++ [r] }
    let c1 := { c with ready_list := rs }
    if quota cf p1 c1 < nbufs c1 then sync_quota_return_ready cf rs p1 c1 else some (p1, c1)

/-- Over-quota loop of `sync_quota`: the list argument is `free_list`; when
it is empty the pass falls through to `ready_list`. -/
def sync_quota_return (cf : pool_conf) : List resource → pool → capuch → Option (pool × capuch)
  | [], p, c => sync_quota_return_ready cf c.ready_list p c
  | r :: fs, p, c =>
    let p1 := { p with free := p.free ++ [r] }
    let c1 := { c with free_list := fs }
    if quota cf p1 c1 < nbufs c1 then sync_quota_return cf fs p1 c1 else some (p1, c1)

/-- Under-quota loop of `sync_quota`: the list argument is the pool free
list; an empty pool is the `break`. -/
def sync_quota_get (cf : pool_conf) : List resource → pool → capuch → pool × capuch
  | [], p, c => (p, c)
  | r :: rest, p, c =>
    let c1 := { c with free_list := c.free_list ++ [r] }
    let p1 := { p with free := rest }
    if quota cf p1 c1 > nbufs c1 then sync_quota_get cf rest p1 c1 else (p1, c1)

/-- `capuch::sync_quota`. -/
def sync_quota (cf : pool_conf) (p : pool) (c : capuch) : Option (pool × capuch) :=
  if quota cf p c < nbufs c then
    let p1 := { p with locks_taken := p.locks_taken + 1 }
    sync_quota_return cf c.free_list p1 c
  else if quota cf p c > nbufs c then
    let p1 := { p with locks_taken := p.locks_taken + 1 }
    some (sync_quota_get cf p1.free p1 c)
  else none

/-! ## capuch: events -/

/-- `capuch::on_ready`. -/
def on_ready (cf : pool_conf) (p : pool) (c : capuch) : Option (pool × capuch) :=
  let c1 : capuch := match c.active_rsc with
    | some a =>
      { c with ready_list := c.ready_list ++ [{ a with batch_id := c.batch_id }],
               batch_size := c.batch_size + 1, active_rsc := none }
    | none => c
  let c2 : capuch := if c1.batch_size ≥ cf.flush_size then { c1 with flush_ready := true } else c1
  let acquired : Bool × pool × capuch := match c2.free_list with
    | r :: fs => (false, p, { c2 with active_rsc := some r, free_list := fs })
    | [] => (true, inc_greed cf p c2)
  let had_to_inc_greed := acquired.1
  let p3 := acquired.2.1
  let c3 := acquired.2.2
  let synced : Option (pool × capuch) :=
    if nbufs c3 ≠ quota cf p3 c3 then sync_quota cf p3 c3 else some (p3, c3)
  match synced with
  | none => none
  | some (p4, c4) =>
    let final : Option (pool × capuch) :=
      if had_to_inc_greed then
        match c4.free_list with
        | r :: fs => some (p4, { c4 with active_rsc := some r, free_list := fs })
        | [] =>
          match c4.ready_list with
          | [] => none
          | r :: rs =>
            some ({ p4 with bufs_lost := p4.bufs_lost + 1 },
                  { c4 with active_rsc := some r, ready_list := rs, flush_ready := true })
      else some (p4, c4)
    match final with
    | none => none
    | some (p5, c5) => if c5.active_rsc.isSome then some (p5, c5) else none

/-- `capuch::on_flush_start`; `now` is the reading of the steady clock. -/
def on_flush_start (dcf : disk_conf) (now : Int) (d : disk_sim) (c : capuch) :
    Option (disk_sim × capuch) :=
  if c.flushing then none
  else if !c.flush_ready then none
  else if c.batch_size = 0 then none
  else
    match add_jobs dcf now d c.batch_size with
    | none => none
    | some (fin, d1) =>
      some (d1, { c with batch_id := c.batch_id + 1, flush_ready := false, flushing := true,
                         flush_start := now, flush_finish := fin, batch_size := 0 })

/-- Reclaim loop of `on_flush_finish`: the first list is `ready_list`, the
second `free_list`. -/
def reclaim (expected_batch_id : Int) : List resource → List resource → List resource × List resource
  | [], fl => ([], fl)
  | r :: rs, fl =>
    if r.batch_id = expected_batch_id then reclaim expected_batch_id rs (fl ++ [r])
    else (r :: rs, fl)

/-- `capuch::on_flush_finish`. -/
def on_flush_finish (now : Int) (c : capuch) : Option capuch :=
  if now < c.flush_finish then none
  else if !c.flushing then none
  else
    let expected_batch_id := c.batch_id - 1
    let moved := reclaim expected_batch_id c.ready_list c.free_list
    some { c with ready_list := moved.1, free_list := moved.2, flushing := false }

/-- `capuch::on_timeout`. -/
def on_timeout (cf : pool_conf) (dcf : disk_conf) (now : Int) (p : pool) (d : disk_sim)
    (c : capuch) : Option (pool × disk_sim × capuch) :=
  if c.flushing then none
  else if c.flush_ready then none
  else
    let c1 := { c with timeout := c.timeout + 1 }
    let pc2 : pool × capuch :=
      if c1.free_list.length > c1.ready_list.length then dec_greed cf p c1 else (p, c1)
    let synced : Option (pool × capuch) :=
      if nbufs pc2.2 > quota cf pc2.1 pc2.2 then sync_quota cf pc2.1 pc2.2 else some pc2
    match synced with
    | none => none
    | some (p3, c3) =>
      if c3.batch_size ≠ 0 then
        match on_flush_start dcf now d { c3 with flush_ready := true } with
        | none => none
        | some (d4, c4) => some (p3, d4, c4)
      else some (p3, d, c3)

/-! ## simulation -/

/-- Configuration of `class simulation`: `conf.ncapuch`, `pool_conf`, `disk_conf`. -/
structure sim_conf where
  ncapuch : Int := 12
  pool_conf : pool_conf := {}
  disk_conf : disk_conf := {}
  deriving DecidableEq, Repr

/-- The objects of a running simulation: `*p`, `*disk` and `capuches`. -/
structure sim_state where
  p : pool
  disk : disk_sim
  capuches : List capuch
  deriving DecidableEq, Repr

/-- Phase 1 of `simulation::start`: for each worker id, construct the worker
at the back of `capuches` and call its `inc_greed`. -/
def start_phase1 (cf : sim_conf) (t0 : Int) : List Nat → pool → List capuch → pool × List capuch
  | [], p, cs => (p, cs)
  | i :: is, p, cs =>
    let pc := inc_greed cf.pool_conf p (capuch.init (i : Int) t0)
    start_phase1 cf t0 is pc.1 (cs ++ [pc.2])

/-- Phase 2 of `simulation::start`: `sync_quota` on each worker in order; the
first list holds the workers still to be served, the second those done. -/
def start_phase2 (cf : sim_conf) : List capuch → pool → List capuch → Option (pool × List capuch)
  | [], p, done => some (p, done)
  | c :: cs, p, done =>
    match sync_quota cf.pool_conf p c with
    | none => none
    | some (p1, c1) => start_phase2 cf cs p1 (done ++ [c1])

/-- `simulation::start`, phases 1 and 2 (phase 3 only launches the worker
loops); `t0` is the clock reading the disk queue and the workers start from.
A negative `ncapuch` makes `reserve` throw, which ends the program (`none`). -/
def start (cf : sim_conf) (t0 : Int) : Option sim_state :=
  if cf.ncapuch < 0 then none
  else
    let p0 := pool.init cf.pool_conf
    let d0 : disk_sim := { expected_finish := t0 }
    let ph1 := start_phase1 cf t0 (List.range cf.ncapuch.toNat) p0 []
    match start_phase2 cf ph1.2 ph1.1 [] with
    | none => none
    | some (p2, cs) => some { p := p2, disk := d0, capuches := cs }

/-- The operations of a worker that change shared or worker state. -/
inductive worker_op where
  | sync_quota
  | on_ready
  | on_flush_start
  | on_flush_finish
  | on_timeout
  | inc_greed
  | dec_greed
  deriving DecidableEq, Repr

/-- One worker operation on the pool, the disk queue and the worker, at
clock reading `now`. -/
def run_op (cf : sim_conf) (o : worker_op) (now : Int) (p : pool) (d : disk_sim) (c : capuch) :
    Option (pool × disk_sim × capuch) :=
  match o with
  | .sync_quota => (sync_quota cf.pool_conf p c).map (fun pc => (pc.1, d, pc.2))
  | .on_ready => (on_ready cf.pool_conf p c).map (fun pc => (pc.1, d, pc.2))
  | .on_flush_start => (on_flush_start cf.disk_conf now d c).map (fun dc => (p, dc.1, dc.2))
  | .on_flush_finish => (on_flush_finish now c).map (fun c1 => (p, d, c1))
  | .on_timeout => on_timeout cf.pool_conf cf.disk_conf now p d c
  | .inc_greed => some ((inc_greed cf.pool_conf p c).1, d, (inc_greed cf.pool_conf p c).2)
  | .dec_greed => some ((dec_greed cf.pool_conf p c).1, d, (dec_greed cf.pool_conf p c).2)

/-- Worker `i` of the simulation performs operation `o` at time `now`. -/
def sim_step (cf : sim_conf) (s : sim_state) (i : Nat) (o : worker_op) (now : Int) :
    Option sim_state :=
  match s.capuches[i]? with
  | none => none
  | some c =>
    match run_op cf o now s.p s.disk c with
    | none => none
    | some (p1, d1, c1) => some { p := p1, disk := d1, capuches := s.capuches.set i c1 }

/-- States reachable from a completed startup by worker operations that do
not hit a fatal assertion. -/
inductive Reachable (cf : sim_conf) : sim_state → Prop where
  | init (t0 : Int) (s : sim_state) : start cf t0 = some s → Reachable cf s
  | step (s s1 : sim_state) (i : Nat) (o : worker_op) (now : Int) :
      Reachable cf s → sim_step cf s i o now = some s1 → Reachable cf s1

/-- The resources a worker holds: `free_list`, `ready_list` and `active_rsc`. -/
def held (c : capuch) : List resource :=
  c.free_list ++ c.ready_list ++ c.active_rsc.toList

/-- The ids of all resources of the simulation, container by container:
the pool free list, then each worker's holdings. -/
def all_ids (s : sim_state) : List Int :=
  (s.p.free ++ (s.capuches.map held).flatten).map resource.id

/-- The ids the pool was created with: `0 .. total_rsc - 1`. -/
def initial_ids (cf : sim_conf) : List Int :=
  (List.range cf.pool_conf.total_rsc.toNat).map (fun i : Nat => (i : Int))

/-- The batch tags of a list of resources, front to back. -/
def tags (l : List resource) : List Int := l.map resource.batch_id

/-! ## Concrete inputs -/

/-- A configuration whose `min_bufs` does not fit an `int`. -/
def wide_conf : pool_conf := { min_bufs := 2147483648 }

/-- A pool with total pressure 1 and nothing free. -/
def unit_pool : pool := { free := [], total_pressure := 1 }

/-- A worker with greed 0 and priority 1 holding nothing. -/
def unit_capuch : capuch :=
  { id := 0, greed := 0, priority := 1, last_ready := 0, flush_start := 0, flush_finish := 0 }

/-- A worker holding nothing with the given greed and priority. -/
def bare_capuch (greed priority : Int) : capuch :=
  { id := 0, greed := greed, priority := priority, last_ready := 0, flush_start := 0,
    flush_finish := 0 }

/-- A pool with nothing free and the given total pressure. -/
def bare_pool (total_pressure : Nat) : pool := { free := [], total_pressure := total_pressure }

/-- The worker's `quota()` when its priority is `v` and the other workers
contribute `others` to `total_pressure`, so that `total_pressure` is the
`unsigned long` sum of `others` and the worker's own `pressure()`. -/
def quota_at_priority (cf : pool_conf) (others : Nat) (c : capuch) (v : Int) : Int :=
  quota cf { free := [], total_pressure := tp_add others (pressure { c with priority := v }) }
    { c with priority := v }

/-- The pressure-sum of a list of workers: the sum of `pressure()` over the
workers with `greed > 0`. -/
def pressure_sum : List capuch → Nat
  | [] => 0
  | c :: cs => (if c.greed > 0 then pressure c else 0) + pressure_sum cs

/-- A configuration with one worker, four resources, no reserve and the
greed range `0..1`. -/
def zero_greed_conf : sim_conf :=
  { ncapuch := 1, pool_conf := { total_rsc := 4, reserve := 0, min_greed := 0, max_greed := 1 } }

/-- A fresh resource with id `i`. -/
def res (i : Int) : resource := { id := i, batch_id := 0 }

/-- Eight resources, no reserve, `min_bufs = 2`, greed fixed at 1. -/
def eight_conf : pool_conf :=
  { total_rsc := 8, reserve := 0, min_bufs := 2, min_greed := 1, max_greed := 1, flush_size := 4 }

/-- A worker with greed 1 and priority 10 holding six resources: one free,
four ready and one active. -/
def over_capuch : capuch :=
  { id := 0, greed := 1, priority := 10, free_list := [res 0],
    ready_list := [res 1, res 2, res 3, res 4], active_rsc := some (res 5),
    last_ready := 0, flush_start := 0, flush_finish := 0 }

/-- A pool with total pressure 40 and six free resources. -/
def six_pool : pool :=
  { free := [res 0, res 1, res 2, res 3, res 4, res 5], total_pressure := 40 }

/-- One call of `add_jobs`: the clock reading at the call, the argument and
the configured `consume_per_second` at that moment. -/
structure disk_call where
  now : Int
  count : Int
  consume_per_second : Int
  deriving DecidableEq, Repr

/-- A sequence of `add_jobs` calls on one disk queue, one after the other;
the result lists, per call, the returned completion time and the disk queue
after the call. -/
def disk_run (d : disk_sim) : List disk_call → Option (List (Int × disk_sim))
  | [] => some []
  | c :: cs =>
    match add_jobs { consume_per_second := c.consume_per_second } c.now d c.count with
    | none => none
    | some (r, d1) =>
      match disk_run d1 cs with
      | none => none
      | some rest => some ((r, d1) :: rest)

/-- Three calls at `consume_per_second = 10`: two submissions of five jobs at
100 ns and one job at 2 s. -/
def demo_calls : List disk_call :=
  [{ now := 100, count := 5, consume_per_second := 10 },
   { now := 100, count := 5, consume_per_second := 10 },
   { now := 2000000000, count := 1, consume_per_second := 10 }]

/-! ## Blocks of `on_ready`, named for the proofs -/

/-- First block of `on_ready`: the active resource, if any, is tagged and
appended to `ready_list`; then `flush_ready` is raised when the batch is full. -/
def on_ready_push (cf : pool_conf) (c : capuch) : capuch :=
  let c1 : capuch := match c.active_rsc with
    | some a =>
      { c with ready_list := c.ready_list ++ [{ a with batch_id := c.batch_id }],
               batch_size := c.batch_size + 1, active_rsc := none }
    | none => c
  if c1.batch_size ≥ cf.flush_size then { c1 with flush_ready := true } else c1

/-- Second block of `on_ready`: take the front of `free_list` or call
`inc_greed`; the flag is `had_to_inc_greed`. -/
def on_ready_acquire (cf : pool_conf) (p : pool) (c2 : capuch) : Bool × pool × capuch :=
  match c2.free_list with
  | r :: fs => (false, p, { c2 with active_rsc := some r, free_list := fs })
  | [] => (true, inc_greed cf p c2)

/-- Third block of `on_ready`: `if (nbufs() != quota()) sync_quota()`. -/
def on_ready_sync (cf : pool_conf) (p3 : pool) (c3 : capuch) : Option (pool × capuch) :=
  if nbufs c3 ≠ quota cf p3 c3 then sync_quota cf p3 c3 else some (p3, c3)

/-- Last block of `on_ready`: the retry after `inc_greed` (front of
`free_list`, else the front of `ready_list` with the loss counted) and the
final assertion. -/
def on_ready_retry (had_to_inc_greed : Bool) (p4 : pool) (c4 : capuch) : Option (pool × capuch) :=
  let final : Option (pool × capuch) :=
    if had_to_inc_greed then
      match c4.free_list with
      | r :: fs => some (p4, { c4 with active_rsc := some r, free_list := fs })
      | [] =>
        match c4.ready_list with
        | [] => none
        | r :: rs =>
          some ({ p4 with bufs_lost := p4.bufs_lost + 1 },
                { c4 with active_rsc := some r, ready_list := rs, flush_ready := true })
    else some (p4, c4)
  match final with
  | none => none
  | some (p5, c5) => if c5.active_rsc.isSome then some (p5, c5) else none

/-- The multiset of ids of a list of resources. -/
def ids (l : List resource) : Multiset Int := ((l.map resource.id : List Int) : Multiset Int)

/-- The multiset of ids held by the pool free list and one worker. -/
def local_ids (p : pool) (c : capuch) : Multiset Int := ids p.free + ids (held c)

/-- The multiset of ids held by the pool free list and all workers. -/
def global_ids (s : sim_state) : Multiset Int :=
  ids s.p.free + (s.capuches.map (fun c => ids (held c))).sum

/-- Batch order of one worker: the tags of `ready_list` are non-decreasing
front to back and none exceeds the current `batch_id`. -/
def batch_ordered (c : capuch) : Prop :=
  (tags c.ready_list).Pairwise (· ≤ ·) ∧ ∀ t ∈ tags c.ready_list, t ≤ c.batch_id

/-- Two workers on eight resources (the pool of `eight_conf`). -/
def two_conf : sim_conf := { ncapuch := 2, pool_conf := eight_conf }

/-- A state without resources or workers. -/
def empty_state : sim_state := { p := { free := [] }, disk := { expected_finish := 0 }, capuches := [] }

/-- The state of `two_conf` right after startup at time 0. -/
def two_started : sim_state := (start two_conf 0).getD empty_state

/-- A sequence of steps, each given by worker index, operation and clock reading. -/
def run_steps (cf : sim_conf) : sim_state → List (Nat × worker_op × Int) → Option sim_state
  | s, [] => some s
  | s, (i, o, now) :: rest =>
    match sim_step cf s i o now with
    | none => none
    | some s1 => run_steps cf s1 rest

/-- The state of `two_conf` after startup and `on_ready` of worker 0, of
worker 1 and of worker 0 again. -/
def two_after_three : sim_state :=
  (run_steps two_conf two_started
    [(0, .on_ready, 5), (1, .on_ready, 6), (0, .on_ready, 7)]).getD empty_state

/-- The state of `two_conf` after startup and, on worker 0, three `on_ready`,
one `on_timeout` (which starts a flush of the two ready entries) and one more
`on_ready`. -/
def two_after_flush : sim_state :=
  (run_steps two_conf two_started
    [(0, .on_ready, 5), (0, .on_ready, 6), (0, .on_ready, 7), (0, .on_timeout, 8),
     (0, .on_ready, 9)]).getD empty_state

/-- A worker in the middle of a flush of batch 0: its clock says the disk
finishes at 10 ns; two ready entries belong to batch 0, one to batch 1. -/
def flushing_capuch : capuch :=
  { id := 0, greed := 1, priority := 10, batch_id := 1, batch_size := 1, flushing := true,
    free_list := [res 0],
    ready_list := [{ id := 1, batch_id := 0 }, { id := 2, batch_id := 0 }, { id := 3, batch_id := 1 }],
    active_rsc := some (res 4), last_ready := 0, flush_start := 0, flush_finish := 10 }

/-- A worker with a closed batch of three entries waiting to be flushed. -/
def ready_capuch : capuch :=
  { id := 0, greed := 1, priority := 10, batch_id := 0, batch_size := 3, flush_ready := true,
    free_list := [res 0],
    ready_list := [res 1, res 2, res 3],
    active_rsc := some (res 4), last_ready := 0, flush_start := 0, flush_finish := 0 }

/-- The result of `on_ready` on `over_capuch` with quota 4 and an empty pool
free list (a dummy pair if the event failed). -/
def over_after_ready : pool × capuch :=
  (on_ready eight_conf (bare_pool 40) over_capuch).getD (bare_pool 0, bare_capuch 0 0)

/-- A worker with greed 1 and priority 10 holding three resources, none of
them free: two ready and one active. -/
def starved_capuch : capuch :=
  { id := 0, greed := 1, priority := 10, batch_size := 2,
    ready_list := [res 1, res 2], active_rsc := some (res 3),
    last_ready := 0, flush_start := 0, flush_finish := 0 }

/-- The result of `on_ready` on `starved_capuch` with quota 4 and an empty
pool free list (a dummy pair if the event failed). -/
def starved_after_ready : pool × capuch :=
  (on_ready eight_conf (bare_pool 40) starved_capuch).getD (bare_pool 0, bare_capuch 0 0)

/-- The state a worker is in right after startup, as far as the events are
concerned: nothing ready, nothing active, no batch begun, no flush pending or
running, the constructor's priority. -/
def fresh_worker (c : capuch) : Prop :=
  c.ready_list = [] ∧ c.active_rsc = none ∧ c.batch_size = 0 ∧ c.batch_id = 0 ∧
  c.flush_ready = false ∧ c.flushing = false ∧ c.priority = 10

/-- A run of `n` successive `on_ready` events of one worker, each against
whatever the pool looks like at that moment (other workers may act in
between); the first state is the worker before the run, the second after. -/
inductive ready_run (cf : pool_conf) : Nat → capuch → capuch → Prop where
  | zero (c : capuch) : ready_run cf 0 c c
  | succ (n : Nat) (c c1 c2 : capuch) (p p1 : pool) :
      ready_run cf n c c1 → on_ready cf p c1 = some (p1, c2) → ready_run cf (n + 1) c c2

/-- One worker on eight resources (the pool of `eight_conf`, `flush_size = 4`). -/
def one_conf : sim_conf := { ncapuch := 1, pool_conf := eight_conf }

/-- The state of `one_conf` right after startup at time 0. -/
def one_started : sim_state := (start one_conf 0).getD empty_state

/-- Pool and worker 0 of `one_conf` after startup and `n` successive
`on_ready` events of that worker. -/
def one_after : Nat → pool × capuch
  | 0 => (one_started.p, (one_started.capuches[0]?).getD (bare_capuch 0 0))
  | n + 1 => (on_ready eight_conf (one_after n).1 (one_after n).2).getD (one_after n)

/-- Two workers on a pool of a single resource: too small to grant both
their initial quota. -/
def tiny_conf : sim_conf := { ncapuch := 2, pool_conf := { total_rsc := 1, reserve := 0 } }

/-- The state of `tiny_conf` right after startup at time 0. -/
def tiny_started : sim_state := (start tiny_conf 0).getD empty_state

/-- A call of one of the two greed mutators. -/
inductive greed_call where
  | inc
  | dec
  deriving DecidableEq, Repr

/-- A sequence of `inc_greed` / `dec_greed` calls of one worker, one after
the other. -/
def greed_run (cf : pool_conf) : pool × capuch → List greed_call → pool × capuch
  | pc, [] => pc
  | pc, greed_call.inc :: rest => greed_run cf (inc_greed cf pc.1 pc.2) rest
  | pc, greed_call.dec :: rest => greed_run cf (dec_greed cf pc.1 pc.2) rest

/-- Worker `id` of scenario A right after a startup at time `t0`, holding the
four given resources on its `free_list`. -/
def scenario_a_worker (id t0 : Int) (rs : List resource) : capuch :=
  { id := id, free_list := rs, greed := 1, greed_inc := 1,
    last_ready := t0, flush_start := t0, flush_finish := t0 }

/-- The state of scenario A right after a startup at time `t0`. -/
def scenario_a_state (t0 : Int) : sim_state :=
  { p := { free := [], total_pressure := 40, locks_taken := 4, bufs_lost := 0 },
    disk := { expected_finish := t0 },
    capuches := [scenario_a_worker 0 t0 [res 0, res 1, res 2, res 3],
                 scenario_a_worker 1 t0 [res 4, res 5, res 6, res 7]] }

/-! ## The operator view -/

/-- The number `view::update_global_stats` prints after
"Disk write queue(millis)=": `duration_cast<milliseconds>(expected_finish -
now).count()`.  Clock readings are in nanoseconds; the cast truncates toward
zero. -/
def disk_write_queue_millis (d : disk_sim) (now : Int) : Int :=
  Int.tdiv (d.expected_finish - now) 1000000

/-- The `capuch START END ...` branch of `view::command_dispatcher`: the
worker indices its loop `for (int i = start; i <= end; ++i)` visits, in
order.  `ncapuch` is `sim.conf.ncapuch` as it stands when the command is run;
`end = ncapuch - 1` narrows a `long` to `int`. -/
def capuch_range (ncapuch : Int) (start end1 : Int) : List Int :=
  let start2 := if start < 0 then 0 else start
  let end2 := if end1 ≥ ncapuch then to_i32 (ncapuch - 1) else end1
  if start2 ≤ end2 then
    (List.range (end2 - start2 + 1).toNat).map (fun k : Nat => start2 + (k : Int))
  else []

/-- The `speed` loop of the `capuch` command on the vector `capuches`: each
visited index is subscripted without a bounds check, so an index outside the
vector is undefined behaviour (`none`). -/
def capuch_speed (cs : List capuch) (value : Int) : List Int → Option (List capuch)
  | [] => some cs
  | i :: is =>
    if i < 0 then none
    else
      match cs[i.toNat]? with
      | none => none
      | some c => capuch_speed (cs.set i.toNat { c with ready_per_sec := value }) value is

/-- The `priority` loop of the `capuch` command, as `capuch_speed`. -/
def capuch_priority (cf : pool_conf) (p : pool) (cs : List capuch) (value : Int) :
    List Int → Option (pool × List capuch)
  | [] => some (p, cs)
  | i :: is =>
    if i < 0 then none
    else
      match cs[i.toNat]? with
      | none => none
      | some c =>
        capuch_priority cf (set_priority cf p c value).1
          (cs.set i.toNat (set_priority cf p c value).2) value is

/-- The share `quota()` computes before taking the maximum with `min_bufs`:
`pressure() * (total_rsc - reserve) / total_pressure` in `unsigned long`. -/
def quota_share (cf : pool_conf) (p : pool) (c : capuch) : Nat :=
  (pressure c * to_u64 (cf.total_rsc - cf.reserve)) % 2 ^ 64 / p.total_pressure

/-- Three workers of greed 1 with priorities 10, 10 and 15. -/
def three_workers : List capuch := [bare_capuch 1 10, bare_capuch 1 10, bare_capuch 1 15]

/-- The result of phase 1 of the startup of `zero_greed_conf` at time 0. -/
def zero_greed_phase1 : pool × List capuch :=
  start_phase1 zero_greed_conf 0 (List.range zero_greed_conf.ncapuch.toNat)
    (pool.init zero_greed_conf.pool_conf) []

/-- Three workers on the default pool with `min_greed = 3`. -/
def greed3_conf : sim_conf := { ncapuch := 3, pool_conf := { min_greed := 3 } }

/-- The greed step of `on_timeout`: the timeout counter and the optional
`dec_greed` (lines 294-297), named for the proofs. -/
def on_timeout_greed (cf : pool_conf) (p : pool) (c : capuch) : pool × capuch :=
  if c.free_list.length > c.ready_list.length
    then dec_greed cf p { c with timeout := c.timeout + 1 }
    else (p, { c with timeout := c.timeout + 1 })

/-- The default configuration with `max_greed` lowered to 2. -/
def low_max_conf : pool_conf := { max_greed := 2 }

/-- A worker at greed 5 holding one free resource. -/
def greedy_capuch : capuch := { bare_capuch 5 10 with free_list := [res 0] }

/-- The result of `on_timeout` on `greedy_capuch` under `low_max_conf` (a
dummy triple if the event failed). -/
def greedy_after_timeout : pool × disk_sim × capuch :=
  (on_timeout low_max_conf {} 0 (bare_pool 320) { expected_finish := 0 } greedy_capuch).getD
    (bare_pool 0, { expected_finish := 0 }, bare_capuch 0 0)

/-- The result of `on_timeout` on `over_capuch` (greed 1, six resources, one
of them free) with quota 4 and batch size 0 (a dummy triple if the event
failed). -/
def over_after_timeout : pool × disk_sim × capuch :=
  (on_timeout eight_conf {} 0 (bare_pool 40) { expected_finish := 0 } over_capuch).getD
    (bare_pool 0, { expected_finish := 0 }, bare_capuch 0 0)

/-- The result of `on_timeout` at time 7 on `starved_capuch` (two ready
entries of an open batch; a dummy triple if the event failed). -/
def starved_after_timeout : pool × disk_sim × capuch :=
  (on_timeout eight_conf {} 7 (bare_pool 40) { expected_finish := 0 } starved_capuch).getD
    (bare_pool 0, { expected_finish := 0 }, bare_capuch 0 0)

/-- The number of `ready_list` entries tagged with the current `batch_id`. -/
def open_batch_count (c : capuch) : Nat :=
  c.ready_list.countP (fun r => decide (r.batch_id = c.batch_id))

/-- The history of one worker as far as the batch counter is concerned: the
number attached to a state is the number of pushes (`on_ready` events that
found an active resource) since the last flush start (an operation that
raised `batch_id`), or since startup if there was none. -/
inductive pushes_since_flush (cf : sim_conf) : capuch → Nat → Prop where
  | fresh (c : capuch) : fresh_worker c → pushes_since_flush cf c 0
  | step (c c1 : capuch) (n : Nat) (o : worker_op) (now : Int) (p p1 : pool) (d d1 : disk_sim) :
      pushes_since_flush cf c n → run_op cf o now p d c = some (p1, d1, c1) →
      pushes_since_flush cf c1
        (if c1.batch_id = c.batch_id
          then n + (if o = worker_op.on_ready ∧ c.active_rsc.isSome = true then 1 else 0)
          else 0)

/-- The state of `two_conf` after startup and five `on_ready` events of
worker 0 (the fifth finds nothing free and steals the oldest ready entry). -/
def two_after_five : sim_state :=
  (run_steps two_conf two_started
    [(0, .on_ready, 1), (0, .on_ready, 2), (0, .on_ready, 3), (0, .on_ready, 4),
     (0, .on_ready, 5)]).getD empty_state

/-- Worker 0 of `two_after_five`. -/
def stolen_worker : capuch := (two_after_five.capuches[0]?).getD (bare_capuch 0 0)

/-- The result of one more `on_ready` (at time 6) of `stolen_worker` (a
dummy triple if the event failed). -/
def stolen_after_ready : pool × disk_sim × capuch :=
  (run_op two_conf worker_op.on_ready 6 two_after_five.p two_after_five.disk stolen_worker).getD
    (bare_pool 0, { expected_finish := 0 }, bare_capuch 0 0)

/-- Worker 0 of `two_after_flush`: in the middle of the flush of batch 0,
with one entry of batch 1 already ready. -/
def flushing_worker : capuch := (two_after_flush.capuches[0]?).getD (bare_capuch 0 0)

/-- The tagging discipline of `ready_list`: batch order, every entry tagged
with the current `batch_id` while no flush runs, and with `batch_id - 1` or
`batch_id` while one runs. -/
def batch_tagged (c : capuch) : Prop :=
  batch_ordered c ∧
  (c.flushing = false → ∀ r ∈ c.ready_list, r.batch_id = c.batch_id) ∧
  (c.flushing = true →
    ∀ r ∈ c.ready_list, r.batch_id = c.batch_id - 1 ∨ r.batch_id = c.batch_id)

/-- The batch counter covers the open batch: batch order, and at most
`batch_size` entries of `ready_list` carry the current `batch_id`. -/
def batch_counted (c : capuch) : Prop :=
  batch_ordered c ∧ (open_batch_count c : Int) ≤ c.batch_size

/-! ## capuch::main, one poll tick -/

/-- The top of `capuch::main` (lines 314-318) at clock reading `t`. -/
def main_entry (t : Int) (c : capuch) : capuch :=
  { c with last_ready := t, flush_start := t, flush_finish := t, flush_ready := false,
           flushing := false }

/-- Step 1 of a poll tick (lines 325-331): the timeout check. -/
def main_timeout (cf : pool_conf) (dcf : disk_conf) (now : Int) (p : pool) (d : disk_sim)
    (c : capuch) : Option (pool × disk_sim × capuch) :=
  if !c.flushing && !c.flush_ready && decide (now > c.flush_finish)
      && decide (now - c.flush_finish ≥ cf.flush_timeout_ns)
    then on_timeout cf dcf now p d c
    else some (p, d, c)

/-- The local `n_new_ready` of a poll tick (lines 335-338):
`duration_cast<seconds>(now - last_ready).count() * ready_per_sec`; clock
readings are in nanoseconds and the cast truncates toward zero. -/
def n_new_ready (now : Int) (c : capuch) : Int :=
  Int.tdiv (now - c.last_ready) 1000000000 * c.ready_per_sec

/-- The loop `for (int i = 0; i < n_new_ready; ++i) { on_ready(); last_ready
= now; }` (lines 339-342), from loop index `i`.  The first argument bounds the
number of passes (running out of it is `none`); the first component of the
result counts the `on_ready` calls made.  An aborting `on_ready` is `none`. -/
def main_ready (cf : pool_conf) (now n : Int) : Nat → Int → pool → capuch →
    Option (Nat × pool × capuch)
  | 0, i, p, c => if i < n then none else some (0, p, c)
  | fuel + 1, i, p, c =>
    if i < n then
      match on_ready cf p c with
      | none => none
      | some (p1, c1) =>
        match main_ready cf now n fuel (i + 1) p1 { c1 with last_ready := now } with
        | none => none
        | some (k, p2, c2) => some (k + 1, p2, c2)
    else some (0, p, c)

/-- Step 3 of a poll tick (lines 346-349): the flush-finish check. -/
def main_finish (now : Int) (c : capuch) : Option capuch :=
  if c.flushing && decide (now ≥ c.flush_finish) then on_flush_finish now c else some c

/-- Step 4 of a poll tick (lines 354-358): the flush-start check with its
`assert(now >= flush_finish)`. -/
def main_start (dcf : disk_conf) (now : Int) (d : disk_sim) (c : capuch) :
    Option (disk_sim × capuch) :=
  if !c.flushing && c.flush_ready then
    if now < c.flush_finish then none
    else on_flush_start dcf now d c
  else some (d, c)

/-- One pass of the `while` loop of `capuch::main` at clock reading `now`
(the sleep apart). -/
def main_tick (cf : pool_conf) (dcf : disk_conf) (now : Int) (p : pool) (d : disk_sim)
    (c : capuch) : Option (pool × disk_sim × capuch) :=
  match main_timeout cf dcf now p d c with
  | none => none
  | some (p1, d1, c1) =>
    match main_ready cf now (n_new_ready now c1) (n_new_ready now c1).toNat 0 p1 c1 with
    | none => none
    | some (_, p2, c2) =>
      match main_finish now c2 with
      | none => none
      | some c3 =>
        match main_start dcf now d1 c3 with
        | none => none
        | some (d4, c4) => some (p2, d4, c4)

/-- The worker states reachable from the start of `capuch::main` through
poll ticks at non-decreasing clock readings; the first index is the reading
of the last tick (or of the start of `main`).  Pool and disk queue are
whatever the other workers left at each tick. -/
inductive main_reach (cf : sim_conf) : Int → capuch → Prop where
  | entry (t0 t : Int) (s : sim_state) (c : capuch) :
      start cf t0 = some s → c ∈ s.capuches → main_reach cf t (main_entry t c)
  | tick (t now : Int) (p p1 : pool) (d d1 : disk_sim) (c c1 : capuch) :
      main_reach cf t c → t ≤ now →
      main_tick cf.pool_conf cf.disk_conf now p d c = some (p1, d1, c1) → main_reach cf now c1

/-- What the flush events rely on: a pending flush has a non-empty batch,
`batch_size` is not negative, and a worker without an active resource has
nothing ready. -/
def flush_inv (c : capuch) : Prop :=
  (c.flush_ready = true → 0 < c.batch_size) ∧ 0 ≤ c.batch_size ∧
  (c.active_rsc = none → c.ready_list = [])

/-- Scenario with two workers on eight resources and a disk that consumes one
buffer per second. -/
def slow_conf : sim_conf :=
  { ncapuch := 2, pool_conf := eight_conf, disk_conf := { consume_per_second := 1 } }

/-- The state of `slow_conf` right after startup at time 0. -/
def slow_started : sim_state := (start slow_conf 0).getD empty_state

/-- Worker 0 of `slow_conf` at the start of its `main` at time 0. -/
def slow_worker : capuch := main_entry 0 ((slow_started.capuches[0]?).getD (bare_capuch 0 0))

/-- Worker 0 of `slow_conf` after a poll tick at 5 s (five `on_ready`
events, then the flush of a batch of four starts and will take 4 s). -/
def slow_tick1 : pool × disk_sim × capuch :=
  (main_tick slow_conf.pool_conf slow_conf.disk_conf 5000000000 slow_started.p slow_started.disk
    slow_worker).getD (bare_pool 0, { expected_finish := 0 }, bare_capuch 0 0)

/-- The same worker after a second poll tick at 8 s (three more `on_ready`
events while the flush is still running). -/
def slow_tick2 : pool × disk_sim × capuch :=
  (main_tick slow_conf.pool_conf slow_conf.disk_conf 8000000000 slow_tick1.1 slow_tick1.2.1
    slow_tick1.2.2).getD (bare_pool 0, { expected_finish := 0 }, bare_capuch 0 0)

/-! ## class simulation: the object and its lifecycle -/

/-- `class simulation`: the configuration (`conf`, `pool_conf`, `disk_conf`),
`running`, `capuches_threads` (each thread is represented by the index of the
worker whose `main` it runs), `capuches`, and the pointers `p` and `disk`
(`none` before the first `start` and after `delete`). -/
structure simulation where
  conf : sim_conf := {}
  running : Bool := false
  capuches_threads : List Nat := []
  capuches : List capuch := []
  p : Option pool := none
  disk : Option disk_sim := none
  deriving DecidableEq, Repr

/-- Phase 1 of `simulation::start` on the vector `capuches` as it is:
`emplace_back` and then `capuches[i].inc_greed()` through the subscript. -/
def simulation.phase1 (cf : sim_conf) (t0 : Int) : List Nat → pool → List capuch →
    Option (pool × List capuch)
  | [], p, cs => some (p, cs)
  | i :: is, p, cs =>
    let cs1 := cs ++ [capuch.init (i : Int) t0]
    match cs1[i]? with
    | none => none
    | some c =>
      let pc := inc_greed cf.pool_conf p c
      simulation.phase1 cf t0 is pc.1 (cs1.set i pc.2)

/-- Phase 2 of `simulation::start`: `capuches[i].sync_quota()` through the
subscript. -/
def simulation.phase2 (cf : sim_conf) : List Nat → pool → List capuch →
    Option (pool × List capuch)
  | [], p, cs => some (p, cs)
  | i :: is, p, cs =>
    match cs[i]? with
    | none => none
    | some c =>
      match sync_quota cf.pool_conf p c with
      | none => none
      | some (p1, c1) => simulation.phase2 cf is p1 (cs.set i c1)

/-- `simulation::start` on the object; `t0` is the clock reading the disk
queue starts from.  `assert(!running)` and a throwing `reserve` are `none`;
phase 3 adds one thread per worker index. -/
def simulation.start (s : simulation) (t0 : Int) : Option simulation :=
  if s.running then none
  else if s.conf.ncapuch < 0 then none
  else
    let p0 := pool.init s.conf.pool_conf
    let d0 : disk_sim := { expected_finish := t0 }
    match simulation.phase1 s.conf t0 (List.range s.conf.ncapuch.toNat) p0 s.capuches with
    | none => none
    | some (p1, cs1) =>
      match simulation.phase2 s.conf (List.range s.conf.ncapuch.toNat) p1 cs1 with
      | none => none
      | some (p2, cs2) =>
        some { s with running := true, p := some p2, disk := some d0, capuches := cs2,
                      capuches_threads := s.capuches_threads
                        ++ List.range s.conf.ncapuch.toNat }

/-- `simulation::terminate`: when running, the workers are told to stop, the
threads are joined, both vectors are cleared, pool and disk queue are deleted
and `running` is reset; when not running, nothing happens. -/
def simulation.terminate (s : simulation) : simulation :=
  if s.running then
    { s with capuches := [], capuches_threads := [], p := none, disk := none, running := false }
  else s

/-- A simulation object of `two_conf`, running since time 0. -/
def two_running : simulation :=
  (simulation.start { conf := two_conf } 0).getD { conf := two_conf }

/-- The default configuration with `min_bufs = 2^32`. -/
def wide32_conf : pool_conf := { min_bufs := 4294967296 }

/-- A worker of greed 1 and priority 10 whose only resource is the active one. -/
def lone_capuch : capuch := { bare_capuch 1 10 with active_rsc := some (res 0) }

/-- Two workers on a pool of two resources with `min_bufs = 0`. -/
def starve_conf : sim_conf :=
  { ncapuch := 2, pool_conf := { total_rsc := 2, reserve := 0, min_bufs := 0 } }

/-- The state of `starve_conf` right after startup at time 0. -/
def starve_started : sim_state := (start starve_conf 0).getD empty_state

/-- The state of `starve_conf` after startup and two `on_ready` events of
worker 0 (the second raises its greed to 2). -/
def starve_after : sim_state :=
  (run_steps starve_conf starve_started [(0, .on_ready, 1), (0, .on_ready, 2)]).getD empty_state

/-- Worker 1 of `starve_after`. -/
def starve_worker : capuch := (starve_after.capuches[1]?).getD (bare_capuch 0 0)

/-- A pool with nothing free whose `total_pressure` is the pressure of
`lone_capuch`. -/
def lone_pool : pool := bare_pool 20

/-! ## disk_sim::add_jobs called from several threads -/

/-- Where a thread stands inside `add_jobs`: before the `load` at the top of
the loop, between the `load` and the `compare_exchange_strong` (holding
`prev_expected_finish` and `new_expected_finish`), or returned. -/
inductive add_jobs_pc where
  | start
  | loaded (prev_expected_finish new_expected_finish : Int)
  | done (returned : Int)
  deriving DecidableEq, Repr

/-- One call of `add_jobs` in progress: its `excpected_duration`, computed
before the loop, and its position. -/
structure add_jobs_call where
  excpected_duration : Int
  pc : add_jobs_pc
  deriving DecidableEq, Repr

/-- The atomic `expected_finish` and the calls of `add_jobs` in progress, one
per calling thread. -/
structure disk_shared where
  expected_finish : Int
  calls : List add_jobs_call
  deriving DecidableEq, Repr

/-- Entry of `add_jobs(count)`: the duration is computed once, before the
loop; a zero divisor is a crash (`none`). -/
def add_jobs_enter (dcf : disk_conf) (count : Int) : Option add_jobs_call :=
  if to_u64 dcf.consume_per_second = 0 then none
  else some { excpected_duration :=
                to_i64 (((1000000000 * to_u64 count) % 2 ^ 64 / to_u64 dcf.consume_per_second
                  : Nat) : Int),
              pc := add_jobs_pc.start }

/-- Entry of `add_jobs` for a list of calls, one per thread. -/
def add_jobs_enter_all (dcf : disk_conf) : List Int → Option (List add_jobs_call)
  | [] => some []
  | count :: rest =>
    match add_jobs_enter dcf count, add_jobs_enter_all dcf rest with
    | some c, some cs => some (c :: cs)
    | _, _ => none

/-- One atomic step of a call against the current value of `expected_finish`:
the `load` (with the two readings `now1`, `now2` of the steady clock that
follow it), or the `compare_exchange_strong`, which either stores
`new_expected_finish` and returns it or fails and goes round the loop.  The
result is the new value of `expected_finish` and the call; a call that has
returned takes no step. -/
def add_jobs_atomic (now1 now2 : Int) (expected_finish : Int) (c : add_jobs_call) :
    Option (Int × add_jobs_call) :=
  match c.pc with
  | add_jobs_pc.start =>
    let prev_expected_finish := expected_finish
    let new_expected_finish :=
      (if prev_expected_finish < now1 then now2 else prev_expected_finish) + c.excpected_duration
    some (expected_finish,
      { c with pc := add_jobs_pc.loaded prev_expected_finish new_expected_finish })
  | add_jobs_pc.loaded prev_expected_finish new_expected_finish =>
    if expected_finish = prev_expected_finish then
      some (new_expected_finish, { c with pc := add_jobs_pc.done new_expected_finish })
    else some (expected_finish, { c with pc := add_jobs_pc.start })
  | add_jobs_pc.done _ => none

/-- Thread `i` takes its next atomic step. -/
def disk_step (s : disk_shared) (i : Nat) (now1 now2 : Int) : Option disk_shared :=
  match s.calls[i]? with
  | none => none
  | some c =>
    match add_jobs_atomic now1 now2 s.expected_finish c with
    | none => none
    | some (e, c1) => some { expected_finish := e, calls := s.calls.set i c1 }

/-- An interleaving: the threads take atomic steps in the order of the
schedule, each entry `(i, now, later)` giving the thread and its two readings
`now` and `now + later` of the steady clock, the second not before the
first. -/
def disk_interleave (s : disk_shared) : List (Nat × Int × Nat) → Option disk_shared
  | [] => some s
  | (i, now, later) :: rest =>
    match disk_step s i now (now + later) with
    | none => none
    | some s1 => disk_interleave s1 rest

/-- Whether the next atomic step of thread `i` is a `compare_exchange_strong`
that succeeds and stores its `new_expected_finish`. -/
def exchanges (s : disk_shared) (i : Nat) : Bool :=
  match s.calls[i]? with
  | some c =>
    match c.pc with
    | add_jobs_pc.loaded prev_expected_finish _ =>
      decide (s.expected_finish = prev_expected_finish)
    | _ => false
  | none => false

/-- The number of values thread `j` stores into `expected_finish` along an
interleaving. -/
def commits_of (j : Nat) (s : disk_shared) : List (Nat × Int × Nat) → Nat
  | [] => 0
  | (i, now, later) :: rest =>
    match disk_step s i now (now + later) with
    | none => 0
    | some s1 => (if i = j ∧ exchanges s i = true then 1 else 0) + commits_of j s1 rest

/-- Whether a call has returned. -/
def add_jobs_call.returned (c : add_jobs_call) : Bool :=
  match c.pc with
  | add_jobs_pc.done _ => true
  | _ => false

/-- The service time committed so far: the sum of the durations of the calls
that have returned. -/
def committed (cs : List add_jobs_call) : Int :=
  (cs.map (fun c => if c.returned then c.excpected_duration else 0)).sum

/-- The number of calls that have not returned. -/
def pending (cs : List add_jobs_call) : Nat :=
  (cs.map (fun c => if c.returned then 0 else 1)).sum

/-- How many atomic steps a call is away from its commit if no other call
commits first: 2 before the `load`, 1 after a `load` that is still current, 3
after a `load` that is stale (the exchange will fail), 0 once returned. -/
def steps_to_commit (expected_finish : Int) (c : add_jobs_call) : Nat :=
  match c.pc with
  | add_jobs_pc.start => 2
  | add_jobs_pc.loaded prev_expected_finish _ =>
    if prev_expected_finish = expected_finish then 1 else 3
  | add_jobs_pc.done _ => 0

/-- A bound on the number of atomic steps still to come, whatever the
interleaving. -/
def steps_left (s : disk_shared) : Nat :=
  (s.calls.map (steps_to_commit s.expected_finish)).sum + 2 * pending s.calls * pending s.calls

/-- Two threads submitting 32 and 64 buffers to a disk of rate 32 per second
whose clock is at 0. -/
def two_calls : disk_shared :=
  { expected_finish := 0,
    calls := (add_jobs_enter_all {} [32, 64]).getD [] }

/-- An interleaving of `two_calls`: both threads load, thread 0 commits,
thread 1 fails its exchange, loads again and commits. -/
def two_calls_schedule : List (Nat × Int × Nat) :=
  [(0, 0, 0), (1, 0, 0), (0, 0, 0), (1, 5, 1), (1, 7, 1), (1, 9, 0)]

/-- The state after `two_calls_schedule`. -/
def two_calls_end : disk_shared :=
  (disk_interleave two_calls two_calls_schedule).getD { expected_finish := 0, calls := [] }

/-- A call between `load` and exchange holds a `new_expected_finish` that is
at least `prev_expected_finish` plus its duration. -/
def add_jobs_call.sound (c : add_jobs_call) : Prop :=
  match c.pc with
  | add_jobs_pc.loaded prev_expected_finish new_expected_finish =>
    prev_expected_finish + c.excpected_duration ≤ new_expected_finish
  | _ => True

/-! # Theorems -/

/-! ## Machine integer lemmas -/

theorem to_u64_eq {x : Int} (h0 : 0 ≤ x) (h1 : x < 2 ^ 64) : ((to_u64 x : Nat) : Int) = x := by
  unfold to_u64
  rw [Int.emod_eq_of_lt h0 h1]
  exact Int.toNat_of_nonneg h0

theorem to_i32_eq {x : Int} (h0 : -2 ^ 31 ≤ x) (h1 : x < 2 ^ 31) : to_i32 x = x := by
  unfold to_i32
  rw [Int.emod_eq_of_lt (by omega) (by omega)]
  omega

theorem to_i64_eq {x : Int} (h0 : -2 ^ 63 ≤ x) (h1 : x < 2 ^ 63) : to_i64 x = x := by
  unfold to_i64
  rw [Int.emod_eq_of_lt (by omega) (by omega)]
  omega

theorem two_pow_toNat_le {g : Int} (hg : g ≤ 30) : (2 : Int) ^ g.toNat ≤ 2 ^ 30 :=
  pow_le_pow_right₀ (by norm_num) (by omega)

theorem shl1_eq {g : Int} (h0 : 0 ≤ g) (h1 : g ≤ 30) : shl1 g = 2 ^ g.toNat := by
  unfold shl1
  have hm : g % 32 = g := Int.emod_eq_of_lt h0 (by omega)
  rw [hm]
  have hle := two_pow_toNat_le h1
  have hpos : (0 : Int) < 2 ^ g.toNat := by positivity
  exact to_i32_eq (by omega) (by omega)

/-- The value of `pressure()` when nothing wraps. -/
theorem pressure_eq (c : capuch) (h0 : 0 ≤ c.greed) (h1 : c.greed ≤ 30) (hp : 0 ≤ c.priority)
    (hov : 2 ^ c.greed.toNat * c.priority < 2 ^ 64) :
    ((pressure c : Nat) : Int) = 2 ^ c.greed.toNat * c.priority := by
  unfold pressure
  have hle := two_pow_toNat_le h1
  have hpos : (0 : Int) < 2 ^ c.greed.toNat := by positivity
  have hpr : c.priority < 2 ^ 64 := by nlinarith
  have e1 : ((to_u64 (shl1 c.greed) : Nat) : Int) = 2 ^ c.greed.toNat := by
    rw [shl1_eq h0 h1]; exact to_u64_eq (by omega) (by omega)
  have e2 : ((to_u64 c.priority : Nat) : Int) = c.priority := to_u64_eq hp hpr
  push_cast
  rw [e1, e2]
  exact Int.emod_eq_of_lt (by positivity) hov

/-! ## Quota formula -/

/-- The unsigned computation inside `quota()` when nothing wraps. -/
theorem quota_share_eq (cf : pool_conf) (p : pool) (c : capuch)
    (hg0 : 0 ≤ c.greed) (hg1 : c.greed ≤ 30) (hp : 0 ≤ c.priority) (hmb : 0 ≤ cf.min_bufs)
    (hmb64 : cf.min_bufs < 2 ^ 64)
    (hres : cf.reserve ≤ cf.total_rsc)
    (hov1 : 2 ^ c.greed.toNat * c.priority < 2 ^ 64)
    (hov2 : cf.total_rsc - cf.reserve < 2 ^ 64)
    (hov3 : 2 ^ c.greed.toNat * c.priority * (cf.total_rsc - cf.reserve) < 2 ^ 64) :
    ((max (to_u64 cf.min_bufs)
      ((pressure c * to_u64 (cf.total_rsc - cf.reserve)) % 2 ^ 64 / p.total_pressure) : Nat) : Int)
    = max cf.min_bufs
        (2 ^ c.greed.toNat * c.priority * (cf.total_rsc - cf.reserve) / (p.total_pressure : Int)) := by
  have e1 := pressure_eq c hg0 hg1 hp hov1
  have e2 : ((to_u64 (cf.total_rsc - cf.reserve) : Nat) : Int) = cf.total_rsc - cf.reserve :=
    to_u64_eq (by omega) hov2
  have e3 : ((to_u64 cf.min_bufs : Nat) : Int) = cf.min_bufs := to_u64_eq hmb hmb64
  have hpos : (0 : Int) ≤ 2 ^ c.greed.toNat * c.priority := by positivity
  have hnn : (0 : Int) ≤ 2 ^ c.greed.toNat * c.priority * (cf.total_rsc - cf.reserve) :=
    mul_nonneg hpos (by omega)
  have h64 : (2 : Int) ^ 64 = 18446744073709551616 := by norm_num
  have e4 := Int.emod_eq_of_lt hnn hov3
  rw [h64] at e4
  push_cast
  rw [e1, e2, e3, e4]

/-- C2 as stated fails: with `min_bufs = 2^31` (a `long`), greed 0, priority 1
and total pressure 1 nothing overflows 64 bits, yet `quota()` returns
`-2^31`, which is neither `max(min_bufs, share)` nor `≥ min_bufs`. -/
theorem quota_formula_counterexample :
    0 ≤ unit_capuch.greed ∧ unit_capuch.greed ≤ 30 ∧ 0 ≤ unit_capuch.priority ∧
    0 ≤ wide_conf.min_bufs ∧ wide_conf.reserve ≤ wide_conf.total_rsc ∧
    wide_conf.min_bufs < 2 ^ 63 ∧
    2 ^ unit_capuch.greed.toNat * unit_capuch.priority < 2 ^ 64 ∧
    wide_conf.total_rsc - wide_conf.reserve < 2 ^ 64 ∧
    2 ^ unit_capuch.greed.toNat * unit_capuch.priority
      * (wide_conf.total_rsc - wide_conf.reserve) < 2 ^ 64 ∧
    unit_pool.total_pressure ≠ 0 ∧
    quota wide_conf unit_pool unit_capuch = -2147483648 ∧
    max wide_conf.min_bufs
      (2 ^ unit_capuch.greed.toNat * unit_capuch.priority
        * (wide_conf.total_rsc - wide_conf.reserve) / (unit_pool.total_pressure : Int)) = 2147483648 ∧
    ¬ (wide_conf.min_bufs ≤ quota wide_conf unit_pool unit_capuch) := by
  decide

/-- C2 (amended): for `0 ≤ greed ≤ 30`, `priority ≥ 0`, `min_bufs ≥ 0`,
`reserve ≤ total_rsc`, no 64-bit overflow, and (when `total_pressure ≠ 0`)
`max(min_bufs, share)` below `2^31` so that it fits the `int` result:
`pressure() = 2^greed * priority`, `quota() = 0` when `total_pressure = 0`,
otherwise `quota() = max(min_bufs, floor(pressure() * (total_rsc - reserve) /
total_pressure))`, and in that case `quota() ≥ min_bufs`. -/
theorem quota_formula (cf : pool_conf) (p : pool) (c : capuch)
    (hg0 : 0 ≤ c.greed) (hg1 : c.greed ≤ 30) (hp : 0 ≤ c.priority) (hmb : 0 ≤ cf.min_bufs)
    (hres : cf.reserve ≤ cf.total_rsc)
    (hmb64 : cf.min_bufs < 2 ^ 64)
    (hov1 : 2 ^ c.greed.toNat * c.priority < 2 ^ 64)
    (hov2 : cf.total_rsc - cf.reserve < 2 ^ 64)
    (hov3 : 2 ^ c.greed.toNat * c.priority * (cf.total_rsc - cf.reserve) < 2 ^ 64)
    (hfit : p.total_pressure ≠ 0 →
      max cf.min_bufs (2 ^ c.greed.toNat * c.priority * (cf.total_rsc - cf.reserve)
        / (p.total_pressure : Int)) < 2 ^ 31) :
    ((pressure c : Nat) : Int) = 2 ^ c.greed.toNat * c.priority ∧
    (p.total_pressure = 0 → quota cf p c = 0) ∧
    (p.total_pressure ≠ 0 →
      quota cf p c = max cf.min_bufs (2 ^ c.greed.toNat * c.priority
        * (cf.total_rsc - cf.reserve) / (p.total_pressure : Int)) ∧
      cf.min_bufs ≤ quota cf p c) := by
  refine ⟨pressure_eq c hg0 hg1 hp hov1, ?_, ?_⟩
  · intro h0
    simp [quota, h0]
  · intro hne
    have hq : quota cf p c = max cf.min_bufs (2 ^ c.greed.toNat * c.priority
        * (cf.total_rsc - cf.reserve) / (p.total_pressure : Int)) := by
      have hs := quota_share_eq cf p c hg0 hg1 hp hmb hmb64 hres hov1 hov2 hov3
      have hlt := hfit hne
      have hge : cf.min_bufs ≤ max cf.min_bufs (2 ^ c.greed.toNat * c.priority
        * (cf.total_rsc - cf.reserve) / (p.total_pressure : Int)) := le_max_left _ _
      unfold quota
      simp only [if_neg hne]
      rw [hs]
      exact to_i32_eq (by omega) hlt
    exact ⟨hq, by rw [hq]; exact le_max_left _ _⟩

/-- Witness for `quota_formula`: the default configuration, a worker with
greed 1 and priority 10 in a pool of total pressure 40. -/
theorem quota_formula_witness :
    ((pressure (bare_capuch 1 10) : Nat) : Int) = 2 ^ (bare_capuch 1 10).greed.toNat * 10 ∧
    quota {} (bare_pool 40) (bare_capuch 1 10) = 450 :=
  have h := quota_formula {} (bare_pool 40) (bare_capuch 1 10) (by decide) (by decide) (by decide)
    (by decide) (by decide) (by decide) (by decide) (by decide) (by decide) (by decide)
  ⟨h.1, (h.2.2 (by decide)).1.trans (by decide)⟩

/-! ## Quota monotonicity -/

/-- C3 as stated fails: default configuration, greed 30, no other workers;
raising the priority from `2^24` to `2^25` makes `pressure() * 900` wrap
around `2^64` and the quota drops from 900 to 388. -/
theorem quota_monotone_counterexample :
    (({} : pool_conf).reserve ≤ ({} : pool_conf).total_rsc) ∧
    (0 : Int) ≤ 16777216 ∧ (16777216 : Int) ≤ 33554432 ∧
    quota_at_priority {} 0 (bare_capuch 30 0) 16777216 = 900 ∧
    quota_at_priority {} 0 (bare_capuch 30 0) 33554432 = 388 ∧
    ¬ (quota_at_priority {} 0 (bare_capuch 30 0) 16777216
        ≤ quota_at_priority {} 0 (bare_capuch 30 0) 33554432) := by
  decide

/-- Monotonicity of the exact share `a * p * C / (o + a * p)` in `p`. -/
theorem share_mono (a o C p1 p2 : Int) (ha : 0 ≤ a) (hC : 0 ≤ C) (ho : 0 ≤ o)
    (hp1 : 0 ≤ p1) (hp : p1 ≤ p2) (hpos : 0 < o + a * p1) :
    a * p1 * C / (o + a * p1) ≤ a * p2 * C / (o + a * p2) := by
  have hap1 : 0 ≤ a * p1 := mul_nonneg ha hp1
  have hd : 0 ≤ a * (p2 - p1) := mul_nonneg ha (by omega)
  have hpos2 : 0 < o + a * p2 := by nlinarith
  have hq1 : a * p1 * C / (o + a * p1) * (o + a * p1) ≤ a * p1 * C :=
    Int.ediv_mul_le _ (by omega)
  have hqC : a * p1 * C / (o + a * p1) ≤ C := by
    apply Int.ediv_le_of_le_mul hpos
    nlinarith
  rw [Int.le_ediv_iff_mul_le hpos2]
  nlinarith

/-- The value of `quota_at_priority` when nothing wraps and the result fits `int`. -/
theorem quota_at_priority_eq (cf : pool_conf) (others : Nat) (c : capuch) (v : Int)
    (hres : cf.reserve ≤ cf.total_rsc) (hv : 0 ≤ v)
    (hg0 : 0 ≤ c.greed) (hg1 : c.greed ≤ 30)
    (hmb : 0 ≤ cf.min_bufs) (hmb31 : cf.min_bufs < 2 ^ 31)
    (hC31 : cf.total_rsc - cf.reserve < 2 ^ 31)
    (hov1 : (others : Int) + 2 ^ c.greed.toNat * v < 2 ^ 64)
    (hov3 : 2 ^ c.greed.toNat * v * (cf.total_rsc - cf.reserve) < 2 ^ 64) :
    quota_at_priority cf others c v =
      if (others : Int) + 2 ^ c.greed.toNat * v = 0 then 0
      else max cf.min_bufs (2 ^ c.greed.toNat * v * (cf.total_rsc - cf.reserve)
        / ((others : Int) + 2 ^ c.greed.toNat * v)) := by
  have hav : (0 : Int) ≤ 2 ^ c.greed.toNat * v := by positivity
  have hon : (0 : Int) ≤ (others : Int) := Int.ofNat_nonneg _
  have hpv : 2 ^ c.greed.toNat * v < 2 ^ 64 := by omega
  have hpr : ((pressure { c with priority := v } : Nat) : Int) = 2 ^ c.greed.toNat * v :=
    pressure_eq { c with priority := v } hg0 hg1 hv hpv
  have htp : ((tp_add others (pressure { c with priority := v }) : Nat) : Int)
      = (others : Int) + 2 ^ c.greed.toNat * v := by
    unfold tp_add
    have hlt : others + pressure { c with priority := v } < 2 ^ 64 := by
      have : ((others + pressure { c with priority := v } : Nat) : Int) < 2 ^ 64 := by
        push_cast; rw [hpr]; exact hov1
      exact_mod_cast this
    rw [Nat.mod_eq_of_lt hlt]
    push_cast
    rw [hpr]
  unfold quota_at_priority
  by_cases h0 : tp_add others (pressure { c with priority := v }) = 0
  · have hz : (others : Int) + 2 ^ c.greed.toNat * v = 0 := by rw [← htp, h0]; rfl
    simp [quota, h0, hz]
  · have hnz : (others : Int) + 2 ^ c.greed.toNat * v ≠ 0 := by
      intro hz
      apply h0
      have : ((tp_add others (pressure { c with priority := v }) : Nat) : Int) = 0 := by
        rw [htp, hz]
      exact_mod_cast this
    have hs := quota_share_eq cf
      { free := [], total_pressure := tp_add others (pressure { c with priority := v }) }
      { c with priority := v } hg0 hg1 hv hmb (by omega) hres hpv (by omega) hov3
    simp only at hs
    rw [htp] at hs
    have hposd : 0 < (others : Int) + 2 ^ c.greed.toNat * v := by omega
    have hshare : 2 ^ c.greed.toNat * v * (cf.total_rsc - cf.reserve)
        / ((others : Int) + 2 ^ c.greed.toNat * v) ≤ cf.total_rsc - cf.reserve := by
      apply Int.ediv_le_of_le_mul hposd
      have hC : 0 ≤ cf.total_rsc - cf.reserve := by omega
      nlinarith
    unfold quota
    simp only [if_neg h0, if_neg hnz]
    rw [hs]
    apply to_i32_eq
    · have := le_max_left cf.min_bufs (2 ^ c.greed.toNat * v * (cf.total_rsc - cf.reserve)
        / ((others : Int) + 2 ^ c.greed.toNat * v))
      omega
    · exact max_lt hmb31 (by omega)

/-- C3 (amended): for a fixed greed in `0..30`, fixed pressure `others` of the
other workers and a fixed configuration with `reserve ≤ total_rsc`,
`0 ≤ min_bufs < 2^31` and `total_rsc - reserve < 2^31`, raising the priority
from `p1` to `p2` (`0 ≤ p1 ≤ p2`) never lowers `quota()`, provided that
neither `others + 2^greed * p2` nor `2^greed * p2 * (total_rsc - reserve)`
reaches `2^64`. -/
theorem quota_monotone (cf : pool_conf) (others : Nat) (c : capuch) (p1 p2 : Int)
    (hres : cf.reserve ≤ cf.total_rsc) (hp1 : 0 ≤ p1) (hp : p1 ≤ p2)
    (hg0 : 0 ≤ c.greed) (hg1 : c.greed ≤ 30)
    (hmb : 0 ≤ cf.min_bufs) (hmb31 : cf.min_bufs < 2 ^ 31)
    (hC31 : cf.total_rsc - cf.reserve < 2 ^ 31)
    (hov1 : (others : Int) + 2 ^ c.greed.toNat * p2 < 2 ^ 64)
    (hov3 : 2 ^ c.greed.toNat * p2 * (cf.total_rsc - cf.reserve) < 2 ^ 64) :
    quota_at_priority cf others c p1 ≤ quota_at_priority cf others c p2 := by
  have ha : (0 : Int) ≤ 2 ^ c.greed.toNat := by positivity
  have hC : 0 ≤ cf.total_rsc - cf.reserve := by omega
  have hon : (0 : Int) ≤ (others : Int) := Int.ofNat_nonneg _
  have hle : 2 ^ c.greed.toNat * p1 ≤ 2 ^ c.greed.toNat * p2 := mul_le_mul_of_nonneg_left hp ha
  have hle3 : 2 ^ c.greed.toNat * p1 * (cf.total_rsc - cf.reserve)
      ≤ 2 ^ c.greed.toNat * p2 * (cf.total_rsc - cf.reserve) := mul_le_mul_of_nonneg_right hle hC
  rw [quota_at_priority_eq cf others c p1 hres hp1 hg0 hg1 hmb hmb31 hC31 (by omega) (by omega),
    quota_at_priority_eq cf others c p2 hres (by omega) hg0 hg1 hmb hmb31 hC31 hov1 hov3]
  have hap1 : (0 : Int) ≤ 2 ^ c.greed.toNat * p1 := mul_nonneg ha hp1
  by_cases h1 : (others : Int) + 2 ^ c.greed.toNat * p1 = 0
  · rw [if_pos h1]
    split
    · exact le_refl _
    · exact le_trans hmb (le_max_left _ _)
  · have hpos1 : 0 < (others : Int) + 2 ^ c.greed.toNat * p1 := by omega
    have h2 : (others : Int) + 2 ^ c.greed.toNat * p2 ≠ 0 := by omega
    rw [if_neg h1, if_neg h2]
    exact max_le_max (le_refl _)
      (share_mono (2 ^ c.greed.toNat) others (cf.total_rsc - cf.reserve) p1 p2 ha hC hon hp1 hp hpos1)

/-- Witness for `quota_monotone`: default configuration, greed 1, other
workers contributing pressure 20, priority raised from 10 to 30. -/
theorem quota_monotone_witness :
    quota_at_priority {} 20 (bare_capuch 1 0) 10 ≤ quota_at_priority {} 20 (bare_capuch 1 0) 30 :=
  quota_monotone {} 20 (bare_capuch 1 0) 10 30 (by decide) (by decide) (by decide) (by decide)
    (by decide) (by decide) (by decide) (by decide) (by decide) (by decide)

/-! ## Greed and priority mutation -/

/-- C4, the code at the failing input: with `min_greed = 0`, `max_greed = 1`
and one worker, the state after startup has `total_pressure = 20`, equal to
the pressure-sum; after `dec_greed()` the worker has greed 0, the pressure-sum
over workers with `greed > 0` is 0, but `total_pressure` is 10; a following
`inc_greed()` leaves `total_pressure = 30` against a pressure-sum of 20. -/
theorem dec_greed_to_zero_keeps_pressure :
    (start zero_greed_conf 0).map (fun s => (s.p.total_pressure, pressure_sum s.capuches))
      = some (20, 20) ∧
    ((start zero_greed_conf 0).bind (fun s => sim_step zero_greed_conf s 0 .dec_greed 0)).map
      (fun s => (s.p.total_pressure, pressure_sum s.capuches, s.capuches.map capuch.greed))
      = some (10, 0, [0]) ∧
    (((start zero_greed_conf 0).bind (fun s => sim_step zero_greed_conf s 0 .dec_greed 0)).bind
      (fun s => sim_step zero_greed_conf s 0 .inc_greed 0)).map
      (fun s => (s.p.total_pressure, pressure_sum s.capuches, s.capuches.map capuch.greed))
      = some (30, 20, [1]) := by
  decide

/-- C5, the code at the failing input: default configuration
(`max_greed = 20`), a worker with greed 20 and priority 10 whose pressure
`10 * 2^20` is the total pressure; `set_priority(5)` changes neither the
priority nor `total_pressure`. -/
theorem set_priority_at_max_greed_ignored :
    ({} : pool_conf).min_greed ≤ (bare_capuch 20 10).greed ∧
    (bare_capuch 20 10).greed ≤ ({} : pool_conf).max_greed ∧
    pressure (bare_capuch 20 10) = 10485760 ∧
    set_priority {} (bare_pool 10485760) (bare_capuch 20 10) 5
      = (bare_pool 10485760, bare_capuch 20 10) ∧
    (set_priority {} (bare_pool 10485760) (bare_capuch 20 10) 5).2.priority = 10 := by
  decide

/-! ## sync_quota -/

/-- `quota()` reads only `total_pressure`, `greed`, `priority` and the configuration. -/
theorem quota_congr (cf : pool_conf) (p p1 : pool) (c c1 : capuch)
    (hp : p1.total_pressure = p.total_pressure) (hg : c1.greed = c.greed)
    (hpr : c1.priority = c.priority) : quota cf p1 c1 = quota cf p c := by
  unfold quota pressure
  rw [hp, hg, hpr]

/-- The over-quota loop on `ready_list` hands back exactly `k` entries when
the worker is `k ≥ 1` over quota and `ready_list` holds at least `k`. -/
theorem sync_quota_return_ready_eq (cf : pool_conf) :
    ∀ (rs : List resource) (p : pool) (c : capuch) (k : Nat),
      c.ready_list = rs → 1 ≤ k → k ≤ rs.length → nbufs c = quota cf p c + k →
      sync_quota_return_ready cf rs p c
        = some ({ p with free := p.free ++ rs.take k }, { c with ready_list := rs.drop k }) := by
  intro rs
  induction rs with
  | nil => intro p c k _ h1 h2 _; simp at h2; omega
  | cons r rs ih =>
    intro p c k hrl h1 h2 hn
    have hq : quota cf { p with free := p.free ++ [r] } { c with ready_list := rs }
        = quota cf p c := quota_congr cf _ _ _ _ rfl rfl rfl
    have hnb : nbufs { c with ready_list := rs } = nbufs c - 1 := by
      simp only [nbufs, hrl, List.length_cons]; push_cast; ring
    unfold sync_quota_return_ready
    simp only [hq, hnb]
    by_cases hk : k = 1
    · subst hk
      have : ¬ (quota cf p c < nbufs c - 1) := by omega
      simp [this]
    · have hlt : quota cf p c < nbufs c - 1 := by omega
      simp only [if_pos hlt]
      have hlen : k - 1 ≤ rs.length := by simp at h2; omega
      rw [ih { p with free := p.free ++ [r] } { c with ready_list := rs } (k - 1) rfl
        (by omega) hlen (by rw [hq, hnb]; omega)]
      obtain ⟨j, rfl⟩ : ∃ j, k = j + 1 := ⟨k - 1, by omega⟩
      simp

/-- The over-quota loop on `ready_list` hits the assertion when `ready_list`
is too short to reach the quota. -/
theorem sync_quota_return_ready_none (cf : pool_conf) :
    ∀ (rs : List resource) (p : pool) (c : capuch),
      c.ready_list = rs → quota cf p c + rs.length < nbufs c →
      sync_quota_return_ready cf rs p c = none := by
  intro rs
  induction rs with
  | nil => intro p c _ _; rfl
  | cons r rs ih =>
    intro p c hrl hn
    have hq : quota cf { p with free := p.free ++ [r] } { c with ready_list := rs }
        = quota cf p c := quota_congr cf _ _ _ _ rfl rfl rfl
    have hnb : nbufs { c with ready_list := rs } = nbufs c - 1 := by
      simp only [nbufs, hrl, List.length_cons]; push_cast; ring
    unfold sync_quota_return_ready
    simp only [hq, hnb]
    simp only [List.length_cons] at hn
    push_cast at hn
    have hlt : quota cf p c < nbufs c - 1 := by omega
    simp only [if_pos hlt]
    exact ih _ _ rfl (by rw [hq, hnb]; omega)

/-- The over-quota loop hands back exactly `k` entries, `free_list` first,
when the worker is `k ≥ 1` over quota and the two lists hold at least `k`. -/
theorem sync_quota_return_eq (cf : pool_conf) :
    ∀ (fs : List resource) (p : pool) (c : capuch) (k : Nat),
      c.free_list = fs → 1 ≤ k → k ≤ fs.length + c.ready_list.length →
      nbufs c = quota cf p c + k →
      sync_quota_return cf fs p c
        = some ({ p with free := p.free ++ fs.take k ++ c.ready_list.take (k - fs.length) },
                { c with free_list := fs.drop k,
                         ready_list := c.ready_list.drop (k - fs.length) }) := by
  intro fs
  induction fs with
  | nil =>
    intro p c k hfl h1 h2 hn
    unfold sync_quota_return
    rw [sync_quota_return_ready_eq cf c.ready_list p c k rfl h1 (by simpa using h2) hn]
    cases c
    simp only at hfl
    subst hfl
    simp
  | cons r fs ih =>
    intro p c k hfl h1 h2 hn
    have hq : quota cf { p with free := p.free ++ [r] } { c with free_list := fs }
        = quota cf p c := quota_congr cf _ _ _ _ rfl rfl rfl
    have hnb : nbufs { c with free_list := fs } = nbufs c - 1 := by
      simp only [nbufs, hfl, List.length_cons]; push_cast; ring
    unfold sync_quota_return
    simp only [hq, hnb]
    by_cases hk : k = 1
    · subst hk
      have : ¬ (quota cf p c < nbufs c - 1) := by omega
      simp [this]
    · have hlt : quota cf p c < nbufs c - 1 := by omega
      simp only [if_pos hlt]
      have hlen : k - 1 ≤ fs.length + c.ready_list.length := by simp at h2; omega
      rw [ih { p with free := p.free ++ [r] } { c with free_list := fs } (k - 1) rfl
        (by omega) hlen (by rw [hq, hnb]; omega)]
      obtain ⟨j, rfl⟩ : ∃ j, k = j + 1 := ⟨k - 1, by omega⟩
      simp

/-- The over-quota loop hits the assertion when the two lists together are
too short to reach the quota. -/
theorem sync_quota_return_none (cf : pool_conf) :
    ∀ (fs : List resource) (p : pool) (c : capuch),
      c.free_list = fs → quota cf p c + fs.length + c.ready_list.length < nbufs c →
      sync_quota_return cf fs p c = none := by
  intro fs
  induction fs with
  | nil =>
    intro p c _ hn
    unfold sync_quota_return
    exact sync_quota_return_ready_none cf c.ready_list p c rfl (by simpa using hn)
  | cons r fs ih =>
    intro p c hfl hn
    have hq : quota cf { p with free := p.free ++ [r] } { c with free_list := fs }
        = quota cf p c := quota_congr cf _ _ _ _ rfl rfl rfl
    have hnb : nbufs { c with free_list := fs } = nbufs c - 1 := by
      simp only [nbufs, hfl, List.length_cons]; push_cast; ring
    unfold sync_quota_return
    simp only [hq, hnb]
    simp only [List.length_cons] at hn
    push_cast at hn
    have hlt : quota cf p c < nbufs c - 1 := by omega
    simp only [if_pos hlt]
    exact ih _ _ rfl (by rw [hq, hnb]; simp only []; omega)

/-- The under-quota loop pulls `min k |pool free|` entries when the worker is
`k ≥ 1` under quota. -/
theorem sync_quota_get_eq (cf : pool_conf) :
    ∀ (pf : List resource) (p : pool) (c : capuch) (k : Nat),
      p.free = pf → 1 ≤ k → quota cf p c = nbufs c + k →
      sync_quota_get cf pf p c
        = ({ p with free := pf.drop k }, { c with free_list := c.free_list ++ pf.take k }) := by
  intro pf
  induction pf with
  | nil =>
    intro p c k hpf _ _
    unfold sync_quota_get
    cases p
    simp only at hpf
    subst hpf
    simp
  | cons r rest ih =>
    intro p c k hpf h1 hn
    have hq : quota cf { p with free := rest } { c with free_list := c.free_list ++ [r] }
        = quota cf p c := quota_congr cf _ _ _ _ rfl rfl rfl
    have hnb : nbufs { c with free_list := c.free_list ++ [r] } = nbufs c + 1 := by
      simp only [nbufs, List.length_append, List.length_singleton]; push_cast; ring
    unfold sync_quota_get
    simp only [hq, hnb]
    by_cases hk : k = 1
    · subst hk
      have : ¬ (quota cf p c > nbufs c + 1) := by omega
      simp [this]
    · have hlt : quota cf p c > nbufs c + 1 := by omega
      simp only [if_pos hlt]
      rw [ih { p with free := rest } { c with free_list := c.free_list ++ [r] } (k - 1) rfl
        (by omega) (by rw [hq, hnb]; omega)]
      obtain ⟨j, rfl⟩ : ∃ j, k = j + 1 := ⟨k - 1, by omega⟩
      simp

/-- Counting a lock acquisition does not change `quota()`. -/
theorem quota_locks (cf : pool_conf) (p : pool) (c : capuch) :
    quota cf { p with locks_taken := p.locks_taken + 1 } c = quota cf p c :=
  quota_congr cf _ _ _ _ rfl rfl rfl

/-- Over quota with enough returnable resources: `sync_quota` hands back
`k = nbufs() - quota()` entries, `free_list` first. -/
theorem sync_quota_over (cf : pool_conf) (p : pool) (c : capuch) (k : Nat)
    (hk : nbufs c = quota cf p c + k) (h1 : 1 ≤ k)
    (h2 : k ≤ c.free_list.length + c.ready_list.length) :
    sync_quota cf p c
      = some ({ p with locks_taken := p.locks_taken + 1,
                       free := p.free ++ c.free_list.take k
                                ++ c.ready_list.take (k - c.free_list.length) },
              { c with free_list := c.free_list.drop k,
                       ready_list := c.ready_list.drop (k - c.free_list.length) }) := by
  have hlt : quota cf p c < nbufs c := by omega
  unfold sync_quota
  simp only [if_pos hlt]
  rw [sync_quota_return_eq cf c.free_list { p with locks_taken := p.locks_taken + 1 } c k rfl h1 h2
    (by rw [quota_locks cf p c]; exact hk)]

/-- Over quota without enough returnable resources: `sync_quota` hits `assert(false)`. -/
theorem sync_quota_over_none (cf : pool_conf) (p : pool) (c : capuch)
    (h : quota cf p c + c.free_list.length + c.ready_list.length < nbufs c) :
    sync_quota cf p c = none := by
  have hlt : quota cf p c < nbufs c := by omega
  unfold sync_quota
  simp only [if_pos hlt]
  exact sync_quota_return_none cf c.free_list _ c rfl
    (by rw [quota_locks cf p c]; exact h)

/-- Under quota: `sync_quota` pulls `min k |pool free|` entries, `k = quota() - nbufs()`. -/
theorem sync_quota_under (cf : pool_conf) (p : pool) (c : capuch) (k : Nat)
    (hk : quota cf p c = nbufs c + k) (h1 : 1 ≤ k) :
    sync_quota cf p c
      = some ({ p with locks_taken := p.locks_taken + 1, free := p.free.drop k },
              { c with free_list := c.free_list ++ p.free.take k }) := by
  have hlt : ¬ (quota cf p c < nbufs c) := by omega
  have hgt : quota cf p c > nbufs c := by omega
  unfold sync_quota
  simp only [if_neg hlt, if_pos hgt]
  rw [sync_quota_get_eq cf p.free { p with locks_taken := p.locks_taken + 1 } c k rfl h1
    (by rw [quota_locks cf p c]; exact hk)]

/-- At quota: `sync_quota` hits `assert(false)`. -/
theorem sync_quota_at_quota (cf : pool_conf) (p : pool) (c : capuch)
    (h : nbufs c = quota cf p c) : sync_quota cf p c = none := by
  unfold sync_quota
  simp [h]

/-- C6: `sync_quota` result.  With `q = quota()` and `n = nbufs()`:
if `n > q` and `|free_list| + |ready_list| ≥ n - q`, then with `k = n - q` and
`a = min(k, |free_list|)` the call returns, having moved the first `a` entries
of `free_list` and then the first `k - a` entries of `ready_list` to the back
of the pool free list in that order, with `active_rsc` untouched and
`nbufs() = q` at the end; if `n < q`, then with `m = min(q - n, |pool free|)`
the call returns, having moved the first `m` entries of the pool free list to
the back of `free_list`, with `ready_list` and `active_rsc` untouched and
`nbufs() = n + m` at the end.  The call is a total function, so both loops
terminate. -/
theorem sync_quota_result (cf : pool_conf) (p : pool) (c : capuch) :
    (quota cf p c < nbufs c →
      nbufs c - quota cf p c ≤ ((c.free_list.length + c.ready_list.length : Nat) : Int) →
      ∃ p1 c1, sync_quota cf p c = some (p1, c1) ∧
        p1.free = p.free
          ++ c.free_list.take (min (nbufs c - quota cf p c).toNat c.free_list.length)
          ++ c.ready_list.take ((nbufs c - quota cf p c).toNat
              - min (nbufs c - quota cf p c).toNat c.free_list.length) ∧
        c1.free_list
          = c.free_list.drop (min (nbufs c - quota cf p c).toNat c.free_list.length) ∧
        c1.ready_list
          = c.ready_list.drop ((nbufs c - quota cf p c).toNat
              - min (nbufs c - quota cf p c).toNat c.free_list.length) ∧
        c1.active_rsc = c.active_rsc ∧
        nbufs c1 = quota cf p c) ∧
    (nbufs c < quota cf p c →
      ∃ p1 c1, sync_quota cf p c = some (p1, c1) ∧
        p1.free = p.free.drop (min (quota cf p c - nbufs c).toNat p.free.length) ∧
        c1.free_list
          = c.free_list ++ p.free.take (min (quota cf p c - nbufs c).toNat p.free.length) ∧
        c1.ready_list = c.ready_list ∧
        c1.active_rsc = c.active_rsc ∧
        nbufs c1 = nbufs c + ((min (quota cf p c - nbufs c).toNat p.free.length : Nat) : Int)) := by
  constructor
  · intro hlt hle
    generalize hk : (nbufs c - quota cf p c).toNat = k
    have hkn : nbufs c = quota cf p c + k := by omega
    have hk2 : k ≤ c.free_list.length + c.ready_list.length := by omega
    refine ⟨_, _, sync_quota_over cf p c k hkn (by omega) hk2, ?_, ?_, ?_, rfl, ?_⟩
    · rcases Nat.le_total k c.free_list.length with h | h
      · simp [Nat.min_eq_left h, Nat.sub_eq_zero_of_le h]
      · simp [Nat.min_eq_right h, List.take_of_length_le h]
    · rcases Nat.le_total k c.free_list.length with h | h
      · simp [Nat.min_eq_left h]
      · simp [Nat.min_eq_right h, List.drop_of_length_le h]
    · rcases Nat.le_total k c.free_list.length with h | h
      · simp [Nat.min_eq_left h, Nat.sub_eq_zero_of_le h]
      · simp [Nat.min_eq_right h]
    · simp only [nbufs, List.length_drop] at hkn ⊢
      omega
  · intro hlt
    generalize hk : (quota cf p c - nbufs c).toNat = k
    have hkn : quota cf p c = nbufs c + k := by omega
    refine ⟨_, _, sync_quota_under cf p c k hkn (by omega), ?_, ?_, rfl, rfl, ?_⟩
    · rcases Nat.le_total k p.free.length with h | h
      · simp [Nat.min_eq_left h]
      · simp [Nat.min_eq_right h, List.drop_of_length_le h]
    · rcases Nat.le_total k p.free.length with h | h
      · simp [Nat.min_eq_left h]
      · simp [Nat.min_eq_right h, List.take_of_length_le h]
    · simp only [nbufs, List.length_append, List.length_take]
      push_cast
      ring

/-- C7: `sync_quota` hits a fatal assertion exactly when `nbufs() = quota()`,
or `nbufs() > quota()` while `free_list` and `ready_list` together hold fewer
than `nbufs() - quota()` resources; otherwise it returns. -/
theorem sync_quota_fails_iff (cf : pool_conf) (p : pool) (c : capuch) :
    sync_quota cf p c = none ↔
      (nbufs c = quota cf p c ∨
        (quota cf p c < nbufs c ∧
          ((c.free_list.length + c.ready_list.length : Nat) : Int) < nbufs c - quota cf p c)) := by
  rcases lt_trichotomy (quota cf p c) (nbufs c) with hlt | heq | hgt
  · by_cases hle : nbufs c - quota cf p c ≤ ((c.free_list.length + c.ready_list.length : Nat) : Int)
    · have hs := sync_quota_over cf p c (nbufs c - quota cf p c).toNat (by omega) (by omega)
        (by omega)
      rw [hs]
      constructor
      · intro h; cases h
      · rintro (h | ⟨_, h⟩) <;> omega
    · have hn := sync_quota_over_none cf p c (by push_cast at hle; omega)
      rw [hn]
      constructor
      · intro _; exact Or.inr ⟨hlt, by omega⟩
      · intro _; rfl
  · rw [sync_quota_at_quota cf p c heq.symm]
    constructor
    · intro _; exact Or.inl heq.symm
    · intro _; rfl
  · have hs := sync_quota_under cf p c (quota cf p c - nbufs c).toNat (by omega) (by omega)
    rw [hs]
    constructor
    · intro h; cases h
    · rintro (h | ⟨h, _⟩) <;> omega

/-- Witness for `sync_quota_result`: with eight resources and total pressure
40 the quota is 4; a worker holding six (one free, four ready, one active)
hands back its free entry and its oldest ready entry, and a worker holding
nothing pulls four of the six free pool entries. -/
theorem sync_quota_result_witness :
    (∃ p1 c1, sync_quota eight_conf (bare_pool 40) over_capuch = some (p1, c1) ∧
      p1.free = [res 0, res 1] ∧ c1.free_list = [] ∧ c1.ready_list = [res 2, res 3, res 4] ∧
      c1.active_rsc = some (res 5) ∧ nbufs c1 = 4) ∧
    (∃ p1 c1, sync_quota eight_conf six_pool (bare_capuch 1 10) = some (p1, c1) ∧
      p1.free = [res 4, res 5] ∧ c1.free_list = [res 0, res 1, res 2, res 3] ∧
      c1.ready_list = [] ∧ c1.active_rsc = none ∧ nbufs c1 = 4) := by
  constructor
  · obtain ⟨p1, c1, h, h1, h2, h3, h4, h5⟩ :=
      (sync_quota_result eight_conf (bare_pool 40) over_capuch).1 (by decide) (by decide)
    exact ⟨p1, c1, h, h1.trans (by decide), h2.trans (by decide), h3.trans (by decide),
      h4.trans (by decide), h5.trans (by decide)⟩
  · obtain ⟨p1, c1, h, h1, h2, h3, h4, h5⟩ :=
      (sync_quota_result eight_conf six_pool (bare_capuch 1 10)).2 (by decide)
    exact ⟨p1, c1, h, h1.trans (by decide), h2.trans (by decide), h3.trans (by decide),
      h4.trans (by decide), h5.trans (by decide)⟩

/-! ## Disk queue -/

/-- The result of `add_jobs` for arguments in the range of their types. -/
theorem add_jobs_eq (dcf : disk_conf) (now : Int) (d : disk_sim) (count : Int)
    (hc : 0 < count) (hc31 : count < 2 ^ 31)
    (hs : 0 < dcf.consume_per_second) (hs63 : dcf.consume_per_second < 2 ^ 63) :
    add_jobs dcf now d count
      = some (max now d.expected_finish + 1000000000 * count / dcf.consume_per_second,
              { expected_finish :=
                  max now d.expected_finish + 1000000000 * count / dcf.consume_per_second }) := by
  have e1 : ((to_u64 count : Nat) : Int) = count := to_u64_eq (by omega) (by omega)
  have e2 : ((to_u64 dcf.consume_per_second : Nat) : Int) = dcf.consume_per_second :=
    to_u64_eq (by omega) (by omega)
  have hne : to_u64 dcf.consume_per_second ≠ 0 := by
    intro h0; rw [h0] at e2; simp at e2; omega
  have hlt : 1000000000 * to_u64 count < 2 ^ 64 := by omega
  have hdur : (((1000000000 * to_u64 count) % 2 ^ 64 / to_u64 dcf.consume_per_second : Nat) : Int)
      = 1000000000 * count / dcf.consume_per_second := by
    rw [Nat.mod_eq_of_lt hlt]
    push_cast
    rw [e1, e2]
  have hnn : 0 ≤ 1000000000 * count / dcf.consume_per_second :=
    Int.ediv_nonneg (by omega) (by omega)
  have hle : 1000000000 * count / dcf.consume_per_second ≤ 1000000000 * count :=
    Int.ediv_le_self _ (by omega)
  have hmax : (if d.expected_finish < now then now else d.expected_finish)
      = max now d.expected_finish := by
    split
    · rw [max_eq_left (by omega)]
    · rw [max_eq_right (by omega)]
  unfold add_jobs
  simp only [if_neg hne]
  rw [hdur, to_i64_eq (by omega) (by omega), hmax]

/-- C8: DiskQueue submit, sequential model with explicit time.  For every
`count > 0` (an `int`) and `consume_per_second > 0` (a `long`), clock reading
`now` and stored clock `prev`, `add_jobs(count)` returns
`max(now, prev) + floor(10^9 * count / consume_per_second)` nanoseconds and
stores that value as the new clock.  With `consume_per_second = 10`, a
`submit(5)` on an idle queue returns `now + 0.5 s` and a second `submit(5)` at
the same instant returns `now + 1.0 s`. -/
theorem add_jobs_submit :
    (∀ (dcf : disk_conf) (now : Int) (d : disk_sim) (count : Int),
      0 < count → count < 2 ^ 31 →
      0 < dcf.consume_per_second → dcf.consume_per_second < 2 ^ 63 →
      add_jobs dcf now d count
        = some (max now d.expected_finish + 1000000000 * count / dcf.consume_per_second,
                { expected_finish :=
                    max now d.expected_finish + 1000000000 * count / dcf.consume_per_second })) ∧
    (∀ (now : Int) (d : disk_sim), d.expected_finish ≤ now →
      add_jobs { consume_per_second := 10 } now d 5
        = some (now + 500000000, { expected_finish := now + 500000000 }) ∧
      add_jobs { consume_per_second := 10 } now { expected_finish := now + 500000000 } 5
        = some (now + 1000000000, { expected_finish := now + 1000000000 })) := by
  refine ⟨fun dcf now d count hc hc31 hs hs63 => add_jobs_eq dcf now d count hc hc31 hs hs63, ?_⟩
  intro now d hidle
  constructor
  · rw [add_jobs_eq { consume_per_second := 10 } now d 5 (by decide) (by decide) (by decide)
      (by decide)]
    have h1 : max now d.expected_finish = now := max_eq_left hidle
    have h2 : (1000000000 * 5 / 10 : Int) = 500000000 := by decide
    simp only [h1, h2]
  · rw [add_jobs_eq { consume_per_second := 10 } now { expected_finish := now + 500000000 } 5
      (by decide) (by decide) (by decide) (by decide)]
    have h1 : max now (now + 500000000) = now + 500000000 := max_eq_right (by omega)
    have h2 : (1000000000 * 5 / 10 : Int) = 500000000 := by decide
    simp only [h1, h2]
    have h3 : now + 500000000 + 500000000 = now + 1000000000 := by ring
    rw [h3]

/-- Witness for `add_jobs_submit`: `consume_per_second = 10`, clock reading
100 ns, stored clock 0, five jobs. -/
theorem add_jobs_submit_witness :
    add_jobs { consume_per_second := 10 } 100 { expected_finish := 0 } 5
      = some (500000100, { expected_finish := 500000100 }) ∧
    add_jobs { consume_per_second := 10 } 100 { expected_finish := 500000100 } 5
      = some (1000000100, { expected_finish := 1000000100 }) :=
  ⟨(add_jobs_submit.1 { consume_per_second := 10 } 100 { expected_finish := 0 } 5 (by decide)
      (by decide) (by decide) (by decide)).trans (by decide),
   ((add_jobs_submit.2 100 { expected_finish := 0 } (by decide)).2).trans (by decide)⟩

/-- C9: disk clock monotonicity.  For every sequence of `add_jobs` calls with
`count > 0` (an `int`) and `consume_per_second > 0` (a `long`), whatever the
clock readings, every call returns; its returned completion time is the
stored clock after the call; the stored clock does not decrease across the
call; the returned time is at least the clock reading of the call; and the
call advances the clock by at least its own duration. -/
theorem disk_clock_monotone (d : disk_sim) (calls : List disk_call)
    (hvalid : ∀ c ∈ calls, 0 < c.count ∧ c.count < 2 ^ 31 ∧
      0 < c.consume_per_second ∧ c.consume_per_second < 2 ^ 63) :
    ∃ log, disk_run d calls = some log ∧ log.length = calls.length ∧
      ∀ (i : Nat) (c : disk_call) (r : Int) (d0 d1 : disk_sim),
        calls[i]? = some c → log[i]? = some (r, d1) →
        (d :: log.map Prod.snd)[i]? = some d0 →
        r = d1.expected_finish ∧
        d0.expected_finish ≤ d1.expected_finish ∧
        c.now ≤ r ∧
        d0.expected_finish + 1000000000 * c.count / c.consume_per_second
          ≤ d1.expected_finish := by
  induction calls generalizing d with
  | nil => exact ⟨[], rfl, rfl, by intro i c r d0 d1 h; simp at h⟩
  | cons c cs ih =>
    obtain ⟨hc, hc31, hs, hs63⟩ := hvalid c (List.mem_cons_self _ _)
    have hadd := add_jobs_eq { consume_per_second := c.consume_per_second } c.now d c.count
      hc hc31 hs hs63
    obtain ⟨rest, hrun, hlen, hrest⟩ :=
      ih { expected_finish := max c.now d.expected_finish
            + 1000000000 * c.count / c.consume_per_second }
        (fun x hx => hvalid x (List.mem_cons_of_mem _ hx))
    simp only [] at hadd
    refine ⟨(max c.now d.expected_finish + 1000000000 * c.count / c.consume_per_second,
      { expected_finish := max c.now d.expected_finish
          + 1000000000 * c.count / c.consume_per_second }) :: rest, ?_, by simp [hlen], ?_⟩
    · unfold disk_run
      rw [hadd]
      simp only [hrun]
    · intro i c' r d0 d1 h1 h2 h3
      cases i with
      | zero =>
        simp only [List.getElem?_cons_zero, Option.some.injEq, Prod.mk.injEq] at h1 h2 h3
        obtain ⟨rfl, rfl⟩ := h2
        subst h1 h3
        have hnn : 0 ≤ 1000000000 * c.count / c.consume_per_second :=
          Int.ediv_nonneg (by omega) (by omega)
        have hl := le_max_left c.now d.expected_finish
        have hr := le_max_right c.now d.expected_finish
        refine ⟨rfl, ?_, ?_, ?_⟩ <;> (try dsimp only) <;> omega
      | succ j =>
        simp only [List.getElem?_cons_succ, List.map_cons] at h1 h2 h3
        exact hrest j c' r d0 d1 h1 h2 h3

/-- Witness for `disk_clock_monotone`: the three calls of `demo_calls` on a
queue whose clock starts at 0. -/
theorem disk_clock_monotone_witness :
    ∃ log, disk_run { expected_finish := 0 } demo_calls = some log ∧
      log.length = demo_calls.length ∧
      ∀ (i : Nat) (c : disk_call) (r : Int) (d0 d1 : disk_sim),
        demo_calls[i]? = some c → log[i]? = some (r, d1) →
        (({ expected_finish := 0 } : disk_sim) :: log.map Prod.snd)[i]? = some d0 →
        r = d1.expected_finish ∧
        d0.expected_finish ≤ d1.expected_finish ∧
        c.now ≤ r ∧
        d0.expected_finish + 1000000000 * c.count / c.consume_per_second
          ≤ d1.expected_finish :=
  disk_clock_monotone { expected_finish := 0 } demo_calls (by decide)

/-! ## Structure of the events -/

/-- `on_ready` is the sequence of its four blocks. -/
theorem on_ready_blocks (cf : pool_conf) (p : pool) (c : capuch) :
    on_ready cf p c =
      match on_ready_sync cf (on_ready_acquire cf p (on_ready_push cf c)).2.1
          (on_ready_acquire cf p (on_ready_push cf c)).2.2 with
      | none => none
      | some (p4, c4) => on_ready_retry (on_ready_acquire cf p (on_ready_push cf c)).1 p4 c4 := by
  rfl

/-- `inc_greed` moves no resource and leaves the batch fields alone. -/
theorem inc_greed_frame (cf : pool_conf) (p : pool) (c : capuch) :
    (inc_greed cf p c).1.free = p.free ∧
    (inc_greed cf p c).2.free_list = c.free_list ∧
    (inc_greed cf p c).2.ready_list = c.ready_list ∧
    (inc_greed cf p c).2.active_rsc = c.active_rsc ∧
    (inc_greed cf p c).2.batch_id = c.batch_id := by
  unfold inc_greed
  dsimp only
  split_ifs <;> simp

/-- `dec_greed` moves no resource and leaves the batch fields alone. -/
theorem dec_greed_frame (cf : pool_conf) (p : pool) (c : capuch) :
    (dec_greed cf p c).1.free = p.free ∧
    (dec_greed cf p c).2.free_list = c.free_list ∧
    (dec_greed cf p c).2.ready_list = c.ready_list ∧
    (dec_greed cf p c).2.active_rsc = c.active_rsc ∧
    (dec_greed cf p c).2.batch_id = c.batch_id := by
  unfold dec_greed
  dsimp only
  split_ifs <;> simp

/-- Shape of a successful `sync_quota`: some entries leave the front of the
pool free list for the back of `free_list`, or some entries leave the fronts
of `free_list` and `ready_list` for the back of the pool free list. -/
theorem sync_quota_some (cf : pool_conf) (p p1 : pool) (c c1 : capuch)
    (h : sync_quota cf p c = some (p1, c1)) :
    ∃ m a b : Nat,
      p1 = { p with locks_taken := p.locks_taken + 1,
                    free := p.free.drop m ++ c.free_list.take a ++ c.ready_list.take b } ∧
      c1 = { c with free_list := c.free_list.drop a ++ p.free.take m,
                    ready_list := c.ready_list.drop b } := by
  rcases lt_trichotomy (quota cf p c) (nbufs c) with hlt | heq | hgt
  · by_cases hle : nbufs c - quota cf p c ≤ ((c.free_list.length + c.ready_list.length : Nat) : Int)
    · have hs := sync_quota_over cf p c (nbufs c - quota cf p c).toNat (by omega) (by omega)
        (by omega)
      rw [hs] at h
      simp only [Option.some.injEq, Prod.mk.injEq] at h
      refine ⟨0, (nbufs c - quota cf p c).toNat,
        (nbufs c - quota cf p c).toNat - c.free_list.length, ?_, ?_⟩
      · rw [← h.1]; simp
      · rw [← h.2]; simp
    · rw [sync_quota_over_none cf p c (by push_cast at hle; omega)] at h
      cases h
  · rw [sync_quota_at_quota cf p c heq.symm] at h
    cases h
  · have hs := sync_quota_under cf p c (quota cf p c - nbufs c).toNat (by omega) (by omega)
    rw [hs] at h
    simp only [Option.some.injEq, Prod.mk.injEq] at h
    refine ⟨(quota cf p c - nbufs c).toNat, 0, 0, ?_, ?_⟩
    · rw [← h.1]; simp
    · rw [← h.2]; simp

/-! ## Multisets of ids -/

theorem ids_nil : ids [] = 0 := rfl

theorem ids_append (l1 l2 : List resource) : ids (l1 ++ l2) = ids l1 + ids l2 := by
  simp [ids]

theorem ids_cons (r : resource) (l : List resource) : ids (r :: l) = ids [r] + ids l :=
  ids_append [r] l

theorem ids_take_drop (n : Nat) (l : List resource) : ids (l.take n) + ids (l.drop n) = ids l := by
  rw [← ids_append, List.take_append_drop]

theorem ids_retag (a : resource) (t : Int) : ids [{ a with batch_id := t }] = ids [a] := rfl

/-- A successful `sync_quota` keeps the ids held by the pool and the worker. -/
theorem sync_quota_local_ids (cf : pool_conf) (p p1 : pool) (c c1 : capuch)
    (h : sync_quota cf p c = some (p1, c1)) : local_ids p1 c1 = local_ids p c := by
  obtain ⟨m, a, b, rfl, rfl⟩ := sync_quota_some cf p p1 c c1 h
  simp only [local_ids, held, ids_append]
  have e1 := ids_take_drop m p.free
  have e2 := ids_take_drop a c.free_list
  have e3 := ids_take_drop b c.ready_list
  rw [← e1, ← e2, ← e3]
  abel

/-- A successful `sync_quota` only shortens `ready_list` from the front and
leaves `active_rsc` and `batch_id` alone. -/
theorem sync_quota_frame (cf : pool_conf) (p p1 : pool) (c c1 : capuch)
    (h : sync_quota cf p c = some (p1, c1)) :
    (∃ b, c1.ready_list = c.ready_list.drop b) ∧ c1.active_rsc = c.active_rsc ∧
    c1.batch_id = c.batch_id := by
  obtain ⟨m, a, b, rfl, rfl⟩ := sync_quota_some cf p p1 c c1 h
  exact ⟨⟨b, rfl⟩, rfl, rfl⟩

/-- First block of `on_ready`: what it leaves behind. -/
theorem on_ready_push_frame (cf : pool_conf) (c : capuch) :
    (on_ready_push cf c).active_rsc = none ∧
    (on_ready_push cf c).free_list = c.free_list ∧
    (on_ready_push cf c).batch_id = c.batch_id ∧
    (on_ready_push cf c).ready_list
      = c.ready_list ++ c.active_rsc.toList.map (fun a : resource => { a with batch_id := c.batch_id }) := by
  unfold on_ready_push
  cases hact : c.active_rsc with
  | none => dsimp only; split_ifs <;> simp [hact]
  | some a => dsimp only; split_ifs <;> simp

/-- First block of `on_ready`: the ids held by the worker are kept. -/
theorem on_ready_push_ids (cf : pool_conf) (c : capuch) :
    ids (held (on_ready_push cf c)) = ids (held c) := by
  obtain ⟨h1, h2, _, h4⟩ := on_ready_push_frame cf c
  unfold held
  rw [h1, h2, h4]
  cases c.active_rsc with
  | none => simp
  | some a => simp [ids_append, ids_retag]

/-- Second block of `on_ready`, entered without an active resource. -/
theorem on_ready_acquire_frame (cf : pool_conf) (p : pool) (c2 : capuch)
    (hact : c2.active_rsc = none) :
    local_ids (on_ready_acquire cf p c2).2.1 (on_ready_acquire cf p c2).2.2 = local_ids p c2 ∧
    ((on_ready_acquire cf p c2).1 = true → (on_ready_acquire cf p c2).2.2.active_rsc = none) ∧
    (on_ready_acquire cf p c2).2.2.ready_list = c2.ready_list ∧
    (on_ready_acquire cf p c2).2.2.batch_id = c2.batch_id := by
  unfold on_ready_acquire
  cases hfl : c2.free_list with
  | nil =>
    obtain ⟨h1, h2, h3, h4, h5⟩ := inc_greed_frame cf p c2
    dsimp only
    refine ⟨?_, fun _ => by rw [h4, hact], h3, h5⟩
    simp only [local_ids, held, h1, h2, h3, h4]
  | cons r fs =>
    dsimp only
    refine ⟨?_, by simp, rfl, rfl⟩
    simp only [local_ids, held, hfl, hact, ids_append, Option.toList_some, Option.toList_none,
      ids_nil, ids_cons r fs]
    abel

/-- Third block of `on_ready`. -/
theorem on_ready_sync_frame (cf : pool_conf) (p3 p4 : pool) (c3 c4 : capuch)
    (h : on_ready_sync cf p3 c3 = some (p4, c4)) :
    local_ids p4 c4 = local_ids p3 c3 ∧
    (∃ b, c4.ready_list = c3.ready_list.drop b) ∧ c4.active_rsc = c3.active_rsc ∧
    c4.batch_id = c3.batch_id := by
  unfold on_ready_sync at h
  split_ifs at h with hne
  · exact ⟨sync_quota_local_ids cf p3 p4 c3 c4 h, sync_quota_frame cf p3 p4 c3 c4 h⟩
  · simp only [Option.some.injEq, Prod.mk.injEq] at h
    obtain ⟨rfl, rfl⟩ := h
    exact ⟨rfl, ⟨0, rfl⟩, rfl, rfl⟩

/-- Last block of `on_ready`; after `inc_greed` it is entered without an
active resource. -/
theorem on_ready_retry_frame (had : Bool) (p4 p5 : pool) (c4 c5 : capuch)
    (hact : had = true → c4.active_rsc = none)
    (h : on_ready_retry had p4 c4 = some (p5, c5)) :
    local_ids p5 c5 = local_ids p4 c4 ∧
    (∃ b, c5.ready_list = c4.ready_list.drop b) ∧ c5.batch_id = c4.batch_id := by
  unfold on_ready_retry at h
  cases had with
  | false =>
    simp only [Bool.false_eq_true, if_false] at h
    split_ifs at h
    simp only [Option.some.injEq, Prod.mk.injEq] at h
    obtain ⟨rfl, rfl⟩ := h
    exact ⟨rfl, ⟨0, rfl⟩, rfl⟩
  | true =>
    have hnone := hact rfl
    simp only [if_true] at h
    cases hfl : c4.free_list with
    | cons r fs =>
      simp only [hfl, Option.isSome_some, if_true, Option.some.injEq, Prod.mk.injEq] at h
      obtain ⟨rfl, rfl⟩ := h
      refine ⟨?_, ⟨0, rfl⟩, rfl⟩
      simp only [local_ids, held, hfl, hnone, ids_append, Option.toList_some, Option.toList_none,
        ids_nil, ids_cons r fs]
      abel
    | nil =>
      cases hrl : c4.ready_list with
      | nil => simp [hfl, hrl] at h
      | cons r rs =>
        simp only [hfl, hrl, Option.isSome_some, if_true, Option.some.injEq, Prod.mk.injEq] at h
        obtain ⟨rfl, rfl⟩ := h
        refine ⟨?_, ⟨1, by simp [hrl]⟩, rfl⟩
        simp only [local_ids, held, hfl, hrl, hnone, ids_append, Option.toList_some,
          Option.toList_none, ids_nil, ids_cons r rs]
        abel

/-- A successful `on_ready` keeps the ids held by the pool and the worker;
its `ready_list` is the old one with the tagged active resource appended,
shortened from the front; `batch_id` is unchanged. -/
theorem on_ready_frame (cf : pool_conf) (p p1 : pool) (c c1 : capuch)
    (h : on_ready cf p c = some (p1, c1)) :
    local_ids p1 c1 = local_ids p c ∧
    (∃ b, c1.ready_list = (c.ready_list
        ++ c.active_rsc.toList.map (fun a : resource => { a with batch_id := c.batch_id })).drop b) ∧
    c1.batch_id = c.batch_id := by
  rw [on_ready_blocks] at h
  obtain ⟨ha1, ha2, ha3, ha4⟩ := on_ready_push_frame cf c
  obtain ⟨hb1, hb2, hb3, hb4⟩ := on_ready_acquire_frame cf p (on_ready_push cf c) ha1
  cases hs : on_ready_sync cf (on_ready_acquire cf p (on_ready_push cf c)).2.1
      (on_ready_acquire cf p (on_ready_push cf c)).2.2 with
  | none => rw [hs] at h; cases h
  | some pc =>
    obtain ⟨p4, c4⟩ := pc
    rw [hs] at h
    dsimp only at h
    obtain ⟨hc1, ⟨b1, hc2⟩, hc3, hc4⟩ := on_ready_sync_frame cf _ p4 _ c4 hs
    obtain ⟨hd1, ⟨b2, hd2⟩, hd3⟩ := on_ready_retry_frame _ p4 p1 c4 c1
      (fun hh => by rw [hc3]; exact hb2 hh) h
    refine ⟨?_, ⟨b1 + b2, ?_⟩, ?_⟩
    · rw [hd1, hc1, hb1]
      unfold local_ids
      rw [on_ready_push_ids]
    · rw [hd2, hc2, hb3, ha4, List.drop_drop]
    · rw [hd3, hc4, hb4, ha3]

/-- The reclaim loop moves a front segment of `ready_list` to the back of `free_list`. -/
theorem reclaim_shape (e : Int) :
    ∀ (rl fl : List resource), ∃ n,
      reclaim e rl fl = (rl.drop n, fl ++ rl.take n) := by
  intro rl
  induction rl with
  | nil => intro fl; exact ⟨0, by simp [reclaim]⟩
  | cons r rs ih =>
    intro fl
    unfold reclaim
    split_ifs with ht
    · obtain ⟨n, hn⟩ := ih (fl ++ [r])
      exact ⟨n + 1, by rw [hn]; simp⟩
    · exact ⟨0, by simp⟩

/-- A successful `on_flush_finish` keeps the ids the worker holds, shortens
`ready_list` from the front and leaves `batch_id` alone. -/
theorem on_flush_finish_frame (now : Int) (c c1 : capuch)
    (h : on_flush_finish now c = some c1) :
    ids (held c1) = ids (held c) ∧ (∃ b, c1.ready_list = c.ready_list.drop b) ∧
    c1.batch_id = c.batch_id := by
  unfold on_flush_finish at h
  split_ifs at h
  simp only [Option.some.injEq] at h
  obtain ⟨n, hn⟩ := reclaim_shape (c.batch_id - 1) c.ready_list c.free_list
  subst h
  rw [hn]
  refine ⟨?_, ⟨n, rfl⟩, rfl⟩
  simp only [held, ids_append]
  have e := ids_take_drop n c.ready_list
  rw [← e]
  abel

/-- A successful `on_flush_start` moves no resource and raises `batch_id` by one. -/
theorem on_flush_start_frame (dcf : disk_conf) (now : Int) (d d1 : disk_sim) (c c1 : capuch)
    (h : on_flush_start dcf now d c = some (d1, c1)) :
    c1.free_list = c.free_list ∧ c1.ready_list = c.ready_list ∧
    c1.active_rsc = c.active_rsc ∧ c1.batch_id = c.batch_id + 1 := by
  unfold on_flush_start at h
  split_ifs at h
  cases hadd : add_jobs dcf now d c.batch_size with
  | none => rw [hadd] at h; cases h
  | some rd =>
    obtain ⟨r, d2⟩ := rd
    rw [hadd] at h
    simp only [Option.some.injEq, Prod.mk.injEq] at h
    obtain ⟨_, rfl⟩ := h
    exact ⟨rfl, rfl, rfl, rfl⟩

/-- A successful `on_timeout` keeps the ids held by the pool and the worker,
only shortens `ready_list` from the front and does not lower `batch_id`. -/
theorem on_timeout_frame (cf : pool_conf) (dcf : disk_conf) (now : Int) (p p1 : pool)
    (d d1 : disk_sim) (c c1 : capuch)
    (h : on_timeout cf dcf now p d c = some (p1, d1, c1)) :
    local_ids p1 c1 = local_ids p c ∧ (∃ b, c1.ready_list = c.ready_list.drop b) ∧
    c.batch_id ≤ c1.batch_id := by
  unfold on_timeout at h
  split_ifs at h with hf hr
  dsimp only at h
  -- the greed step
  have hg : ∀ pc : pool × capuch,
      pc = (if c.free_list.length > c.ready_list.length
              then dec_greed cf p { c with timeout := c.timeout + 1 }
              else (p, { c with timeout := c.timeout + 1 })) →
      pc.1.free = p.free ∧ pc.2.free_list = c.free_list ∧ pc.2.ready_list = c.ready_list ∧
      pc.2.active_rsc = c.active_rsc ∧ pc.2.batch_id = c.batch_id := by
    intro pc hpc
    split_ifs at hpc
    · rw [hpc]; exact dec_greed_frame cf p { c with timeout := c.timeout + 1 }
    · rw [hpc]; exact ⟨rfl, rfl, rfl, rfl, rfl⟩
  generalize hpc : (if c.free_list.length > c.ready_list.length
              then dec_greed cf p { c with timeout := c.timeout + 1 }
              else (p, { c with timeout := c.timeout + 1 })) = pc at h
  obtain ⟨g1, g2, g3, g4, g5⟩ := hg pc hpc.symm
  obtain ⟨q1, q2⟩ := pc
  dsimp only at g1 g2 g3 g4 g5 h
  have hloc : local_ids q1 q2 = local_ids p c := by
    simp only [local_ids, held, g1, g2, g3, g4]
  -- the quota step
  have hsync : ∀ p3 c3,
      (if nbufs q2 > quota cf q1 q2 then sync_quota cf q1 q2 else some (q1, q2)) = some (p3, c3) →
      local_ids p3 c3 = local_ids p c ∧ (∃ b, c3.ready_list = c.ready_list.drop b) ∧
      c3.active_rsc = c.active_rsc ∧ c3.batch_id = c.batch_id := by
    intro p3 c3 hs
    split_ifs at hs
    · obtain ⟨⟨b, hb⟩, ha, hbid⟩ := sync_quota_frame cf _ p3 _ c3 hs
      exact ⟨(sync_quota_local_ids cf _ p3 _ c3 hs).trans hloc, ⟨b, by rw [hb, g3]⟩,
        by rw [ha, g4], by rw [hbid, g5]⟩
    · simp only [Option.some.injEq, Prod.mk.injEq] at hs
      obtain ⟨e1, e2⟩ := hs
      rw [← e1, ← e2]
      exact ⟨hloc, ⟨0, by simp [g3]⟩, g4, g5⟩
  cases hs : (if nbufs q2 > quota cf q1 q2 then sync_quota cf q1 q2 else some (q1, q2)) with
  | none => rw [hs] at h; cases h
  | some pc3 =>
    obtain ⟨p3, c3⟩ := pc3
    obtain ⟨s1, ⟨b, s2⟩, s3, s4⟩ := hsync p3 c3 hs
    rw [hs] at h
    dsimp only at h
    split_ifs at h with hbs
    · cases hfs : on_flush_start dcf now d { c3 with flush_ready := true } with
      | none => rw [hfs] at h; cases h
      | some dc =>
        obtain ⟨d4, c4⟩ := dc
        rw [hfs] at h
        simp only [Option.some.injEq, Prod.mk.injEq] at h
        obtain ⟨e1, e2, e3⟩ := h
        obtain ⟨f1, f2, f3, f4⟩ := on_flush_start_frame dcf now d d4 _ c4 hfs
        dsimp only at f1 f2 f3 f4
        rw [← e1, ← e3]
        refine ⟨?_, ⟨b, by rw [f2, s2]⟩, by rw [f4, s4]; omega⟩
        rw [← s1]
        simp only [local_ids, held, f1, f2, f3]
    · simp only [Option.some.injEq, Prod.mk.injEq] at h
      obtain ⟨e1, e2, e3⟩ := h
      rw [← e1, ← e3]
      exact ⟨s1, ⟨b, s2⟩, by rw [s4]⟩

/-- Every worker operation that returns keeps the ids held by the pool and
the worker; the new `ready_list` is the old one, possibly extended at the
back by entries tagged with the current `batch_id`, shortened from the front;
`batch_id` does not decrease. -/
theorem run_op_frame (cf : sim_conf) (o : worker_op) (now : Int) (p p1 : pool)
    (d d1 : disk_sim) (c c1 : capuch) (h : run_op cf o now p d c = some (p1, d1, c1)) :
    local_ids p1 c1 = local_ids p c ∧
    (∃ extra b, (∀ r ∈ extra, r.batch_id = c.batch_id) ∧
      c1.ready_list = (c.ready_list ++ extra).drop b) ∧
    c.batch_id ≤ c1.batch_id := by
  cases o with
  | sync_quota =>
    simp only [run_op, Option.map_eq_some', Prod.mk.injEq] at h
    obtain ⟨⟨q1, q2⟩, hs, rfl, _, rfl⟩ := h
    obtain ⟨⟨b, hb⟩, _, hbid⟩ := sync_quota_frame cf.pool_conf p q1 c q2 hs
    exact ⟨sync_quota_local_ids cf.pool_conf p q1 c q2 hs, ⟨[], b, by simp, by simpa using hb⟩,
      by rw [hbid]⟩
  | on_ready =>
    simp only [run_op, Option.map_eq_some', Prod.mk.injEq] at h
    obtain ⟨⟨q1, q2⟩, hs, rfl, _, rfl⟩ := h
    obtain ⟨h1, ⟨b, hb⟩, hbid⟩ := on_ready_frame cf.pool_conf p q1 c q2 hs
    refine ⟨h1, ⟨_, b, ?_, hb⟩, by rw [hbid]⟩
    intro r hr
    simp only [List.mem_map] at hr
    obtain ⟨a, _, rfl⟩ := hr
    rfl
  | on_flush_start =>
    simp only [run_op, Option.map_eq_some', Prod.mk.injEq] at h
    obtain ⟨⟨q1, q2⟩, hs, rfl, _, rfl⟩ := h
    obtain ⟨f1, f2, f3, f4⟩ := on_flush_start_frame cf.disk_conf now d q1 c q2 hs
    refine ⟨?_, ⟨[], 0, by simp, by simpa using f2⟩, by rw [f4]; omega⟩
    simp only [local_ids, held, f1, f2, f3]
  | on_flush_finish =>
    simp only [run_op, Option.map_eq_some', Prod.mk.injEq] at h
    obtain ⟨q2, hs, rfl, _, rfl⟩ := h
    obtain ⟨f1, ⟨b, hb⟩, f3⟩ := on_flush_finish_frame now c q2 hs
    refine ⟨?_, ⟨[], b, by simp, by simpa using hb⟩, by rw [f3]⟩
    simp only [local_ids, f1]
  | on_timeout =>
    simp only [run_op] at h
    obtain ⟨h1, ⟨b, hb⟩, hbid⟩ := on_timeout_frame cf.pool_conf cf.disk_conf now p p1 d d1 c c1 h
    exact ⟨h1, ⟨[], b, by simp, by simpa using hb⟩, hbid⟩
  | inc_greed =>
    simp only [run_op, Option.some.injEq, Prod.mk.injEq] at h
    obtain ⟨rfl, _, rfl⟩ := h
    obtain ⟨f1, f2, f3, f4, f5⟩ := inc_greed_frame cf.pool_conf p c
    refine ⟨?_, ⟨[], 0, by simp, by simpa using f3⟩, by rw [f5]⟩
    simp only [local_ids, held, f1, f2, f3, f4]
  | dec_greed =>
    simp only [run_op, Option.some.injEq, Prod.mk.injEq] at h
    obtain ⟨rfl, _, rfl⟩ := h
    obtain ⟨f1, f2, f3, f4, f5⟩ := dec_greed_frame cf.pool_conf p c
    refine ⟨?_, ⟨[], 0, by simp, by simpa using f3⟩, by rw [f5]⟩
    simp only [local_ids, held, f1, f2, f3, f4]

/-! ## Batch order -/

/-- Batch order survives appending entries tagged with the current
`batch_id`, dropping entries from the front and raising `batch_id`. -/
theorem batch_ordered_of_shape (c c1 : capuch) (extra : List resource) (b : Nat)
    (hbo : batch_ordered c) (hx : ∀ r ∈ extra, r.batch_id = c.batch_id)
    (hrl : c1.ready_list = (c.ready_list ++ extra).drop b) (hbid : c.batch_id ≤ c1.batch_id) :
    batch_ordered c1 := by
  obtain ⟨hsorted, hle⟩ := hbo
  have hall : ∀ t ∈ tags (c.ready_list ++ extra), t ≤ c.batch_id := by
    intro t ht
    simp only [tags, List.map_append, List.mem_append, List.mem_map] at ht
    rcases ht with ⟨r, hr, rfl⟩ | ⟨r, hr, rfl⟩
    · exact hle _ (List.mem_map_of_mem _ hr)
    · rw [hx r hr]
  have hpw : (tags (c.ready_list ++ extra)).Pairwise (· ≤ ·) := by
    simp only [tags, List.map_append]
    rw [List.pairwise_append]
    refine ⟨hsorted, ?_, ?_⟩
    · rw [List.pairwise_map]
      exact List.pairwise_of_forall_mem_list
        (fun x hxm y hym => by rw [hx x hxm, hx y hym])
    · intro x hxm y hym
      simp only [List.mem_map] at hym
      obtain ⟨r, hr, rfl⟩ := hym
      rw [hx r hr]
      exact hle x hxm
  have htags : tags c1.ready_list = (tags (c.ready_list ++ extra)).drop b := by
    rw [hrl]; simp only [tags, List.map_drop]
  constructor
  · rw [htags]
    exact hpw.sublist (List.drop_sublist _ _)
  · intro t ht
    rw [htags] at ht
    exact le_trans (hall t (List.mem_of_mem_drop ht)) hbid

/-! ## Lifting to the simulation -/

/-- Replacing worker `i` changes the sum of a per-worker quantity by that
worker's share. -/
theorem sum_map_set (f : capuch → Multiset Int) :
    ∀ (l : List capuch) (i : Nat) (c c1 : capuch), l[i]? = some c →
      ((l.set i c1).map f).sum + f c = (l.map f).sum + f c1 := by
  intro l
  induction l with
  | nil => intro i c c1 h; simp at h
  | cons x xs ih =>
    intro i c c1 h
    cases i with
    | zero =>
      simp only [List.getElem?_cons_zero, Option.some.injEq] at h
      subst h
      simp only [List.set_cons_zero, List.map_cons, List.sum_cons]
      abel
    | succ j =>
      simp only [List.getElem?_cons_succ] at h
      simp only [List.set_cons_succ, List.map_cons, List.sum_cons]
      rw [add_assoc, ih j c c1 h]
      abel

/-- A step of the simulation keeps the multiset of all ids. -/
theorem sim_step_global_ids (cf : sim_conf) (s s1 : sim_state) (i : Nat) (o : worker_op)
    (now : Int) (h : sim_step cf s i o now = some s1) : global_ids s1 = global_ids s := by
  unfold sim_step at h
  cases hc : s.capuches[i]? with
  | none => rw [hc] at h; cases h
  | some c =>
    rw [hc] at h
    dsimp only at h
    cases hr : run_op cf o now s.p s.disk c with
    | none => rw [hr] at h; cases h
    | some r =>
      obtain ⟨p1, d1, c1⟩ := r
      rw [hr] at h
      simp only [Option.some.injEq] at h
      subst h
      obtain ⟨hloc, _, _⟩ := run_op_frame cf o now s.p p1 s.disk d1 c c1 hr
      have hsum := sum_map_set (fun c => ids (held c)) s.capuches i c c1 hc
      unfold local_ids at hloc
      apply add_right_cancel (b := ids (held c))
      unfold global_ids
      dsimp only at hsum ⊢
      calc ids p1.free + ((s.capuches.set i c1).map (fun c => ids (held c))).sum + ids (held c)
          = ids p1.free + (((s.capuches.set i c1).map (fun c => ids (held c))).sum
              + ids (held c)) := by abel
        _ = ids p1.free + ((s.capuches.map (fun c => ids (held c))).sum + ids (held c1)) := by
            rw [hsum]
        _ = (ids p1.free + ids (held c1)) + (s.capuches.map (fun c => ids (held c))).sum := by abel
        _ = (ids s.p.free + ids (held c)) + (s.capuches.map (fun c => ids (held c))).sum := by
            rw [hloc]
        _ = ids s.p.free + (s.capuches.map (fun c => ids (held c))).sum + ids (held c) := by abel

/-- A step of the simulation keeps every worker batch-ordered. -/
theorem sim_step_batch_ordered (cf : sim_conf) (s s1 : sim_state) (i : Nat) (o : worker_op)
    (now : Int) (h : sim_step cf s i o now = some s1)
    (hbo : ∀ c ∈ s.capuches, batch_ordered c) : ∀ c ∈ s1.capuches, batch_ordered c := by
  unfold sim_step at h
  cases hc : s.capuches[i]? with
  | none => rw [hc] at h; cases h
  | some c =>
    rw [hc] at h
    dsimp only at h
    cases hr : run_op cf o now s.p s.disk c with
    | none => rw [hr] at h; cases h
    | some r =>
      obtain ⟨p1, d1, c1⟩ := r
      rw [hr] at h
      simp only [Option.some.injEq] at h
      subst h
      obtain ⟨_, ⟨extra, b, hx, hrl⟩, hbid⟩ := run_op_frame cf o now s.p p1 s.disk d1 c c1 hr
      have hcmem : c ∈ s.capuches := by
        obtain ⟨hi, hget⟩ := List.getElem?_eq_some_iff.mp hc
        rw [← hget]
        exact List.getElem_mem hi
      intro x hxm
      rcases List.mem_or_eq_of_mem_set hxm with hm | rfl
      · exact hbo x hm
      · exact batch_ordered_of_shape c x extra b (hbo c hcmem) hx hrl hbid

/-! ## Startup -/

/-- Phase 1 of startup leaves the pool free list alone and creates workers
that hold nothing. -/
theorem start_phase1_frame (cf : sim_conf) (t0 : Int) :
    ∀ (is : List Nat) (p : pool) (cs : List capuch),
      (start_phase1 cf t0 is p cs).1.free = p.free ∧
      (((start_phase1 cf t0 is p cs).2.map (fun c => ids (held c))).sum
        = (cs.map (fun c => ids (held c))).sum) ∧
      ((∀ c ∈ cs, c.ready_list = []) →
        ∀ c ∈ (start_phase1 cf t0 is p cs).2, c.ready_list = []) := by
  intro is
  induction is with
  | nil => intro p cs; exact ⟨rfl, rfl, fun h => h⟩
  | cons i is ih =>
    intro p cs
    obtain ⟨f1, f2, f3, f4, _⟩ := inc_greed_frame cf.pool_conf p (capuch.init (i : Int) t0)
    obtain ⟨h1, h2, h3⟩ := ih (inc_greed cf.pool_conf p (capuch.init (i : Int) t0)).1
      (cs ++ [(inc_greed cf.pool_conf p (capuch.init (i : Int) t0)).2])
    unfold start_phase1
    dsimp only
    refine ⟨h1.trans f1, ?_, ?_⟩
    · rw [h2]
      simp only [List.map_append, List.sum_append, List.map_cons, List.map_nil, List.sum_cons,
        List.sum_nil, held, f2, f3, f4]
      simp [capuch.init, ids]
    · intro hcs
      apply h3
      intro c hc
      rcases List.mem_append.mp hc with hm | hm
      · exact hcs c hm
      · simp only [List.mem_singleton] at hm
        rw [hm, f3]
        rfl

/-- Phase 2 of startup keeps the ids held by the pool and the workers and
leaves every `ready_list` empty. -/
theorem start_phase2_frame (cf : sim_conf) :
    ∀ (todo : List capuch) (p : pool) (done : List capuch) (p1 : pool) (cs1 : List capuch),
      start_phase2 cf todo p done = some (p1, cs1) →
      (ids p1.free + (cs1.map (fun c => ids (held c))).sum
        = ids p.free + (todo.map (fun c => ids (held c))).sum
            + (done.map (fun c => ids (held c))).sum) ∧
      ((∀ c ∈ todo, c.ready_list = []) → (∀ c ∈ done, c.ready_list = []) →
        ∀ c ∈ cs1, c.ready_list = []) := by
  intro todo
  induction todo with
  | nil =>
    intro p done p1 cs1 h
    simp only [start_phase2, Option.some.injEq, Prod.mk.injEq] at h
    obtain ⟨rfl, rfl⟩ := h
    exact ⟨by simp, fun _ hd => hd⟩
  | cons c cs ih =>
    intro p done p1 cs1 h
    unfold start_phase2 at h
    cases hs : sync_quota cf.pool_conf p c with
    | none => rw [hs] at h; cases h
    | some q =>
      obtain ⟨q1, q2⟩ := q
      rw [hs] at h
      dsimp only at h
      obtain ⟨h1, h2⟩ := ih q1 (done ++ [q2]) p1 cs1 h
      have hloc := sync_quota_local_ids cf.pool_conf p q1 c q2 hs
      obtain ⟨⟨b, hb⟩, _, _⟩ := sync_quota_frame cf.pool_conf p q1 c q2 hs
      unfold local_ids at hloc
      constructor
      · rw [h1]
        simp only [List.map_append, List.sum_append, List.map_cons, List.map_nil, List.sum_cons,
          List.sum_nil, add_zero]
        calc ids q1.free + (cs.map (fun c => ids (held c))).sum
              + ((done.map (fun c => ids (held c))).sum + ids (held q2))
            = (ids q1.free + ids (held q2)) + (cs.map (fun c => ids (held c))).sum
              + (done.map (fun c => ids (held c))).sum := by abel
          _ = (ids p.free + ids (held c)) + (cs.map (fun c => ids (held c))).sum
              + (done.map (fun c => ids (held c))).sum := by rw [hloc]
          _ = ids p.free + (ids (held c) + (cs.map (fun c => ids (held c))).sum)
              + (done.map (fun c => ids (held c))).sum := by abel
      · intro ht hd
        apply h2
        · intro x hx; exact ht x (List.mem_cons_of_mem _ hx)
        · intro x hx
          rcases List.mem_append.mp hx with hm | hm
          · exact hd x hm
          · simp only [List.mem_singleton] at hm
            rw [hm, hb, ht c (List.mem_cons_self _ _)]
            simp

/-- After startup the simulation holds exactly the ids the pool was created
with and every `ready_list` is empty. -/
theorem start_frame (cf : sim_conf) (t0 : Int) (s : sim_state) (h : start cf t0 = some s) :
    global_ids s = ids (pool.init cf.pool_conf).free ∧ ∀ c ∈ s.capuches, c.ready_list = [] := by
  unfold start at h
  split_ifs at h
  dsimp only at h
  obtain ⟨f1, f2, f3⟩ := start_phase1_frame cf t0 (List.range cf.ncapuch.toNat)
    (pool.init cf.pool_conf) []
  cases h2 : start_phase2 cf
      (start_phase1 cf t0 (List.range cf.ncapuch.toNat) (pool.init cf.pool_conf) []).2
      (start_phase1 cf t0 (List.range cf.ncapuch.toNat) (pool.init cf.pool_conf) []).1 [] with
  | none => rw [h2] at h; cases h
  | some r =>
    obtain ⟨p2, cs⟩ := r
    rw [h2] at h
    simp only [Option.some.injEq] at h
    subst h
    obtain ⟨g1, g2⟩ := start_phase2_frame cf _ _ [] p2 cs h2
    constructor
    · unfold global_ids
      dsimp only
      rw [g1, f1, f2]
      simp
    · exact g2 (f3 (by simp)) (by simp)

/-- The list of all ids, as a multiset, is `global_ids`. -/
theorem all_ids_coe (s : sim_state) : ((all_ids s : List Int) : Multiset Int) = global_ids s := by
  have hflat : ∀ l : List capuch,
      ids ((l.map held).flatten) = (l.map (fun c => ids (held c))).sum := by
    intro l
    induction l with
    | nil => rfl
    | cons c cs ih => simp only [List.map_cons, List.flatten_cons, ids_append, List.sum_cons, ih]
  unfold all_ids global_ids
  rw [← hflat, ← ids_append]
  rfl

/-- The ids the pool is created with, as a multiset. -/
theorem initial_ids_coe (cf : sim_conf) :
    ((initial_ids cf : List Int) : Multiset Int) = ids (pool.init cf.pool_conf).free := by
  simp [initial_ids, ids, pool.init, List.map_map, Function.comp_def]

/-- Conservation as a multiset equality, in every reachable state. -/
theorem reachable_global_ids (cf : sim_conf) (s : sim_state) (h : Reachable cf s) :
    global_ids s = ids (pool.init cf.pool_conf).free := by
  induction h with
  | init t0 s hs => exact (start_frame cf t0 s hs).1
  | step s s1 i o now _ hstep ih => rw [sim_step_global_ids cf s s1 i o now hstep, ih]

/-- Batch order of every worker, in every reachable state. -/
theorem reachable_batch_ordered (cf : sim_conf) (s : sim_state) (h : Reachable cf s) :
    ∀ c ∈ s.capuches, batch_ordered c := by
  induction h with
  | init t0 s hs =>
    intro c hc
    have hrl := (start_frame cf t0 s hs).2 c hc
    unfold batch_ordered
    rw [hrl]
    simp [tags]
  | step s s1 i o now _ hstep ih => exact sim_step_batch_ordered cf s s1 i o now hstep ih

/-- A run of steps from a reachable state ends in a reachable state. -/
theorem reachable_run_steps (cf : sim_conf) :
    ∀ (l : List (Nat × worker_op × Int)) (s s1 : sim_state),
      Reachable cf s → run_steps cf s l = some s1 → Reachable cf s1 := by
  intro l
  induction l with
  | nil =>
    intro s s1 hr h
    simp only [run_steps, Option.some.injEq] at h
    exact h ▸ hr
  | cons x xs ih =>
    intro s s1 hr h
    obtain ⟨i, o, now⟩ := x
    unfold run_steps at h
    cases hs : sim_step cf s i o now with
    | none => rw [hs] at h; cases h
    | some s2 =>
      rw [hs] at h
      exact ih s2 s1 (Reachable.step s s2 i o now hr hs) h

/-- The ids the pool is created with are `0 .. total_rsc - 1`, each once. -/
theorem count_initial_ids (cf : sim_conf) (x : Int) :
    (initial_ids cf).count x = if 0 ≤ x ∧ x < cf.pool_conf.total_rsc then 1 else 0 := by
  have hnd : (initial_ids cf).Nodup := by
    unfold initial_ids
    exact List.Nodup.map (fun a b hab => by exact_mod_cast hab) (List.nodup_range _)
  have hmem : x ∈ initial_ids cf ↔ (0 ≤ x ∧ x < cf.pool_conf.total_rsc) := by
    unfold initial_ids
    simp only [List.mem_map, List.mem_range]
    constructor
    · rintro ⟨i, hi, rfl⟩
      omega
    · rintro ⟨h0, h1⟩
      exact ⟨x.toNat, by omega, by omega⟩
  split_ifs with h
  · exact List.count_eq_one_of_mem hnd (hmem.mpr h)
  · exact List.count_eq_zero_of_not_mem (fun hm => h (hmem.mp hm))

/-- C1: conservation.  In every state reachable from startup by worker
operations (`sync_quota`, `on_ready`, `on_flush_start`, `on_flush_finish`,
`on_timeout`, `inc_greed`, `dec_greed`, by any worker, at any clock reading),
the ids found in the pool free list and in every worker's `free_list`,
`ready_list` and active slot are a rearrangement of `0 .. total_rsc - 1`:
each of these ids occurs exactly once, no other id occurs, and the total
count is `total_rsc` (zero resources exist when `total_rsc` is negative). -/
theorem conservation (cf : sim_conf) (s : sim_state) (h : Reachable cf s) :
    (all_ids s).Perm (initial_ids cf) ∧
    (∀ x : Int, (all_ids s).count x = if 0 ≤ x ∧ x < cf.pool_conf.total_rsc then 1 else 0) ∧
    ((all_ids s).length : Int) = max cf.pool_conf.total_rsc 0 := by
  have hperm : (all_ids s).Perm (initial_ids cf) := by
    apply Multiset.coe_eq_coe.mp
    rw [all_ids_coe, initial_ids_coe]
    exact reachable_global_ids cf s h
  refine ⟨hperm, fun x => ?_, ?_⟩
  · rw [hperm.count_eq x]
    exact count_initial_ids cf x
  · rw [hperm.length_eq]
    simp only [initial_ids, List.length_map, List.length_range]
    omega

/-- Witness for `conservation`: two workers on eight resources, after startup
and three `on_ready` events. -/
theorem conservation_witness :
    Reachable two_conf two_after_three ∧
    (all_ids two_after_three).Perm (initial_ids two_conf) ∧
    (∀ x : Int, (all_ids two_after_three).count x = if 0 ≤ x ∧ x < 8 then 1 else 0) ∧
    ((all_ids two_after_three).length : Int) = 8 :=
  have hr : Reachable two_conf two_after_three :=
    reachable_run_steps two_conf [(0, .on_ready, 5), (1, .on_ready, 6), (0, .on_ready, 7)]
      two_started two_after_three (Reachable.init 0 two_started (by decide)) (by decide)
  ⟨hr, conservation two_conf two_after_three hr⟩

/-- C10: batch ordering.  In every state reachable from startup by worker
operations, the batch tags of every worker's `ready_list`, read front to
back, are non-decreasing. -/
theorem batch_ordering (cf : sim_conf) (s : sim_state) (h : Reachable cf s) :
    ∀ c ∈ s.capuches, (tags c.ready_list).Pairwise (· ≤ ·) :=
  fun c hc => (reachable_batch_ordered cf s h c hc).1

/-- Witness for `batch_ordering`: worker 0 after three `on_ready`, a flush
started by `on_timeout` and one more `on_ready` has the tags `[0, 0, 1]`. -/
theorem batch_ordering_witness :
    Reachable two_conf two_after_flush ∧
    two_after_flush.capuches.map (fun c => tags c.ready_list) = [[0, 0, 1], []] ∧
    ∀ c ∈ two_after_flush.capuches, (tags c.ready_list).Pairwise (· ≤ ·) :=
  have hr : Reachable two_conf two_after_flush :=
    reachable_run_steps two_conf
      [(0, .on_ready, 5), (0, .on_ready, 6), (0, .on_ready, 7), (0, .on_timeout, 8),
       (0, .on_ready, 9)]
      two_started two_after_flush (Reachable.init 0 two_started (by decide)) (by decide)
  ⟨hr, by decide, batch_ordering two_conf two_after_flush hr⟩

/-! ## on_flush_finish and on_flush_start -/

/-- The reclaim loop moves the longest front segment of `ready_list` whose
tags equal `e` to the back of `free_list`, in order. -/
theorem reclaim_eq (e : Int) :
    ∀ (rl fl : List resource),
      reclaim e rl fl
        = (rl.dropWhile (fun r => decide (r.batch_id = e)),
           fl ++ rl.takeWhile (fun r => decide (r.batch_id = e))) := by
  intro rl
  induction rl with
  | nil => intro fl; simp [reclaim]
  | cons r rs ih =>
    intro fl
    unfold reclaim
    split_ifs with ht
    · rw [ih (fl ++ [r])]
      simp [ht]
    · simp [ht]

/-- C11 as stated fails: a flushing worker whose `flush_finish` is 10 ns,
asked to finish the flush at 5 ns, hits `assert(now >= flush_finish)`. -/
theorem on_flush_finish_counterexample :
    flushing_capuch.flushing = true ∧ on_flush_finish 5 flushing_capuch = none := by
  decide

/-- C11 (amended): for every worker state with `flushing = true`, called at a
time `now ≥ flush_finish`, `on_flush_finish` returns; it removes from
`ready_list` exactly its longest front segment of entries tagged
`batch_id - 1`, appends them in the same order to the back of `free_list`,
leaves the other `ready_list` entries, `active_rsc`, `batch_id`, `batch_size`
and every other field unchanged (so `nbufs()` is unchanged) and sets
`flushing = false`. -/
theorem on_flush_finish_reclaim (now : Int) (c : capuch)
    (hf : c.flushing = true) (ht : c.flush_finish ≤ now) :
    on_flush_finish now c
      = some { c with
          ready_list := c.ready_list.dropWhile (fun r => decide (r.batch_id = c.batch_id - 1)),
          free_list := c.free_list
            ++ c.ready_list.takeWhile (fun r => decide (r.batch_id = c.batch_id - 1)),
          flushing := false } ∧
    nbufs { c with
          ready_list := c.ready_list.dropWhile (fun r => decide (r.batch_id = c.batch_id - 1)),
          free_list := c.free_list
            ++ c.ready_list.takeWhile (fun r => decide (r.batch_id = c.batch_id - 1)),
          flushing := false } = nbufs c := by
  constructor
  · unfold on_flush_finish
    have h1 : ¬ (now < c.flush_finish) := by omega
    simp only [if_neg h1, hf, Bool.not_true, Bool.false_eq_true, if_false]
    rw [reclaim_eq]
  · have hlen := congrArg List.length
      (List.takeWhile_append_dropWhile (fun r => decide (r.batch_id = c.batch_id - 1))
        c.ready_list)
    simp only [List.length_append] at hlen
    simp only [nbufs, List.length_append]
    omega

/-- Witness for `on_flush_finish_reclaim`: the flushing worker at 10 ns gets
its two entries of batch 0 back on `free_list`. -/
theorem on_flush_finish_reclaim_witness :
    (on_flush_finish 10 flushing_capuch).map
        (fun c => (c.free_list, c.ready_list, c.active_rsc, c.flushing, c.batch_id, c.batch_size))
      = some ([res 0, { id := 1, batch_id := 0 }, { id := 2, batch_id := 0 }],
              [{ id := 3, batch_id := 1 }], some (res 4), false, 1, 1) :=
  (congrArg (Option.map (fun c : capuch =>
      (c.free_list, c.ready_list, c.active_rsc, c.flushing, c.batch_id, c.batch_size)))
    (on_flush_finish_reclaim 10 flushing_capuch (by decide) (by decide)).1).trans (by decide)

/-- `add_jobs` returns for every non-zero `consume_per_second` (a `long`) and
every non-negative `count` (an `int`); the new clock is neither before the
clock reading nor before the old clock. -/
theorem add_jobs_returns (dcf : disk_conf) (now : Int) (d : disk_sim) (count : Int)
    (hc0 : 0 ≤ count) (hc31 : count < 2 ^ 31)
    (hs : dcf.consume_per_second ≠ 0)
    (hs0 : -2 ^ 63 ≤ dcf.consume_per_second) (hs63 : dcf.consume_per_second < 2 ^ 63) :
    ∃ fin, add_jobs dcf now d count = some (fin, { expected_finish := fin }) ∧
      now ≤ fin ∧ d.expected_finish ≤ fin := by
  have e1 : ((to_u64 count : Nat) : Int) = count := to_u64_eq hc0 (by omega)
  have hne : to_u64 dcf.consume_per_second ≠ 0 := by
    unfold to_u64
    intro h0
    have hmod : dcf.consume_per_second % 2 ^ 64 = 0 := by
      have hnn : 0 ≤ dcf.consume_per_second % 2 ^ 64 := Int.emod_nonneg _ (by norm_num)
      omega
    omega
  have hlt : 1000000000 * to_u64 count < 2 ^ 64 := by omega
  have hq : (1000000000 * to_u64 count) % 2 ^ 64 / to_u64 dcf.consume_per_second
      ≤ 1000000000 * to_u64 count := by
    rw [Nat.mod_eq_of_lt hlt]
    exact Nat.div_le_self _ _
  unfold add_jobs
  simp only [if_neg hne]
  generalize (1000000000 * to_u64 count) % 2 ^ 64 / to_u64 dcf.consume_per_second = q at hq
  have hdur : to_i64 (q : Int) = (q : Int) := to_i64_eq (by omega) (by omega)
  rw [hdur]
  refine ⟨_, rfl, ?_, ?_⟩ <;> split_ifs <;> omega

/-- C12 as stated fails: with `consume_per_second = 0` the division inside
`add_jobs` is by zero, so `on_flush_start` on a worker with `flushing = false`,
`flush_ready = true` and `batch_size = 3` does not complete. -/
theorem on_flush_start_counterexample :
    ready_capuch.flushing = false ∧ ready_capuch.flush_ready = true ∧
    0 < ready_capuch.batch_size ∧
    on_flush_start { consume_per_second := 0 } 0 { expected_finish := 0 } ready_capuch = none := by
  decide

/-- C12 (amended): for every worker state with `flushing = false`,
`flush_ready = true` and `batch_size = b > 0` (an `int`), and a disk
configuration with `consume_per_second ≠ 0` (a `long`), `on_flush_start`
returns: `add_jobs(b)` returns a completion time `fin ≥ now` and the disk
queue after it; `batch_id` is increased by exactly 1, `flush_ready = false`,
`flushing = true`, `flush_start = now`, `flush_finish = fin`, `batch_size = 0`,
and `free_list`, `ready_list`, `active_rsc`, `greed`, `priority` and every
other field are unchanged. -/
theorem on_flush_start_transition (dcf : disk_conf) (now : Int) (d : disk_sim) (c : capuch)
    (hf : c.flushing = false) (hr : c.flush_ready = true)
    (hb0 : 0 < c.batch_size) (hb31 : c.batch_size < 2 ^ 31)
    (hs : dcf.consume_per_second ≠ 0)
    (hs0 : -2 ^ 63 ≤ dcf.consume_per_second) (hs63 : dcf.consume_per_second < 2 ^ 63) :
    ∃ fin d1, add_jobs dcf now d c.batch_size = some (fin, d1) ∧ now ≤ fin ∧
      on_flush_start dcf now d c
        = some (d1, { c with batch_id := c.batch_id + 1, flush_ready := false, flushing := true,
                             flush_start := now, flush_finish := fin, batch_size := 0 }) := by
  obtain ⟨fin, hadd, hge, _⟩ := add_jobs_returns dcf now d c.batch_size (by omega) hb31 hs hs0 hs63
  refine ⟨fin, _, hadd, hge, ?_⟩
  unfold on_flush_start
  have hb : ¬ (c.batch_size = 0) := by omega
  simp only [hf, hr, Bool.false_eq_true, if_false, Bool.not_true, if_neg hb, hadd]

/-- Witness for `on_flush_start_transition`: three entries submitted at
100 ns to an idle disk with `consume_per_second = 10`. -/
theorem on_flush_start_transition_witness :
    ∃ fin d1, add_jobs { consume_per_second := 10 } 100 { expected_finish := 0 }
        ready_capuch.batch_size = some (fin, d1) ∧ 100 ≤ fin ∧
      on_flush_start { consume_per_second := 10 } 100 { expected_finish := 0 } ready_capuch
        = some (d1, { ready_capuch with batch_id := 1, flush_ready := false, flushing := true,
                                        flush_start := 100, flush_finish := fin,
                                        batch_size := 0 }) :=
  on_flush_start_transition { consume_per_second := 10 } 100 { expected_finish := 0 } ready_capuch
    (by decide) (by decide) (by decide) (by decide) (by decide) (by decide) (by decide)

/-! ## on_ready: batching and acquisition -/

/-- `inc_greed` leaves the batching and flush fields, the priority and the
lost-buffer counter alone. -/
theorem inc_greed_fields (cf : pool_conf) (p : pool) (c : capuch) :
    (inc_greed cf p c).2.batch_size = c.batch_size ∧
    (inc_greed cf p c).2.flush_ready = c.flush_ready ∧
    (inc_greed cf p c).2.flushing = c.flushing ∧
    (inc_greed cf p c).2.priority = c.priority ∧
    (inc_greed cf p c).1.bufs_lost = p.bufs_lost := by
  unfold inc_greed
  dsimp only
  split_ifs <;> simp

/-- `dec_greed` leaves the batching and flush fields, the priority and the
lost-buffer counter alone. -/
theorem dec_greed_fields (cf : pool_conf) (p : pool) (c : capuch) :
    (dec_greed cf p c).2.batch_size = c.batch_size ∧
    (dec_greed cf p c).2.flush_ready = c.flush_ready ∧
    (dec_greed cf p c).2.flushing = c.flushing ∧
    (dec_greed cf p c).2.priority = c.priority ∧
    (dec_greed cf p c).1.bufs_lost = p.bufs_lost := by
  unfold dec_greed
  dsimp only
  split_ifs <;> simp

/-- A successful `sync_quota` leaves the batching and flush fields, greed,
priority, `total_pressure` and the lost-buffer counter alone. -/
theorem sync_quota_fields (cf : pool_conf) (p p1 : pool) (c c1 : capuch)
    (h : sync_quota cf p c = some (p1, c1)) :
    c1.batch_size = c.batch_size ∧ c1.flush_ready = c.flush_ready ∧
    c1.flushing = c.flushing ∧ c1.priority = c.priority ∧ c1.greed = c.greed ∧
    p1.total_pressure = p.total_pressure ∧ p1.bufs_lost = p.bufs_lost := by
  obtain ⟨m, a, b, rfl, rfl⟩ := sync_quota_some cf p p1 c c1 h
  exact ⟨rfl, rfl, rfl, rfl, rfl, rfl, rfl⟩

/-- First block of `on_ready`: batch size, flush flag and the fields it does
not touch. -/
theorem on_ready_push_fields (cf : pool_conf) (c : capuch) :
    (on_ready_push cf c).batch_size
      = c.batch_size + (if c.active_rsc.isSome then 1 else 0) ∧
    ((on_ready_push cf c).flush_ready = true ↔
      (c.flush_ready = true ∨ cf.flush_size ≤ (on_ready_push cf c).batch_size)) ∧
    (on_ready_push cf c).flushing = c.flushing ∧
    (on_ready_push cf c).priority = c.priority ∧
    (on_ready_push cf c).greed = c.greed := by
  unfold on_ready_push
  cases hact : c.active_rsc with
  | none =>
    by_cases h : cf.flush_size ≤ c.batch_size
    · simp [h]
    · simp [h]
  | some a =>
    by_cases h : cf.flush_size ≤ c.batch_size + 1
    · simp [h]
    · simp [h]

/-- Second block of `on_ready`: which branch is taken and what it leaves alone. -/
theorem on_ready_acquire_fields (cf : pool_conf) (p : pool) (c2 : capuch) :
    (on_ready_acquire cf p c2).2.2.batch_size = c2.batch_size ∧
    (on_ready_acquire cf p c2).2.2.flush_ready = c2.flush_ready ∧
    (on_ready_acquire cf p c2).2.2.flushing = c2.flushing ∧
    (on_ready_acquire cf p c2).2.2.priority = c2.priority ∧
    (on_ready_acquire cf p c2).2.1.bufs_lost = p.bufs_lost ∧
    (c2.free_list ≠ [] →
      (on_ready_acquire cf p c2).1 = false ∧
      (on_ready_acquire cf p c2).2.1 = p ∧
      (on_ready_acquire cf p c2).2.2.active_rsc = c2.free_list.head?) ∧
    (c2.free_list = [] →
      (on_ready_acquire cf p c2).1 = true ∧
      (on_ready_acquire cf p c2).2 = inc_greed cf p c2) := by
  unfold on_ready_acquire
  cases hfl : c2.free_list with
  | nil =>
    obtain ⟨f1, f2, f3, f4, f5⟩ := inc_greed_fields cf p c2
    exact ⟨f1, f2, f3, f4, f5, fun h => absurd rfl h, fun _ => ⟨rfl, rfl⟩⟩
  | cons r fs =>
    exact ⟨rfl, rfl, rfl, rfl, rfl, fun _ => ⟨rfl, rfl, rfl⟩, fun h => (by cases h)⟩

/-- Third block of `on_ready`: what it leaves alone. -/
theorem on_ready_sync_fields (cf : pool_conf) (p3 p4 : pool) (c3 c4 : capuch)
    (h : on_ready_sync cf p3 c3 = some (p4, c4)) :
    c4.batch_size = c3.batch_size ∧ c4.flush_ready = c3.flush_ready ∧
    c4.flushing = c3.flushing ∧ c4.priority = c3.priority ∧ c4.greed = c3.greed ∧
    p4.total_pressure = p3.total_pressure ∧ p4.bufs_lost = p3.bufs_lost := by
  unfold on_ready_sync at h
  split_ifs at h with hne
  · exact sync_quota_fields cf p3 p4 c3 c4 h
  · simp only [Option.some.injEq, Prod.mk.injEq] at h
    obtain ⟨rfl, rfl⟩ := h
    exact ⟨rfl, rfl, rfl, rfl, rfl, rfl, rfl⟩

/-- Last block of `on_ready`: the three ways it can return. -/
theorem on_ready_retry_cases (had : Bool) (p4 p5 : pool) (c4 c5 : capuch)
    (h : on_ready_retry had p4 c4 = some (p5, c5)) :
    c5.batch_size = c4.batch_size ∧ c5.flushing = c4.flushing ∧ c5.priority = c4.priority ∧
    c5.greed = c4.greed ∧ p5.total_pressure = p4.total_pressure ∧
    c5.active_rsc.isSome = true ∧
    (c4.flush_ready = true → c5.flush_ready = true) ∧
    (had = false → p5 = p4 ∧ c5 = c4) ∧
    (had = true → c4.free_list ≠ [] →
      p5 = p4 ∧ c5.active_rsc = c4.free_list.head? ∧ c5.flush_ready = c4.flush_ready) ∧
    (had = true → c4.free_list = [] →
      c4.ready_list ≠ [] ∧ p5.bufs_lost = p4.bufs_lost + 1 ∧ c5.flush_ready = true ∧
      c5.active_rsc = c4.ready_list.head?) := by
  unfold on_ready_retry at h
  cases had with
  | false =>
    simp only [Bool.false_eq_true, if_false] at h
    split_ifs at h with hs
    simp only [Option.some.injEq, Prod.mk.injEq] at h
    obtain ⟨rfl, rfl⟩ := h
    exact ⟨rfl, rfl, rfl, rfl, rfl, hs, fun hh => hh, fun _ => ⟨rfl, rfl⟩,
      fun hh => (by cases hh), fun hh => (by cases hh)⟩
  | true =>
    simp only [if_true] at h
    cases hfl : c4.free_list with
    | cons r fs =>
      simp only [hfl, Option.isSome_some, if_true, Option.some.injEq, Prod.mk.injEq] at h
      obtain ⟨rfl, rfl⟩ := h
      exact ⟨rfl, rfl, rfl, rfl, rfl, rfl, fun hh => hh, fun hh => (by cases hh),
        fun _ _ => ⟨rfl, rfl, rfl⟩, fun _ hh => (by cases hh)⟩
    | nil =>
      cases hrl : c4.ready_list with
      | nil => simp [hfl, hrl] at h
      | cons r rs =>
        simp only [hfl, hrl, Option.isSome_some, if_true, Option.some.injEq, Prod.mk.injEq] at h
        obtain ⟨rfl, rfl⟩ := h
        exact ⟨rfl, rfl, rfl, rfl, rfl, rfl, fun _ => rfl, fun hh => (by cases hh),
          fun _ hh => absurd rfl hh, fun _ _ => ⟨(by simp), rfl, rfl, rfl⟩⟩

/-- A successful `on_ready` went through its sync and retry blocks. -/
theorem on_ready_some (cf : pool_conf) (p p1 : pool) (c c1 : capuch)
    (h : on_ready cf p c = some (p1, c1)) :
    ∃ p4 c4,
      on_ready_sync cf (on_ready_acquire cf p (on_ready_push cf c)).2.1
        (on_ready_acquire cf p (on_ready_push cf c)).2.2 = some (p4, c4) ∧
      on_ready_retry (on_ready_acquire cf p (on_ready_push cf c)).1 p4 c4 = some (p1, c1) := by
  rw [on_ready_blocks] at h
  cases hs : on_ready_sync cf (on_ready_acquire cf p (on_ready_push cf c)).2.1
      (on_ready_acquire cf p (on_ready_push cf c)).2.2 with
  | none => rw [hs] at h; cases h
  | some pc =>
    obtain ⟨p4, c4⟩ := pc
    rw [hs] at h
    exact ⟨p4, c4, rfl, h⟩

/-- What every successful `on_ready` does to the batching fields. -/
theorem on_ready_effect (cf : pool_conf) (p p1 : pool) (c c1 : capuch)
    (h : on_ready cf p c = some (p1, c1)) :
    c1.batch_size = c.batch_size + (if c.active_rsc.isSome then 1 else 0) ∧
    (c.flush_ready = true ∨ cf.flush_size ≤ c1.batch_size → c1.flush_ready = true) ∧
    c1.batch_id = c.batch_id ∧ c1.flushing = c.flushing ∧ c1.priority = c.priority ∧
    c1.active_rsc.isSome = true := by
  obtain ⟨p4, c4, hs, hr⟩ := on_ready_some cf p p1 c c1 h
  obtain ⟨a1, a2, a3, a4, _⟩ := on_ready_push_fields cf c
  obtain ⟨b1, b2, b3, b4, _⟩ := on_ready_acquire_fields cf p (on_ready_push cf c)
  obtain ⟨s1, s2, s3, s4, _⟩ := on_ready_sync_fields cf _ p4 _ c4 hs
  obtain ⟨r1, r2, r3, _, _, r4, r5, _⟩ := on_ready_retry_cases _ p4 p1 c4 c1 hr
  have hbs : c1.batch_size = (on_ready_push cf c).batch_size := by rw [r1, s1, b1]
  refine ⟨by rw [hbs, a1], ?_, (on_ready_frame cf p p1 c c1 h).2.2, by rw [r2, s3, b3, a3],
    by rw [r3, s4, b4, a4], r4⟩
  intro hor
  apply r5
  rw [s2, b2]
  rw [hbs] at hor
  exact a2.mpr hor

/-- C13: the batching step of `on_ready`.  The first block of the event (it
always runs and always returns) increases `batch_size` by exactly 1 when an
active resource is present on entry and by 0 otherwise, tags that resource
with the current `batch_id` and appends it at the back of `ready_list`, sets
`flush_ready = true` when the resulting `batch_size ≥ flush_size`, does not
reset `flush_ready` and does not change `batch_id`.  Whenever the whole event
returns, the same holds on exit for `batch_size`, `flush_ready` and
`batch_id`, and the `ready_list` on exit is the extended list, possibly
shortened from the front by the quota synchronisation or the steal. -/
theorem on_ready_batching (cf : pool_conf) (p : pool) (c : capuch) :
    ((on_ready_push cf c).batch_size
        = c.batch_size + (if c.active_rsc.isSome then 1 else 0) ∧
      (on_ready_push cf c).ready_list
        = c.ready_list
          ++ c.active_rsc.toList.map (fun a : resource => { a with batch_id := c.batch_id }) ∧
      (on_ready_push cf c).active_rsc = none ∧
      (cf.flush_size ≤ (on_ready_push cf c).batch_size →
        (on_ready_push cf c).flush_ready = true) ∧
      (c.flush_ready = true → (on_ready_push cf c).flush_ready = true) ∧
      (on_ready_push cf c).batch_id = c.batch_id) ∧
    (∀ p1 c1, on_ready cf p c = some (p1, c1) →
      c1.batch_size = c.batch_size + (if c.active_rsc.isSome then 1 else 0) ∧
      (cf.flush_size ≤ c1.batch_size → c1.flush_ready = true) ∧
      (c.flush_ready = true → c1.flush_ready = true) ∧
      c1.batch_id = c.batch_id ∧
      ∃ b, c1.ready_list = (c.ready_list
        ++ c.active_rsc.toList.map (fun a : resource => { a with batch_id := c.batch_id })).drop b) := by
  obtain ⟨a1, a2, _⟩ := on_ready_push_fields cf c
  obtain ⟨f1, _, f3, f4⟩ := on_ready_push_frame cf c
  refine ⟨⟨a1, f4, f1, fun h => a2.mpr (Or.inr h), fun h => a2.mpr (Or.inl h), f3⟩, ?_⟩
  intro p1 c1 h
  obtain ⟨e1, e2, e3, _⟩ := on_ready_effect cf p p1 c c1 h
  exact ⟨e1, fun hh => e2 (Or.inr hh), fun hh => e2 (Or.inl hh), e3, (on_ready_frame cf p p1 c c1 h).2.1⟩

/-- Witness for `on_ready_batching`: `over_capuch` (one free, four ready, one
active, `batch_size = 0`) with quota 4: the event returns with
`batch_size = 1` and the tagged resource at the back of a `ready_list`
that lost its two oldest entries to the pool. -/
theorem on_ready_batching_witness :
    on_ready eight_conf (bare_pool 40) over_capuch = some over_after_ready ∧
    over_after_ready.2.batch_size = 1 ∧ over_after_ready.2.batch_id = 0 ∧
    over_after_ready.2.ready_list = [res 3, res 4, res 5] :=
  have h : on_ready eight_conf (bare_pool 40) over_capuch
      = some (over_after_ready.1, over_after_ready.2) := by decide
  have hb := (on_ready_batching eight_conf (bare_pool 40) over_capuch).2 _ _ h
  ⟨h, hb.1.trans (by decide), hb.2.2.2.1.trans (by decide), by decide⟩

/-- Where the new active resource of a successful `on_ready` comes from and
what happens to the lost-buffer counter. -/
theorem on_ready_acquisition (cf : pool_conf) (p p1 : pool) (c c1 : capuch)
    (h : on_ready cf p c = some (p1, c1)) :
    (c.free_list ≠ [] → p1.bufs_lost = p.bufs_lost ∧ c1.active_rsc = c.free_list.head?) ∧
    (c.free_list = [] →
      ∃ p4 c4,
        on_ready_sync cf (inc_greed cf p (on_ready_push cf c)).1
          (inc_greed cf p (on_ready_push cf c)).2 = some (p4, c4) ∧
        (c4.free_list = [] →
          c4.ready_list ≠ [] ∧ p1.bufs_lost = p.bufs_lost + 1 ∧ c1.flush_ready = true ∧
          c1.active_rsc = c4.ready_list.head?) ∧
        (c4.free_list ≠ [] →
          p1.bufs_lost = p.bufs_lost ∧ c1.active_rsc = c4.free_list.head?)) := by
  obtain ⟨p4, c4, hs, hr⟩ := on_ready_some cf p p1 c c1 h
  obtain ⟨_, hfl, _, _⟩ := on_ready_push_frame cf c
  obtain ⟨_, _, _, _, b5, b6, b7⟩ := on_ready_acquire_fields cf p (on_ready_push cf c)
  obtain ⟨_, _, _, _, _, _, s7⟩ := on_ready_sync_fields cf _ p4 _ c4 hs
  obtain ⟨_, _, hact, _⟩ := on_ready_sync_frame cf _ p4 _ c4 hs
  obtain ⟨_, _, _, _, _, _, _, r8, r9, r10⟩ := on_ready_retry_cases _ p4 p1 c4 c1 hr
  constructor
  · intro hne
    obtain ⟨hfalse, _, hhead⟩ := b6 (by rw [hfl]; exact hne)
    obtain ⟨rfl, rfl⟩ := r8 hfalse
    exact ⟨by rw [s7, b5], by rw [hact, hhead, hfl]⟩
  · intro hnil
    obtain ⟨htrue, hinc⟩ := b7 (by rw [hfl]; exact hnil)
    rw [hinc] at hs
    refine ⟨p4, c4, hs, ?_, ?_⟩
    · intro h4
      obtain ⟨q1, q2, q3, q4⟩ := r10 htrue h4
      exact ⟨q1, by rw [q2, s7, b5], q3, q4⟩
    · intro h4
      obtain ⟨q1, q2, _⟩ := r9 htrue h4
      exact ⟨by rw [q1, s7, b5], q2⟩

/-- C15: the starvation steal in `on_ready`.  For every `on_ready` that
returns: if `free_list` is non-empty at acquisition time (it is the
`free_list` on entry), `bufs_lost` is unchanged and the new active resource is
the front of `free_list`; if it is empty, then after `inc_greed()` and the
quota synchronisation either `free_list` is still empty, and then `bufs_lost`
is incremented by exactly 1, `flush_ready` is forced to true and the front of
`ready_list` becomes the new active resource, or `free_list` is non-empty, and
then `bufs_lost` is unchanged and the new active resource is the front of
`free_list`. -/
theorem on_ready_steal (cf : pool_conf) (p p1 : pool) (c c1 : capuch)
    (h : on_ready cf p c = some (p1, c1)) :
    (c.free_list ≠ [] → p1.bufs_lost = p.bufs_lost ∧ c1.active_rsc = c.free_list.head?) ∧
    (c.free_list = [] →
      ∃ p4 c4,
        on_ready_sync cf (inc_greed cf p (on_ready_push cf c)).1
          (inc_greed cf p (on_ready_push cf c)).2 = some (p4, c4) ∧
        (c4.free_list = [] →
          c4.ready_list ≠ [] ∧ p1.bufs_lost = p.bufs_lost + 1 ∧ c1.flush_ready = true ∧
          c1.active_rsc = c4.ready_list.head?) ∧
        (c4.free_list ≠ [] →
          p1.bufs_lost = p.bufs_lost ∧ c1.active_rsc = c4.free_list.head?)) :=
  on_ready_acquisition cf p p1 c c1 h

/-- Witness for `on_ready_steal`: `starved_capuch` (nothing free, two ready,
one active) with quota 4, greed at its maximum and an empty pool free list:
the oldest ready entry is taken back, `bufs_lost` becomes 1 and `flush_ready`
is set. -/
theorem on_ready_steal_witness :
    on_ready eight_conf (bare_pool 40) starved_capuch = some starved_after_ready ∧
    starved_after_ready.1.bufs_lost = 1 ∧ starved_after_ready.2.flush_ready = true ∧
    starved_after_ready.2.active_rsc = some (res 1) := by
  have h : on_ready eight_conf (bare_pool 40) starved_capuch
      = some (starved_after_ready.1, starved_after_ready.2) := by decide
  obtain ⟨p4, c4, hs, hsteal, _⟩ := (on_ready_steal eight_conf (bare_pool 40)
    starved_after_ready.1 starved_capuch starved_after_ready.2 h).2 (by decide)
  have hx : on_ready_sync eight_conf
      (inc_greed eight_conf (bare_pool 40) (on_ready_push eight_conf starved_capuch)).1
      (inc_greed eight_conf (bare_pool 40) (on_ready_push eight_conf starved_capuch)).2
      = some ({ (inc_greed eight_conf (bare_pool 40)
                  (on_ready_push eight_conf starved_capuch)).1
                with locks_taken := 1, free := [] },
              { (inc_greed eight_conf (bare_pool 40)
                  (on_ready_push eight_conf starved_capuch)).2
                with free_list := [] }) := by decide
  rw [hx] at hs
  simp only [Option.some.injEq, Prod.mk.injEq] at hs
  have hfree : c4.free_list = [] := by rw [← hs.2]
  obtain ⟨_, q2, q3, _⟩ := hsteal hfree
  exact ⟨h, q2.trans (by decide), q3, by decide⟩

/-! ## Workers right after startup -/

/-- Phase 1 of startup creates fresh workers. -/
theorem start_phase1_fresh (cf : sim_conf) (t0 : Int) :
    ∀ (is : List Nat) (p : pool) (cs : List capuch),
      (∀ c ∈ cs, fresh_worker c ∧ c.free_list = []) →
      ∀ c ∈ (start_phase1 cf t0 is p cs).2, fresh_worker c ∧ c.free_list = [] := by
  intro is
  induction is with
  | nil => intro p cs h; exact h
  | cons i is ih =>
    intro p cs h
    unfold start_phase1
    dsimp only
    apply ih
    intro c hc
    rcases List.mem_append.mp hc with hm | hm
    · exact h c hm
    · simp only [List.mem_singleton] at hm
      obtain ⟨f1, f2, f3, f4, f5⟩ := inc_greed_frame cf.pool_conf p (capuch.init (i : Int) t0)
      obtain ⟨g1, g2, g3, g4, _⟩ := inc_greed_fields cf.pool_conf p (capuch.init (i : Int) t0)
      rw [hm]
      exact ⟨⟨by rw [f3]; rfl, by rw [f4]; rfl, by rw [g1]; rfl, by rw [f5]; rfl, by rw [g2]; rfl,
        by rw [g3]; rfl, by rw [g4]; rfl⟩, by rw [f2]; rfl⟩

/-- A successful `sync_quota` of a fresh worker holding nothing is a grant:
the worker stays fresh and ends with at most `quota()` resources. -/
theorem sync_quota_fresh (cf : pool_conf) (p p1 : pool) (c c1 : capuch)
    (hf : fresh_worker c) (hfl : c.free_list = [])
    (h : sync_quota cf p c = some (p1, c1)) :
    fresh_worker c1 ∧ nbufs c1 ≤ quota cf p1 c1 ∧ p1.total_pressure = p.total_pressure := by
  obtain ⟨h1, h2, h3, h4, h5, h6, h7⟩ := hf
  have hn : nbufs c = 0 := by simp [nbufs, hfl, h1, h2]
  rcases lt_trichotomy (quota cf p c) (nbufs c) with hlt | heq | hgt
  · rw [sync_quota_over_none cf p c (by rw [hfl, h1, hn] at *; simpa using hlt)] at h
    cases h
  · rw [sync_quota_at_quota cf p c heq.symm] at h
    cases h
  · generalize hk : (quota cf p c - nbufs c).toNat = k
    have hs := sync_quota_under cf p c k (by omega) (by omega)
    rw [hs] at h
    simp only [Option.some.injEq, Prod.mk.injEq] at h
    obtain ⟨rfl, rfl⟩ := h
    refine ⟨⟨h1, h2, h3, h4, h5, h6, h7⟩, ?_, rfl⟩
    have hq : quota cf { p with locks_taken := p.locks_taken + 1, free := p.free.drop k }
        { c with free_list := c.free_list ++ p.free.take k } = quota cf p c :=
      quota_congr cf _ _ _ _ rfl rfl rfl
    have hnb : nbufs { c with free_list := c.free_list ++ p.free.take k }
        = ((min k p.free.length : Nat) : Int) := by
      simp [nbufs, hfl, h1, h2]
    rw [hq, hnb]
    omega

/-- Phase 2 of startup leaves every worker fresh, with at most `quota()`
resources, all of them on `free_list`. -/
theorem start_phase2_fresh (cf : sim_conf) :
    ∀ (todo : List capuch) (p : pool) (done : List capuch) (p1 : pool) (cs1 : List capuch),
      start_phase2 cf todo p done = some (p1, cs1) →
      (∀ c ∈ todo, fresh_worker c ∧ c.free_list = []) →
      (∀ c ∈ done, fresh_worker c ∧ nbufs c ≤ quota cf.pool_conf p c) →
      ∀ c ∈ cs1, fresh_worker c ∧ nbufs c ≤ quota cf.pool_conf p1 c := by
  intro todo
  induction todo with
  | nil =>
    intro p done p1 cs1 h _ hd
    simp only [start_phase2, Option.some.injEq, Prod.mk.injEq] at h
    obtain ⟨rfl, rfl⟩ := h
    exact hd
  | cons c cs ih =>
    intro p done p1 cs1 h ht hd
    unfold start_phase2 at h
    cases hs : sync_quota cf.pool_conf p c with
    | none => rw [hs] at h; cases h
    | some q =>
      obtain ⟨q1, q2⟩ := q
      rw [hs] at h
      dsimp only at h
      obtain ⟨hc1, hc2⟩ := ht c (List.mem_cons_self _ _)
      obtain ⟨g1, g2, g3⟩ := sync_quota_fresh cf.pool_conf p q1 c q2 hc1 hc2 hs
      apply ih q1 (done ++ [q2]) p1 cs1 h
      · intro x hx; exact ht x (List.mem_cons_of_mem _ hx)
      · intro x hx
        rcases List.mem_append.mp hx with hm | hm
        · obtain ⟨d1, d2⟩ := hd x hm
          exact ⟨d1, by rw [quota_congr cf.pool_conf p q1 x x g3 rfl rfl]; exact d2⟩
        · simp only [List.mem_singleton] at hm
          rw [hm]
          exact ⟨g1, g2⟩

/-- Right after startup every worker is fresh and holds at most `quota()`
resources. -/
theorem start_fresh (cf : sim_conf) (t0 : Int) (s : sim_state) (h : start cf t0 = some s) :
    ∀ c ∈ s.capuches, fresh_worker c ∧ nbufs c ≤ quota cf.pool_conf s.p c := by
  unfold start at h
  split_ifs at h
  dsimp only at h
  cases h2 : start_phase2 cf
      (start_phase1 cf t0 (List.range cf.ncapuch.toNat) (pool.init cf.pool_conf) []).2
      (start_phase1 cf t0 (List.range cf.ncapuch.toNat) (pool.init cf.pool_conf) []).1 [] with
  | none => rw [h2] at h; cases h
  | some r =>
    obtain ⟨p2, cs⟩ := r
    rw [h2] at h
    simp only [Option.some.injEq] at h
    subst h
    exact start_phase2_fresh cf _ _ [] p2 cs h2
      (start_phase1_fresh cf t0 _ _ [] (by simp)) (by simp)

/-! ## Scenario B: filling a batch -/

/-- After `n ≥ 1` successive `on_ready` events the worker has an active
resource and `batch_size` has grown by `n - 1`, plus one if the run started
with an active resource; `flush_ready` is set once `batch_size ≥ flush_size`. -/
theorem ready_run_effect (cf : pool_conf) (n : Nat) (c c1 : capuch)
    (h : ready_run cf n c c1) :
    c1.flushing = c.flushing ∧ c1.batch_id = c.batch_id ∧
    (n = 0 → c1 = c) ∧
    (1 ≤ n →
      c1.active_rsc.isSome = true ∧
      c1.batch_size = c.batch_size + ((n : Int) - 1) + (if c.active_rsc.isSome then 1 else 0) ∧
      (cf.flush_size ≤ c1.batch_size → c1.flush_ready = true)) := by
  induction h with
  | zero c => exact ⟨rfl, rfl, fun _ => rfl, fun h => by omega⟩
  | succ n c c1 c2 p p1 _ hstep ih =>
    obtain ⟨i1, i2, i3, i4⟩ := ih
    obtain ⟨e1, e2, e3, e4, _, e6⟩ := on_ready_effect cf p p1 c1 c2 hstep
    refine ⟨by rw [e4, i1], by rw [e3, i2], fun h => by omega, fun _ => ⟨e6, ?_, fun h => e2 (Or.inr h)⟩⟩
    rcases Nat.eq_zero_or_pos n with h0 | hpos
    · rw [e1, i3 h0, h0]
      push_cast
      ring
    · obtain ⟨j1, j2, _⟩ := i4 hpos
      rw [e1, j2, j1]
      push_cast
      simp only [if_true]
      ring

/-- A successful `on_flush_finish` leaves `batch_size` and `flush_ready` alone. -/
theorem on_flush_finish_fields (now : Int) (c c1 : capuch)
    (h : on_flush_finish now c = some c1) :
    c1.batch_size = c.batch_size ∧ c1.flush_ready = c.flush_ready ∧
    c1.priority = c.priority ∧ c1.greed = c.greed ∧ c1.flushing = false := by
  unfold on_flush_finish at h
  split_ifs at h
  simp only [Option.some.injEq] at h
  subst h
  exact ⟨rfl, rfl, rfl, rfl, rfl⟩

/-- A successful `on_flush_start` resets `batch_size` and the flush flags. -/
theorem on_flush_start_fields (dcf : disk_conf) (now : Int) (d d1 : disk_sim) (c c1 : capuch)
    (h : on_flush_start dcf now d c = some (d1, c1)) :
    c1.batch_size = 0 ∧ c1.flush_ready = false ∧ c1.flushing = true ∧
    c1.priority = c.priority ∧ c1.greed = c.greed ∧
    c.flushing = false ∧ c.flush_ready = true ∧ c.batch_size ≠ 0 := by
  unfold on_flush_start at h
  split_ifs at h with h1 h2 h3
  cases hadd : add_jobs dcf now d c.batch_size with
  | none => rw [hadd] at h; cases h
  | some rd =>
    obtain ⟨r, d2⟩ := rd
    rw [hadd] at h
    simp only [Option.some.injEq, Prod.mk.injEq] at h
    obtain ⟨_, rfl⟩ := h
    refine ⟨rfl, rfl, rfl, rfl, rfl, by simpa using h1, by simpa using h2, h3⟩

/-- While `flush_ready` is set, no operation other than `on_flush_start`
lowers `batch_size` or clears `flush_ready`. -/
theorem run_op_keeps_batch (cf : sim_conf) (o : worker_op) (now : Int) (p p1 : pool)
    (d d1 : disk_sim) (c c1 : capuch) (hfr : c.flush_ready = true)
    (ho : o ≠ worker_op.on_flush_start)
    (h : run_op cf o now p d c = some (p1, d1, c1)) :
    c.batch_size ≤ c1.batch_size ∧ c1.flush_ready = true := by
  cases o with
  | sync_quota =>
    simp only [run_op, Option.map_eq_some', Prod.mk.injEq] at h
    obtain ⟨⟨q1, q2⟩, hs, rfl, _, rfl⟩ := h
    obtain ⟨f1, f2, _⟩ := sync_quota_fields cf.pool_conf p q1 c q2 hs
    exact ⟨by rw [f1], by rw [f2, hfr]⟩
  | on_ready =>
    simp only [run_op, Option.map_eq_some', Prod.mk.injEq] at h
    obtain ⟨⟨q1, q2⟩, hs, rfl, _, rfl⟩ := h
    obtain ⟨e1, e2, _⟩ := on_ready_effect cf.pool_conf p q1 c q2 hs
    refine ⟨?_, e2 (Or.inl hfr)⟩
    rw [e1]
    split_ifs <;> omega
  | on_flush_start => exact absurd rfl ho
  | on_flush_finish =>
    simp only [run_op, Option.map_eq_some', Prod.mk.injEq] at h
    obtain ⟨q2, hs, rfl, _, rfl⟩ := h
    obtain ⟨f1, f2, _⟩ := on_flush_finish_fields now c q2 hs
    exact ⟨by rw [f1], by rw [f2, hfr]⟩
  | on_timeout =>
    simp only [run_op] at h
    unfold on_timeout at h
    split_ifs at h
  | inc_greed =>
    simp only [run_op, Option.some.injEq, Prod.mk.injEq] at h
    obtain ⟨rfl, _, rfl⟩ := h
    obtain ⟨f1, f2, _⟩ := inc_greed_fields cf.pool_conf p c
    exact ⟨by rw [f1], by rw [f2, hfr]⟩
  | dec_greed =>
    simp only [run_op, Option.some.injEq, Prod.mk.injEq] at h
    obtain ⟨rfl, _, rfl⟩ := h
    obtain ⟨f1, f2, _⟩ := dec_greed_fields cf.pool_conf p c
    exact ⟨by rw [f1], by rw [f2, hfr]⟩

/-- C14 as stated fails: one worker with `flush_size = 4` and eight free
resources right after startup has no active resource, so the first
`on_ready` only acquires one; after exactly 4 `on_ready` events and no
`on_flush_start`, `batch_size` is 3 and `flush_ready` is false (nothing was
stolen: `bufs_lost = 0`). -/
theorem scenario_b_counterexample :
    one_conf.pool_conf.flush_size = 4 ∧
    start one_conf 0 = some one_started ∧
    one_started.capuches.map
        (fun c => (c.batch_size, c.flushing, c.flush_ready, c.free_list.length)) =
      [(0, false, false, 8)] ∧
    run_steps one_conf one_started
        [(0, .on_ready, 1), (0, .on_ready, 2), (0, .on_ready, 3), (0, .on_ready, 4)]
      = some { one_started with p := (one_after 4).1, capuches := [(one_after 4).2] } ∧
    (one_after 4).2.batch_size = 3 ∧ (one_after 4).2.flush_ready = false ∧
    (one_after 4).1.bufs_lost = 0 := by
  decide

/-- C14 (amended): scenario B.  For a worker with `flush_size = 4` starting
from its state right after startup (`batch_size = 0`, not flushing,
`flush_ready = false`, no active resource), after exactly 4 `on_ready` events
`batch_size` is 3, and after exactly 5 `on_ready` events and no
`on_flush_start`, `flush_ready` is true and `batch_size` is 4.  While
`flush_ready` is set no operation other than `on_flush_start` lowers
`batch_size` or clears `flush_ready`, and `on_flush_start` sets `batch_size`
to 0: `batch_size` returns to 0 only when `on_flush_start` runs. -/
theorem scenario_b (cf : sim_conf) (t0 : Int) (s : sim_state) (i : Nat) (c0 c4 c5 : capuch)
    (hfs : cf.pool_conf.flush_size = 4) (hs : start cf t0 = some s)
    (hc : s.capuches[i]? = some c0)
    (h4 : ready_run cf.pool_conf 4 c0 c4) (h5 : ready_run cf.pool_conf 5 c0 c5) :
    (c0.batch_size = 0 ∧ c0.flushing = false ∧ c0.flush_ready = false ∧ c0.active_rsc = none) ∧
    c4.batch_size = 3 ∧
    (c5.batch_size = 4 ∧ c5.flush_ready = true ∧ c5.flushing = false) ∧
    (∀ (o : worker_op) (now : Int) (p p1 : pool) (d d1 : disk_sim) (c c1 : capuch),
      c.flush_ready = true → o ≠ worker_op.on_flush_start →
      run_op cf o now p d c = some (p1, d1, c1) →
      c.batch_size ≤ c1.batch_size ∧ c1.flush_ready = true) ∧
    (∀ (now : Int) (d d1 : disk_sim) (c c1 : capuch),
      on_flush_start cf.disk_conf now d c = some (d1, c1) → c1.batch_size = 0) := by
  have hmem : c0 ∈ s.capuches := by
    obtain ⟨hi, hget⟩ := List.getElem?_eq_some_iff.mp hc
    rw [← hget]
    exact List.getElem_mem hi
  obtain ⟨⟨_, f2, f3, _, f5, f6, _⟩, _⟩ := start_fresh cf t0 s hs c0 hmem
  obtain ⟨_, _, _, a4⟩ := ready_run_effect cf.pool_conf 4 c0 c4 h4
  obtain ⟨b1, _, _, b4⟩ := ready_run_effect cf.pool_conf 5 c0 c5 h5
  obtain ⟨_, a5, _⟩ := a4 (by omega)
  obtain ⟨_, b5, b6⟩ := b4 (by omega)
  rw [f2, f3] at a5 b5
  simp only [Option.isSome_none, Bool.false_eq_true, if_false] at a5 b5
  have h53 : c5.batch_size = 4 := by rw [b5]; norm_num
  refine ⟨⟨f3, f6, f5, f2⟩, by rw [a5]; norm_num, ⟨h53, b6 (by rw [hfs, h53]), by rw [b1, f6]⟩,
    ?_, ?_⟩
  · intro o now p p1 d d1 c c1 hfr ho h
    exact run_op_keeps_batch cf o now p p1 d d1 c c1 hfr ho h
  · intro now d d1 c c1 h
    exact (on_flush_start_fields cf.disk_conf now d d1 c c1 h).1

/-- Witness for `scenario_b`: one worker with `flush_size = 4` on eight
resources, started at time 0, then five `on_ready` events. -/
theorem scenario_b_witness :
    ready_run one_conf.pool_conf 5 (one_after 0).2 (one_after 5).2 ∧
    (one_after 4).2.batch_size = 3 ∧
    (one_after 5).2.batch_size = 4 ∧ (one_after 5).2.flush_ready = true := by
  have r0 : ready_run eight_conf 0 (one_after 0).2 (one_after 0).2 := ready_run.zero _
  have r1 : ready_run eight_conf 1 (one_after 0).2 (one_after 1).2 :=
    ready_run.succ 0 _ _ _ (one_after 0).1 (one_after 1).1 r0 (by decide)
  have r2 : ready_run eight_conf 2 (one_after 0).2 (one_after 2).2 :=
    ready_run.succ 1 _ _ _ (one_after 1).1 (one_after 2).1 r1 (by decide)
  have r3 : ready_run eight_conf 3 (one_after 0).2 (one_after 3).2 :=
    ready_run.succ 2 _ _ _ (one_after 2).1 (one_after 3).1 r2 (by decide)
  have r4 : ready_run eight_conf 4 (one_after 0).2 (one_after 4).2 :=
    ready_run.succ 3 _ _ _ (one_after 3).1 (one_after 4).1 r3 (by decide)
  have r5 : ready_run eight_conf 5 (one_after 0).2 (one_after 5).2 :=
    ready_run.succ 4 _ _ _ (one_after 4).1 (one_after 5).1 r4 (by decide)
  have h := scenario_b one_conf 0 one_started 0 (one_after 0).2 (one_after 4).2 (one_after 5).2
    (by decide) (by decide) (by decide) r4 r5
  exact ⟨r5, h.2.1, h.2.2.1.1, h.2.2.1.2.1⟩

/-! ## on_ready: when it returns -/

/-- The quota synchronisation inside `on_ready` returns when the quota is at
least 1 or the worker is not over quota. -/
theorem on_ready_sync_returns (cf : pool_conf) (p : pool) (c : capuch)
    (h : 1 ≤ quota cf p c ∨ nbufs c ≤ quota cf p c) :
    ∃ p4 c4, on_ready_sync cf p c = some (p4, c4) := by
  unfold on_ready_sync
  split_ifs with hne
  · rcases lt_trichotomy (quota cf p c) (nbufs c) with hlt | heq | hgt
    · have h1 : 1 ≤ quota cf p c := by
        rcases h with h | h
        · exact h
        · omega
      have hn : nbufs c ≤ (c.free_list.length : Int) + (c.ready_list.length : Int) + 1 := by
        unfold nbufs
        split_ifs <;> omega
      exact ⟨_, _, sync_quota_over cf p c (nbufs c - quota cf p c).toNat (by omega) (by omega)
        (by omega)⟩
    · exact absurd heq.symm hne
    · exact ⟨_, _, sync_quota_under cf p c (quota cf p c - nbufs c).toNat (by omega) (by omega)⟩
  · exact ⟨p, c, rfl⟩

/-- With a free resource at hand `on_ready` returns whenever the quota is at
least 1 or the worker is not over quota. -/
theorem on_ready_returns_free (cf : pool_conf) (p : pool) (c : capuch)
    (hfl : c.free_list ≠ [])
    (hq : 1 ≤ quota cf p c ∨ nbufs c ≤ quota cf p c) :
    ∃ p1 c1, on_ready cf p c = some (p1, c1) := by
  obtain ⟨f1, f2, _, f4⟩ := on_ready_push_frame cf c
  obtain ⟨_, _, _, a4, a5⟩ := on_ready_push_fields cf c
  obtain ⟨_, _, _, b4, _, b6, _⟩ := on_ready_acquire_fields cf p (on_ready_push cf c)
  obtain ⟨hfalse, hp, hact⟩ := b6 (by rw [f2]; exact hfl)
  -- the state after acquisition
  have hshape : (on_ready_acquire cf p (on_ready_push cf c)).2.2.free_list = c.free_list.tail ∧
      (on_ready_acquire cf p (on_ready_push cf c)).2.2.ready_list = (on_ready_push cf c).ready_list ∧
      (on_ready_acquire cf p (on_ready_push cf c)).2.2.greed = c.greed := by
    unfold on_ready_acquire
    cases hfl2 : (on_ready_push cf c).free_list with
    | nil => rw [f2] at hfl2; exact absurd hfl2 hfl
    | cons r fs =>
      rw [f2] at hfl2
      exact ⟨by rw [hfl2]; rfl, rfl, a5⟩
  obtain ⟨s1, s2, s3⟩ := hshape
  have hsome : (on_ready_acquire cf p (on_ready_push cf c)).2.2.active_rsc.isSome = true := by
    rw [hact, f2]
    cases hc : c.free_list with
    | nil => exact absurd hc hfl
    | cons r fs => rfl
  have hnb : nbufs (on_ready_acquire cf p (on_ready_push cf c)).2.2 = nbufs c := by
    unfold nbufs
    rw [s1, s2, f4, hsome]
    cases hc : c.free_list with
    | nil => exact absurd hc hfl
    | cons r fs =>
      cases c.active_rsc <;> simp <;> omega
  have hqe : quota cf (on_ready_acquire cf p (on_ready_push cf c)).2.1
      (on_ready_acquire cf p (on_ready_push cf c)).2.2 = quota cf p c :=
    quota_congr cf _ _ _ _ (by rw [hp]) s3 (by rw [b4, a4])
  obtain ⟨p4, c4, hs⟩ := on_ready_sync_returns cf
    (on_ready_acquire cf p (on_ready_push cf c)).2.1
    (on_ready_acquire cf p (on_ready_push cf c)).2.2 (by rw [hqe, hnb]; exact hq)
  obtain ⟨_, _, hact4, _⟩ := on_ready_sync_frame cf _ p4 _ c4 hs
  refine ⟨p4, c4, ?_⟩
  rw [on_ready_blocks, hs]
  dsimp only
  rw [hfalse]
  unfold on_ready_retry
  simp only [Bool.false_eq_true, if_false]
  rw [hact4, hsome]
  rfl

/-! ## Greed bounds -/

/-- One `inc_greed` keeps a greed that lies in `[min_greed, max_greed]` there. -/
theorem inc_greed_in_bounds (cf : pool_conf) (p : pool) (c : capuch)
    (h0 : cf.min_greed ≤ c.greed) (h1 : c.greed ≤ cf.max_greed) :
    cf.min_greed ≤ (inc_greed cf p c).2.greed ∧ (inc_greed cf p c).2.greed ≤ cf.max_greed := by
  unfold inc_greed
  dsimp only
  split_ifs with ha hb hc hd <;> dsimp only <;> omega

/-- One `dec_greed` keeps a greed that lies in `[min_greed, max_greed]` there. -/
theorem dec_greed_in_bounds (cf : pool_conf) (p : pool) (c : capuch)
    (h0 : cf.min_greed ≤ c.greed) (h1 : c.greed ≤ cf.max_greed) :
    cf.min_greed ≤ (dec_greed cf p c).2.greed ∧ (dec_greed cf p c).2.greed ≤ cf.max_greed := by
  unfold dec_greed
  dsimp only
  split_ifs with ha hb hc hd <;> dsimp only <;> omega

/-- C19: greed bounds.  For every configuration (in particular every one
with `min_greed ≤ max_greed`): `inc_greed()` on a worker with
`greed ≥ max_greed` and `dec_greed()` on a worker with `greed ≤ min_greed`
return the pool and the worker unchanged (greed, `total_pressure`, the
`greed_inc` / `greed_dec` and `locks_taken` counters and everything else);
and a greed that lies in `[min_greed, max_greed]` is still in that interval
after any sequence of `inc_greed` / `dec_greed` calls. -/
theorem greed_bounds (cf : pool_conf) :
    (∀ (p : pool) (c : capuch), cf.max_greed ≤ c.greed → inc_greed cf p c = (p, c)) ∧
    (∀ (p : pool) (c : capuch), c.greed ≤ cf.min_greed → dec_greed cf p c = (p, c)) ∧
    (∀ (calls : List greed_call) (p : pool) (c : capuch),
      cf.min_greed ≤ c.greed → c.greed ≤ cf.max_greed →
      cf.min_greed ≤ (greed_run cf (p, c) calls).2.greed ∧
      (greed_run cf (p, c) calls).2.greed ≤ cf.max_greed) := by
  refine ⟨?_, ?_, ?_⟩
  · intro p c h
    unfold inc_greed
    rw [if_neg (by omega)]
  · intro p c h
    unfold dec_greed
    rw [if_neg (by omega)]
  · intro calls
    induction calls with
    | nil => intro p c h0 h1; exact ⟨h0, h1⟩
    | cons x xs ih =>
      intro p c h0 h1
      cases x with
      | inc =>
        obtain ⟨g0, g1⟩ := inc_greed_in_bounds cf p c h0 h1
        exact ih (inc_greed cf p c).1 (inc_greed cf p c).2 g0 g1
      | dec =>
        obtain ⟨g0, g1⟩ := dec_greed_in_bounds cf p c h0 h1
        exact ih (dec_greed cf p c).1 (dec_greed cf p c).2 g0 g1

/-- Witness for `greed_bounds`: default configuration (`min_greed = 1`,
`max_greed = 20`); `inc_greed` at greed 20 and `dec_greed` at greed 1 change
nothing, and four calls from greed 19 end at greed 19. -/
theorem greed_bounds_witness :
    inc_greed {} (bare_pool 10485760) (bare_capuch 20 10)
      = (bare_pool 10485760, bare_capuch 20 10) ∧
    dec_greed {} (bare_pool 20) (bare_capuch 1 10) = (bare_pool 20, bare_capuch 1 10) ∧
    (1 ≤ (greed_run {} (bare_pool 5242880, bare_capuch 19 10)
        [greed_call.inc, greed_call.inc, greed_call.dec, greed_call.inc]).2.greed ∧
     (greed_run {} (bare_pool 5242880, bare_capuch 19 10)
        [greed_call.inc, greed_call.inc, greed_call.dec, greed_call.inc]).2.greed ≤ 20) :=
  ⟨(greed_bounds {}).1 _ _ (by decide), (greed_bounds {}).2.1 _ _ (by decide),
   (greed_bounds {}).2.2 _ (bare_pool 5242880) (bare_capuch 19 10) (by decide) (by decide)⟩

/-! ## Structure of on_timeout -/

/-- A successful `on_timeout` went through its three steps: the optional
`dec_greed`, the optional `sync_quota` and the optional `on_flush_start`. -/
theorem on_timeout_some (cf : pool_conf) (dcf : disk_conf) (now : Int) (p p1 : pool)
    (d d1 : disk_sim) (c c1 : capuch)
    (h : on_timeout cf dcf now p d c = some (p1, d1, c1)) :
    c.flushing = false ∧ c.flush_ready = false ∧
    ∃ p2 c2 p3 c3,
      (p2, c2) = (if c.free_list.length > c.ready_list.length
                    then dec_greed cf p { c with timeout := c.timeout + 1 }
                    else (p, { c with timeout := c.timeout + 1 })) ∧
      (if nbufs c2 > quota cf p2 c2 then sync_quota cf p2 c2 else some (p2, c2))
        = some (p3, c3) ∧
      p1 = p3 ∧
      (c3.batch_size ≠ 0 →
        on_flush_start dcf now d { c3 with flush_ready := true } = some (d1, c1)) ∧
      (c3.batch_size = 0 → d1 = d ∧ c1 = c3) := by
  unfold on_timeout at h
  split_ifs at h with hf hr
  dsimp only at h
  refine ⟨by simpa using hf, by simpa using hr, ?_⟩
  generalize hpc : (if c.free_list.length > c.ready_list.length
              then dec_greed cf p { c with timeout := c.timeout + 1 }
              else (p, { c with timeout := c.timeout + 1 })) = pc at h
  obtain ⟨p2, c2⟩ := pc
  dsimp only at h
  cases hs : (if nbufs c2 > quota cf p2 c2 then sync_quota cf p2 c2 else some (p2, c2)) with
  | none => rw [hs] at h; cases h
  | some pc3 =>
    obtain ⟨p3, c3⟩ := pc3
    rw [hs] at h
    dsimp only at h
    refine ⟨p2, c2, p3, c3, rfl, hs, ?_⟩
    split_ifs at h with hbs
    · cases hfs : on_flush_start dcf now d { c3 with flush_ready := true } with
      | none => rw [hfs] at h; cases h
      | some dc =>
        obtain ⟨d4, c4⟩ := dc
        rw [hfs] at h
        simp only [Option.some.injEq, Prod.mk.injEq] at h
        obtain ⟨e1, e2, e3⟩ := h
        exact ⟨e1.symm, fun _ => by rw [e2, e3], fun h0 => absurd h0 hbs⟩
    · simp only [Option.some.injEq, Prod.mk.injEq] at h
      obtain ⟨e1, e2, e3⟩ := h
      exact ⟨e1.symm, fun hne => absurd (by simpa using hbs) hne, fun _ => ⟨e2.symm, e3.symm⟩⟩

/-! ## Scenario A: a fixed greed -/

/-- With greed pinned (`max_greed ≤ greed ≤ min_greed`) no worker operation
changes the worker's greed or priority or the pool's `total_pressure`. -/
theorem run_op_stable (cf : sim_conf) (o : worker_op) (now : Int) (p p1 : pool)
    (d d1 : disk_sim) (c c1 : capuch)
    (hmax : cf.pool_conf.max_greed ≤ c.greed) (hmin : c.greed ≤ cf.pool_conf.min_greed)
    (h : run_op cf o now p d c = some (p1, d1, c1)) :
    c1.greed = c.greed ∧ c1.priority = c.priority ∧ p1.total_pressure = p.total_pressure := by
  have hinc : ∀ (q : pool) (x : capuch), x.greed = c.greed → inc_greed cf.pool_conf q x = (q, x) := by
    intro q x hx
    unfold inc_greed
    rw [if_neg (by omega)]
  have hdec : ∀ (q : pool) (x : capuch), x.greed = c.greed → dec_greed cf.pool_conf q x = (q, x) := by
    intro q x hx
    unfold dec_greed
    rw [if_neg (by omega)]
  cases o with
  | sync_quota =>
    simp only [run_op, Option.map_eq_some', Prod.mk.injEq] at h
    obtain ⟨⟨q1, q2⟩, hs, rfl, _, rfl⟩ := h
    obtain ⟨_, _, _, f4, f5, f6, _⟩ := sync_quota_fields cf.pool_conf p q1 c q2 hs
    exact ⟨f5, f4, f6⟩
  | on_ready =>
    simp only [run_op, Option.map_eq_some', Prod.mk.injEq] at h
    obtain ⟨⟨q1, q2⟩, hs, rfl, _, rfl⟩ := h
    obtain ⟨p4, c4, hsync, hretry⟩ := on_ready_some cf.pool_conf p q1 c q2 hs
    obtain ⟨_, _, _, a4, a5⟩ := on_ready_push_fields cf.pool_conf c
    obtain ⟨_, _, _, b4, _, b6, b7⟩ := on_ready_acquire_fields cf.pool_conf p
      (on_ready_push cf.pool_conf c)
    have hacq : (on_ready_acquire cf.pool_conf p (on_ready_push cf.pool_conf c)).2.2.greed
          = c.greed ∧
        (on_ready_acquire cf.pool_conf p (on_ready_push cf.pool_conf c)).2.1.total_pressure
          = p.total_pressure := by
      unfold on_ready_acquire
      cases (on_ready_push cf.pool_conf c).free_list with
      | nil =>
        dsimp only
        rw [hinc p (on_ready_push cf.pool_conf c) a5]
        exact ⟨a5, rfl⟩
      | cons r fs => exact ⟨a5, rfl⟩
    obtain ⟨_, _, _, s4, s5, s6, _⟩ := on_ready_sync_fields cf.pool_conf _ p4 _ c4 hsync
    obtain ⟨_, _, r3, r4, r5, _⟩ := on_ready_retry_cases _ p4 q1 c4 q2 hretry
    exact ⟨by rw [r4, s5, hacq.1], by rw [r3, s4, b4, a4], by rw [r5, s6, hacq.2]⟩
  | on_flush_start =>
    simp only [run_op, Option.map_eq_some', Prod.mk.injEq] at h
    obtain ⟨⟨q1, q2⟩, hs, rfl, _, rfl⟩ := h
    obtain ⟨_, _, _, f4, f5, _⟩ := on_flush_start_fields cf.disk_conf now d q1 c q2 hs
    exact ⟨f5, f4, rfl⟩
  | on_flush_finish =>
    simp only [run_op, Option.map_eq_some', Prod.mk.injEq] at h
    obtain ⟨q2, hs, rfl, _, rfl⟩ := h
    obtain ⟨_, _, f3, f4, _⟩ := on_flush_finish_fields now c q2 hs
    exact ⟨f4, f3, rfl⟩
  | on_timeout =>
    simp only [run_op] at h
    obtain ⟨_, _, p2, c2, p3, c3, h2, h3, rfl, h4, h5⟩ :=
      on_timeout_some cf.pool_conf cf.disk_conf now p p1 d d1 c c1 h
    rw [hdec p { c with timeout := c.timeout + 1 } rfl] at h2
    simp only [ite_self, Prod.mk.injEq] at h2
    obtain ⟨e1, e2⟩ := h2
    rw [e1, e2] at h3
    have h3' : c3.greed = c.greed ∧ c3.priority = c.priority
        ∧ p1.total_pressure = p.total_pressure := by
      split_ifs at h3
      · obtain ⟨_, _, _, f4, f5, f6, _⟩ := sync_quota_fields cf.pool_conf _ p1 _ c3 h3
        exact ⟨f5, f4, f6⟩
      · simp only [Option.some.injEq, Prod.mk.injEq] at h3
        obtain ⟨rfl, rfl⟩ := h3
        exact ⟨rfl, rfl, rfl⟩
    by_cases hb : c3.batch_size = 0
    · obtain ⟨_, rfl⟩ := h5 hb
      exact h3'
    · obtain ⟨_, _, _, f4, f5, _⟩ := on_flush_start_fields cf.disk_conf now d d1 _ c1 (h4 hb)
      exact ⟨by rw [f5]; exact h3'.1, by rw [f4]; exact h3'.2.1, h3'.2.2⟩
  | inc_greed =>
    simp only [run_op, Option.some.injEq, Prod.mk.injEq] at h
    obtain ⟨rfl, _, rfl⟩ := h
    rw [hinc p c rfl]
    exact ⟨rfl, rfl, rfl⟩
  | dec_greed =>
    simp only [run_op, Option.some.injEq, Prod.mk.injEq] at h
    obtain ⟨rfl, _, rfl⟩ := h
    rw [hdec p c rfl]
    exact ⟨rfl, rfl, rfl⟩

/-- The quota of a worker with greed 1 and priority 10 in scenario A while
`total_pressure` is 40. -/
theorem scenario_a_quota (cf : pool_conf) (p : pool) (c : capuch)
    (htr : cf.total_rsc = 8) (hrs : cf.reserve = 0) (hmb : cf.min_bufs = 2)
    (htp : p.total_pressure = 40) (hg : c.greed = 1) (hpr : c.priority = 10) :
    quota cf p c = 4 := by
  unfold quota pressure
  rw [htr, hrs, hmb, htp, hg, hpr]
  decide

/-! ## Disk telemetry -/

/-- The claim of C21 fails: with the completion clock at 0 and the steady
clock at 5 ms, the reported remaining service time is -5 ms, not
`max(0, expected_finish - now) = 0`. -/
theorem disk_telemetry_counterexample :
    disk_write_queue_millis { expected_finish := 0 } 5000000 = -5 ∧
    max 0 ((0 : Int) - 5000000) = 0 ∧
    ¬ (0 ≤ disk_write_queue_millis { expected_finish := 0 } 5000000) := by
  decide

/-- C21 (amended): the reported remaining service time is
`expected_finish - now` in whole milliseconds, rounded toward zero, with no
clamp: it is the non-negative `(expected_finish - now) / 10^6` while the
completion clock is not in the past, it is `-((now - expected_finish) / 10^6)`
and so not positive when the clock is in the past, and it is negative as soon
as the clock is a millisecond or more in the past. -/
theorem disk_telemetry (d : disk_sim) (now : Int) :
    (now ≤ d.expected_finish →
      disk_write_queue_millis d now = (d.expected_finish - now) / 1000000 ∧
      0 ≤ disk_write_queue_millis d now) ∧
    (d.expected_finish < now →
      disk_write_queue_millis d now = -((now - d.expected_finish) / 1000000) ∧
      disk_write_queue_millis d now ≤ 0) ∧
    (d.expected_finish + 1000000 ≤ now → disk_write_queue_millis d now < 0) := by
  unfold disk_write_queue_millis
  have key : d.expected_finish < now →
      Int.tdiv (d.expected_finish - now) 1000000 = -((now - d.expected_finish) / 1000000) := by
    intro h
    have e : d.expected_finish - now = -(now - d.expected_finish) := by ring
    rw [e, Int.neg_tdiv, Int.tdiv_eq_ediv (by omega) (by norm_num)]
  refine ⟨?_, ?_, ?_⟩
  · intro h
    rw [Int.tdiv_eq_ediv (by omega) (by norm_num)]
    exact ⟨rfl, Int.ediv_nonneg (by omega) (by norm_num)⟩
  · intro h
    rw [key h]
    refine ⟨rfl, ?_⟩
    have := Int.ediv_nonneg (show 0 ≤ now - d.expected_finish by omega)
      (show (0 : Int) ≤ 1000000 by norm_num)
    omega
  · intro h
    rw [key (by omega)]
    have : 1 ≤ (now - d.expected_finish) / 1000000 :=
      (Int.le_ediv_iff_mul_le (by norm_num)).2 (by omega)
    omega

/-- Witness for `disk_telemetry`: the clock 2.5 ms ahead reports 2, the
clock 2.5 ms in the past reports -2. -/
theorem disk_telemetry_witness :
    disk_write_queue_millis { expected_finish := 2500000 } 0 = 2 ∧
    disk_write_queue_millis { expected_finish := 0 } 2500000 = -2 ∧
    disk_write_queue_millis { expected_finish := 0 } 2500000 < 0 :=
  ⟨by rw [((disk_telemetry { expected_finish := 2500000 } 0).1 (by decide)).1]; decide,
   by rw [((disk_telemetry { expected_finish := 0 } 2500000).2.1 (by decide)).1]; decide,
   (disk_telemetry { expected_finish := 0 } 2500000).2.2 (by decide)⟩

/-! ## Worker-id ranges of the `capuch` command -/

/-- While `conf.ncapuch` does not exceed the number of live workers, every
index the `capuch` command visits is a live worker's index inside the
requested range. -/
theorem capuch_range_in_bounds (ncapuch start end1 : Int) (live : Nat)
    (hn : ncapuch ≤ (live : Int)) (hlo : -2147483648 ≤ ncapuch - 1) (hend : end1 < 2147483648)
    (i : Int) (hi : i ∈ capuch_range ncapuch start end1) :
    0 ≤ i ∧ i < (live : Int) ∧ start ≤ i ∧ i ≤ end1 := by
  unfold capuch_range at hi
  dsimp only at hi
  by_cases he : end1 ≥ ncapuch
  · rw [if_pos he, to_i32_eq (by omega) (by omega)] at hi
    split_ifs at hi with h1 h2 h3 <;>
      simp only [List.mem_map, List.mem_range, List.not_mem_nil] at hi
    all_goals
      obtain ⟨k, hk, rfl⟩ := hi
      omega
  · rw [if_neg he] at hi
    split_ifs at hi with h1 h2 h3 <;>
      simp only [List.mem_map, List.mem_range, List.not_mem_nil] at hi
    all_goals
      obtain ⟨k, hk, rfl⟩ := hi
      omega

/-- C22 fails on the code: two live workers, `conf.ncapuch` raised to 5
after start, command `capuch 0 4 speed 3`.  The loop visits 0..4; index 2 is
not a live worker and the unchecked subscript is undefined. -/
theorem capuch_range_out_of_bounds :
    two_started.capuches.length = 2 ∧
    capuch_range 5 0 4 = [0, 1, 2, 3, 4] ∧
    (2 : Int) ∈ capuch_range 5 0 4 ∧
    capuch_speed two_started.capuches 3 (capuch_range 5 0 4) = none ∧
    capuch_priority two_conf.pool_conf two_started.p two_started.capuches 3
      (capuch_range 5 0 4) = none := by
  decide

/-! ## The reserve -/

/-- The narrowing to `int` never raises a non-negative value. -/
theorem to_i32_le {x : Int} (h0 : 0 ≤ x) : to_i32 x ≤ x := by
  unfold to_i32
  omega

/-- With every worker at `greed > 0` the pressure sum is the plain sum. -/
theorem pressure_sum_eq (cs : List capuch) (hg : ∀ c ∈ cs, 1 ≤ c.greed) :
    pressure_sum cs = (cs.map pressure).sum := by
  induction cs with
  | nil => rfl
  | cons c cs ih =>
    have h1 : c.greed > 0 := by
      have := hg c (List.mem_cons_self _ _)
      omega
    simp only [pressure_sum, if_pos h1, List.map_cons, List.sum_cons]
    rw [ih (fun x hx => hg x (List.mem_cons_of_mem _ hx))]

/-- Sum of rounded-down shares is at most the rounded-down share of the sum. -/
theorem sum_shares_le (cs : List capuch) (n t : Nat) :
    (cs.map (fun c => pressure c * n / t)).sum ≤ (cs.map pressure).sum * n / t := by
  induction cs with
  | nil => simp
  | cons c cs ih =>
    simp only [List.map_cons, List.sum_cons]
    calc pressure c * n / t + (cs.map (fun c => pressure c * n / t)).sum
        ≤ pressure c * n / t + (cs.map pressure).sum * n / t := Nat.add_le_add_left ih _
      _ ≤ (pressure c * n + (cs.map pressure).sum * n) / t := Nat.add_div_le_add_div _ _ _
      _ = (pressure c + (cs.map pressure).sum) * n / t := by rw [Nat.add_mul]

/-- The share computed in `unsigned long` is at most the exact one. -/
theorem quota_share_le (cf : pool_conf) (p : pool) (c : capuch)
    (hres : cf.reserve ≤ cf.total_rsc) :
    quota_share cf p c ≤ pressure c * (cf.total_rsc - cf.reserve).toNat / p.total_pressure := by
  unfold quota_share
  apply Nat.div_le_div_right
  refine le_trans (Nat.mod_le _ _) (Nat.mul_le_mul_left _ ?_)
  unfold to_u64
  apply Int.toNat_le_toNat
  omega

/-- The value `quota()` returns is at most the exact share when the
`min_bufs` floor does not raise it. -/
theorem quota_le_share (cf : pool_conf) (p : pool) (c : capuch)
    (hres : cf.reserve ≤ cf.total_rsc)
    (hfloor : to_u64 cf.min_bufs ≤ quota_share cf p c) :
    quota cf p c ≤
      ((pressure c * (cf.total_rsc - cf.reserve).toNat / p.total_pressure : Nat) : Int) := by
  have hle := quota_share_le cf p c hres
  unfold quota
  dsimp only
  split_ifs with h0
  · exact Int.natCast_nonneg _
  · have hmax : max (to_u64 cf.min_bufs)
        ((pressure c * to_u64 (cf.total_rsc - cf.reserve)) % 2 ^ 64 / p.total_pressure)
        = quota_share cf p c := max_eq_right hfloor
    rw [hmax]
    refine le_trans (to_i32_le (Int.natCast_nonneg _)) ?_
    exact_mod_cast hle

/-- C29: the reserve is never handed out.  In every state where
`total_pressure` is the pressure sum of the workers, every worker has
`greed ≥ 1` and `reserve ≤ total_rsc`: the sum over all workers of
`floor(pressure(w) * (total_rsc - reserve) / total_pressure)` is at most
`total_rsc - reserve`; hence, whenever no worker's `quota()` is raised by the
`min_bufs` floor (the floor is at most the share `quota()` computes), the sum
of all workers' `quota()` is at most `total_rsc - reserve`.  (The hypothesis
`priority ≥ 1` of the claim is not needed.) -/
theorem reserve_never_handed_out (cf : pool_conf) (p : pool) (cs : List capuch)
    (hinv : p.total_pressure = pressure_sum cs)
    (hg : ∀ c ∈ cs, 1 ≤ c.greed)
    (hres : cf.reserve ≤ cf.total_rsc) :
    (((cs.map (fun c => pressure c * (cf.total_rsc - cf.reserve).toNat / p.total_pressure)).sum
        : Nat) : Int) ≤ cf.total_rsc - cf.reserve ∧
    ((∀ c ∈ cs, to_u64 cf.min_bufs ≤ quota_share cf p c) →
      (cs.map (quota cf p)).sum ≤ cf.total_rsc - cf.reserve) := by
  have hsum : p.total_pressure = (cs.map pressure).sum := by
    rw [hinv, pressure_sum_eq cs hg]
  have h1 : (cs.map (fun c => pressure c * (cf.total_rsc - cf.reserve).toNat
      / p.total_pressure)).sum ≤ (cf.total_rsc - cf.reserve).toNat := by
    refine le_trans (sum_shares_le cs _ _) ?_
    rw [← hsum]
    rcases Nat.eq_zero_or_pos p.total_pressure with h0 | hpos
    · rw [h0, Nat.div_zero]
      exact Nat.zero_le _
    · rw [Nat.mul_div_cancel_left _ hpos]
  have h2 : (((cs.map (fun c => pressure c * (cf.total_rsc - cf.reserve).toNat
      / p.total_pressure)).sum : Nat) : Int) ≤ cf.total_rsc - cf.reserve := by
    have : (((cf.total_rsc - cf.reserve).toNat : Nat) : Int) = cf.total_rsc - cf.reserve :=
      Int.toNat_of_nonneg (by omega)
    rw [← this]
    exact_mod_cast h1
  refine ⟨h2, fun hfloor => le_trans ?_ h2⟩
  clear h1 h2 hsum hinv hg
  induction cs with
  | nil => simp
  | cons c cs ih =>
    simp only [List.map_cons, List.sum_cons, Nat.cast_add]
    have hc := quota_le_share cf p c hres (hfloor c (List.mem_cons_self _ _))
    have := ih (fun x hx => hfloor x (List.mem_cons_of_mem _ hx))
    omega

/-- Witness for `reserve_never_handed_out`: default configuration
(`total_rsc - reserve = 900`, `min_bufs = 2`), three workers of greed 1 with
priorities 10, 10 and 15 (pressures 20, 20, 30; shares 257, 257, 385). -/
theorem reserve_never_handed_out_witness :
    (((three_workers.map (fun c => pressure c * ((1000 : Int) - 100).toNat / 70)).sum : Nat) : Int)
      ≤ 1000 - 100 ∧
    (three_workers.map (quota {} (bare_pool 70))).sum ≤ 1000 - 100 ∧
    (three_workers.map (quota {} (bare_pool 70))).sum = 899 :=
  ⟨(reserve_never_handed_out {} (bare_pool 70) three_workers (by decide) (by decide)
      (by decide)).1,
   (reserve_never_handed_out {} (bare_pool 70) three_workers (by decide) (by decide)
      (by decide)).2 (by decide),
   by decide⟩

/-! ## Bootstrap of the greed -/

/-- The pressure of a worker with priority 10 and a greed in `1..30`. -/
theorem pressure_at_ten (c : capuch) (h0 : 0 ≤ c.greed) (h1 : c.greed ≤ 30)
    (hpr : c.priority = 10) : pressure c = 2 ^ c.greed.toNat * 10 := by
  have hle := two_pow_toNat_le h1
  have h := pressure_eq c h0 h1 (by omega) (by rw [hpr]; omega)
  rw [hpr] at h
  exact_mod_cast h

/-- The bootstrap `inc_greed` of a new worker (greed 0, priority 10). -/
theorem inc_greed_bootstrap (cf : pool_conf) (p : pool) (c : capuch)
    (hmin : cf.min_greed ≤ 30) (hmax : 1 ≤ cf.max_greed) (hg : c.greed = 0)
    (hpr : c.priority = 10)
    (htp : p.total_pressure + 2 ^ (max 1 cf.min_greed).toNat * 10 < 2 ^ 64) :
    inc_greed cf p c
      = ({ p with locks_taken := p.locks_taken + 1,
                  total_pressure := p.total_pressure + 2 ^ (max 1 cf.min_greed).toNat * 10 },
         { c with greed_inc := c.greed_inc + 1, greed := max 1 cf.min_greed }) := by
  have hpress : pressure { c with greed_inc := c.greed_inc + 1, greed := max 1 cf.min_greed }
      = 2 ^ (max 1 cf.min_greed).toNat * 10 :=
    pressure_at_ten _ (by dsimp only; omega) (by dsimp only; omega) hpr
  unfold inc_greed
  rw [if_pos (by omega)]
  dsimp only
  rw [if_neg (by simp [hg])]
  by_cases h1 : c.greed + 1 < cf.min_greed
  · rw [if_pos h1]
    have e : to_i32 cf.min_greed = max 1 cf.min_greed := by
      rw [to_i32_eq (by omega) (by omega)]
      omega
    dsimp only
    rw [e, hpress, tp_add, Nat.mod_eq_of_lt htp]
  · rw [if_neg h1]
    have e : c.greed + 1 = max 1 cf.min_greed := by omega
    dsimp only
    rw [e, hpress, tp_add, Nat.mod_eq_of_lt htp]

/-- Phase 1 of startup, worker by worker: each new worker gets greed
`max 1 min_greed` and adds `2 ^ greed * 10` to `total_pressure`. -/
theorem start_phase1_pressure (cf : sim_conf) (t0 : Int)
    (hmin : cf.pool_conf.min_greed ≤ 30) (hmax : 1 ≤ cf.pool_conf.max_greed) :
    ∀ (is : List Nat) (p : pool) (cs : List capuch),
      p.total_pressure + is.length * (2 ^ (max 1 cf.pool_conf.min_greed).toNat * 10) < 2 ^ 64 →
      p.total_pressure = pressure_sum cs →
      (∀ c ∈ cs, c.greed = max 1 cf.pool_conf.min_greed ∧ c.priority = 10) →
      (start_phase1 cf t0 is p cs).1.total_pressure
        = p.total_pressure + is.length * (2 ^ (max 1 cf.pool_conf.min_greed).toNat * 10) ∧
      (start_phase1 cf t0 is p cs).1.total_pressure = pressure_sum (start_phase1 cf t0 is p cs).2 ∧
      (start_phase1 cf t0 is p cs).2.length = cs.length + is.length ∧
      (∀ c ∈ (start_phase1 cf t0 is p cs).2,
        c.greed = max 1 cf.pool_conf.min_greed ∧ c.priority = 10) := by
  intro is
  induction is with
  | nil =>
    intro p cs _ hs hc
    exact ⟨by simp [start_phase1], hs, rfl, hc⟩
  | cons i is ih =>
    intro p cs hov hs hc
    simp only [List.length_cons, Nat.cast_add, Nat.cast_one] at hov ⊢
    have hov1 : p.total_pressure + 2 ^ (max 1 cf.pool_conf.min_greed).toNat * 10 < 2 ^ 64 := by
      nlinarith [Nat.zero_le (is.length * (2 ^ (max 1 cf.pool_conf.min_greed).toNat * 10))]
    have hb := inc_greed_bootstrap cf.pool_conf p (capuch.init (i : Int) t0) hmin hmax rfl rfl hov1
    unfold start_phase1
    dsimp only
    rw [hb]
    dsimp only
    have hsum : ∀ (l : List capuch) (x : capuch),
        pressure_sum (l ++ [x]) = pressure_sum l + (if x.greed > 0 then pressure x else 0) := by
      intro l x
      induction l with
      | nil => simp [pressure_sum]
      | cons y l ihl => rw [List.cons_append, pressure_sum, pressure_sum, ihl]; omega
    obtain ⟨r1, r2, r3, r4⟩ := ih
      { p with locks_taken := p.locks_taken + 1,
               total_pressure := p.total_pressure + 2 ^ (max 1 cf.pool_conf.min_greed).toNat * 10 }
      (cs ++ [{ capuch.init (i : Int) t0 with
                  greed_inc := (capuch.init (i : Int) t0).greed_inc + 1,
                  greed := max 1 cf.pool_conf.min_greed }])
      (by dsimp only; nlinarith)
      (by
        dsimp only
        rw [hsum, hs]
        dsimp only
        rw [if_pos (by omega)]
        rw [pressure_at_ten _ (by dsimp only; omega) (by dsimp only; omega) rfl])
      (by
        intro c hc1
        rcases List.mem_append.mp hc1 with hm | hm
        · exact hc c hm
        · rw [List.mem_singleton] at hm
          rw [hm]
          exact ⟨rfl, rfl⟩)
    refine ⟨?_, r2, ?_, r4⟩
    · rw [r1]
      dsimp only
      ring
    · rw [r3, List.length_append, List.length_singleton]
      ring

/-- The claim of C24 fails with `min_greed = 0`, `max_greed = 1`: the
bootstrap `inc_greed` leaves the new worker at greed 1, not at
`min_greed = 0`, and after phase 1 `total_pressure` is `2^1 * 10 = 20`, not
`2^0 * 10 = 10`. -/
theorem bootstrap_greed_counterexample :
    zero_greed_conf.pool_conf.min_greed = 0 ∧ zero_greed_conf.pool_conf.max_greed = 1 ∧
    (inc_greed zero_greed_conf.pool_conf (pool.init zero_greed_conf.pool_conf)
      (capuch.init 0 0)).2.greed = 1 ∧
    zero_greed_phase1.2.map capuch.greed = [1] ∧
    zero_greed_phase1.2.map capuch.priority = [10] ∧
    zero_greed_phase1.1.total_pressure = 20 := by
  decide

/-- C24 (amended): for every configuration with `max_greed ≥ 1` and
`min_greed ≤ 30`, a freshly constructed worker (greed 0, priority 10) has
greed `max(1, min_greed)` after the initial `inc_greed()` of startup phase 1
(which is `min_greed` exactly when `min_greed ≥ 1`); and provided
`ncapuch * 2^max(1, min_greed) * 10` stays below `2^64`, after phase 1 there
are `ncapuch` workers, each with that greed and priority 10, and
`total_pressure` equals `ncapuch * 2^max(1, min_greed) * 10`, the sum of
`pressure()` over all workers. -/
theorem bootstrap_greed (cf : sim_conf) (t0 : Int)
    (hmin : cf.pool_conf.min_greed ≤ 30) (hmax : 1 ≤ cf.pool_conf.max_greed)
    (hov : cf.ncapuch.toNat * (2 ^ (max 1 cf.pool_conf.min_greed).toNat * 10) < 2 ^ 64) :
    (∀ (p : pool) (i : Int),
      (inc_greed cf.pool_conf p (capuch.init i t0)).2.greed = max 1 cf.pool_conf.min_greed) ∧
    (1 ≤ cf.pool_conf.min_greed → max 1 cf.pool_conf.min_greed = cf.pool_conf.min_greed) ∧
    (start_phase1 cf t0 (List.range cf.ncapuch.toNat) (pool.init cf.pool_conf) []).1.total_pressure
      = cf.ncapuch.toNat * (2 ^ (max 1 cf.pool_conf.min_greed).toNat * 10) ∧
    (start_phase1 cf t0 (List.range cf.ncapuch.toNat) (pool.init cf.pool_conf) []).1.total_pressure
      = pressure_sum
          (start_phase1 cf t0 (List.range cf.ncapuch.toNat) (pool.init cf.pool_conf) []).2 ∧
    (start_phase1 cf t0 (List.range cf.ncapuch.toNat) (pool.init cf.pool_conf) []).2.length
      = cf.ncapuch.toNat ∧
    (∀ c ∈ (start_phase1 cf t0 (List.range cf.ncapuch.toNat) (pool.init cf.pool_conf) []).2,
      c.greed = max 1 cf.pool_conf.min_greed ∧ c.priority = 10 ∧
      pressure c = 2 ^ (max 1 cf.pool_conf.min_greed).toNat * 10) := by
  refine ⟨?_, fun h => max_eq_right h, ?_⟩
  · intro p i
    have hg0 : (capuch.init i t0).greed = 0 := rfl
    unfold inc_greed
    rw [if_pos (by omega)]
    dsimp only
    by_cases h1 : (capuch.init i t0).greed + 1 < cf.pool_conf.min_greed
    · rw [if_pos h1]
      dsimp only
      rw [to_i32_eq (by omega) (by omega)]
      omega
    · rw [if_neg h1]
      dsimp only
      omega
  · obtain ⟨r1, r2, r3, r4⟩ := start_phase1_pressure cf t0 hmin hmax
      (List.range cf.ncapuch.toNat) (pool.init cf.pool_conf) []
      (by simp only [pool.init, List.length_range]; omega) rfl
      (by intro c hc; cases hc)
    simp only [List.length_range, pool.init, zero_add, List.length_nil] at r1 r3
    refine ⟨r1, r2, r3, ?_⟩
    intro c hc
    obtain ⟨g1, g2⟩ := r4 c hc
    exact ⟨g1, g2, by rw [← g1]; exact pressure_at_ten c (by omega) (by omega) g2⟩

/-- Witness for `bootstrap_greed`: three workers, `min_greed = 3`,
`max_greed = 20`; every worker starts at greed 3 and `total_pressure` is
`3 * 2^3 * 10 = 240`. -/
theorem bootstrap_greed_witness :
    (inc_greed greed3_conf.pool_conf (pool.init greed3_conf.pool_conf)
      (capuch.init 0 0)).2.greed = 3 ∧
    (start_phase1 greed3_conf 0 (List.range greed3_conf.ncapuch.toNat)
      (pool.init greed3_conf.pool_conf) []).1.total_pressure = 240 :=
  ⟨(bootstrap_greed greed3_conf 0 (by decide) (by decide) (by decide)).1 _ 0,
   (bootstrap_greed greed3_conf 0 (by decide) (by decide) (by decide)).2.2.1⟩

/-! ## on_timeout -/

/-- The fields `dec_greed` leaves alone on a timeout, and the greed it sets. -/
theorem dec_greed_greed (cf : pool_conf) (p : pool) (c : capuch) :
    (dec_greed cf p c).2.timeout = c.timeout ∧
    (dec_greed cf p c).2.flush_finish = c.flush_finish ∧
    (dec_greed cf p c).2.greed
      = (if c.greed > cf.min_greed
          then (if c.greed - 1 > cf.max_greed then to_i32 cf.max_greed else c.greed - 1)
          else c.greed) := by
  unfold dec_greed
  dsimp only
  split_ifs <;> simp

/-- The greed step of `on_timeout` moves no resource; it counts the timeout
and sets the greed. -/
theorem on_timeout_greed_fields (cf : pool_conf) (p : pool) (c : capuch) :
    (on_timeout_greed cf p c).1.free = p.free ∧
    (on_timeout_greed cf p c).2.free_list = c.free_list ∧
    (on_timeout_greed cf p c).2.ready_list = c.ready_list ∧
    (on_timeout_greed cf p c).2.active_rsc = c.active_rsc ∧
    (on_timeout_greed cf p c).2.batch_id = c.batch_id ∧
    (on_timeout_greed cf p c).2.batch_size = c.batch_size ∧
    (on_timeout_greed cf p c).2.flush_ready = c.flush_ready ∧
    (on_timeout_greed cf p c).2.flushing = c.flushing ∧
    (on_timeout_greed cf p c).2.flush_finish = c.flush_finish ∧
    (on_timeout_greed cf p c).2.timeout = c.timeout + 1 ∧
    (on_timeout_greed cf p c).2.greed
      = (if c.free_list.length > c.ready_list.length ∧ c.greed > cf.min_greed
          then (if c.greed - 1 > cf.max_greed then to_i32 cf.max_greed else c.greed - 1)
          else c.greed) := by
  unfold on_timeout_greed
  by_cases h : c.free_list.length > c.ready_list.length
  · rw [if_pos h]
    obtain ⟨a1, a2, a3, a4, a5⟩ := dec_greed_frame cf p { c with timeout := c.timeout + 1 }
    obtain ⟨b1, b2, b3, _, _⟩ := dec_greed_fields cf p { c with timeout := c.timeout + 1 }
    obtain ⟨c1, c2, c3⟩ := dec_greed_greed cf p { c with timeout := c.timeout + 1 }
    refine ⟨a1, a2, a3, a4, a5, b1, b2, b3, c2, c1, ?_⟩
    rw [c3]
    simp only [h, true_and]
  · rw [if_neg h]
    refine ⟨rfl, rfl, rfl, rfl, rfl, rfl, rfl, rfl, rfl, rfl, ?_⟩
    rw [if_neg (fun hh => h hh.1)]

/-- The shrink step of `on_timeout`: a successful step only appends to the
pool free list, leaves the worker with `min(nbufs(), quota())` resources and
touches nothing else. -/
theorem on_timeout_shrink (cf : pool_conf) (p2 p3 : pool) (c2 c3 : capuch)
    (h : (if nbufs c2 > quota cf p2 c2 then sync_quota cf p2 c2 else some (p2, c2))
      = some (p3, c3)) :
    (∃ l, p3.free = p2.free ++ l) ∧ nbufs c3 = min (nbufs c2) (quota cf p2 c2) ∧
    quota cf p3 c3 = quota cf p2 c2 ∧
    c3.batch_size = c2.batch_size ∧ c3.batch_id = c2.batch_id ∧
    c3.flushing = c2.flushing ∧ c3.flush_ready = c2.flush_ready ∧
    c3.flush_finish = c2.flush_finish ∧ c3.greed = c2.greed ∧ c3.timeout = c2.timeout ∧
    c3.active_rsc = c2.active_rsc := by
  by_cases hgt : nbufs c2 > quota cf p2 c2
  · rw [if_pos hgt] at h
    by_cases hle : nbufs c2 - quota cf p2 c2
        ≤ ((c2.free_list.length + c2.ready_list.length : Nat) : Int)
    · rw [sync_quota_over cf p2 c2 (nbufs c2 - quota cf p2 c2).toNat (by omega) (by omega)
        (by omega)] at h
      simp only [Option.some.injEq, Prod.mk.injEq] at h
      obtain ⟨e1, e2⟩ := h
      refine ⟨⟨_, by rw [← e1, List.append_assoc]⟩, ?_, ?_, ?_⟩
      · rw [← e2]
        unfold nbufs at hgt hle ⊢
        dsimp only
        rw [List.length_drop, List.length_drop]
        generalize quota cf p2 c2 = q at *
        rw [min_eq_right (by omega)]
        push_cast at hle
        omega
      · rw [← e1, ← e2]
        exact quota_congr cf _ _ _ _ rfl rfl rfl
      · rw [← e2]
        exact ⟨rfl, rfl, rfl, rfl, rfl, rfl, rfl, rfl⟩
    · rw [sync_quota_over_none cf p2 c2 (by push_cast at hle; omega)] at h
      cases h
  · rw [if_neg hgt] at h
    simp only [Option.some.injEq, Prod.mk.injEq] at h
    obtain ⟨e1, e2⟩ := h
    rw [← e1, ← e2]
    exact ⟨⟨[], by simp⟩, by rw [min_eq_left (by omega)], rfl, rfl, rfl, rfl, rfl, rfl, rfl, rfl,
      rfl⟩

/-- A successful `on_timeout` in terms of its three steps. -/
theorem on_timeout_steps (cf : pool_conf) (dcf : disk_conf) (now : Int) (p p1 : pool)
    (d d1 : disk_sim) (c c1 : capuch)
    (h : on_timeout cf dcf now p d c = some (p1, d1, c1)) :
    c.flushing = false ∧ c.flush_ready = false ∧
    ∃ c3,
      (if nbufs (on_timeout_greed cf p c).2
            > quota cf (on_timeout_greed cf p c).1 (on_timeout_greed cf p c).2
        then sync_quota cf (on_timeout_greed cf p c).1 (on_timeout_greed cf p c).2
        else some (on_timeout_greed cf p c)) = some (p1, c3) ∧
      (c3.batch_size ≠ 0 →
        on_flush_start dcf now d { c3 with flush_ready := true } = some (d1, c1)) ∧
      (c3.batch_size = 0 → d1 = d ∧ c1 = c3) := by
  obtain ⟨hf, hr, p2, c2, p3, c3, h2, h3, e, h4, h5⟩ := on_timeout_some cf dcf now p p1 d d1 c c1 h
  refine ⟨hf, hr, c3, ?_, h4, h5⟩
  have e2 : on_timeout_greed cf p c = (p2, c2) := h2.symm
  rw [e2, e]
  exact h3

/-- When `on_timeout` returns: not flushing, no flush pending, the shrink can
be done from `free_list` and `ready_list`, and the disk rate is not zero if a
batch is open. -/
theorem on_timeout_returns (cf : pool_conf) (dcf : disk_conf) (now : Int) (p : pool)
    (d : disk_sim) (c : capuch)
    (hf : c.flushing = false) (hr : c.flush_ready = false)
    (hq : nbufs c ≤ quota cf (on_timeout_greed cf p c).1 (on_timeout_greed cf p c).2
      + ((c.free_list.length + c.ready_list.length : Nat) : Int))
    (hd : c.batch_size ≠ 0 → to_u64 dcf.consume_per_second ≠ 0) :
    ∃ p1 d1 c1, on_timeout cf dcf now p d c = some (p1, d1, c1) := by
  obtain ⟨g1, g2, g3, g4, g5, g6, g7, g8, g9, g10, g11⟩ := on_timeout_greed_fields cf p c
  have hn : nbufs (on_timeout_greed cf p c).2 = nbufs c := by
    unfold nbufs
    rw [g2, g3, g4]
  have hsync : ∃ p3 c3,
      (if nbufs (on_timeout_greed cf p c).2
            > quota cf (on_timeout_greed cf p c).1 (on_timeout_greed cf p c).2
        then sync_quota cf (on_timeout_greed cf p c).1 (on_timeout_greed cf p c).2
        else some (on_timeout_greed cf p c)) = some (p3, c3) := by
    by_cases hgt : nbufs (on_timeout_greed cf p c).2
        > quota cf (on_timeout_greed cf p c).1 (on_timeout_greed cf p c).2
    · rw [if_pos hgt]
      rw [sync_quota_over cf _ _ (nbufs (on_timeout_greed cf p c).2
        - quota cf (on_timeout_greed cf p c).1 (on_timeout_greed cf p c).2).toNat
        (by omega) (by omega) (by rw [g2, g3]; omega)]
      exact ⟨_, _, rfl⟩
    · rw [if_neg hgt]
      exact ⟨_, _, rfl⟩
  obtain ⟨p3, c3, hs⟩ := hsync
  obtain ⟨_, _, _, s4, _, s6, _⟩ := on_timeout_shrink cf _ p3 _ c3 hs
  have hbs : c3.batch_size = c.batch_size := by rw [s4, g6]
  have hfl : c3.flushing = false := by rw [s6, g8, hf]
  unfold on_timeout
  rw [if_neg (by simp [hf]), if_neg (by simp [hr])]
  dsimp only
  have hs2 : (if nbufs (if c.free_list.length > c.ready_list.length
          then dec_greed cf p { c with timeout := c.timeout + 1 }
          else (p, { c with timeout := c.timeout + 1 })).2
        > quota cf (if c.free_list.length > c.ready_list.length
          then dec_greed cf p { c with timeout := c.timeout + 1 }
          else (p, { c with timeout := c.timeout + 1 })).1
          (if c.free_list.length > c.ready_list.length
          then dec_greed cf p { c with timeout := c.timeout + 1 }
          else (p, { c with timeout := c.timeout + 1 })).2
      then sync_quota cf (if c.free_list.length > c.ready_list.length
          then dec_greed cf p { c with timeout := c.timeout + 1 }
          else (p, { c with timeout := c.timeout + 1 })).1
          (if c.free_list.length > c.ready_list.length
          then dec_greed cf p { c with timeout := c.timeout + 1 }
          else (p, { c with timeout := c.timeout + 1 })).2
      else some (if c.free_list.length > c.ready_list.length
          then dec_greed cf p { c with timeout := c.timeout + 1 }
          else (p, { c with timeout := c.timeout + 1 }))) = some (p3, c3) := hs
  rw [hs2]
  dsimp only
  by_cases hb : c3.batch_size = 0
  · rw [if_neg (by simp [hb])]
    exact ⟨_, _, _, rfl⟩
  · rw [if_pos hb]
    have hne := hd (by rw [← hbs]; exact hb)
    unfold on_flush_start add_jobs
    simp only [hfl, hb, hne, if_false, Bool.false_eq_true, Bool.not_true, if_neg]
    exact ⟨_, _, _, rfl⟩

/-- The claim of C26 fails for a worker above `max_greed + 1`: with
`max_greed` lowered to 2 while the worker is at greed 5 (not flushing, no
flush pending, one free resource, nothing ready, `min_greed = 1`),
`on_timeout` returns and has lowered the greed by 3, to `max_greed`. -/
theorem on_timeout_shrink_counterexample :
    greedy_capuch.flushing = false ∧ greedy_capuch.flush_ready = false ∧
    greedy_capuch.free_list.length > greedy_capuch.ready_list.length ∧
    greedy_capuch.greed = 5 ∧ low_max_conf.min_greed = 1 ∧ low_max_conf.max_greed = 2 ∧
    on_timeout low_max_conf {} 0 (bare_pool 320) { expected_finish := 0 } greedy_capuch
      = some greedy_after_timeout ∧
    greedy_after_timeout.2.2.greed = 2 := by
  decide

/-- C26 (amended): `on_timeout` is shrink-only.  For every `on_timeout` that
returns: the timeout counter has increased by 1; if
`|free_list| > |ready_list|` and `greed > min_greed` the greed is
`greed - 1`, or `max_greed` (as an `int`) when `greed - 1 > max_greed`, and
otherwise it is unchanged, so it is lowered by exactly 1 whenever
`greed ≤ max_greed + 1`; the pool free list on exit is the one on entry with
entries appended; `quota()` on exit is `quota()` right after the greed
change; and `nbufs()` on exit is `min(nbufs() on entry, quota())`, in
particular never above `nbufs()` on entry.  The call returns whenever the
worker is not flushing, has no flush pending, `quota()` after the greed
change leaves the shrink within `free_list` and `ready_list`, and the disk
rate is not zero when a batch is open. -/
theorem on_timeout_shrink_only (cf : pool_conf) (dcf : disk_conf) (now : Int) (p : pool)
    (d : disk_sim) (c : capuch) :
    (∀ p1 d1 c1, on_timeout cf dcf now p d c = some (p1, d1, c1) →
      c.flushing = false ∧ c.flush_ready = false ∧
      c1.timeout = c.timeout + 1 ∧
      c1.greed
        = (if c.free_list.length > c.ready_list.length ∧ c.greed > cf.min_greed
            then (if c.greed - 1 > cf.max_greed then to_i32 cf.max_greed else c.greed - 1)
            else c.greed) ∧
      (c.greed ≤ cf.max_greed + 1 → c.free_list.length > c.ready_list.length →
        c.greed > cf.min_greed → c1.greed = c.greed - 1) ∧
      (∃ l, p1.free = p.free ++ l) ∧
      quota cf p1 c1 = quota cf (on_timeout_greed cf p c).1 (on_timeout_greed cf p c).2 ∧
      nbufs c1 = min (nbufs c) (quota cf p1 c1) ∧
      nbufs c1 ≤ nbufs c) ∧
    (c.flushing = false → c.flush_ready = false →
      nbufs c ≤ quota cf (on_timeout_greed cf p c).1 (on_timeout_greed cf p c).2
        + ((c.free_list.length + c.ready_list.length : Nat) : Int) →
      (c.batch_size ≠ 0 → to_u64 dcf.consume_per_second ≠ 0) →
      ∃ p1 d1 c1, on_timeout cf dcf now p d c = some (p1, d1, c1)) := by
  refine ⟨?_, on_timeout_returns cf dcf now p d c⟩
  intro p1 d1 c1 h
  obtain ⟨hf, hr, c3, hs, h4, h5⟩ := on_timeout_steps cf dcf now p p1 d d1 c c1 h
  obtain ⟨g1, g2, g3, g4, g5, g6, g7, g8, g9, g10, g11⟩ := on_timeout_greed_fields cf p c
  obtain ⟨s1, s2, s3, s4, s5, s6, s7, s8, s9, s10, s11⟩ := on_timeout_shrink cf _ p1 _ c3 hs
  have hn : nbufs (on_timeout_greed cf p c).2 = nbufs c := by
    unfold nbufs
    rw [g2, g3, g4]
  have hfin : c1.timeout = c3.timeout ∧ c1.greed = c3.greed ∧ c1.priority = c3.priority ∧
      nbufs c1 = nbufs c3 := by
    by_cases hb : c3.batch_size = 0
    · obtain ⟨_, e⟩ := h5 hb
      rw [e]
      exact ⟨rfl, rfl, rfl, rfl⟩
    · have hfs := h4 hb
      obtain ⟨f1, f2, f3, _⟩ := on_flush_start_frame dcf now d d1 _ c1 hfs
      obtain ⟨_, _, _, f4, f5, _⟩ := on_flush_start_fields dcf now d d1 _ c1 hfs
      refine ⟨?_, f5, f4, ?_⟩
      · unfold on_flush_start at hfs
        split_ifs at hfs
        cases hadd : add_jobs dcf now d c3.batch_size with
        | none =>
          simp only [hadd] at hfs
          cases hfs
        | some rd =>
          simp only [hadd, Option.some.injEq, Prod.mk.injEq] at hfs
          rw [← hfs.2]
      · unfold nbufs
        rw [f1, f2, f3]
  obtain ⟨t1, t2, t3, t4⟩ := hfin
  have hq : quota cf p1 c1
      = quota cf (on_timeout_greed cf p c).1 (on_timeout_greed cf p c).2 := by
    rw [← s3]
    exact quota_congr cf _ _ _ _ rfl t2 t3
  have hgreed : c1.greed
      = (if c.free_list.length > c.ready_list.length ∧ c.greed > cf.min_greed
          then (if c.greed - 1 > cf.max_greed then to_i32 cf.max_greed else c.greed - 1)
          else c.greed) := by
    rw [t2, s9, g11]
  have hmin : nbufs c1 = min (nbufs c) (quota cf p1 c1) := by
    rw [t4, s2, hn, hq]
  refine ⟨hf, hr, by rw [t1, s10, g10], hgreed, ?_, ?_, hq, hmin, ?_⟩
  · intro hle hfr hgt
    rw [hgreed, if_pos ⟨hfr, hgt⟩, if_neg (by omega)]
  · obtain ⟨l, hl⟩ := s1
    exact ⟨l, by rw [hl, g1]⟩
  · rw [hmin]
    exact min_le_left _ _

/-- Witness for `on_timeout_shrink_only`: a worker holding six resources
with quota 4 and no open batch; the timeout hands two back (the free one and
the oldest ready one) and leaves the worker at four. -/
theorem on_timeout_shrink_only_witness :
    over_after_timeout.2.2.timeout = over_capuch.timeout + 1 ∧
    nbufs over_capuch = 6 ∧ nbufs over_after_timeout.2.2 = 4 ∧
    nbufs over_after_timeout.2.2
      = min (nbufs over_capuch) (quota eight_conf over_after_timeout.1 over_after_timeout.2.2) :=
  ⟨((on_timeout_shrink_only eight_conf {} 0 (bare_pool 40) { expected_finish := 0 }
      over_capuch).1 over_after_timeout.1 over_after_timeout.2.1 over_after_timeout.2.2
      (by decide)).2.2.1,
   by decide, by decide,
   ((on_timeout_shrink_only eight_conf {} 0 (bare_pool 40) { expected_finish := 0 }
      over_capuch).1 over_after_timeout.1 over_after_timeout.2.1 over_after_timeout.2.2
      (by decide)).2.2.2.2.2.2.2.1⟩

/-- C27: partial-batch flush on timeout.  For every `on_timeout` that
returns (its preconditions `flushing = false`, `flush_ready = false` hold
then): if `batch_size = b ≠ 0` on entry, then on exit `flushing = true`,
`flush_ready = false`, `batch_size = 0`, `batch_id` has increased by 1, and
the disk queue has received `add_jobs(b)`, whose result is the new disk state
and the worker's `flush_finish`; if `batch_size = 0` on entry, then
`batch_id`, `flushing`, `flush_ready`, `flush_finish` and the disk clock are
unchanged.  The call returns whenever the worker is not flushing, has no
flush pending, the shrink stays within `free_list` and `ready_list`, and the
disk rate is not zero when a batch is open. -/
theorem on_timeout_flush (cf : pool_conf) (dcf : disk_conf) (now : Int) (p : pool)
    (d : disk_sim) (c : capuch) :
    (∀ p1 d1 c1, on_timeout cf dcf now p d c = some (p1, d1, c1) →
      c.flushing = false ∧ c.flush_ready = false ∧
      (c.batch_size ≠ 0 →
        c1.flushing = true ∧ c1.flush_ready = false ∧ c1.batch_size = 0 ∧
        c1.batch_id = c.batch_id + 1 ∧
        add_jobs dcf now d c.batch_size = some (c1.flush_finish, d1)) ∧
      (c.batch_size = 0 →
        c1.batch_id = c.batch_id ∧ c1.flushing = c.flushing ∧ c1.flush_ready = c.flush_ready ∧
        c1.flush_finish = c.flush_finish ∧ c1.batch_size = 0 ∧ d1 = d)) ∧
    (c.flushing = false → c.flush_ready = false →
      nbufs c ≤ quota cf (on_timeout_greed cf p c).1 (on_timeout_greed cf p c).2
        + ((c.free_list.length + c.ready_list.length : Nat) : Int) →
      (c.batch_size ≠ 0 → to_u64 dcf.consume_per_second ≠ 0) →
      ∃ p1 d1 c1, on_timeout cf dcf now p d c = some (p1, d1, c1)) := by
  refine ⟨?_, on_timeout_returns cf dcf now p d c⟩
  intro p1 d1 c1 h
  obtain ⟨hf, hr, c3, hs, h4, h5⟩ := on_timeout_steps cf dcf now p p1 d d1 c c1 h
  obtain ⟨g1, g2, g3, g4, g5, g6, g7, g8, g9, g10, g11⟩ := on_timeout_greed_fields cf p c
  obtain ⟨s1, s2, s3, s4, s5, s6, s7, s8, s9, s10, s11⟩ := on_timeout_shrink cf _ p1 _ c3 hs
  have hbs : c3.batch_size = c.batch_size := by rw [s4, g6]
  refine ⟨hf, hr, ?_, ?_⟩
  · intro hb
    have hfs := h4 (by rw [hbs]; exact hb)
    obtain ⟨_, _, _, f4⟩ := on_flush_start_frame dcf now d d1 _ c1 hfs
    obtain ⟨e1, e2, e3, _⟩ := on_flush_start_fields dcf now d d1 _ c1 hfs
    refine ⟨e3, e2, e1, by rw [f4]; dsimp only; rw [s5, g5], ?_⟩
    unfold on_flush_start at hfs
    split_ifs at hfs
    dsimp only at hfs
    rw [hbs] at hfs
    cases hadd : add_jobs dcf now d c.batch_size with
    | none =>
      simp only [hadd] at hfs
      cases hfs
    | some rd =>
      simp only [hadd, Option.some.injEq, Prod.mk.injEq] at hfs
      rw [← hfs.2, ← hfs.1]
  · intro hb
    obtain ⟨e1, e2⟩ := h5 (by rw [hbs]; exact hb)
    rw [e1, e2]
    exact ⟨by rw [s5, g5], by rw [s6, g8], by rw [s7, g7], by rw [s8, g9], by rw [hbs, hb], rfl⟩

/-- Witness for `on_timeout_flush`: a worker with an open batch of two
entries times out at time 7 against an idle disk of rate 32 per second: the
flush starts, the batch is closed and the disk clock is 7 ns + 2/32 s. -/
theorem on_timeout_flush_witness :
    starved_capuch.batch_size = 2 ∧
    starved_after_timeout.2.2.flushing = true ∧
    starved_after_timeout.2.2.flush_ready = false ∧
    starved_after_timeout.2.2.batch_size = 0 ∧
    starved_after_timeout.2.2.batch_id = starved_capuch.batch_id + 1 ∧
    add_jobs {} 7 { expected_finish := 0 } starved_capuch.batch_size
      = some (starved_after_timeout.2.2.flush_finish, starved_after_timeout.2.1) ∧
    starved_after_timeout.2.1.expected_finish = 62500007 :=
  ⟨by decide,
   (((on_timeout_flush eight_conf {} 7 (bare_pool 40) { expected_finish := 0 }
      starved_capuch).1 starved_after_timeout.1 starved_after_timeout.2.1
      starved_after_timeout.2.2 (by decide)).2.2.1 (by decide)).1,
   (((on_timeout_flush eight_conf {} 7 (bare_pool 40) { expected_finish := 0 }
      starved_capuch).1 starved_after_timeout.1 starved_after_timeout.2.1
      starved_after_timeout.2.2 (by decide)).2.2.1 (by decide)).2.1,
   (((on_timeout_flush eight_conf {} 7 (bare_pool 40) { expected_finish := 0 }
      starved_capuch).1 starved_after_timeout.1 starved_after_timeout.2.1
      starved_after_timeout.2.2 (by decide)).2.2.1 (by decide)).2.2.1,
   (((on_timeout_flush eight_conf {} 7 (bare_pool 40) { expected_finish := 0 }
      starved_capuch).1 starved_after_timeout.1 starved_after_timeout.2.1
      starved_after_timeout.2.2 (by decide)).2.2.1 (by decide)).2.2.2.1,
   (((on_timeout_flush eight_conf {} 7 (bare_pool 40) { expected_finish := 0 }
      starved_capuch).1 starved_after_timeout.1 starved_after_timeout.2.1
      starved_after_timeout.2.2 (by decide)).2.2.1 (by decide)).2.2.2.2,
   by decide⟩

/-! ## Batches across the events -/

/-- A property of single workers that holds for fresh workers and survives
every worker operation holds for every worker of every reachable state. -/
theorem reachable_worker_invariant (cf : sim_conf) (I : capuch → Prop)
    (hinit : ∀ c, fresh_worker c → I c)
    (hstep : ∀ (o : worker_op) (now : Int) (p p1 : pool) (d d1 : disk_sim) (c c1 : capuch),
      I c → run_op cf o now p d c = some (p1, d1, c1) → I c1)
    (s : sim_state) (h : Reachable cf s) : ∀ c ∈ s.capuches, I c := by
  induction h with
  | init t0 s hs =>
    intro c hc
    exact hinit c ((start_fresh cf t0 s hs) c hc).1
  | step s s1 i o now _ hst ih =>
    unfold sim_step at hst
    cases hc : s.capuches[i]? with
    | none => rw [hc] at hst; cases hst
    | some c =>
      rw [hc] at hst
      dsimp only at hst
      cases hr : run_op cf o now s.p s.disk c with
      | none => rw [hr] at hst; cases hst
      | some r =>
        obtain ⟨p1, d1, c1⟩ := r
        rw [hr] at hst
        simp only [Option.some.injEq] at hst
        subst hst
        have hcmem : c ∈ s.capuches := by
          obtain ⟨hi, hget⟩ := List.getElem?_eq_some_iff.mp hc
          rw [← hget]
          exact List.getElem_mem hi
        intro x hxm
        rcases List.mem_or_eq_of_mem_set hxm with hm | rfl
        · exact ih x hm
        · exact hstep o now s.p p1 s.disk d1 c x (ih c hcmem) hr

/-- The batch fields after a successful `on_timeout`. -/
theorem on_timeout_batch (cf : pool_conf) (dcf : disk_conf) (now : Int) (p p1 : pool)
    (d d1 : disk_sim) (c c1 : capuch)
    (h : on_timeout cf dcf now p d c = some (p1, d1, c1)) :
    c.flushing = false ∧ c.flush_ready = false ∧
    (c.batch_size ≠ 0 →
      c1.flushing = true ∧ c1.flush_ready = false ∧ c1.batch_size = 0 ∧
      c1.batch_id = c.batch_id + 1) ∧
    (c.batch_size = 0 →
      c1.batch_id = c.batch_id ∧ c1.flushing = false ∧ c1.flush_ready = false ∧
      c1.flush_finish = c.flush_finish ∧ c1.batch_size = 0 ∧ d1 = d) := by
  obtain ⟨hf, hr, c3, hs, h4, h5⟩ := on_timeout_steps cf dcf now p p1 d d1 c c1 h
  obtain ⟨g1, g2, g3, g4, g5, g6, g7, g8, g9, g10, g11⟩ := on_timeout_greed_fields cf p c
  obtain ⟨s1, s2, s3, s4, s5, s6, s7, s8, s9, s10, s11⟩ := on_timeout_shrink cf _ p1 _ c3 hs
  have hbs : c3.batch_size = c.batch_size := by rw [s4, g6]
  refine ⟨hf, hr, ?_, ?_⟩
  · intro hb
    have hfs := h4 (by rw [hbs]; exact hb)
    obtain ⟨_, _, _, f4⟩ := on_flush_start_frame dcf now d d1 _ c1 hfs
    obtain ⟨e1, e2, e3, _⟩ := on_flush_start_fields dcf now d d1 _ c1 hfs
    exact ⟨e3, e2, e1, by rw [f4]; dsimp only; rw [s5, g5]⟩
  · intro hb
    obtain ⟨e1, e2⟩ := h5 (by rw [hbs]; exact hb)
    rw [e1, e2]
    exact ⟨by rw [s5, g5], by rw [s6, g8, hf], by rw [s7, g7, hr], by rw [s8, g9],
      by rw [hbs, hb], rfl⟩

/-- Every worker operation that returns is of one of three kinds for the
batch bookkeeping: it keeps `batch_id` and `flushing` and counts in
`batch_size` exactly the entries it appends to `ready_list` (tagged with the
current `batch_id`); or it starts a flush (`batch_id + 1`, `batch_size = 0`);
or it finishes one, dropping from `ready_list` the leading entries of the
completed batch. -/
theorem run_op_batch (cf : sim_conf) (o : worker_op) (now : Int) (p p1 : pool)
    (d d1 : disk_sim) (c c1 : capuch) (h : run_op cf o now p d c = some (p1, d1, c1)) :
    (c1.batch_id = c.batch_id ∧ c1.flushing = c.flushing ∧
      ∃ extra b, (∀ r ∈ extra, r.batch_id = c.batch_id) ∧
        c1.ready_list = (c.ready_list ++ extra).drop b ∧
        c1.batch_size = c.batch_size + (extra.length : Int)) ∨
    (c.flushing = false ∧ c1.flushing = true ∧ c1.batch_id = c.batch_id + 1 ∧
      c1.batch_size = 0 ∧ ∃ b, c1.ready_list = c.ready_list.drop b) ∨
    (c.flushing = true ∧ c1.flushing = false ∧ c1.batch_id = c.batch_id ∧
      c1.batch_size = c.batch_size ∧
      c1.ready_list = c.ready_list.dropWhile (fun r => decide (r.batch_id = c.batch_id - 1))) := by
  cases o with
  | sync_quota =>
    simp only [run_op, Option.map_eq_some', Prod.mk.injEq] at h
    obtain ⟨⟨q1, q2⟩, hs, rfl, _, rfl⟩ := h
    obtain ⟨⟨b, hb⟩, _, hbid⟩ := sync_quota_frame cf.pool_conf p q1 c q2 hs
    obtain ⟨f1, _, f3, _⟩ := sync_quota_fields cf.pool_conf p q1 c q2 hs
    exact Or.inl ⟨hbid, f3, [], b, by simp, by simpa using hb, by simp [f1]⟩
  | on_ready =>
    simp only [run_op, Option.map_eq_some', Prod.mk.injEq] at h
    obtain ⟨⟨q1, q2⟩, hs, rfl, _, rfl⟩ := h
    obtain ⟨_, ⟨b, hb⟩, hbid⟩ := on_ready_frame cf.pool_conf p q1 c q2 hs
    obtain ⟨e1, _, _, e4, _⟩ := on_ready_effect cf.pool_conf p q1 c q2 hs
    refine Or.inl ⟨hbid, e4, _, b, ?_, hb, ?_⟩
    · intro r hr
      simp only [List.mem_map] at hr
      obtain ⟨a, _, rfl⟩ := hr
      rfl
    · rw [e1]
      cases c.active_rsc <;> simp
  | on_flush_start =>
    simp only [run_op, Option.map_eq_some', Prod.mk.injEq] at h
    obtain ⟨⟨q1, q2⟩, hs, rfl, _, rfl⟩ := h
    obtain ⟨_, f2, _, f4⟩ := on_flush_start_frame cf.disk_conf now d q1 c q2 hs
    obtain ⟨e1, _, e3, _, _, e6, _⟩ := on_flush_start_fields cf.disk_conf now d q1 c q2 hs
    exact Or.inr (Or.inl ⟨e6, e3, f4, e1, 0, by simpa using f2⟩)
  | on_flush_finish =>
    simp only [run_op, Option.map_eq_some', Prod.mk.injEq] at h
    obtain ⟨q2, hs, rfl, _, rfl⟩ := h
    unfold on_flush_finish at hs
    split_ifs at hs with h1 h2
    simp only [Option.some.injEq] at hs
    subst hs
    rw [reclaim_eq]
    exact Or.inr (Or.inr ⟨by simpa using h2, rfl, rfl, rfl, rfl⟩)
  | on_timeout =>
    simp only [run_op] at h
    obtain ⟨_, ⟨b, hb⟩, _⟩ := on_timeout_frame cf.pool_conf cf.disk_conf now p p1 d d1 c c1 h
    obtain ⟨hf, _, t1, t2⟩ := on_timeout_batch cf.pool_conf cf.disk_conf now p p1 d d1 c c1 h
    by_cases hbs : c.batch_size = 0
    · obtain ⟨u1, u2, _, _, u5, _⟩ := t2 hbs
      exact Or.inl ⟨u1, by rw [u2, hf], [], b, by simp, by simpa using hb, by simp [u5, hbs]⟩
    · obtain ⟨u1, _, u3, u4⟩ := t1 hbs
      exact Or.inr (Or.inl ⟨hf, u1, u4, u3, b, hb⟩)
  | inc_greed =>
    simp only [run_op, Option.some.injEq, Prod.mk.injEq] at h
    obtain ⟨rfl, _, rfl⟩ := h
    obtain ⟨_, _, f3, _, f5⟩ := inc_greed_frame cf.pool_conf p c
    obtain ⟨e1, _, e3, _⟩ := inc_greed_fields cf.pool_conf p c
    exact Or.inl ⟨f5, e3, [], 0, by simp, by simpa using f3, by simp [e1]⟩
  | dec_greed =>
    simp only [run_op, Option.some.injEq, Prod.mk.injEq] at h
    obtain ⟨rfl, _, rfl⟩ := h
    obtain ⟨_, _, f3, _, f5⟩ := dec_greed_frame cf.pool_conf p c
    obtain ⟨e1, _, e3, _⟩ := dec_greed_fields cf.pool_conf p c
    exact Or.inl ⟨f5, e3, [], 0, by simp, by simpa using f3, by simp [e1]⟩

/-- In a list ordered by tag whose tags are `e` or `e + 1`, what is left
after dropping the leading entries tagged `e` is tagged `e + 1`. -/
theorem dropWhile_tagged (e : Int) :
    ∀ l : List resource, (tags l).Pairwise (· ≤ ·) →
      (∀ r ∈ l, r.batch_id = e ∨ r.batch_id = e + 1) →
      ∀ r ∈ l.dropWhile (fun r => decide (r.batch_id = e)), r.batch_id = e + 1 := by
  intro l
  induction l with
  | nil => intro _ _ r hr; simp at hr
  | cons x xs ih =>
    intro hpw hall r hr
    simp only [tags, List.map_cons, List.pairwise_cons] at hpw
    by_cases hx : x.batch_id = e
    · rw [List.dropWhile_cons_of_pos (by simpa using hx)] at hr
      exact ih hpw.2 (fun y hy => hall y (List.mem_cons_of_mem _ hy)) r hr
    · rw [List.dropWhile_cons_of_neg (by simpa using hx)] at hr
      have hx1 : x.batch_id = e + 1 := by
        rcases hall x (List.mem_cons_self _ _) with h0 | h0
        · exact absurd h0 hx
        · exact h0
      rcases List.mem_cons.mp hr with rfl | hm
      · exact hx1
      · have hge := hpw.1 r.batch_id (List.mem_map_of_mem _ hm)
        rcases hall r (List.mem_cons_of_mem _ hm) with h0 | h0
        · omega
        · exact h0

/-- A fresh worker satisfies the tagging discipline. -/
theorem fresh_batch_tagged (c : capuch) (h : fresh_worker c) : batch_tagged c := by
  obtain ⟨h1, _⟩ := h
  unfold batch_tagged batch_ordered
  rw [h1]
  simp [tags]

/-- Every worker operation keeps the tagging discipline. -/
theorem run_op_batch_tagged (cf : sim_conf) (o : worker_op) (now : Int) (p p1 : pool)
    (d d1 : disk_sim) (c c1 : capuch) (hI : batch_tagged c)
    (h : run_op cf o now p d c = some (p1, d1, c1)) : batch_tagged c1 := by
  obtain ⟨hbo, hnf, hfl⟩ := hI
  obtain ⟨_, ⟨extra0, b0, hx0, hrl0⟩, hbid0⟩ := run_op_frame cf o now p p1 d d1 c c1 h
  have hbo1 : batch_ordered c1 := batch_ordered_of_shape c c1 extra0 b0 hbo hx0 hrl0 hbid0
  refine ⟨hbo1, ?_⟩
  rcases run_op_batch cf o now p p1 d d1 c c1 h with
    ⟨a1, a2, extra, b, hx, hrl, _⟩ | ⟨b1, b2, b3, _, b, hrl⟩ | ⟨c1f, c2f, c3f, _, hrl⟩
  · have hmem : ∀ r ∈ c1.ready_list, r ∈ c.ready_list ∨ r.batch_id = c.batch_id := by
      intro r hr
      rw [hrl] at hr
      rcases List.mem_append.mp (List.mem_of_mem_drop hr) with hm | hm
      · exact Or.inl hm
      · exact Or.inr (hx r hm)
    constructor
    · intro hf r hr
      rw [a1]
      rcases hmem r hr with hm | hm
      · exact hnf (by rw [← a2]; exact hf) r hm
      · exact hm
    · intro hf r hr
      rw [a1]
      rcases hmem r hr with hm | hm
      · exact hfl (by rw [← a2]; exact hf) r hm
      · exact Or.inr hm
  · constructor
    · intro hf
      rw [b2] at hf
      cases hf
    · intro _ r hr
      rw [hrl] at hr
      left
      rw [b3, hnf b1 r (List.mem_of_mem_drop hr)]
      omega
  · constructor
    · intro _ r hr
      rw [hrl] at hr
      have := dropWhile_tagged (c.batch_id - 1) c.ready_list hbo.1
        (fun y hy => by
          rcases hfl c1f y hy with h0 | h0
          · exact Or.inl h0
          · exact Or.inr (by omega)) r hr
      rw [c3f]
      omega
    · intro hf
      rw [c2f] at hf
      cases hf

/-- C30: completed batches are fully reclaimed.  In every reachable state
and for every worker: if the worker is not flushing, every `ready_list` entry
is tagged with the current `batch_id`; if it is flushing, every entry is
tagged `batch_id - 1` or `batch_id`; and right after an `on_flush_finish` of
that worker every remaining entry is tagged with the current `batch_id`, so
no entry of the completed batch (`batch_id - 1`) or of an older one remains. -/
theorem completed_batches_reclaimed (cf : sim_conf) (s : sim_state) (h : Reachable cf s) :
    ∀ c ∈ s.capuches,
      (c.flushing = false → ∀ r ∈ c.ready_list, r.batch_id = c.batch_id) ∧
      (c.flushing = true →
        ∀ r ∈ c.ready_list, r.batch_id = c.batch_id - 1 ∨ r.batch_id = c.batch_id) ∧
      (∀ (now : Int) (c1 : capuch), on_flush_finish now c = some c1 →
        ∀ r ∈ c1.ready_list, r.batch_id = c1.batch_id ∧ ¬ r.batch_id ≤ c1.batch_id - 1) := by
  intro c hc
  have hI : batch_tagged c :=
    reachable_worker_invariant cf batch_tagged fresh_batch_tagged
      (fun o now p p1 d d1 x x1 hx hr => run_op_batch_tagged cf o now p p1 d d1 x x1 hx hr)
      s h c hc
  refine ⟨hI.2.1, hI.2.2, ?_⟩
  intro now c1 hff r hr
  have hrun : run_op cf worker_op.on_flush_finish now s.p s.disk c = some (s.p, s.disk, c1) := by
    simp only [run_op, hff, Option.map_some']
  have hI1 := run_op_batch_tagged cf _ now s.p s.p s.disk s.disk c c1 hI hrun
  obtain ⟨_, _, _, _, f5⟩ := on_flush_finish_fields now c c1 hff
  have := hI1.2.1 f5 r hr
  exact ⟨this, by omega⟩

/-- Witness for `completed_batches_reclaimed`: worker 0 of `two_conf` after
three `on_ready`, a timeout that starts the flush of batch 0 and one more
`on_ready`: it is flushing with entries of batches 0 and 1, and after
`on_flush_finish` at time 62500008 only the entry of batch 1 remains. -/
theorem completed_batches_reclaimed_witness :
    Reachable two_conf two_after_flush ∧
    flushing_worker.flushing = true ∧ flushing_worker.batch_id = 1 ∧
    tags flushing_worker.ready_list = [0, 0, 1] ∧
    (∀ r ∈ flushing_worker.ready_list,
      r.batch_id = flushing_worker.batch_id - 1 ∨ r.batch_id = flushing_worker.batch_id) ∧
    (∀ c1 : capuch, on_flush_finish 62500008 flushing_worker = some c1 →
      ∀ r ∈ c1.ready_list, r.batch_id = c1.batch_id ∧ ¬ r.batch_id ≤ c1.batch_id - 1) ∧
    ((on_flush_finish 62500008 flushing_worker).map (fun c1 => tags c1.ready_list)) = some [1] :=
  have hr : Reachable two_conf two_after_flush :=
    reachable_run_steps two_conf
      [(0, .on_ready, 5), (0, .on_ready, 6), (0, .on_ready, 7), (0, .on_timeout, 8),
       (0, .on_ready, 9)]
      two_started two_after_flush (Reachable.init 0 two_started (by decide)) (by decide)
  ⟨hr, by decide, by decide, by decide,
   (completed_batches_reclaimed two_conf two_after_flush hr flushing_worker
      (by decide)).2.1 (by decide),
   (completed_batches_reclaimed two_conf two_after_flush hr flushing_worker
      (by decide)).2.2 62500008,
   by decide⟩

/-- A fresh worker has no ready entry to count. -/
theorem fresh_batch_counted (c : capuch) (h : fresh_worker c) : batch_counted c := by
  obtain ⟨h1, _, h3, _⟩ := h
  unfold batch_counted batch_ordered open_batch_count
  rw [h1, h3]
  simp [tags]

/-- Every worker operation keeps the open batch within `batch_size`. -/
theorem run_op_batch_counted (cf : sim_conf) (o : worker_op) (now : Int) (p p1 : pool)
    (d d1 : disk_sim) (c c1 : capuch) (hI : batch_counted c)
    (h : run_op cf o now p d c = some (p1, d1, c1)) : batch_counted c1 := by
  obtain ⟨hbo, hcnt⟩ := hI
  obtain ⟨_, ⟨extra0, b0, hx0, hrl0⟩, hbid0⟩ := run_op_frame cf o now p p1 d d1 c c1 h
  have hbo1 : batch_ordered c1 := batch_ordered_of_shape c c1 extra0 b0 hbo hx0 hrl0 hbid0
  refine ⟨hbo1, ?_⟩
  unfold open_batch_count at hcnt ⊢
  rcases run_op_batch cf o now p p1 d d1 c c1 h with
    ⟨a1, a2, extra, b, hx, hrl, hbs⟩ | ⟨b1, b2, b3, b4, b, hrl⟩ | ⟨c1f, c2f, c3f, c4f, hrl⟩
  · rw [hrl, a1, hbs]
    have h1 : ((c.ready_list ++ extra).drop b).countP (fun r => decide (r.batch_id = c.batch_id))
        ≤ (c.ready_list ++ extra).countP (fun r => decide (r.batch_id = c.batch_id)) :=
      (List.drop_sublist _ _).countP_le _
    rw [List.countP_append] at h1
    have h2 := List.countP_le_length (fun r : resource => decide (r.batch_id = c.batch_id))
      (l := extra)
    omega
  · rw [hrl, b3, b4]
    have h0 : (c.ready_list.drop b).countP (fun r => decide (r.batch_id = c.batch_id + 1)) = 0 := by
      rw [List.countP_eq_zero]
      intro r hr
      have := hbo.2 r.batch_id (List.mem_map_of_mem _ (List.mem_of_mem_drop hr))
      simp only [decide_eq_true_eq]
      omega
    rw [h0]
    simp
  · rw [hrl, c3f, c4f]
    have h1 : (c.ready_list.dropWhile (fun r => decide (r.batch_id = c.batch_id - 1))).countP
          (fun r => decide (r.batch_id = c.batch_id))
        ≤ c.ready_list.countP (fun r => decide (r.batch_id = c.batch_id)) :=
      (List.dropWhile_sublist _).countP_le _
    omega

/-- What `dropWhile` drops is a front segment, the one `takeWhile` takes. -/
theorem dropWhile_eq_drop (q : resource → Bool) :
    ∀ l : List resource, ∃ b, l.dropWhile q = l.drop b ∧ l.take b = l.takeWhile q := by
  intro l
  induction l with
  | nil => exact ⟨0, rfl, rfl⟩
  | cons x xs ih =>
    by_cases hx : q x = true
    · obtain ⟨b, h1, h2⟩ := ih
      refine ⟨b + 1, ?_, ?_⟩
      · rw [List.dropWhile_cons_of_pos hx, List.drop_succ_cons, h1]
      · rw [List.takeWhile_cons_of_pos hx, List.take_succ_cons, h2]
    · refine ⟨0, ?_, ?_⟩
      · rw [List.dropWhile_cons_of_neg hx, List.drop_zero]
      · rw [List.takeWhile_cons_of_neg hx, List.take_zero]

/-- Exact bookkeeping of one worker operation on a batch-ordered worker.
Either the operation starts a flush (`on_flush_start`, alone or inside
`on_timeout`): `batch_id` goes up by one, `batch_size` is 0 and no entry of
the new batch is ready.  Or `batch_id` stays, `batch_size` goes up by the
number of entries pushed (1 for an `on_ready` with an active resource, 0
otherwise), and the number of ready entries of the current batch goes up by
the same number and down by the number of such entries among those the
operation removes from the front of `ready_list`; `inc_greed`, `dec_greed`
and `on_flush_finish` remove none of them. -/
theorem run_op_batch_exact (cf : sim_conf) (o : worker_op) (now : Int) (p p1 : pool)
    (d d1 : disk_sim) (c c1 : capuch) (hbo : batch_ordered c)
    (h : run_op cf o now p d c = some (p1, d1, c1)) :
    (c1.batch_id = c.batch_id + 1 ∧ c1.batch_size = 0 ∧ open_batch_count c1 = 0 ∧
      (o = worker_op.on_flush_start ∨ o = worker_op.on_timeout)) ∨
    (c1.batch_id = c.batch_id ∧
      ∃ extra b,
        (∀ r ∈ extra, r.batch_id = c.batch_id) ∧
        c1.ready_list = (c.ready_list ++ extra).drop b ∧
        extra.length = (if o = worker_op.on_ready ∧ c.active_rsc.isSome = true then 1 else 0) ∧
        c1.batch_size = c.batch_size + (extra.length : Int) ∧
        open_batch_count c1
            + ((c.ready_list ++ extra).take b).countP (fun r => decide (r.batch_id = c.batch_id))
          = open_batch_count c + extra.length ∧
        (o = worker_op.inc_greed ∨ o = worker_op.dec_greed ∨ o = worker_op.on_flush_finish →
          ((c.ready_list ++ extra).take b).countP (fun r => decide (r.batch_id = c.batch_id))
            = 0)) := by
  -- the count identity for a front segment dropped from `ready_list ++ extra`
  have hcount : ∀ (extra : List resource) (b : Nat),
      (∀ r ∈ extra, r.batch_id = c.batch_id) → c1.batch_id = c.batch_id →
      c1.ready_list = (c.ready_list ++ extra).drop b →
      open_batch_count c1
          + ((c.ready_list ++ extra).take b).countP (fun r => decide (r.batch_id = c.batch_id))
        = open_batch_count c + extra.length := by
    intro extra b hx hbid hrl
    unfold open_batch_count
    rw [hrl, hbid]
    have h1 := List.countP_append (fun r : resource => decide (r.batch_id = c.batch_id))
      ((c.ready_list ++ extra).take b) ((c.ready_list ++ extra).drop b)
    rw [List.take_append_drop, List.countP_append] at h1
    have h2 : extra.countP (fun r => decide (r.batch_id = c.batch_id)) = extra.length := by
      rw [List.countP_eq_length]
      intro r hr
      simpa using hx r hr
    omega
  -- a flush start leaves no ready entry of the new batch
  have hzero : ∀ b : Nat, c1.batch_id = c.batch_id + 1 → c1.ready_list = c.ready_list.drop b →
      open_batch_count c1 = 0 := by
    intro b hbid hrl
    unfold open_batch_count
    rw [hrl, hbid, List.countP_eq_zero]
    intro r hr
    have := hbo.2 r.batch_id (List.mem_map_of_mem _ (List.mem_of_mem_drop hr))
    simp only [decide_eq_true_eq]
    omega
  cases o with
  | sync_quota =>
    simp only [run_op, Option.map_eq_some', Prod.mk.injEq] at h
    obtain ⟨⟨q1, q2⟩, hs, rfl, _, rfl⟩ := h
    obtain ⟨⟨b, hb⟩, _, hbid⟩ := sync_quota_frame cf.pool_conf p q1 c q2 hs
    obtain ⟨f1, _⟩ := sync_quota_fields cf.pool_conf p q1 c q2 hs
    have hrl : q2.ready_list = (c.ready_list ++ []).drop b := by simpa using hb
    exact Or.inr ⟨hbid, [], b, by simp, hrl, by simp, by simp [f1],
      hcount [] b (by simp) hbid hrl, fun hh => by simp at hh⟩
  | on_ready =>
    simp only [run_op, Option.map_eq_some', Prod.mk.injEq] at h
    obtain ⟨⟨q1, q2⟩, hs, rfl, _, rfl⟩ := h
    obtain ⟨_, ⟨b, hb⟩, hbid⟩ := on_ready_frame cf.pool_conf p q1 c q2 hs
    obtain ⟨e1, _⟩ := on_ready_effect cf.pool_conf p q1 c q2 hs
    have hx : ∀ r ∈ c.active_rsc.toList.map (fun a : resource => { a with batch_id := c.batch_id }),
        r.batch_id = c.batch_id := by
      intro r hr
      simp only [List.mem_map] at hr
      obtain ⟨a, _, rfl⟩ := hr
      rfl
    refine Or.inr ⟨hbid, _, b, hx, hb, ?_, ?_, hcount _ b hx hbid hb, fun hh => by simp at hh⟩
    · cases c.active_rsc <;> simp
    · rw [e1]
      cases c.active_rsc <;> simp
  | on_flush_start =>
    simp only [run_op, Option.map_eq_some', Prod.mk.injEq] at h
    obtain ⟨⟨q1, q2⟩, hs, rfl, _, rfl⟩ := h
    obtain ⟨_, f2, _, f4⟩ := on_flush_start_frame cf.disk_conf now d q1 c q2 hs
    obtain ⟨e1, _⟩ := on_flush_start_fields cf.disk_conf now d q1 c q2 hs
    exact Or.inl ⟨f4, e1, hzero 0 f4 (by simpa using f2), Or.inl rfl⟩
  | on_flush_finish =>
    simp only [run_op, Option.map_eq_some', Prod.mk.injEq] at h
    obtain ⟨q2, hs, rfl, _, rfl⟩ := h
    obtain ⟨f1, _⟩ := on_flush_finish_fields now c q2 hs
    unfold on_flush_finish at hs
    split_ifs at hs with h1 h2
    simp only [Option.some.injEq] at hs
    obtain ⟨b, hb1, hb2⟩ := dropWhile_eq_drop (fun r : resource => decide (r.batch_id = c.batch_id - 1))
      c.ready_list
    have hbid : q2.batch_id = c.batch_id := by rw [← hs]
    have hrl : q2.ready_list = (c.ready_list ++ []).drop b := by
      rw [← hs, reclaim_eq, List.append_nil, ← hb1]
    have hnone : ((c.ready_list ++ []).take b).countP
        (fun r : resource => decide (r.batch_id = c.batch_id)) = 0 := by
      rw [List.append_nil, hb2, List.countP_eq_zero]
      intro r hr
      have := List.mem_takeWhile_imp hr
      simp only [decide_eq_true_eq] at this ⊢
      omega
    exact Or.inr ⟨hbid, [], b, by simp, hrl, by simp, by simp [f1],
      hcount [] b (by simp) hbid hrl, fun _ => hnone⟩
  | on_timeout =>
    simp only [run_op] at h
    obtain ⟨_, ⟨b, hb⟩, _⟩ := on_timeout_frame cf.pool_conf cf.disk_conf now p p1 d d1 c c1 h
    obtain ⟨hf, _, t1, t2⟩ := on_timeout_batch cf.pool_conf cf.disk_conf now p p1 d d1 c c1 h
    by_cases hbs : c.batch_size = 0
    · obtain ⟨u1, _, _, _, u5, _⟩ := t2 hbs
      have hrl : c1.ready_list = (c.ready_list ++ []).drop b := by simpa using hb
      exact Or.inr ⟨u1, [], b, by simp, hrl, by simp, by simp [u5, hbs],
        hcount [] b (by simp) u1 hrl, fun hh => by simp at hh⟩
    · obtain ⟨_, _, u3, u4⟩ := t1 hbs
      exact Or.inl ⟨u4, u3, hzero b u4 hb, Or.inr rfl⟩
  | inc_greed =>
    simp only [run_op, Option.some.injEq, Prod.mk.injEq] at h
    obtain ⟨rfl, _, rfl⟩ := h
    obtain ⟨_, _, f3, _, f5⟩ := inc_greed_frame cf.pool_conf p c
    obtain ⟨e1, _⟩ := inc_greed_fields cf.pool_conf p c
    have hrl : (inc_greed cf.pool_conf p c).2.ready_list = (c.ready_list ++ []).drop 0 := by
      simpa using f3
    exact Or.inr ⟨f5, [], 0, by simp, hrl, by simp, by simp [e1],
      hcount [] 0 (by simp) f5 hrl, fun _ => by simp⟩
  | dec_greed =>
    simp only [run_op, Option.some.injEq, Prod.mk.injEq] at h
    obtain ⟨rfl, _, rfl⟩ := h
    obtain ⟨_, _, f3, _, f5⟩ := dec_greed_frame cf.pool_conf p c
    obtain ⟨e1, _⟩ := dec_greed_fields cf.pool_conf p c
    have hrl : (dec_greed cf.pool_conf p c).2.ready_list = (c.ready_list ++ []).drop 0 := by
      simpa using f3
    exact Or.inr ⟨f5, [], 0, by simp, hrl, by simp, by simp [e1],
      hcount [] 0 (by simp) f5 hrl, fun _ => by simp⟩

/-- Along every history of a worker, `batch_size` is the number of pushes
since the last flush start. -/
theorem pushes_since_flush_batch_size (cf : sim_conf) (c : capuch) (n : Nat)
    (h : pushes_since_flush cf c n) : batch_ordered c ∧ c.batch_size = (n : Int) := by
  induction h with
  | fresh c hf =>
    obtain ⟨h1, _, h3, _⟩ := hf
    unfold batch_ordered
    rw [h1, h3]
    simp [tags]
  | step c c1 n o now p p1 d d1 _ hr ih =>
    obtain ⟨hbo, hbs⟩ := ih
    obtain ⟨_, ⟨extra0, b0, hx0, hrl0⟩, hbid0⟩ := run_op_frame cf o now p p1 d d1 c c1 hr
    refine ⟨batch_ordered_of_shape c c1 extra0 b0 hbo hx0 hrl0 hbid0, ?_⟩
    rcases run_op_batch_exact cf o now p p1 d d1 c c1 hbo hr with
      ⟨a1, a2, _, _⟩ | ⟨a1, extra, b, _, _, a4, a5, _⟩
    · rw [if_neg (by omega), a2]
      rfl
    · rw [if_pos a1, a5, hbs, a4]
      push_cast
      rfl

/-- The claim of C25 fails in a reachable state: two workers on eight
resources (`flush_size = 4`, greed pinned), five `on_ready` events of worker
0.  The fifth closes a batch of four and then, with nothing free, steals the
oldest ready entry: `batch_size` is 4 while only 3 entries of the batch are
left in `ready_list`; `on_flush_start` then submits 4 to the disk queue. -/
theorem batch_size_counterexample :
    Reachable two_conf two_after_five ∧
    two_after_five.capuches[0]? = some stolen_worker ∧
    stolen_worker.batch_size = 4 ∧ open_batch_count stolen_worker = 3 ∧
    stolen_worker.ready_list.length = 3 ∧ two_after_five.p.bufs_lost = 1 ∧
    (on_flush_start two_conf.disk_conf 6 two_after_five.disk stolen_worker).map
        (fun r => r.1.expected_finish)
      = (add_jobs two_conf.disk_conf 6 two_after_five.disk 4).map (fun r => r.1) :=
  ⟨reachable_run_steps two_conf
      [(0, .on_ready, 1), (0, .on_ready, 2), (0, .on_ready, 3), (0, .on_ready, 4),
       (0, .on_ready, 5)]
      two_started two_after_five (Reachable.init 0 two_started (by decide)) (by decide),
   by decide, by decide, by decide, by decide, by decide, by decide⟩

/-- C25 (amended): in every reachable state and for every worker, the
number of `ready_list` entries tagged with the current `batch_id` is at most
`batch_size`; and every worker operation that returns from such a state
keeps the books exactly: either it starts a flush (`on_flush_start`, alone
or inside `on_timeout`), after which `batch_id` is one higher, `batch_size`
is 0 and no entry of the new batch is ready; or `batch_id` stays,
`batch_size` rises by the number of entries pushed (1 for an `on_ready` that
has an active resource, 0 for everything else) and the number of ready
entries of the current batch rises by the same number and falls by the
number of such entries the operation takes from the front of `ready_list`
(the steal of `on_ready` and the over-quota return of `sync_quota`;
`inc_greed`, `dec_greed` and `on_flush_finish` take none).  Every reachable
worker state has a history, and along every history `batch_size` is the
number of pushes since the last flush start.  So the count `on_flush_start`
submits to the disk queue, `batch_size`, is at least the number of resources
left in the batch being closed. -/
theorem batch_size_bounds_open_batch (cf : sim_conf) (s : sim_state) (h : Reachable cf s) :
    ∀ c ∈ s.capuches,
      (open_batch_count c : Int) ≤ c.batch_size ∧
      (∃ n : Nat, pushes_since_flush cf c n) ∧
      (∀ n : Nat, pushes_since_flush cf c n → c.batch_size = (n : Int)) ∧
      (∀ (o : worker_op) (now : Int) (p p1 : pool) (d d1 : disk_sim) (c1 : capuch),
        run_op cf o now p d c = some (p1, d1, c1) →
        (c1.batch_id = c.batch_id + 1 ∧ c1.batch_size = 0 ∧ open_batch_count c1 = 0 ∧
          (o = worker_op.on_flush_start ∨ o = worker_op.on_timeout)) ∨
        (c1.batch_id = c.batch_id ∧
          ∃ extra b,
            (∀ r ∈ extra, r.batch_id = c.batch_id) ∧
            c1.ready_list = (c.ready_list ++ extra).drop b ∧
            extra.length
              = (if o = worker_op.on_ready ∧ c.active_rsc.isSome = true then 1 else 0) ∧
            c1.batch_size = c.batch_size + (extra.length : Int) ∧
            open_batch_count c1
                + ((c.ready_list ++ extra).take b).countP
                    (fun r => decide (r.batch_id = c.batch_id))
              = open_batch_count c + extra.length ∧
            (o = worker_op.inc_greed ∨ o = worker_op.dec_greed
                ∨ o = worker_op.on_flush_finish →
              ((c.ready_list ++ extra).take b).countP
                  (fun r => decide (r.batch_id = c.batch_id)) = 0))) ∧
      (∀ (now : Int) (d d1 : disk_sim) (c1 : capuch),
        on_flush_start cf.disk_conf now d c = some (d1, c1) →
        (∃ fin, add_jobs cf.disk_conf now d c.batch_size = some (fin, d1)) ∧
        ((c1.ready_list.countP (fun r => decide (r.batch_id = c1.batch_id - 1)) : Nat) : Int)
          ≤ c.batch_size) := by
  intro c hc
  have hI : batch_counted c :=
    reachable_worker_invariant cf batch_counted fresh_batch_counted
      (fun o now p p1 d d1 x x1 hx hr => run_op_batch_counted cf o now p p1 d d1 x x1 hx hr)
      s h c hc
  have hH : ∃ n : Nat, pushes_since_flush cf c n :=
    reachable_worker_invariant cf (fun x => ∃ n : Nat, pushes_since_flush cf x n)
      (fun x hx => ⟨0, pushes_since_flush.fresh x hx⟩)
      (fun o now p p1 d d1 x x1 hx hr => by
        obtain ⟨n, hn⟩ := hx
        exact ⟨_, pushes_since_flush.step x x1 n o now p p1 d d1 hn hr⟩)
      s h c hc
  refine ⟨hI.2, hH, fun n hn => (pushes_since_flush_batch_size cf c n hn).2,
    fun o now p p1 d d1 c1 hr => run_op_batch_exact cf o now p p1 d d1 c c1 hI.1 hr, ?_⟩
  intro now d d1 c1 hfs
  obtain ⟨_, f2, _, f4⟩ := on_flush_start_frame cf.disk_conf now d d1 c c1 hfs
  constructor
  · unfold on_flush_start at hfs
    split_ifs at hfs
    cases hadd : add_jobs cf.disk_conf now d c.batch_size with
    | none =>
      simp only [hadd] at hfs
      cases hfs
    | some rd =>
      simp only [hadd, Option.some.injEq, Prod.mk.injEq] at hfs
      exact ⟨rd.1, by rw [← hfs.1]⟩
  · rw [f2, f4]
    have e : c.batch_id + 1 - 1 = c.batch_id := by ring
    rw [e]
    exact hI.2

/-- Witness for `batch_size_bounds_open_batch`: worker 0 of `two_after_five`
has three entries of the open batch against `batch_size = 4`; its next
`on_ready` pushes the stolen resource again (`batch_size = 5`) and steals the
next oldest entry, so again three entries of the open batch are ready. -/
theorem batch_size_bounds_open_batch_witness :
    Reachable two_conf two_after_five ∧
    (open_batch_count stolen_worker : Int) ≤ stolen_worker.batch_size ∧
    open_batch_count stolen_worker = 3 ∧ stolen_worker.batch_size = 4 ∧
    (run_op two_conf worker_op.on_ready 6 two_after_five.p two_after_five.disk stolen_worker).map
        (fun r => (r.2.2.batch_size, open_batch_count r.2.2)) = some (5, 3) ∧
    ((stolen_after_ready.2.2.batch_id = stolen_worker.batch_id + 1 ∧
        stolen_after_ready.2.2.batch_size = 0 ∧ open_batch_count stolen_after_ready.2.2 = 0 ∧
        (worker_op.on_ready = worker_op.on_flush_start
          ∨ worker_op.on_ready = worker_op.on_timeout)) ∨
      (stolen_after_ready.2.2.batch_id = stolen_worker.batch_id ∧
        ∃ extra b,
          (∀ r ∈ extra, r.batch_id = stolen_worker.batch_id) ∧
          stolen_after_ready.2.2.ready_list = (stolen_worker.ready_list ++ extra).drop b ∧
          extra.length
            = (if worker_op.on_ready = worker_op.on_ready
                  ∧ stolen_worker.active_rsc.isSome = true then 1 else 0) ∧
          stolen_after_ready.2.2.batch_size = stolen_worker.batch_size + (extra.length : Int) ∧
          open_batch_count stolen_after_ready.2.2
              + ((stolen_worker.ready_list ++ extra).take b).countP
                  (fun r => decide (r.batch_id = stolen_worker.batch_id))
            = open_batch_count stolen_worker + extra.length ∧
          (worker_op.on_ready = worker_op.inc_greed ∨ worker_op.on_ready = worker_op.dec_greed
              ∨ worker_op.on_ready = worker_op.on_flush_finish →
            ((stolen_worker.ready_list ++ extra).take b).countP
                (fun r => decide (r.batch_id = stolen_worker.batch_id)) = 0))) :=
  have hr : Reachable two_conf two_after_five :=
    reachable_run_steps two_conf
      [(0, .on_ready, 1), (0, .on_ready, 2), (0, .on_ready, 3), (0, .on_ready, 4),
       (0, .on_ready, 5)]
      two_started two_after_five (Reachable.init 0 two_started (by decide)) (by decide)
  ⟨hr, (batch_size_bounds_open_batch two_conf two_after_five hr stolen_worker (by decide)).1,
   by decide, by decide, by decide,
   (batch_size_bounds_open_batch two_conf two_after_five hr stolen_worker
     (by decide)).2.2.2.1 worker_op.on_ready 6 two_after_five.p stolen_after_ready.1 two_after_five.disk
     stolen_after_ready.2.1 stolen_after_ready.2.2 (by decide)⟩

/-! ## The ready events of a poll tick -/

/-- `on_ready` preserves `flush_inv` when `flush_size ≥ 1`. -/
theorem on_ready_flush_inv (cf : pool_conf) (hfs : 1 ≤ cf.flush_size) (p p1 : pool)
    (c c1 : capuch) (hI : flush_inv c) (h : on_ready cf p c = some (p1, c1)) :
    flush_inv c1 := by
  obtain ⟨i1, i2, i3⟩ := hI
  obtain ⟨e1, _, _, _, _, e6⟩ := on_ready_effect cf p p1 c c1 h
  obtain ⟨p4, c4, hsync, hretry⟩ := on_ready_some cf p p1 c c1 h
  obtain ⟨a1, a2, _⟩ := on_ready_push_fields cf c
  obtain ⟨pa1, _, _, pa4⟩ := on_ready_push_frame cf c
  obtain ⟨b1, b2, _⟩ := on_ready_acquire_fields cf p (on_ready_push cf c)
  obtain ⟨_, _, qa3, _⟩ := on_ready_acquire_frame cf p (on_ready_push cf c) pa1
  obtain ⟨s1, s2, _⟩ := on_ready_sync_fields cf _ p4 _ c4 hsync
  obtain ⟨_, ⟨b, sf2⟩, _⟩ := on_ready_sync_frame cf _ p4 _ c4 hsync
  obtain ⟨r1, _, _, _, _, _, _, r8, r9, r10⟩ := on_ready_retry_cases _ p4 p1 c4 c1 hretry
  have hge : c.batch_size ≤ c1.batch_size := by
    rw [e1]
    split_ifs <;> omega
  have hfr4 : c4.flush_ready = true → 0 < c1.batch_size := by
    intro h4
    rw [s2, b2] at h4
    rcases a2.mp h4 with h0 | h0
    · have := i1 h0
      omega
    · rw [e1]
      rw [a1] at h0
      omega
  refine ⟨?_, by omega, fun hnone => ?_⟩
  · intro hfr
    cases hhad : (on_ready_acquire cf p (on_ready_push cf c)).1 with
    | false =>
      obtain ⟨_, e⟩ := r8 hhad
      rw [e] at hfr
      exact hfr4 hfr
    | true =>
      by_cases hfl : c4.free_list = []
      · obtain ⟨hne, _⟩ := r10 hhad hfl
        have hact : c.active_rsc.isSome = true := by
          cases hc : c.active_rsc with
          | some a => rfl
          | none =>
            exfalso
            apply hne
            rw [sf2, qa3, pa4, hc, i3 hc]
            simp
        rw [e1, hact]
        simp only [if_true]
        omega
      · obtain ⟨_, _, e⟩ := r9 hhad hfl
        rw [e] at hfr
        exact hfr4 hfr
  · rw [hnone] at e6
    cases e6

/-- `on_ready` does not touch `flush_finish`. -/
theorem on_ready_flush_finish (cf : pool_conf) (p p1 : pool) (c c1 : capuch)
    (h : on_ready cf p c = some (p1, c1)) : c1.flush_finish = c.flush_finish := by
  obtain ⟨p4, c4, hsync, hretry⟩ := on_ready_some cf p p1 c c1 h
  have hpush : (on_ready_push cf c).flush_finish = c.flush_finish := by
    unfold on_ready_push
    cases c.active_rsc <;> dsimp only <;> split_ifs <;> rfl
  have hacq : (on_ready_acquire cf p (on_ready_push cf c)).2.2.flush_finish
      = (on_ready_push cf c).flush_finish := by
    unfold on_ready_acquire
    cases (on_ready_push cf c).free_list with
    | nil =>
      dsimp only
      unfold inc_greed
      dsimp only
      split_ifs <;> rfl
    | cons r fs => rfl
  have hs : c4.flush_finish
      = (on_ready_acquire cf p (on_ready_push cf c)).2.2.flush_finish := by
    unfold on_ready_sync at hsync
    split_ifs at hsync
    · obtain ⟨m, a, b, _, rfl⟩ := sync_quota_some cf _ p4 _ c4 hsync
      rfl
    · simp only [Option.some.injEq, Prod.mk.injEq] at hsync
      rw [← hsync.2]
  have hr : c1.flush_finish = c4.flush_finish := by
    unfold on_ready_retry at hretry
    dsimp only at hretry
    cases hhad : (on_ready_acquire cf p (on_ready_push cf c)).1 with
    | false =>
      simp only [hhad, Bool.false_eq_true, if_false] at hretry
      split_ifs at hretry
      simp only [Option.some.injEq, Prod.mk.injEq] at hretry
      rw [← hretry.2]
    | true =>
      simp only [hhad, if_true] at hretry
      cases hfl : c4.free_list with
      | cons r fs =>
        simp only [hfl] at hretry
        split_ifs at hretry
        simp only [Option.some.injEq, Prod.mk.injEq] at hretry
        rw [← hretry.2]
      | nil =>
        simp only [hfl] at hretry
        cases hrl : c4.ready_list with
        | nil => simp only [hrl] at hretry; cases hretry
        | cons r rs =>
          simp only [hrl] at hretry
          split_ifs at hretry
          simp only [Option.some.injEq, Prod.mk.injEq] at hretry
          rw [← hretry.2]
  rw [hr, hs, hacq, hpush]

/-- `on_timeout` preserves `flush_inv` and leaves no flush pending. -/
theorem on_timeout_flush_inv (cf : pool_conf) (dcf : disk_conf) (now : Int) (p p1 : pool)
    (d d1 : disk_sim) (c c1 : capuch) (hI : flush_inv c)
    (h : on_timeout cf dcf now p d c = some (p1, d1, c1)) : flush_inv c1 := by
  obtain ⟨i1, i2, i3⟩ := hI
  obtain ⟨_, ⟨b, hb⟩, _⟩ := on_timeout_frame cf dcf now p p1 d d1 c c1 h
  obtain ⟨hf, hr, t1, t2⟩ := on_timeout_batch cf dcf now p p1 d d1 c c1 h
  obtain ⟨_, _, c3, hs, h4, h5⟩ := on_timeout_steps cf dcf now p p1 d d1 c c1 h
  obtain ⟨_, _, _, g4, _, g6, _⟩ := on_timeout_greed_fields cf p c
  obtain ⟨_, _, _, s4, _, _, _, _, _, _, s11⟩ := on_timeout_shrink cf _ p1 _ c3 hs
  have hact : c1.active_rsc = c.active_rsc := by
    by_cases hb3 : c3.batch_size = 0
    · rw [(h5 hb3).2, s11, g4]
    · obtain ⟨_, _, f3, _⟩ := on_flush_start_frame dcf now d d1 _ c1 (h4 hb3)
      rw [f3]
      dsimp only
      rw [s11, g4]
  have hfb : c1.flush_ready = false ∧ c1.batch_size = 0 := by
    by_cases hbs : c.batch_size = 0
    · obtain ⟨_, _, u3, _, u5, _⟩ := t2 hbs
      exact ⟨u3, u5⟩
    · obtain ⟨_, u2, u3, _⟩ := t1 hbs
      exact ⟨u2, u3⟩
  refine ⟨fun hfr => ?_, by rw [hfb.2], fun hnone => ?_⟩
  · rw [hfb.1] at hfr
    cases hfr
  · rw [hb, i3 (by rw [← hact]; exact hnone)]
    simp

/-- `on_flush_finish` preserves `flush_inv`, leaves `flush_finish` alone and
runs only at or after it. -/
theorem on_flush_finish_flush_inv (now : Int) (c c1 : capuch) (hI : flush_inv c)
    (h : on_flush_finish now c = some c1) :
    flush_inv c1 ∧ c1.flush_finish = c.flush_finish ∧ c.flush_finish ≤ now := by
  obtain ⟨i1, i2, i3⟩ := hI
  obtain ⟨f1, f2, _⟩ := on_flush_finish_fields now c c1 h
  obtain ⟨_, ⟨b, hb⟩, _⟩ := on_flush_finish_frame now c c1 h
  unfold on_flush_finish at h
  split_ifs at h with h1 h2
  simp only [Option.some.injEq] at h
  have hact : c1.active_rsc = c.active_rsc := by rw [← h]
  have hff : c1.flush_finish = c.flush_finish := by rw [← h]
  refine ⟨⟨fun hfr => ?_, by rw [f1]; exact i2, fun hnone => ?_⟩, hff, by omega⟩
  · rw [f1]
    exact i1 (by rw [← f2]; exact hfr)
  · rw [hb, i3 (by rw [← hact]; exact hnone)]
    simp

/-- `on_flush_start` preserves `flush_inv` and leaves the worker flushing. -/
theorem on_flush_start_flush_inv (dcf : disk_conf) (now : Int) (d d1 : disk_sim) (c c1 : capuch)
    (hI : flush_inv c) (h : on_flush_start dcf now d c = some (d1, c1)) :
    flush_inv c1 ∧ c1.flushing = true := by
  obtain ⟨i1, i2, i3⟩ := hI
  obtain ⟨_, f2, f3, _⟩ := on_flush_start_frame dcf now d d1 c c1 h
  obtain ⟨e1, e2, e3, _⟩ := on_flush_start_fields dcf now d d1 c c1 h
  refine ⟨⟨fun hfr => ?_, by rw [e1], fun hnone => ?_⟩, e3⟩
  · rw [e2] at hfr
    cases hfr
  · rw [f2]
    exact i3 (by rw [← f3]; exact hnone)

/-- The `on_ready` loop of a tick preserves `flush_inv` (for `flush_size ≥
1`) and leaves `flushing` and `flush_finish` alone. -/
theorem main_ready_flush_inv (cf : pool_conf) (hfs : 1 ≤ cf.flush_size) (now n : Int) :
    ∀ (fuel : Nat) (i : Int) (p : pool) (c : capuch) (k : Nat) (p1 : pool) (c1 : capuch),
      flush_inv c → main_ready cf now n fuel i p c = some (k, p1, c1) →
      flush_inv c1 ∧ c1.flushing = c.flushing ∧ c1.flush_finish = c.flush_finish := by
  intro fuel
  induction fuel with
  | zero =>
    intro i p c k p1 c1 hI h
    unfold main_ready at h
    split_ifs at h with hlt
    simp only [Option.some.injEq, Prod.mk.injEq] at h
    obtain ⟨_, _, rfl⟩ := h
    exact ⟨hI, rfl, rfl⟩
  | succ fuel ih =>
    intro i p c k p1 c1 hI h
    unfold main_ready at h
    split_ifs at h with hlt
    · cases hr : on_ready cf p c with
      | none => simp only [hr] at h; cases h
      | some pc =>
        obtain ⟨q1, q2⟩ := pc
        simp only [hr] at h
        cases hrec : main_ready cf now n fuel (i + 1) q1 { q2 with last_ready := now } with
        | none => simp only [hrec] at h; cases h
        | some r =>
          obtain ⟨k2, r1, r2⟩ := r
          simp only [hrec, Option.some.injEq, Prod.mk.injEq] at h
          obtain ⟨_, _, rfl⟩ := h
          have hI2 : flush_inv q2 := on_ready_flush_inv cf hfs p q1 c q2 hI hr
          obtain ⟨_, _, _, e4, _⟩ := on_ready_effect cf p q1 c q2 hr
          have e5 := on_ready_flush_finish cf p q1 c q2 hr
          obtain ⟨j1, j2, j3⟩ := ih (i + 1) q1 { q2 with last_ready := now } k2 r1 r2 hI2 hrec
          exact ⟨j1, by rw [j2]; exact e4, by rw [j3]; exact e5⟩
    · simp only [Option.some.injEq, Prod.mk.injEq] at h
      obtain ⟨_, _, rfl⟩ := h
      exact ⟨hI, rfl, rfl⟩

/-- Steps 1 to 3 of a poll tick at `now`, from a worker whose last flush (if
it is not flushing) finished by `now`: every intermediate state satisfies
`flush_inv`, and a worker that is not flushing after step 3 has
`flush_finish ≤ now`. -/
theorem main_tick_steps (cf : pool_conf) (dcf : disk_conf) (hfs : 1 ≤ cf.flush_size)
    (now : Int) (p p1 p2 : pool) (d d1 : disk_sim) (c c1 c2 c3 : capuch) (k : Nat)
    (hI : flush_inv c) (hT : c.flushing = false → c.flush_finish ≤ now)
    (h1 : main_timeout cf dcf now p d c = some (p1, d1, c1))
    (h2 : main_ready cf now (n_new_ready now c1) (n_new_ready now c1).toNat 0 p1 c1
      = some (k, p2, c2))
    (h3 : main_finish now c2 = some c3) :
    flush_inv c1 ∧ flush_inv c2 ∧ flush_inv c3 ∧
    (c3.flushing = false → c3.flush_finish ≤ now) := by
  have s1 : flush_inv c1 ∧ (c1.flushing = false → c1.flush_finish ≤ now) := by
    unfold main_timeout at h1
    split_ifs at h1 with hc
    · refine ⟨on_timeout_flush_inv cf dcf now p p1 d d1 c c1 hI h1, fun hf => ?_⟩
      obtain ⟨hf0, _, t1, t2⟩ := on_timeout_batch cf dcf now p p1 d d1 c c1 h1
      by_cases hbs : c.batch_size = 0
      · obtain ⟨_, _, _, u4, _⟩ := t2 hbs
        rw [u4]
        exact hT hf0
      · obtain ⟨u1, _⟩ := t1 hbs
        rw [u1] at hf
        cases hf
    · simp only [Option.some.injEq, Prod.mk.injEq] at h1
      obtain ⟨_, _, rfl⟩ := h1
      exact ⟨hI, hT⟩
  obtain ⟨m1, m2, m3⟩ := main_ready_flush_inv cf hfs now _ _ 0 p1 c1 k p2 c2 s1.1 h2
  have s2 : c2.flushing = false → c2.flush_finish ≤ now := by
    intro hf
    rw [m3]
    exact s1.2 (by rw [← m2]; exact hf)
  refine ⟨s1.1, m1, ?_⟩
  unfold main_finish at h3
  split_ifs at h3 with hc
  · obtain ⟨n1, n2, n3⟩ := on_flush_finish_flush_inv now c2 c3 m1 h3
    exact ⟨n1, fun _ => by rw [n2]; exact n3⟩
  · simp only [Option.some.injEq] at h3
    rw [← h3]
    exact ⟨m1, s2⟩

/-- A full poll tick at `now` keeps `flush_inv` and the time bound. -/
theorem main_tick_flush_inv (cf : pool_conf) (dcf : disk_conf) (hfs : 1 ≤ cf.flush_size)
    (now : Int) (p p1 : pool) (d d1 : disk_sim) (c c1 : capuch)
    (hI : flush_inv c) (hT : c.flushing = false → c.flush_finish ≤ now)
    (h : main_tick cf dcf now p d c = some (p1, d1, c1)) :
    flush_inv c1 ∧ (c1.flushing = false → c1.flush_finish ≤ now) := by
  unfold main_tick at h
  cases h1 : main_timeout cf dcf now p d c with
  | none => simp only [h1] at h; cases h
  | some r1 =>
    obtain ⟨q1, e1, x1⟩ := r1
    simp only [h1] at h
    cases h2 : main_ready cf now (n_new_ready now x1) (n_new_ready now x1).toNat 0 q1 x1 with
    | none => simp only [h2] at h; cases h
    | some r2 =>
      obtain ⟨k, q2, x2⟩ := r2
      simp only [h2] at h
      cases h3 : main_finish now x2 with
      | none => simp only [h3] at h; cases h
      | some x3 =>
        simp only [h3] at h
        obtain ⟨_, _, j3, j4⟩ := main_tick_steps cf dcf hfs now p q1 q2 d e1 c x1 x2 x3 k hI hT
          h1 h2 h3
        cases h4 : main_start dcf now e1 x3 with
        | none => simp only [h4] at h; cases h
        | some r4 =>
          obtain ⟨e4, x4⟩ := r4
          simp only [h4, Option.some.injEq, Prod.mk.injEq] at h
          obtain ⟨_, _, rfl⟩ := h
          unfold main_start at h4
          split_ifs at h4 with hc hlt
          · obtain ⟨n1, n2⟩ := on_flush_start_flush_inv dcf now e1 e4 x3 x4 j3 h4
            exact ⟨n1, fun hf => by rw [n2] at hf; cases hf⟩
          · simp only [Option.some.injEq, Prod.mk.injEq] at h4
            rw [← h4.2]
            exact ⟨j3, j4⟩

/-- Every worker state reachable through poll ticks satisfies `flush_inv`,
and if it is not flushing its last flush finished by the last tick. -/
theorem main_reach_flush_inv (cf : sim_conf) (hfs : 1 ≤ cf.pool_conf.flush_size) (t : Int)
    (c : capuch) (h : main_reach cf t c) :
    flush_inv c ∧ (c.flushing = false → c.flush_finish ≤ t) := by
  induction h with
  | entry t0 t s c hs hc =>
    obtain ⟨⟨f1, f2, f3, _⟩, _⟩ := start_fresh cf t0 s hs c hc
    refine ⟨⟨fun hfr => ?_, ?_, fun _ => ?_⟩, fun _ => ?_⟩
    · simp [main_entry] at hfr
    · simp only [main_entry]
      rw [f3]
    · simp only [main_entry]
      exact f1
    · simp [main_entry]
  | tick t now p p1 d d1 c c1 _ hle htick ih =>
    exact main_tick_flush_inv cf.pool_conf cf.disk_conf hfs now p p1 d d1 c c1 ih.1
      (fun hf => le_trans (ih.2 hf) hle) htick

/-- C31: the poll loop never violates the preconditions of `on_flush_start`.
For every configuration with `flush_size ≥ 1` and every worker state
reachable from the start of `capuch::main` through poll ticks at
non-decreasing clock readings: `flush_ready = true` implies `batch_size > 0`,
at the tick boundaries and after each of the steps 1 to 3 of a following
tick; when step 4 of that tick finds the worker not flushing with
`flush_ready` set, then `batch_size > 0` and `now ≥ flush_finish`, so the
loop's assertion and the three assertions of `on_flush_start` hold and step 4
returns (the disk rate being non-zero); and when `on_timeout`, called on the
reachable state, reaches its call of `on_flush_start` (`batch_size ≠ 0` after
its greed and quota steps), the worker is not flushing and `batch_size > 0`,
`flush_ready` having just been set. -/
theorem poll_loop_flush_start (cf : sim_conf) (hfs : 1 ≤ cf.pool_conf.flush_size) (t : Int)
    (c : capuch) (h : main_reach cf t c) :
    (c.flush_ready = true → 0 < c.batch_size) ∧
    (∀ (now : Int) (p p1 p2 : pool) (d d1 : disk_sim) (c1 c2 c3 : capuch) (k : Nat),
      t ≤ now →
      main_timeout cf.pool_conf cf.disk_conf now p d c = some (p1, d1, c1) →
      main_ready cf.pool_conf now (n_new_ready now c1) (n_new_ready now c1).toNat 0 p1 c1
        = some (k, p2, c2) →
      main_finish now c2 = some c3 →
      (c1.flush_ready = true → 0 < c1.batch_size) ∧
      (c2.flush_ready = true → 0 < c2.batch_size) ∧
      (c3.flush_ready = true → 0 < c3.batch_size) ∧
      (c3.flushing = false → c3.flush_ready = true →
        0 < c3.batch_size ∧ c3.flush_finish ≤ now ∧
        (to_u64 cf.disk_conf.consume_per_second ≠ 0 →
          ∃ d4 c4, main_start cf.disk_conf now d1 c3 = some (d4, c4)))) ∧
    (∀ (p p3 : pool) (c3 : capuch), c.flushing = false → c.flush_ready = false →
      (if nbufs (on_timeout_greed cf.pool_conf p c).2
            > quota cf.pool_conf (on_timeout_greed cf.pool_conf p c).1
                (on_timeout_greed cf.pool_conf p c).2
        then sync_quota cf.pool_conf (on_timeout_greed cf.pool_conf p c).1
                (on_timeout_greed cf.pool_conf p c).2
        else some (on_timeout_greed cf.pool_conf p c)) = some (p3, c3) →
      c3.batch_size ≠ 0 → c3.flushing = false ∧ 0 < c3.batch_size) := by
  obtain ⟨hI, hT⟩ := main_reach_flush_inv cf hfs t c h
  refine ⟨hI.1, ?_, ?_⟩
  · intro now p p1 p2 d d1 c1 c2 c3 k hle h1 h2 h3
    obtain ⟨j1, j2, j3, j4⟩ := main_tick_steps cf.pool_conf cf.disk_conf hfs now p p1 p2 d d1 c
      c1 c2 c3 k hI (fun hf => le_trans (hT hf) hle) h1 h2 h3
    refine ⟨j1.1, j2.1, j3.1, fun hf hr => ⟨j3.1 hr, j4 hf, fun hne => ?_⟩⟩
    have hb := j3.1 hr
    have hle2 := j4 hf
    unfold main_start on_flush_start add_jobs
    simp only [hf, hr, Bool.not_false, Bool.and_self, if_true, Bool.false_eq_true, Bool.not_true,
      if_false, if_neg (not_lt.mpr hle2), if_neg (ne_of_gt hb), if_neg hne]
    exact ⟨_, _, rfl⟩
  · intro p p3 c3 hf hr hs hb
    obtain ⟨_, _, _, _, _, g6, _, g8, _⟩ := on_timeout_greed_fields cf.pool_conf p c
    obtain ⟨_, _, _, s4, _, s6, _⟩ := on_timeout_shrink cf.pool_conf _ p3 _ c3 hs
    have hbs : c3.batch_size = c.batch_size := by rw [s4, g6]
    refine ⟨by rw [s6, g8, hf], ?_⟩
    have := hI.2.1
    rw [hbs] at hb ⊢
    omega

/-- Witness for `poll_loop_flush_start`: worker 0 of `slow_conf` (disk rate
one buffer per second) after a tick at 5 s, which starts a flush of four
buffers, and a tick at 8 s: it is still flushing, a flush is pending and
`batch_size = 3 > 0`. -/
theorem poll_loop_flush_start_witness :
    main_reach slow_conf 8000000000 slow_tick2.2.2 ∧
    slow_tick2.2.2.flushing = true ∧ slow_tick2.2.2.flush_ready = true ∧
    slow_tick2.2.2.batch_size = 3 ∧ 0 < slow_tick2.2.2.batch_size :=
  have h0 : main_reach slow_conf 0 slow_worker :=
    main_reach.entry 0 0 slow_started _ (by decide) (by decide)
  have h1 : main_reach slow_conf 5000000000 slow_tick1.2.2 :=
    main_reach.tick 0 5000000000 slow_started.p slow_tick1.1 slow_started.disk slow_tick1.2.1
      slow_worker slow_tick1.2.2 h0 (by decide) (by decide)
  have h2 : main_reach slow_conf 8000000000 slow_tick2.2.2 :=
    main_reach.tick 5000000000 8000000000 slow_tick1.1 slow_tick2.1 slow_tick1.2.1 slow_tick2.2.1
      slow_tick1.2.2 slow_tick2.2.2 h1 (by decide) (by decide)
  ⟨h2, by decide, by decide, by decide,
   (poll_loop_flush_start slow_conf (by decide) 8000000000 slow_tick2.2.2 h2).1 (by decide)⟩

/-! ## Scenario A: startup -/

/-- The bootstrap `inc_greed` of scenario A on a new worker. -/
theorem scenario_a_inc (cf : pool_conf) (hmin : cf.min_greed = 1) (hmax : cf.max_greed = 1)
    (p : pool) (i t0 : Int) (h : p.total_pressure + 20 < 2 ^ 64) :
    inc_greed cf p (capuch.init i t0)
      = ({ p with locks_taken := p.locks_taken + 1, total_pressure := p.total_pressure + 20 },
         { capuch.init i t0 with greed_inc := 1, greed := 1 }) := by
  have hb := inc_greed_bootstrap cf p (capuch.init i t0) (by omega) (by omega) rfl rfl
    (by rw [hmin]; exact h)
  rw [hb, hmin]
  rfl

/-- The first `sync_quota` of a worker of scenario A: four resources leave
the front of the pool free list. -/
theorem scenario_a_sync (cf : pool_conf) (htr : cf.total_rsc = 8) (hrs : cf.reserve = 0)
    (hmb : cf.min_bufs = 2) (p : pool) (w : capuch) (r1 r2 r3 r4 : resource)
    (rest : List resource) (htp : p.total_pressure = 40)
    (hpf : p.free = r1 :: r2 :: r3 :: r4 :: rest) (hg : w.greed = 1) (hpr : w.priority = 10)
    (hfl : w.free_list = []) (hrl : w.ready_list = []) (hact : w.active_rsc = none) :
    sync_quota cf p w
      = some ({ p with locks_taken := p.locks_taken + 1, free := rest },
              { w with free_list := [r1, r2, r3, r4] }) := by
  have hq := scenario_a_quota cf p w htr hrs hmb htp hg hpr
  have hnb : nbufs w = 0 := by
    unfold nbufs
    rw [hfl, hrl, hact]
    rfl
  rw [sync_quota_under cf p w 4 (by rw [hq, hnb]; rfl) (by norm_num), hpf, hfl]
  rfl

/-- The bootstrap `inc_greed` of scenario A, in terms of `scenario_a_worker`. -/
theorem scenario_a_boot (cf : pool_conf) (hmin : cf.min_greed = 1) (hmax : cf.max_greed = 1)
    (free : List resource) (tp : Nat) (locks : Int) (i t0 : Int) (h : tp + 20 < 2 ^ 64) :
    inc_greed cf { free := free, total_pressure := tp, locks_taken := locks } (capuch.init i t0)
      = ({ free := free, total_pressure := tp + 20, locks_taken := locks + 1 },
         scenario_a_worker i t0 []) := by
  rw [scenario_a_inc cf hmin hmax _ i t0 h]
  rfl

/-- The first `sync_quota` of a worker of scenario A, in terms of
`scenario_a_worker`. -/
theorem scenario_a_first_sync (cf : pool_conf) (htr : cf.total_rsc = 8) (hrs : cf.reserve = 0)
    (hmb : cf.min_bufs = 2) (r1 r2 r3 r4 : resource) (rest : List resource) (locks : Int)
    (i t0 : Int) :
    sync_quota cf { free := r1 :: r2 :: r3 :: r4 :: rest, total_pressure := 40,
                    locks_taken := locks } (scenario_a_worker i t0 [])
      = some ({ free := rest, total_pressure := 40, locks_taken := locks + 1 },
              scenario_a_worker i t0 [r1, r2, r3, r4]) := by
  rw [scenario_a_sync cf htr hrs hmb _ (scenario_a_worker i t0 []) r1 r2 r3 r4 rest rfl rfl rfl rfl
    rfl rfl rfl]
  rfl

/-- Startup of scenario A, phase 1. -/
theorem scenario_a_phase1 (cf : sim_conf) (t0 : Int)
    (htr : cf.pool_conf.total_rsc = 8) (hmin : cf.pool_conf.min_greed = 1)
    (hmax : cf.pool_conf.max_greed = 1) :
    start_phase1 cf t0 [0, 1] (pool.init cf.pool_conf) []
      = ({ free := [res 0, res 1, res 2, res 3, res 4, res 5, res 6, res 7],
           total_pressure := 40, locks_taken := 2 },
         [scenario_a_worker 0 t0 [], scenario_a_worker 1 t0 []]) := by
  have hinit : pool.init cf.pool_conf
      = { free := [res 0, res 1, res 2, res 3, res 4, res 5, res 6, res 7],
          total_pressure := 0, locks_taken := 0 } := by
    unfold pool.init
    rw [htr]
    rfl
  rw [hinit, start_phase1,
    scenario_a_boot cf.pool_conf hmin hmax _ 0 0 _ t0 (by decide)]
  dsimp only
  rw [start_phase1, scenario_a_boot cf.pool_conf hmin hmax _ (0 + 20) (0 + 1) _ t0 (by decide)]
  dsimp only
  rw [start_phase1]
  simp only [Nat.reduceAdd, Int.reduceAdd, zero_add, List.nil_append, List.cons_append,
    Nat.cast_zero, Nat.cast_one]

/-- Startup of scenario A, phase 2. -/
theorem scenario_a_phase2 (cf : sim_conf) (t0 : Int)
    (htr : cf.pool_conf.total_rsc = 8) (hrs : cf.pool_conf.reserve = 0)
    (hmb : cf.pool_conf.min_bufs = 2) :
    start_phase2 cf [scenario_a_worker 0 t0 [], scenario_a_worker 1 t0 []]
      { free := [res 0, res 1, res 2, res 3, res 4, res 5, res 6, res 7],
        total_pressure := 40, locks_taken := 2 } []
      = some ({ free := [], total_pressure := 40, locks_taken := 4 },
              [scenario_a_worker 0 t0 [res 0, res 1, res 2, res 3],
               scenario_a_worker 1 t0 [res 4, res 5, res 6, res 7]]) := by
  rw [start_phase2, scenario_a_first_sync cf.pool_conf htr hrs hmb]
  dsimp only
  rw [start_phase2, scenario_a_first_sync cf.pool_conf htr hrs hmb]
  dsimp only
  rw [start_phase2]
  simp only [Int.reduceAdd, List.nil_append, List.cons_append]

/-- Startup of scenario A, computed: `start` returns, the pool free list is
handed out completely, four resources to each worker. -/
theorem scenario_a_start (cf : sim_conf) (t0 : Int) (hn : cf.ncapuch = 2)
    (htr : cf.pool_conf.total_rsc = 8) (hrs : cf.pool_conf.reserve = 0)
    (hmb : cf.pool_conf.min_bufs = 2) (hmin : cf.pool_conf.min_greed = 1)
    (hmax : cf.pool_conf.max_greed = 1) :
    start cf t0 = some (scenario_a_state t0) := by
  have hr : List.range cf.ncapuch.toNat = [0, 1] := by
    rw [hn]
    rfl
  unfold start
  rw [if_neg (by omega)]
  simp only [hr, scenario_a_phase1 cf t0 htr hmin hmax, scenario_a_phase2 cf t0 htr hrs hmb,
    scenario_a_state]

/-- In scenario A every reachable state has two workers of greed 1 and
priority 10 and `total_pressure = 40`. -/
theorem scenario_a_reachable (cf : sim_conf) (hn : cf.ncapuch = 2)
    (htr : cf.pool_conf.total_rsc = 8) (hrs : cf.pool_conf.reserve = 0)
    (hmb : cf.pool_conf.min_bufs = 2) (hmin : cf.pool_conf.min_greed = 1)
    (hmax : cf.pool_conf.max_greed = 1) (s : sim_state) (h : Reachable cf s) :
    s.p.total_pressure = 40 ∧ s.capuches.length = 2 ∧
    ∀ c ∈ s.capuches, c.greed = 1 ∧ c.priority = 10 := by
  induction h with
  | init t0 s hs =>
    rw [scenario_a_start cf t0 hn htr hrs hmb hmin hmax] at hs
    simp only [Option.some.injEq] at hs
    rw [← hs]
    refine ⟨rfl, rfl, ?_⟩
    intro c hc
    simp only [scenario_a_state, List.mem_cons, List.mem_singleton, List.not_mem_nil,
      or_false] at hc
    rcases hc with rfl | rfl
    · exact ⟨rfl, rfl⟩
    · exact ⟨rfl, rfl⟩
  | step s s1 i o now _ hst ih =>
    obtain ⟨i1, i2, i3⟩ := ih
    unfold sim_step at hst
    cases hc : s.capuches[i]? with
    | none => rw [hc] at hst; cases hst
    | some c =>
      rw [hc] at hst
      dsimp only at hst
      cases hr : run_op cf o now s.p s.disk c with
      | none => rw [hr] at hst; cases hst
      | some r =>
        obtain ⟨p1, d1, c1⟩ := r
        rw [hr] at hst
        simp only [Option.some.injEq] at hst
        subst hst
        have hcmem : c ∈ s.capuches := by
          obtain ⟨hi, hget⟩ := List.getElem?_eq_some_iff.mp hc
          rw [← hget]
          exact List.getElem_mem hi
        obtain ⟨g1, g2⟩ := i3 c hcmem
        obtain ⟨e1, e2, e3⟩ := run_op_stable cf o now s.p p1 s.disk d1 c c1 (by omega) (by omega) hr
        refine ⟨by rw [e3]; exact i1, by simpa using i2, ?_⟩
        intro x hxm
        rcases List.mem_or_eq_of_mem_set hxm with hm | rfl
        · exact i3 x hm
        · exact ⟨by rw [e1]; exact g1, by rw [e2]; exact g2⟩

/-- C18: scenario A.  With `total_rsc = 8`, `reserve = 0`, `min_bufs = 2`,
`min_greed = max_greed = 1` and two workers (of equal priority: the
constructor's 10), startup phases 1-2 return a state in which the pool free
list is empty and each of the two workers has `quota() = 4` and
`nbufs() = 4`; and `quota()` is 4 for both workers in every state reachable
afterwards through worker events. -/
theorem scenario_a (cf : sim_conf) (t0 : Int) (hn : cf.ncapuch = 2)
    (htr : cf.pool_conf.total_rsc = 8) (hrs : cf.pool_conf.reserve = 0)
    (hmb : cf.pool_conf.min_bufs = 2) (hmin : cf.pool_conf.min_greed = 1)
    (hmax : cf.pool_conf.max_greed = 1) :
    (∃ s, start cf t0 = some s ∧ s.p.free = [] ∧ s.capuches.length = 2 ∧
      ∀ c ∈ s.capuches, c.priority = 10 ∧ quota cf.pool_conf s.p c = 4 ∧ nbufs c = 4) ∧
    (∀ s, Reachable cf s →
      s.capuches.length = 2 ∧ ∀ c ∈ s.capuches, quota cf.pool_conf s.p c = 4) := by
  constructor
  · refine ⟨scenario_a_state t0, scenario_a_start cf t0 hn htr hrs hmb hmin hmax, rfl, rfl, ?_⟩
    intro c hc
    simp only [scenario_a_state, List.mem_cons, List.mem_singleton, List.not_mem_nil,
      or_false] at hc
    rcases hc with rfl | rfl
    · exact ⟨rfl, scenario_a_quota cf.pool_conf _ _ htr hrs hmb rfl rfl rfl, rfl⟩
    · exact ⟨rfl, scenario_a_quota cf.pool_conf _ _ htr hrs hmb rfl rfl rfl, rfl⟩
  · intro s hs
    obtain ⟨i1, i2, i3⟩ := scenario_a_reachable cf hn htr hrs hmb hmin hmax s hs
    refine ⟨i2, fun c hc => ?_⟩
    obtain ⟨g1, g2⟩ := i3 c hc
    exact scenario_a_quota cf.pool_conf s.p c htr hrs hmb i1 g1 g2

/-- Witness for `scenario_a`: `two_conf` is scenario A (with `flush_size =
4`); after startup and three `on_ready` events both workers still have
`quota() = 4`. -/
theorem scenario_a_witness :
    Reachable two_conf two_after_three ∧
    two_after_three.capuches.length = 2 ∧
    ∀ c ∈ two_after_three.capuches, quota two_conf.pool_conf two_after_three.p c = 4 :=
  have hr : Reachable two_conf two_after_three :=
    reachable_run_steps two_conf [(0, .on_ready, 5), (1, .on_ready, 6), (0, .on_ready, 7)]
      two_started two_after_three (Reachable.init 0 two_started (by decide)) (by decide)
  ⟨hr, (scenario_a two_conf 0 (by decide) (by decide) (by decide) (by decide) (by decide)
    (by decide)).2 two_after_three hr⟩

/-! ## Lifecycle of the simulation object -/

/-- Phase 1 through the subscript is phase 1 of `start` when the workers are
created at the indices that follow the vector. -/
theorem simulation_phase1_eq (cf : sim_conf) (t0 : Int) :
    ∀ (n : Nat) (p : pool) (cs : List capuch),
      simulation.phase1 cf t0 (List.range' cs.length n) p cs
        = some (start_phase1 cf t0 (List.range' cs.length n) p cs) := by
  intro n
  induction n with
  | zero => intro p cs; simp [simulation.phase1, start_phase1]
  | succ n ih =>
    intro p cs
    rw [List.range'_succ]
    unfold simulation.phase1 start_phase1
    have hget : (cs ++ [capuch.init ((cs.length : Nat) : Int) t0])[cs.length]?
        = some (capuch.init ((cs.length : Nat) : Int) t0) := by simp
    dsimp only
    rw [hget]
    dsimp only
    have hset : (cs ++ [capuch.init ((cs.length : Nat) : Int) t0]).set cs.length
          (inc_greed cf.pool_conf p (capuch.init ((cs.length : Nat) : Int) t0)).2
        = cs ++ [(inc_greed cf.pool_conf p (capuch.init ((cs.length : Nat) : Int) t0)).2] := by
      simp
    rw [hset]
    have hlen : (cs ++ [(inc_greed cf.pool_conf p
        (capuch.init ((cs.length : Nat) : Int) t0)).2]).length = cs.length + 1 := by simp
    have := ih (inc_greed cf.pool_conf p (capuch.init ((cs.length : Nat) : Int) t0)).1
      (cs ++ [(inc_greed cf.pool_conf p (capuch.init ((cs.length : Nat) : Int) t0)).2])
    rw [hlen] at this
    exact this

/-- Phase 2 through the subscript is phase 2 of `start`. -/
theorem simulation_phase2_eq (cf : sim_conf) :
    ∀ (todo done : List capuch) (p : pool),
      simulation.phase2 cf (List.range' done.length todo.length) p (done ++ todo)
        = start_phase2 cf todo p done := by
  intro todo
  induction todo with
  | nil => intro done p; simp [simulation.phase2, start_phase2]
  | cons c cs ih =>
    intro done p
    rw [List.length_cons, List.range'_succ]
    unfold simulation.phase2 start_phase2
    have hget : (done ++ c :: cs)[done.length]? = some c := by
      rw [List.getElem?_append_right (le_refl _)]
      simp
    rw [hget]
    dsimp only
    cases hs : sync_quota cf.pool_conf p c with
    | none => rfl
    | some pc =>
      obtain ⟨p1, c1⟩ := pc
      dsimp only
      have hset : (done ++ c :: cs).set done.length c1 = (done ++ [c1]) ++ cs := by
        simp
      rw [hset]
      have := ih (done ++ [c1]) p1
      rw [List.length_append, List.length_singleton] at this
      exact this

/-- Phase 1 of startup appends one worker per index, with that index as id. -/
theorem start_phase1_ids (cf : sim_conf) (t0 : Int) :
    ∀ (is : List Nat) (p : pool) (cs : List capuch),
      (start_phase1 cf t0 is p cs).2.length = cs.length + is.length ∧
      (start_phase1 cf t0 is p cs).2.map capuch.id
        = cs.map capuch.id ++ is.map (fun i : Nat => (i : Int)) := by
  intro is
  induction is with
  | nil => intro p cs; simp [start_phase1]
  | cons i is ih =>
    intro p cs
    unfold start_phase1
    dsimp only
    obtain ⟨h1, h2⟩ := ih (inc_greed cf.pool_conf p (capuch.init (i : Int) t0)).1
      (cs ++ [(inc_greed cf.pool_conf p (capuch.init (i : Int) t0)).2])
    have hid : (inc_greed cf.pool_conf p (capuch.init (i : Int) t0)).2.id = (i : Int) := by
      unfold inc_greed
      dsimp only
      split_ifs <;> rfl
    constructor
    · rw [h1]
      simp
      omega
    · rw [h2]
      simp [hid]

/-- Phase 2 of startup keeps the workers' ids, in order. -/
theorem start_phase2_ids (cf : sim_conf) :
    ∀ (todo : List capuch) (p : pool) (done : List capuch) (p1 : pool) (cs1 : List capuch),
      start_phase2 cf todo p done = some (p1, cs1) →
      cs1.map capuch.id = done.map capuch.id ++ todo.map capuch.id := by
  intro todo
  induction todo with
  | nil =>
    intro p done p1 cs1 h
    simp only [start_phase2, Option.some.injEq, Prod.mk.injEq] at h
    rw [← h.2]
    simp
  | cons c cs ih =>
    intro p done p1 cs1 h
    unfold start_phase2 at h
    cases hs : sync_quota cf.pool_conf p c with
    | none => rw [hs] at h; cases h
    | some q =>
      obtain ⟨q1, q2⟩ := q
      rw [hs] at h
      dsimp only at h
      obtain ⟨m, a, b, _, e2⟩ := sync_quota_some cf.pool_conf p q1 c q2 hs
      have hid : q2.id = c.id := by rw [e2]
      rw [ih q1 (done ++ [q2]) p1 cs1 h]
      simp [hid]

/-- The workers of a completed startup have the ids `0 .. ncapuch - 1`. -/
theorem start_ids (cf : sim_conf) (t0 : Int) (s : sim_state) (h : start cf t0 = some s) :
    s.capuches.map capuch.id = (List.range cf.ncapuch.toNat).map (fun i : Nat => (i : Int)) ∧
    s.disk = { expected_finish := t0 } := by
  unfold start at h
  split_ifs at h with hneg
  dsimp only at h
  cases h2 : start_phase2 cf
      (start_phase1 cf t0 (List.range cf.ncapuch.toNat) (pool.init cf.pool_conf) []).2
      (start_phase1 cf t0 (List.range cf.ncapuch.toNat) (pool.init cf.pool_conf) []).1 [] with
  | none => rw [h2] at h; cases h
  | some r =>
    obtain ⟨p2, cs⟩ := r
    rw [h2] at h
    simp only [Option.some.injEq] at h
    rw [← h]
    refine ⟨?_, rfl⟩
    dsimp only
    rw [start_phase2_ids cf _ _ _ p2 cs h2,
      (start_phase1_ids cf t0 (List.range cf.ncapuch.toNat) (pool.init cf.pool_conf) []).2]
    simp

/-- `simulation::start` on an object that is not running and has no workers
is `start` on its configuration, stored into the object. -/
theorem simulation_start_eq (s : simulation) (t0 : Int) (hr : s.running = false)
    (hc : s.capuches = []) :
    s.start t0 = (start s.conf t0).map (fun st =>
      { s with running := true, p := some st.p, disk := some st.disk, capuches := st.capuches,
               capuches_threads := s.capuches_threads ++ List.range s.conf.ncapuch.toNat }) := by
  unfold simulation.start start
  rw [if_neg (by simp [hr])]
  by_cases hneg : s.conf.ncapuch < 0
  · rw [if_pos hneg, if_pos hneg]
    rfl
  · rw [if_neg hneg, if_neg hneg]
    dsimp only
    have e1 := simulation_phase1_eq s.conf t0 s.conf.ncapuch.toNat (pool.init s.conf.pool_conf) []
    rw [List.length_nil, ← List.range_eq_range'] at e1
    rw [hc, e1]
    dsimp only
    have hlen := (start_phase1_ids s.conf t0 (List.range s.conf.ncapuch.toNat)
      (pool.init s.conf.pool_conf) []).1
    rw [List.length_nil, zero_add, List.length_range] at hlen
    have e2 := simulation_phase2_eq s.conf
      (start_phase1 s.conf t0 (List.range s.conf.ncapuch.toNat) (pool.init s.conf.pool_conf) []).2
      [] (start_phase1 s.conf t0 (List.range s.conf.ncapuch.toNat)
        (pool.init s.conf.pool_conf) []).1
    rw [List.length_nil, hlen, ← List.range_eq_range', List.nil_append] at e2
    rw [e2]
    cases start_phase2 s.conf
      (start_phase1 s.conf t0 (List.range s.conf.ncapuch.toNat) (pool.init s.conf.pool_conf) []).2
      (start_phase1 s.conf t0 (List.range s.conf.ncapuch.toNat) (pool.init s.conf.pool_conf) []).1
      [] with
    | none => rfl
    | some r => rfl

/-- C20: idempotent stop.  `terminate()` on a simulation that is not running
changes no state; `terminate()` followed by `terminate()` yields the same
state as a single `terminate()`, and after `terminate()` of a running
simulation that state has `running = false`, no workers, no worker threads
and no pool or disk queue; and `start()` after `terminate()` of a running
simulation is `start` on the configuration with nothing left over (the same
result as `start()` on a new object with that configuration): when it
returns, the simulation is running on the pool and disk queue that startup
creates, with one thread per worker and the worker ids `0 .. ncapuch - 1`. -/
theorem idempotent_stop (s : simulation) (t0 : Int) :
    (s.running = false → s.terminate = s) ∧
    s.terminate.terminate = s.terminate ∧
    s.terminate.running = false ∧
    (s.running = true →
      s.terminate.capuches = [] ∧ s.terminate.capuches_threads = [] ∧
      s.terminate.p = none ∧ s.terminate.disk = none ∧ s.terminate.conf = s.conf) ∧
    (s.running = true →
      s.terminate.start t0 = simulation.start { conf := s.conf } t0 ∧
      s.terminate.start t0 = (start s.conf t0).map (fun st =>
        ({ conf := s.conf, running := true, p := some st.p, disk := some st.disk,
           capuches := st.capuches,
           capuches_threads := List.range s.conf.ncapuch.toNat } : simulation)) ∧
      ∀ s1, s.terminate.start t0 = some s1 →
        s1.running = true ∧
        s1.capuches.map capuch.id
          = (List.range s.conf.ncapuch.toNat).map (fun i : Nat => (i : Int)) ∧
        s1.capuches_threads = List.range s.conf.ncapuch.toNat ∧
        s1.disk = some { expected_finish := t0 } ∧
        ∃ st, start s.conf t0 = some st ∧ s1.p = some st.p ∧ s1.capuches = st.capuches) := by
  have hterm : s.running = true →
      s.terminate = ({ conf := s.conf } : simulation) := by
    intro hr
    unfold simulation.terminate
    rw [if_pos hr]
  have hstart : s.running = true →
      s.terminate.start t0 = (start s.conf t0).map (fun st =>
        ({ conf := s.conf, running := true, p := some st.p, disk := some st.disk,
           capuches := st.capuches,
           capuches_threads := List.range s.conf.ncapuch.toNat } : simulation)) := by
    intro hr
    rw [hterm hr, simulation_start_eq { conf := s.conf } t0 rfl rfl]
    rfl
  refine ⟨?_, ?_, ?_, ?_, ?_⟩
  · intro hr
    unfold simulation.terminate
    rw [if_neg (by simp [hr])]
  · unfold simulation.terminate
    by_cases hr : s.running = true
    · simp [hr]
    · simp [hr]
  · unfold simulation.terminate
    by_cases hr : s.running = true
    · simp [hr]
    · rw [if_neg hr]
      simpa using hr
  · intro hr
    rw [hterm hr]
    exact ⟨rfl, rfl, rfl, rfl, rfl⟩
  · intro hr
    refine ⟨by rw [hterm hr], hstart hr, ?_⟩
    intro s1 h1
    rw [hstart hr] at h1
    cases hst : start s.conf t0 with
    | none => rw [hst] at h1; cases h1
    | some st =>
      rw [hst] at h1
      simp only [Option.map_some', Option.some.injEq] at h1
      obtain ⟨i1, i2⟩ := start_ids s.conf t0 st hst
      rw [← h1]
      exact ⟨rfl, i1, rfl, by rw [i2], st, rfl, rfl, rfl⟩

/-- Witness for `idempotent_stop`: the running simulation of `two_conf`;
after `terminate()` and `start()` at time 9 it runs two workers with ids 0
and 1 on two threads. -/
theorem idempotent_stop_witness :
    two_running.running = true ∧
    two_running.terminate.terminate = two_running.terminate ∧
    two_running.terminate.capuches = [] ∧
    two_running.terminate.capuches_threads = [] ∧
    two_running.terminate.running = false ∧
    (two_running.terminate.start 9).map
        (fun s1 => (s1.running, s1.capuches.map capuch.id, s1.capuches_threads))
      = some (true, [0, 1], [0, 1]) ∧
    two_running.terminate.start 9 = simulation.start { conf := two_running.conf } 9 :=
  ⟨by decide, (idempotent_stop two_running 9).2.1,
   ((idempotent_stop two_running 9).2.2.2.1 (by decide)).1,
   ((idempotent_stop two_running 9).2.2.2.1 (by decide)).2.1,
   (idempotent_stop two_running 9).2.2.1, by decide,
   ((idempotent_stop two_running 9).2.2.2.2 (by decide)).1⟩

/-! ## Scenario D: on_ready with an active resource -/

/-- `pressure()` reads only greed and priority. -/
theorem pressure_congr (c c1 : capuch) (hg : c1.greed = c.greed) (hpr : c1.priority = c.priority) :
    pressure c1 = pressure c := by
  unfold pressure
  rw [hg, hpr]

/-- The pressure of a worker with greed in `1..30` and priority in
`1 .. 2^31 - 1`: positive and below `2^61`. -/
theorem pressure_range (c : capuch) (hg1 : 1 ≤ c.greed) (hg30 : c.greed ≤ 30)
    (hp1 : 1 ≤ c.priority) (hp31 : c.priority < 2 ^ 31) :
    0 < pressure c ∧ pressure c < 2 ^ 61 := by
  have hle := two_pow_toNat_le hg30
  have hpos : (0 : Int) < 2 ^ c.greed.toNat := by positivity
  have hprod : 2 ^ c.greed.toNat * c.priority < 2 ^ 61 := by
    calc 2 ^ c.greed.toNat * c.priority ≤ 2 ^ 30 * c.priority :=
          mul_le_mul_of_nonneg_right hle (by omega)
      _ < 2 ^ 30 * 2 ^ 31 := by
          apply mul_lt_mul_of_pos_left hp31 (by norm_num)
      _ = 2 ^ 61 := by norm_num
  have h := pressure_eq c (by omega) hg30 (by omega) (by omega)
  have hge : (1 : Int) ≤ 2 ^ c.greed.toNat * c.priority := by nlinarith
  constructor
  · have : (0 : Int) < (pressure c : Int) := by rw [h]; omega
    exact_mod_cast this
  · have : ((pressure c : Nat) : Int) < 2 ^ 61 := by rw [h]; exact hprod
    exact_mod_cast this

/-- A worker with `greed ≥ 1` contributes its pressure to the pressure sum. -/
theorem pressure_le_sum (c : capuch) (hg : 1 ≤ c.greed) :
    ∀ cs : List capuch, c ∈ cs → pressure c ≤ pressure_sum cs := by
  intro cs
  induction cs with
  | nil => intro h; cases h
  | cons x xs ih =>
    intro h
    unfold pressure_sum
    rcases List.mem_cons.mp h with rfl | hm
    · rw [if_pos (by omega)]
      omega
    · have := ih hm
      omega

/-- With `1 ≤ min_bufs < 2^31`, `0 ≤ total_rsc - reserve < 2^31` and the
worker's pressure counted in a non-zero `total_pressure`, `quota()` is at
least 1. -/
theorem quota_ge_one (cf : pool_conf) (p : pool) (c : capuch)
    (hmb1 : 1 ≤ cf.min_bufs) (hmb31 : cf.min_bufs < 2 ^ 31)
    (hc0 : 0 ≤ cf.total_rsc - cf.reserve) (hc31 : cf.total_rsc - cf.reserve < 2 ^ 31)
    (htp : 0 < p.total_pressure) (hP : pressure c ≤ p.total_pressure) :
    1 ≤ quota cf p c := by
  have e1 : ((to_u64 cf.min_bufs : Nat) : Int) = cf.min_bufs := to_u64_eq (by omega) (by omega)
  have e2 : ((to_u64 (cf.total_rsc - cf.reserve) : Nat) : Int) = cf.total_rsc - cf.reserve :=
    to_u64_eq hc0 (by omega)
  have hshare : (pressure c * to_u64 (cf.total_rsc - cf.reserve)) % 2 ^ 64 / p.total_pressure
      ≤ to_u64 (cf.total_rsc - cf.reserve) := by
    apply Nat.div_le_of_le_mul
    exact le_trans (Nat.mod_le _ _) (Nat.mul_le_mul_right _ hP)
  unfold quota
  rw [if_neg (by omega)]
  generalize (pressure c * to_u64 (cf.total_rsc - cf.reserve)) % 2 ^ 64 / p.total_pressure = q
      at hshare
  have hmax : ((max (to_u64 cf.min_bufs) q : Nat) : Int) = max cf.min_bufs (q : Int) := by
    push_cast
    rw [e1]
  rw [hmax]
  have hq : (q : Int) < 2 ^ 31 := by
    have : ((q : Nat) : Int) ≤ ((to_u64 (cf.total_rsc - cf.reserve) : Nat) : Int) := by
      exact_mod_cast hshare
    omega
  rw [to_i32_eq (by omega) (by omega)]
  omega

/-- The last block of `on_ready` after an `inc_greed` returns as soon as
`free_list` or `ready_list` holds something. -/
theorem on_ready_retry_returns (p4 : pool) (c4 : capuch)
    (h : c4.free_list ≠ [] ∨ c4.ready_list ≠ []) :
    ∃ p5 c5, on_ready_retry true p4 c4 = some (p5, c5) := by
  unfold on_ready_retry
  simp only [if_true]
  cases hfl : c4.free_list with
  | cons r fs => exact ⟨_, _, rfl⟩
  | nil =>
    cases hrl : c4.ready_list with
    | cons r rs => exact ⟨_, _, rfl⟩
    | nil =>
      rcases h with h | h
      · exact absurd hfl h
      · exact absurd hrl h

/-- The last block of `on_ready` after an `inc_greed` aborts when nothing is
free and nothing is ready. -/
theorem on_ready_retry_none (p4 : pool) (c4 : capuch)
    (hfl : c4.free_list = []) (hrl : c4.ready_list = []) :
    on_ready_retry true p4 c4 = none := by
  unfold on_ready_retry
  simp only [if_true, hfl, hrl]

/-- The state `on_ready` is in when it evaluates `quota()`, for a worker
with nothing free: the push is done, `inc_greed` has run, nothing is free or
active and `ready_list` is the one after the push. -/
theorem on_ready_acquire_starved (cf : pool_conf) (p : pool) (c : capuch)
    (hfl : c.free_list = []) :
    on_ready_acquire cf p (on_ready_push cf c) = (true, inc_greed cf p (on_ready_push cf c)) ∧
    (inc_greed cf p (on_ready_push cf c)).1.free = p.free ∧
    (inc_greed cf p (on_ready_push cf c)).2.free_list = [] ∧
    (inc_greed cf p (on_ready_push cf c)).2.active_rsc = none ∧
    (inc_greed cf p (on_ready_push cf c)).2.ready_list = (on_ready_push cf c).ready_list ∧
    nbufs (inc_greed cf p (on_ready_push cf c)).2 = nbufs c ∧
    ((on_ready_push cf c).ready_list.length : Int) = nbufs c := by
  obtain ⟨f1, f2, _, f4⟩ := on_ready_push_frame cf c
  obtain ⟨g1, g2, g3, g4, _⟩ := inc_greed_frame cf p (on_ready_push cf c)
  have hacq : on_ready_acquire cf p (on_ready_push cf c)
      = (true, inc_greed cf p (on_ready_push cf c)) := by
    unfold on_ready_acquire
    rw [f2, hfl]
  have hlen : ((on_ready_push cf c).ready_list.length : Int) = nbufs c := by
    unfold nbufs
    rw [f4, hfl]
    cases c.active_rsc <;> simp
  refine ⟨hacq, g1, by rw [g2, f2, hfl], by rw [g4, f1], g3, ?_, hlen⟩
  rw [← hlen]
  unfold nbufs
  rw [g2, f2, hfl, g3, g4, f1]
  simp

/-- A worker with nothing free that holds something: `on_ready` returns when
`quota()`, evaluated after `inc_greed`, is at least 1, and aborts when it is
0 or less. -/
theorem on_ready_starved (cf : pool_conf) (p : pool) (c : capuch)
    (hfl : c.free_list = []) (hheld : 1 ≤ nbufs c) :
    (1 ≤ quota cf (inc_greed cf p (on_ready_push cf c)).1 (inc_greed cf p (on_ready_push cf c)).2 →
      ∃ p1 c1, on_ready cf p c = some (p1, c1)) ∧
    (quota cf (inc_greed cf p (on_ready_push cf c)).1 (inc_greed cf p (on_ready_push cf c)).2 ≤ 0 →
      on_ready cf p c = none) := by
  obtain ⟨hacq, a1, a2, a3, a4, a5, a6⟩ := on_ready_acquire_starved cf p c hfl
  rw [on_ready_blocks, hacq]
  dsimp only
  generalize hp3 : (inc_greed cf p (on_ready_push cf c)).1 = p3 at *
  generalize hc3 : (inc_greed cf p (on_ready_push cf c)).2 = c3 at *
  have hn3 : nbufs c3 = (c3.ready_list.length : Int) := by
    rw [a5, a4, a6]
  constructor
  · intro hq
    unfold on_ready_sync
    rcases lt_trichotomy (quota cf p3 c3) (nbufs c3) with hlt | heq | hgt
    · rw [if_pos (by omega)]
      rw [sync_quota_over cf p3 c3 (nbufs c3 - quota cf p3 c3).toNat (by omega) (by omega)
        (by rw [a2]; simp only [List.length_nil, zero_add]; omega)]
      dsimp only
      apply on_ready_retry_returns
      right
      dsimp only
      intro hnil
      have hl := congrArg List.length hnil
      rw [List.length_drop, a2] at hl
      simp only [List.length_nil, Nat.sub_zero] at hl
      omega
    · rw [if_neg (by omega)]
      dsimp only
      apply on_ready_retry_returns
      right
      intro hnil
      rw [hnil] at hn3
      simp only [List.length_nil, Nat.cast_zero] at hn3
      omega
    · rw [if_pos (by omega)]
      rw [sync_quota_under cf p3 c3 (quota cf p3 c3 - nbufs c3).toNat (by omega) (by omega)]
      dsimp only
      apply on_ready_retry_returns
      right
      dsimp only
      intro hnil
      rw [hnil] at hn3
      simp only [List.length_nil, Nat.cast_zero] at hn3
      omega
  · intro hq
    unfold on_ready_sync
    rw [if_pos (by omega)]
    by_cases h0 : quota cf p3 c3 = 0
    · rw [sync_quota_over cf p3 c3 (nbufs c3 - quota cf p3 c3).toNat (by omega) (by omega)
        (by rw [a2]; simp only [List.length_nil, zero_add]; omega)]
      dsimp only
      apply on_ready_retry_none
      · dsimp only
        rw [a2]
        simp
      · dsimp only
        apply List.eq_nil_of_length_eq_zero
        rw [List.length_drop, a2]
        simp only [List.length_nil, Nat.sub_zero]
        omega
    · rw [sync_quota_over_none cf p3 c3 (by rw [a2]; simp only [List.length_nil]; push_cast; omega)]

/-- The quota step of `on_ready` for a worker with nothing free or active,
against an exhausted pool free list: nothing becomes free, and `ready_list`
loses its first `nbufs() - quota()` entries when the worker is over quota. -/
theorem on_ready_sync_starved (cf : pool_conf) (p3 p4 : pool) (c3 c4 : capuch)
    (hpf : p3.free = []) (hfl : c3.free_list = []) (hact : c3.active_rsc = none)
    (h : on_ready_sync cf p3 c3 = some (p4, c4)) :
    c4.free_list = [] ∧
    c4.ready_list = c3.ready_list.drop (nbufs c3 - quota cf p3 c3).toNat := by
  have hn3 : nbufs c3 = (c3.ready_list.length : Int) := by
    unfold nbufs
    rw [hfl, hact]
    simp
  unfold on_ready_sync at h
  rcases lt_trichotomy (quota cf p3 c3) (nbufs c3) with hlt | heq | hgt
  · rw [if_pos (by omega)] at h
    by_cases hle : nbufs c3 - quota cf p3 c3
        ≤ ((c3.free_list.length + c3.ready_list.length : Nat) : Int)
    · rw [sync_quota_over cf p3 c3 (nbufs c3 - quota cf p3 c3).toNat (by omega) (by omega)
        (by omega)] at h
      simp only [Option.some.injEq, Prod.mk.injEq] at h
      rw [← h.2]
      dsimp only
      rw [hfl]
      simp
    · rw [sync_quota_over_none cf p3 c3 (by push_cast at hle; omega)] at h
      cases h
  · rw [if_neg (by omega)] at h
    simp only [Option.some.injEq, Prod.mk.injEq] at h
    rw [← h.2]
    have e : (nbufs c3 - quota cf p3 c3).toNat = 0 := by omega
    rw [e]
    exact ⟨hfl, rfl⟩
  · rw [if_pos (by omega)] at h
    rw [sync_quota_under cf p3 c3 (quota cf p3 c3 - nbufs c3).toNat (by omega) (by omega)] at h
    simp only [Option.some.injEq, Prod.mk.injEq] at h
    rw [← h.2]
    dsimp only
    have e : (nbufs c3 - quota cf p3 c3).toNat = 0 := by omega
    rw [e, hfl, hpf]
    simp

/-- A worker with something free: `on_ready` aborts when `quota()` is 0 or
less (the active resource it has just taken cannot be handed back). -/
theorem on_ready_free_none (cf : pool_conf) (p : pool) (c : capuch)
    (hfl : c.free_list ≠ []) (hq : quota cf p c ≤ 0) : on_ready cf p c = none := by
  obtain ⟨f1, f2, _, f4⟩ := on_ready_push_frame cf c
  obtain ⟨_, _, _, a4, a5⟩ := on_ready_push_fields cf c
  obtain ⟨_, _, _, b4, _, b6, _⟩ := on_ready_acquire_fields cf p (on_ready_push cf c)
  obtain ⟨hfalse, hp, hact⟩ := b6 (by rw [f2]; exact hfl)
  have hshape : (on_ready_acquire cf p (on_ready_push cf c)).2.2.free_list = c.free_list.tail ∧
      (on_ready_acquire cf p (on_ready_push cf c)).2.2.ready_list = (on_ready_push cf c).ready_list ∧
      (on_ready_acquire cf p (on_ready_push cf c)).2.2.greed = c.greed := by
    unfold on_ready_acquire
    cases hfl2 : (on_ready_push cf c).free_list with
    | nil => rw [f2] at hfl2; exact absurd hfl2 hfl
    | cons r fs =>
      rw [f2] at hfl2
      exact ⟨by rw [hfl2]; rfl, rfl, a5⟩
  obtain ⟨s1, s2, s3⟩ := hshape
  have hsome : (on_ready_acquire cf p (on_ready_push cf c)).2.2.active_rsc.isSome = true := by
    rw [hact, f2]
    cases hc : c.free_list with
    | nil => exact absurd hc hfl
    | cons r fs => rfl
  have hqe : quota cf (on_ready_acquire cf p (on_ready_push cf c)).2.1
      (on_ready_acquire cf p (on_ready_push cf c)).2.2 = quota cf p c :=
    quota_congr cf _ _ _ _ (by rw [hp]) s3 (by rw [b4, a4])
  have hnb : nbufs (on_ready_acquire cf p (on_ready_push cf c)).2.2
      = ((on_ready_acquire cf p (on_ready_push cf c)).2.2.free_list.length : Int)
        + ((on_ready_acquire cf p (on_ready_push cf c)).2.2.ready_list.length : Int) + 1 := by
    unfold nbufs
    rw [hsome]
    simp
  rw [on_ready_blocks]
  have hs : on_ready_sync cf (on_ready_acquire cf p (on_ready_push cf c)).2.1
      (on_ready_acquire cf p (on_ready_push cf c)).2.2 = none := by
    unfold on_ready_sync
    rw [if_pos (by rw [hqe]; omega)]
    exact sync_quota_over_none cf _ _ (by rw [hqe, hnb]; omega)
  rw [hs]

/-- Explicit form of `inc_greed` on a worker below `max_greed` with a
non-zero greed. -/
theorem inc_greed_eq (cf : pool_conf) (p : pool) (c : capuch) (hlt : c.greed < cf.max_greed)
    (hg : c.greed ≠ 0) :
    inc_greed cf p c
      = ({ p with locks_taken := p.locks_taken + 1,
                  total_pressure := tp_add (tp_sub p.total_pressure (pressure c))
                    (pressure { c with greed_inc := c.greed_inc + 1,
                                       greed := if c.greed + 1 < cf.min_greed
                                         then to_i32 cf.min_greed else c.greed + 1 }) },
         { c with greed_inc := c.greed_inc + 1,
                  greed := if c.greed + 1 < cf.min_greed
                    then to_i32 cf.min_greed else c.greed + 1 }) := by
  unfold inc_greed
  rw [if_pos hlt]
  dsimp only
  rw [if_pos hg]
  by_cases h2 : c.greed + 1 < cf.min_greed
  · rw [if_pos h2, if_pos h2]
    rfl
  · rw [if_neg h2, if_neg h2]
    rfl

/-- After `inc_greed` on a worker with greed in `1..30` and priority in
`1 .. 2^31 - 1` whose pressure is counted in `total_pressure < 2^63` (greed
limits at most 30): `total_pressure` is not zero and still counts the
worker's pressure. -/
theorem inc_greed_pressure (cf : pool_conf) (p : pool) (c : capuch)
    (hmin : cf.min_greed ≤ 30) (hmax : cf.max_greed ≤ 30)
    (hg1 : 1 ≤ c.greed) (hg30 : c.greed ≤ 30) (hp1 : 1 ≤ c.priority) (hp31 : c.priority < 2 ^ 31)
    (hP : pressure c ≤ p.total_pressure) (htp : p.total_pressure < 2 ^ 63) :
    0 < (inc_greed cf p c).1.total_pressure ∧
    pressure (inc_greed cf p c).2 ≤ (inc_greed cf p c).1.total_pressure := by
  obtain ⟨hP0, _⟩ := pressure_range c hg1 hg30 hp1 hp31
  by_cases hlt : c.greed < cf.max_greed
  · rw [inc_greed_eq cf p c hlt (by omega)]
    dsimp only
    have hgr : 1 ≤ (if c.greed + 1 < cf.min_greed then to_i32 cf.min_greed else c.greed + 1) ∧
        (if c.greed + 1 < cf.min_greed then to_i32 cf.min_greed else c.greed + 1) ≤ 30 := by
      split_ifs with h2
      · rw [to_i32_eq (by omega) (by omega)]
        omega
      · omega
    obtain ⟨q0, q61⟩ := pressure_range
      { c with greed_inc := c.greed_inc + 1,
               greed := if c.greed + 1 < cf.min_greed then to_i32 cf.min_greed else c.greed + 1 }
      hgr.1 hgr.2 hp1 hp31
    generalize pressure
      { c with greed_inc := c.greed_inc + 1,
               greed := if c.greed + 1 < cf.min_greed then to_i32 cf.min_greed else c.greed + 1 }
      = pn at q0 q61 ⊢
    generalize pressure c = po at hP hP0 ⊢
    generalize p.total_pressure = tp at hP htp ⊢
    unfold tp_add tp_sub
    omega
  · unfold inc_greed
    rw [if_neg hlt]
    exact ⟨lt_of_lt_of_le hP0 hP, hP⟩

/-- With a free resource at hand, `on_ready` evaluates `quota()` on the
greed, priority and `total_pressure` of entry. -/
theorem on_ready_quota_free (cf : pool_conf) (p : pool) (c : capuch) (hfl : c.free_list ≠ []) :
    quota cf (on_ready_acquire cf p (on_ready_push cf c)).2.1
      (on_ready_acquire cf p (on_ready_push cf c)).2.2 = quota cf p c := by
  obtain ⟨_, f2, _⟩ := on_ready_push_frame cf c
  obtain ⟨_, _, _, a4, a5⟩ := on_ready_push_fields cf c
  obtain ⟨_, _, _, b4, _, b6, _⟩ := on_ready_acquire_fields cf p (on_ready_push cf c)
  obtain ⟨_, hp, _⟩ := b6 (by rw [f2]; exact hfl)
  have hg : (on_ready_acquire cf p (on_ready_push cf c)).2.2.greed = c.greed := by
    unfold on_ready_acquire
    cases hfl2 : (on_ready_push cf c).free_list with
    | nil => rw [f2] at hfl2; exact absurd hfl2 hfl
    | cons r fs => exact a5
  exact quota_congr cf _ _ _ _ (by rw [hp]) hg (by rw [b4, a4])

/-- A worker that holds something: `on_ready` returns exactly when
`quota()`, as the event evaluates it (after `inc_greed` when nothing is
free), is at least 1. -/
theorem on_ready_returns_iff (cf : pool_conf) (p : pool) (c : capuch) (hheld : 1 ≤ nbufs c) :
    (1 ≤ quota cf (on_ready_acquire cf p (on_ready_push cf c)).2.1
        (on_ready_acquire cf p (on_ready_push cf c)).2.2 →
      ∃ p1 c1, on_ready cf p c = some (p1, c1)) ∧
    (quota cf (on_ready_acquire cf p (on_ready_push cf c)).2.1
        (on_ready_acquire cf p (on_ready_push cf c)).2.2 ≤ 0 →
      on_ready cf p c = none) := by
  by_cases hfl : c.free_list = []
  · obtain ⟨hacq, _⟩ := on_ready_acquire_starved cf p c hfl
    rw [hacq]
    exact on_ready_starved cf p c hfl hheld
  · rw [on_ready_quota_free cf p c hfl]
    exact ⟨fun hq => on_ready_returns_free cf p c hfl (Or.inl hq),
      fun hq => on_ready_free_none cf p c hfl hq⟩

/-- A worker that holds nothing aborts in `on_ready` when the pool free list
is exhausted. -/
theorem on_ready_nothing_none (cf : pool_conf) (p : pool) (c : capuch)
    (hheld : nbufs c = 0) (hpf : p.free = []) : on_ready cf p c = none := by
  have hfl : c.free_list = [] := by
    apply List.eq_nil_of_length_eq_zero
    unfold nbufs at hheld
    split_ifs at hheld <;> omega
  obtain ⟨hacq, a1, a2, a3, a4, a5, a6⟩ := on_ready_acquire_starved cf p c hfl
  rw [on_ready_blocks, hacq]
  dsimp only
  cases hs : on_ready_sync cf (inc_greed cf p (on_ready_push cf c)).1
      (inc_greed cf p (on_ready_push cf c)).2 with
  | none => rfl
  | some pc =>
    obtain ⟨p4, c4⟩ := pc
    obtain ⟨s1, s2⟩ := on_ready_sync_starved cf _ p4 _ c4 (by rw [a1, hpf]) a2 a3 hs
    dsimp only
    apply on_ready_retry_none p4 c4 s1
    rw [s2, a4]
    apply List.eq_nil_of_length_eq_zero
    rw [List.length_drop]
    have : (on_ready_push cf c).ready_list.length = 0 := by omega
    omega

/-- C17 fails as stated, in two ways.  Two workers on a pool of one
resource: after startup worker 1 holds nothing and the pool free list is
exhausted; its first `on_ready` finds nothing free and nothing ready and
hits `assert(this->ready_list.size())`.  Two workers on a pool of two
resources with `min_bufs = 0`: after startup and two `on_ready` events of
worker 0 (a reachable state), worker 1 holds one resource, the pool free
list is exhausted and worker 1's `quota()` has dropped to 0; its `on_ready`
takes the resource as active and hits the `assert(false)` of `sync_quota`. -/
theorem starvation_counterexample :
    (start tiny_conf 0 = some tiny_started ∧
      tiny_started.p.free = [] ∧
      tiny_started.capuches.map nbufs = [1, 0] ∧
      sim_step tiny_conf tiny_started 1 .on_ready 1 = none) ∧
    (Reachable starve_conf starve_after ∧
      starve_after.p.free = [] ∧
      starve_after.capuches[1]? = some starve_worker ∧
      nbufs starve_worker = 1 ∧
      quota starve_conf.pool_conf starve_after.p starve_worker = 0 ∧
      on_ready starve_conf.pool_conf starve_after.p starve_worker = none ∧
      sim_step starve_conf starve_after 1 .on_ready 3 = none) :=
  ⟨by decide,
   reachable_run_steps starve_conf [(0, .on_ready, 1), (0, .on_ready, 2)]
     starve_started starve_after (Reachable.init 0 starve_started (by decide)) (by decide),
   by decide, by decide, by decide, by decide, by decide, by decide⟩

/-- C17 (amended): resource starvation is fatal only without a quota.  For
every configuration and every pool and worker state (in particular every one
reachable from startup phases 1-2) in which the worker holds at least one
resource: an `on_ready` event completes without a fatal assertion when
`quota()`, as the event evaluates it (after `inc_greed` when nothing is
free), is at least 1, and hits a fatal assertion when it is 0 or less.  When
it completes, the worker has an active resource; with something free on
entry that is the front of `free_list` and `bufs_lost` is unchanged; with
nothing free on entry and the pool free list exhausted the event degrades
only by counting `bufs_lost` (one more) and forcing a flush (`flush_ready`),
the new active resource being the oldest `ready_list` entry left after the
over-quota entries were handed back.  A worker that holds nothing hits a
fatal assertion when the pool free list is exhausted. -/
theorem starvation_not_fatal (cf : pool_conf) (p : pool) (c : capuch) :
    (1 ≤ nbufs c →
      1 ≤ quota cf (on_ready_acquire cf p (on_ready_push cf c)).2.1
        (on_ready_acquire cf p (on_ready_push cf c)).2.2 →
      ∃ p1 c1, on_ready cf p c = some (p1, c1) ∧ c1.active_rsc.isSome = true ∧
        (c.free_list ≠ [] → p1.bufs_lost = p.bufs_lost ∧ c1.active_rsc = c.free_list.head?) ∧
        (c.free_list = [] → p.free = [] →
          p1.bufs_lost = p.bufs_lost + 1 ∧ c1.flush_ready = true ∧
          c1.active_rsc = ((on_ready_push cf c).ready_list.drop
            (nbufs c - quota cf (on_ready_acquire cf p (on_ready_push cf c)).2.1
              (on_ready_acquire cf p (on_ready_push cf c)).2.2).toNat).head?)) ∧
    (1 ≤ nbufs c →
      quota cf (on_ready_acquire cf p (on_ready_push cf c)).2.1
        (on_ready_acquire cf p (on_ready_push cf c)).2.2 ≤ 0 →
      on_ready cf p c = none) ∧
    (nbufs c = 0 → p.free = [] → on_ready cf p c = none) := by
  refine ⟨?_, fun hheld => (on_ready_returns_iff cf p c hheld).2,
    on_ready_nothing_none cf p c⟩
  intro hheld hq
  obtain ⟨p1, c1, h⟩ := (on_ready_returns_iff cf p c hheld).1 hq
  obtain ⟨_, _, _, _, _, e6⟩ := on_ready_effect cf p p1 c c1 h
  obtain ⟨k1, k2⟩ := on_ready_acquisition cf p p1 c c1 h
  refine ⟨p1, c1, h, e6, k1, ?_⟩
  intro hfl hpf
  obtain ⟨hacq, a1, a2, a3, a4, a5, a6⟩ := on_ready_acquire_starved cf p c hfl
  obtain ⟨p4, c4, hsync, l1, _⟩ := k2 hfl
  obtain ⟨s1, s2⟩ := on_ready_sync_starved cf _ p4 _ c4 (by rw [a1, hpf]) a2 a3 hsync
  obtain ⟨_, m2, m3, m4⟩ := l1 s1
  refine ⟨m2, m3, ?_⟩
  rw [m4, s2, a4, a5, hacq]

/-- Witness for `starvation_not_fatal`: worker 0 of `two_conf` after five
`on_ready` events (a reachable state): it holds four resources, none of them
free, the pool free list is exhausted and its quota is 4; the next
`on_ready` completes, `bufs_lost` goes from 1 to 2 and a flush is forced. -/
theorem starvation_not_fatal_witness :
    Reachable two_conf two_after_five ∧
    two_after_five.p.free = [] ∧ stolen_worker.free_list = [] ∧ nbufs stolen_worker = 4 ∧
    ∃ p1 c1, on_ready two_conf.pool_conf two_after_five.p stolen_worker = some (p1, c1) ∧
      c1.active_rsc.isSome = true ∧
      (stolen_worker.free_list ≠ [] →
        p1.bufs_lost = two_after_five.p.bufs_lost
          ∧ c1.active_rsc = stolen_worker.free_list.head?) ∧
      (stolen_worker.free_list = [] → two_after_five.p.free = [] →
        p1.bufs_lost = two_after_five.p.bufs_lost + 1 ∧ c1.flush_ready = true ∧
        c1.active_rsc = ((on_ready_push two_conf.pool_conf stolen_worker).ready_list.drop
          (nbufs stolen_worker
            - quota two_conf.pool_conf
                (on_ready_acquire two_conf.pool_conf two_after_five.p
                  (on_ready_push two_conf.pool_conf stolen_worker)).2.1
                (on_ready_acquire two_conf.pool_conf two_after_five.p
                  (on_ready_push two_conf.pool_conf stolen_worker)).2.2).toNat).head?) :=
  ⟨reachable_run_steps two_conf
      [(0, .on_ready, 1), (0, .on_ready, 2), (0, .on_ready, 3), (0, .on_ready, 4),
       (0, .on_ready, 5)]
      two_started two_after_five (Reachable.init 0 two_started (by decide)) (by decide),
   by decide, by decide, by decide,
   (starvation_not_fatal two_conf.pool_conf two_after_five.p stolen_worker).1 (by decide)
     (by decide)⟩

/-- The claim of C16 fails with `min_bufs = 2^32`: a worker of greed 1 and
priority 10 with an active resource, `total_pressure = 20` the pressure sum
of that one worker, `reserve ≤ total_rsc`.  `quota()` returns `int`, so the
floor narrows to 0; with nothing free `on_ready` pushes the active resource,
hands it back to the pool and hits `assert(this->ready_list.size())`. -/
theorem on_ready_never_fatal_counterexample :
    1 ≤ wide32_conf.min_bufs ∧ wide32_conf.reserve ≤ wide32_conf.total_rsc ∧
    1 ≤ lone_capuch.greed ∧ 1 ≤ lone_capuch.priority ∧
    lone_pool.total_pressure = pressure_sum [lone_capuch] ∧
    lone_capuch.active_rsc.isSome = true ∧
    quota wide32_conf (inc_greed wide32_conf lone_pool (on_ready_push wide32_conf lone_capuch)).1
      (inc_greed wide32_conf lone_pool (on_ready_push wide32_conf lone_capuch)).2 = 0 ∧
    on_ready wide32_conf lone_pool lone_capuch = none := by
  decide

/-- C16 (amended): scenario D.  For every configuration with
`1 ≤ min_bufs < 2^31`, `0 ≤ total_rsc - reserve < 2^31` and greed limits of
at most 30, and every worker state with `1 ≤ greed ≤ 30`,
`1 ≤ priority < 2^31`, the pressure-sum invariant holding with
`total_pressure < 2^63`, and an active resource present on entry: `on_ready`
violates none of its assertions (nor those inside `sync_quota`) and exits
with an active resource present, whatever the pool free list holds, also
when it is empty; `quota()` as the event evaluates it is at least 1. -/
theorem on_ready_never_fatal (cf : pool_conf) (p : pool) (c : capuch) (cs : List capuch)
    (hmb1 : 1 ≤ cf.min_bufs) (hmb31 : cf.min_bufs < 2 ^ 31)
    (hc0 : cf.reserve ≤ cf.total_rsc) (hc31 : cf.total_rsc - cf.reserve < 2 ^ 31)
    (hmin : cf.min_greed ≤ 30) (hmax : cf.max_greed ≤ 30)
    (hg1 : 1 ≤ c.greed) (hg30 : c.greed ≤ 30)
    (hp1 : 1 ≤ c.priority) (hp31 : c.priority < 2 ^ 31)
    (hmem : c ∈ cs) (hinv : p.total_pressure = pressure_sum cs)
    (htp : p.total_pressure < 2 ^ 63)
    (hact : c.active_rsc.isSome = true) :
    1 ≤ quota cf (on_ready_acquire cf p (on_ready_push cf c)).2.1
        (on_ready_acquire cf p (on_ready_push cf c)).2.2 ∧
    ∃ p1 c1, on_ready cf p c = some (p1, c1) ∧ c1.active_rsc.isSome = true := by
  have hP : pressure c ≤ p.total_pressure := by
    rw [hinv]
    exact pressure_le_sum c hg1 cs hmem
  obtain ⟨hP0, _⟩ := pressure_range c hg1 hg30 hp1 hp31
  have hheld : 1 ≤ nbufs c := by
    unfold nbufs
    rw [hact]
    simp only [if_true]
    omega
  have hq : 1 ≤ quota cf (on_ready_acquire cf p (on_ready_push cf c)).2.1
      (on_ready_acquire cf p (on_ready_push cf c)).2.2 := by
    by_cases hfl : c.free_list = []
    · obtain ⟨hacq, _⟩ := on_ready_acquire_starved cf p c hfl
      rw [hacq]
      obtain ⟨_, _, _, a4, a5⟩ := on_ready_push_fields cf c
      obtain ⟨i1, i2⟩ := inc_greed_pressure cf p (on_ready_push cf c) hmin hmax
        (by rw [a5]; exact hg1) (by rw [a5]; exact hg30) (by rw [a4]; exact hp1)
        (by rw [a4]; exact hp31) (by rw [pressure_congr c _ a5 a4]; exact hP) htp
      exact quota_ge_one cf _ _ hmb1 hmb31 (by omega) hc31 i1 i2
    · rw [on_ready_quota_free cf p c hfl]
      exact quota_ge_one cf p c hmb1 hmb31 (by omega) hc31 (lt_of_lt_of_le hP0 hP) hP
  refine ⟨hq, ?_⟩
  obtain ⟨p1, c1, h⟩ := (on_ready_returns_iff cf p c hheld).1 hq
  obtain ⟨_, _, _, _, _, e6⟩ := on_ready_effect cf p p1 c c1 h
  exact ⟨p1, c1, h, e6⟩

/-- Witness for `on_ready_never_fatal`: eight resources, `min_bufs = 2`,
greed pinned at 1; a worker with two ready entries, an active resource and
nothing free, next to a second worker of the same pressure, against an empty
pool free list. -/
theorem on_ready_never_fatal_witness :
    (bare_pool 40).free = [] ∧
    1 ≤ quota eight_conf
        (on_ready_acquire eight_conf (bare_pool 40) (on_ready_push eight_conf starved_capuch)).2.1
        (on_ready_acquire eight_conf (bare_pool 40) (on_ready_push eight_conf starved_capuch)).2.2 ∧
    ∃ p1 c1, on_ready eight_conf (bare_pool 40) starved_capuch = some (p1, c1) ∧
      c1.active_rsc.isSome = true :=
  ⟨by decide,
   on_ready_never_fatal eight_conf (bare_pool 40) starved_capuch
     [starved_capuch, bare_capuch 1 10] (by decide) (by decide) (by decide) (by decide)
     (by decide) (by decide) (by decide) (by decide) (by decide) (by decide) (by decide)
     (by decide) (by decide) (by decide)⟩

/-! ## Concurrent disk submissions -/

/-- Replacing one element of a list changes the sum of a function over it
by the difference at that element. -/
theorem sum_map_set_add {α β : Type} [AddCommMonoid β] (f : α → β) :
    ∀ (l : List α) (i : Nat) (x y : α), l[i]? = some x →
      ((l.set i y).map f).sum + f x = (l.map f).sum + f y := by
  intro l
  induction l with
  | nil => intro i x y h; simp at h
  | cons a l ih =>
    intro i x y h
    cases i with
    | zero =>
      simp only [List.getElem?_cons_zero, Option.some.injEq] at h
      subst h
      simp only [List.set_cons_zero, List.map_cons, List.sum_cons]
      abel
    | succ i =>
      simp only [List.getElem?_cons_succ] at h
      simp only [List.set_cons_succ, List.map_cons, List.sum_cons]
      rw [add_assoc, ih i x y h, add_assoc]

/-- The three atomic steps of a call: the `load`, the successful exchange
and the failed exchange. -/
theorem add_jobs_atomic_cases (now1 now2 e : Int) (c : add_jobs_call) (e1 : Int)
    (c1 : add_jobs_call) (h : add_jobs_atomic now1 now2 e c = some (e1, c1)) :
    (c.pc = add_jobs_pc.start ∧ e1 = e ∧
      c1 = ⟨c.excpected_duration,
        add_jobs_pc.loaded e ((if e < now1 then now2 else e) + c.excpected_duration)⟩) ∨
    (∃ prev new, c.pc = add_jobs_pc.loaded prev new ∧ e = prev ∧ e1 = new ∧
      c1 = { c with pc := add_jobs_pc.done new }) ∨
    (∃ prev new, c.pc = add_jobs_pc.loaded prev new ∧ e ≠ prev ∧ e1 = e ∧
      c1 = { c with pc := add_jobs_pc.start }) := by
  unfold add_jobs_atomic at h
  cases hpc : c.pc with
  | start =>
    rw [hpc] at h
    simp only [Option.some.injEq, Prod.mk.injEq] at h
    exact Or.inl ⟨rfl, h.1.symm, h.2.symm⟩
  | loaded prev new =>
    rw [hpc] at h
    dsimp only at h
    split_ifs at h with heq
    · simp only [Option.some.injEq, Prod.mk.injEq] at h
      exact Or.inr (Or.inl ⟨prev, new, rfl, heq, h.1.symm, h.2.symm⟩)
    · simp only [Option.some.injEq, Prod.mk.injEq] at h
      exact Or.inr (Or.inr ⟨prev, new, rfl, heq, h.1.symm, h.2.symm⟩)
  | done r =>
    rw [hpc] at h
    cases h

/-- A successful step of thread `i`, unfolded. -/
theorem disk_step_some (s s1 : disk_shared) (i : Nat) (now1 now2 : Int)
    (h : disk_step s i now1 now2 = some s1) :
    ∃ c c1, s.calls[i]? = some c ∧
      add_jobs_atomic now1 now2 s.expected_finish c = some (s1.expected_finish, c1) ∧
      s1.calls = s.calls.set i c1 := by
  unfold disk_step at h
  cases hc : s.calls[i]? with
  | none => rw [hc] at h; cases h
  | some c =>
    rw [hc] at h
    dsimp only at h
    cases ha : add_jobs_atomic now1 now2 s.expected_finish c with
    | none => rw [ha] at h; cases h
    | some r =>
      obtain ⟨e, c1⟩ := r
      rw [ha] at h
      simp only [Option.some.injEq] at h
      rw [← h]
      exact ⟨c, c1, rfl, ha, rfl⟩

/-- A stored value of `expected_finish` moves a pending call at most two
steps further from its commit, and a returned call not at all. -/
theorem steps_to_commit_le (e e1 : Int) (c : add_jobs_call) :
    steps_to_commit e1 c ≤ steps_to_commit e c + 2 * (if c.returned then 0 else 1) := by
  unfold steps_to_commit add_jobs_call.returned
  cases c.pc with
  | start => simp
  | loaded prev new =>
    dsimp only
    simp only [Bool.false_eq_true, if_false]
    split_ifs <;> omega
  | done r => simp

/-- Summed over the calls. -/
theorem sum_steps_to_commit_le (e e1 : Int) :
    ∀ cs : List add_jobs_call,
      (cs.map (steps_to_commit e1)).sum ≤ (cs.map (steps_to_commit e)).sum + 2 * pending cs := by
  intro cs
  induction cs with
  | nil => simp [pending]
  | cons c cs ih =>
    have h := steps_to_commit_le e e1 c
    unfold pending at ih ⊢
    simp only [List.map_cons, List.sum_cons]
    omega

/-- One atomic step of one thread: every call stays sound (for clock
readings in order), the durations stay, the committed service time never
exceeds the advance of `expected_finish`, and the bound on the steps still to
come goes down. -/
theorem disk_step_invariant (s s1 : disk_shared) (i : Nat) (now1 now2 : Int)
    (hnow : now1 ≤ now2) (hs : ∀ c ∈ s.calls, c.sound)
    (h : disk_step s i now1 now2 = some s1) :
    (∀ c ∈ s1.calls, c.sound) ∧
    s1.calls.map add_jobs_call.excpected_duration
      = s.calls.map add_jobs_call.excpected_duration ∧
    s.expected_finish - committed s.calls ≤ s1.expected_finish - committed s1.calls ∧
    steps_left s1 + 1 ≤ steps_left s := by
  obtain ⟨c, c1, hc, ha, hset⟩ := disk_step_some s s1 i now1 now2 h
  have hcmem : c ∈ s.calls := by
    obtain ⟨hi, hget⟩ := List.getElem?_eq_some_iff.mp hc
    rw [← hget]
    exact List.getElem_mem hi
  have hsound := hs c hcmem
  have hdur : ∀ x : add_jobs_call, x.excpected_duration = c.excpected_duration →
      (s.calls.set i x).map add_jobs_call.excpected_duration
        = s.calls.map add_jobs_call.excpected_duration := by
    intro x hx
    apply List.ext_getElem?
    intro n
    rw [List.getElem?_map, List.getElem?_map, List.getElem?_set]
    split_ifs with h1 h2
    · subst h1
      rw [hc]
      simp [hx]
    · subst h1
      have : s.calls[i]? = none := List.getElem?_eq_none (by omega)
      rw [this] at hc
      cases hc
    · rfl
  have hmem : ∀ x : add_jobs_call, x.sound → ∀ y ∈ s.calls.set i x, y.sound := by
    intro x hx y hy
    rcases List.mem_or_eq_of_mem_set hy with hm | rfl
    · exact hs y hm
    · exact hx
  have hcom := sum_map_set_add (fun c : add_jobs_call =>
    if c.returned then c.excpected_duration else 0) s.calls i c c1 hc
  have hpen := sum_map_set_add (fun c : add_jobs_call =>
    if c.returned then 0 else 1) s.calls i c c1 hc
  have hw := sum_map_set_add (steps_to_commit s1.expected_finish) s.calls i c c1 hc
  unfold steps_left committed
  rw [hset]
  unfold pending
  rcases add_jobs_atomic_cases now1 now2 s.expected_finish c s1.expected_finish c1 ha with
    ⟨hpc, he, hc1⟩ | ⟨prev, new, hpc, he0, he, hc1⟩ | ⟨prev, new, hpc, hne, he, hc1⟩
  · -- the load
    have r0 : c.returned = false := by unfold add_jobs_call.returned; rw [hpc]
    have r1 : c1.returned = false := by rw [hc1]; rfl
    have w0 : steps_to_commit s1.expected_finish c = 2 := by
      unfold steps_to_commit; rw [hpc]
    have w1 : steps_to_commit s1.expected_finish c1 = 1 := by
      rw [hc1, he]
      unfold steps_to_commit
      simp
    simp only [r0, r1, Bool.false_eq_true, if_false, add_zero] at hcom hpen
    rw [w0, w1] at hw
    refine ⟨hmem c1 ?_, hdur c1 (by rw [hc1]), ?_, ?_⟩
    · rw [hc1]
      unfold add_jobs_call.sound
      dsimp only
      split_ifs <;> omega
    · rw [hcom, he]
    · have hAB : (List.map (fun c : add_jobs_call => if c.returned = true then 0 else 1)
          (s.calls.set i c1)).sum
          = (List.map (fun c : add_jobs_call => if c.returned = true then 0 else 1)
            s.calls).sum := by omega
      rw [he] at hw ⊢
      rw [hAB]
      omega
  · -- the successful exchange
    have r0 : c.returned = false := by unfold add_jobs_call.returned; rw [hpc]
    have r1 : c1.returned = true := by rw [hc1]; rfl
    have w1 : steps_to_commit s1.expected_finish c1 = 0 := by
      rw [hc1]
      rfl
    have w0 : 1 ≤ steps_to_commit s1.expected_finish c := by
      unfold steps_to_commit
      rw [hpc]
      dsimp only
      split_ifs <;> omega
    have hd1 : c1.excpected_duration = c.excpected_duration := by rw [hc1]
    simp only [r0, r1, Bool.false_eq_true, if_false, if_true, add_zero] at hcom hpen
    rw [w1] at hw
    have hsnd : prev + c.excpected_duration ≤ new := by
      unfold add_jobs_call.sound at hsound
      rw [hpc] at hsound
      exact hsound
    have hle := sum_steps_to_commit_le s.expected_finish s1.expected_finish s.calls
    unfold pending at hle
    refine ⟨hmem c1 ?_, hdur c1 hd1, ?_, ?_⟩
    · rw [hc1]
      unfold add_jobs_call.sound
      trivial
    · rw [hd1] at hcom
      omega
    · generalize (List.map (fun c : add_jobs_call => if c.returned = true then 0 else 1)
        (s.calls.set i c1)).sum = q at hpen ⊢
      generalize (List.map (fun c : add_jobs_call => if c.returned = true then 0 else 1)
        s.calls).sum = pn at hpen hle ⊢
      have hq : pn = q + 1 := by omega
      subst hq
      have e2 : 2 * (q + 1) * (q + 1) = 2 * q * q + 4 * q + 2 := by ring
      rw [e2]
      generalize 2 * q * q = z
      omega
  · -- the failed exchange
    have r0 : c.returned = false := by unfold add_jobs_call.returned; rw [hpc]
    have r1 : c1.returned = false := by rw [hc1]; rfl
    have w0 : steps_to_commit s1.expected_finish c = 3 := by
      unfold steps_to_commit
      rw [hpc, he]
      dsimp only
      rw [if_neg (fun hh => hne hh.symm)]
    have w1 : steps_to_commit s1.expected_finish c1 = 2 := by
      rw [hc1]
      rfl
    simp only [r0, r1, Bool.false_eq_true, if_false, add_zero] at hcom hpen
    rw [w0, w1] at hw
    refine ⟨hmem c1 ?_, hdur c1 (by rw [hc1]), ?_, ?_⟩
    · rw [hc1]
      unfold add_jobs_call.sound
      trivial
    · rw [hcom, he]
    · have hAB : (List.map (fun c : add_jobs_call => if c.returned = true then 0 else 1)
          (s.calls.set i c1)).sum
          = (List.map (fun c : add_jobs_call => if c.returned = true then 0 else 1)
            s.calls).sum := by omega
      rw [he] at hw ⊢
      rw [hAB]
      omega

/-- A call that has not returned can always take its next atomic step. -/
theorem disk_step_enabled (s : disk_shared) (i : Nat) (c : add_jobs_call) (now1 now2 : Int)
    (hc : s.calls[i]? = some c) (hr : c.returned = false) :
    (disk_step s i now1 now2).isSome = true := by
  unfold disk_step
  rw [hc]
  dsimp only
  unfold add_jobs_atomic
  unfold add_jobs_call.returned at hr
  cases hpc : c.pc with
  | start => rfl
  | loaded prev new =>
    dsimp only
    split_ifs <;> rfl
  | done r =>
    rw [hpc] at hr
    cases hr

/-- One atomic step commits for its own thread exactly when it is a
successful exchange, and leaves the other threads where they are. -/
theorem disk_step_returned (s s1 : disk_shared) (i : Nat) (now1 now2 : Int)
    (h : disk_step s i now1 now2 = some s1) (j : Nat) (c : add_jobs_call)
    (hj : s.calls[j]? = some c) :
    ∃ c1, s1.calls[j]? = some c1 ∧
      (if i = j ∧ exchanges s i = true then 1 else 0) + (if c.returned then 1 else 0)
        = (if c1.returned then 1 else 0) := by
  obtain ⟨c0, c1, hc, ha, hset⟩ := disk_step_some s s1 i now1 now2 h
  have hjlt : j < s.calls.length := (List.getElem?_eq_some_iff.mp hj).1
  by_cases hij : i = j
  · subst hij
    rw [hc] at hj
    simp only [Option.some.injEq] at hj
    subst hj
    refine ⟨c1, ?_, ?_⟩
    · rw [hset, List.getElem?_set]
      simp [hjlt]
    · have hex : exchanges s i = (match c0.pc with
          | add_jobs_pc.loaded prev _ => decide (s.expected_finish = prev)
          | _ => false) := by
        unfold exchanges
        rw [hc]
      rw [hex]
      unfold add_jobs_call.returned
      rcases add_jobs_atomic_cases now1 now2 s.expected_finish c0 s1.expected_finish c1 ha with
        ⟨hpc, he, hc1⟩ | ⟨prev, new, hpc, he0, he, hc1⟩ | ⟨prev, new, hpc, hne, he, hc1⟩
      · rw [hpc, hc1]
        simp
      · rw [hpc, hc1]
        simp [he0]
      · rw [hpc, hc1]
        simp [hne]
  · refine ⟨c, ?_, ?_⟩
    · rw [hset, List.getElem?_set]
      simp [hij, hj]
    · simp [hij]

/-- Along an interleaving every call stays sound, the durations stay, the
committed service time never exceeds the advance of `expected_finish`, and the
length of the schedule is within the bound on the steps to come. -/
theorem disk_interleave_invariant :
    ∀ (sched : List (Nat × Int × Nat)) (s s1 : disk_shared),
      (∀ c ∈ s.calls, c.sound) → disk_interleave s sched = some s1 →
      (∀ c ∈ s1.calls, c.sound) ∧
      s1.calls.map add_jobs_call.excpected_duration
        = s.calls.map add_jobs_call.excpected_duration ∧
      s.expected_finish - committed s.calls ≤ s1.expected_finish - committed s1.calls ∧
      sched.length + steps_left s1 ≤ steps_left s := by
  intro sched
  induction sched with
  | nil =>
    intro s s1 hs h
    simp only [disk_interleave, Option.some.injEq] at h
    subst h
    exact ⟨hs, rfl, le_refl _, by simp⟩
  | cons x rest ih =>
    intro s s1 hs h
    obtain ⟨i, now, later⟩ := x
    rw [disk_interleave] at h
    cases hst : disk_step s i now (now + later) with
    | none => rw [hst] at h; cases h
    | some s2 =>
      rw [hst] at h
      dsimp only at h
      obtain ⟨a1, a2, a3, a4⟩ :=
        disk_step_invariant s s2 i now (now + later) (by omega) hs hst
      obtain ⟨b1, b2, b3, b4⟩ := ih s2 s1 a1 h
      refine ⟨b1, b2.trans a2, le_trans a3 b3, ?_⟩
      simp only [List.length_cons]
      omega

/-- Along an interleaving a thread stores into `expected_finish` exactly
once if it goes from not returned to returned, and never otherwise. -/
theorem commits_of_returned :
    ∀ (sched : List (Nat × Int × Nat)) (s s1 : disk_shared) (j : Nat) (c : add_jobs_call),
      disk_interleave s sched = some s1 → s.calls[j]? = some c →
      ∃ c1, s1.calls[j]? = some c1 ∧
        commits_of j s sched + (if c.returned then 1 else 0) = (if c1.returned then 1 else 0) := by
  intro sched
  induction sched with
  | nil =>
    intro s s1 j c h hj
    simp only [disk_interleave, Option.some.injEq] at h
    subst h
    exact ⟨c, hj, by simp [commits_of]⟩
  | cons x rest ih =>
    intro s s1 j c h hj
    obtain ⟨i, now, later⟩ := x
    rw [disk_interleave] at h
    rw [commits_of]
    cases hst : disk_step s i now (now + later) with
    | none => rw [hst] at h; cases h
    | some s2 =>
      rw [hst] at h
      dsimp only at h ⊢
      obtain ⟨c2, hc2, e2⟩ := disk_step_returned s s2 i now (now + later) hst j c hj
      obtain ⟨c1, hc1, e1⟩ := ih s2 s1 j c2 h hc2
      exact ⟨c1, hc1, by omega⟩

/-- The calls at entry: one per count, each before its first `load`, with the
duration of the sequential `add_jobs`. -/
theorem add_jobs_enter_all_spec (dcf : disk_conf) :
    ∀ (counts : List Int) (calls : List add_jobs_call),
      add_jobs_enter_all dcf counts = some calls →
      calls.length = counts.length ∧ (∀ c ∈ calls, c.pc = add_jobs_pc.start) ∧
      calls.map add_jobs_call.excpected_duration
        = counts.map (fun count => to_i64 (((1000000000 * to_u64 count) % 2 ^ 64
            / to_u64 dcf.consume_per_second : Nat) : Int)) := by
  intro counts
  induction counts with
  | nil =>
    intro calls h
    simp only [add_jobs_enter_all, Option.some.injEq] at h
    subst h
    simp
  | cons count rest ih =>
    intro calls h
    rw [add_jobs_enter_all] at h
    cases h1 : add_jobs_enter dcf count with
    | none => rw [h1] at h; cases h
    | some c =>
      cases h2 : add_jobs_enter_all dcf rest with
      | none => rw [h1, h2] at h; cases h
      | some cs =>
        rw [h1, h2] at h
        simp only [Option.some.injEq] at h
        subst h
        obtain ⟨i1, i2, i3⟩ := ih cs h2
        unfold add_jobs_enter at h1
        split_ifs at h1 with hz
        simp only [Option.some.injEq] at h1
        subst h1
        refine ⟨by simp [i1], ?_, by simp [i3]⟩
        intro x hx
        rcases List.mem_cons.mp hx with rfl | hx
        · rfl
        · exact i2 x hx

/-- Calls that all stand before their first `load`: all sound, none
committed, all pending, two steps each from the commit. -/
theorem all_start_spec (e : Int) :
    ∀ cs : List add_jobs_call, (∀ c ∈ cs, c.pc = add_jobs_pc.start) →
      (∀ c ∈ cs, c.sound) ∧ committed cs = 0 ∧ pending cs = cs.length ∧
      (cs.map (steps_to_commit e)).sum = 2 * cs.length := by
  intro cs
  induction cs with
  | nil => intro _; simp [committed, pending]
  | cons c cs ih =>
    intro h
    have hc := h c (List.mem_cons_self _ _)
    obtain ⟨i1, i2, i3, i4⟩ := ih (fun x hx => h x (List.mem_cons_of_mem _ hx))
    have r0 : c.returned = false := by unfold add_jobs_call.returned; rw [hc]
    have w0 : steps_to_commit e c = 2 := by unfold steps_to_commit; rw [hc]
    simp only [committed, pending] at i2 i3 ⊢
    refine ⟨?_, ?_, ?_, ?_⟩
    · intro x hx
      rcases List.mem_cons.mp hx with rfl | hx
      · unfold add_jobs_call.sound
        rw [hc]
        trivial
      · exact i1 x hx
    · simp only [List.map_cons, List.sum_cons, r0, Bool.false_eq_true, if_false, i2, add_zero]
    · simp only [List.map_cons, List.sum_cons, r0, Bool.false_eq_true, if_false, i3,
        List.length_cons]
      omega
    · simp only [List.map_cons, List.sum_cons, w0, i4, List.length_cons]
      omega

/-- Once no call is pending, the committed service time is the sum of all
durations; while one is pending, some thread holds a call that has not
returned. -/
theorem pending_spec :
    ∀ cs : List add_jobs_call,
      (pending cs = 0 → committed cs = (cs.map add_jobs_call.excpected_duration).sum) ∧
      (pending cs ≠ 0 → ∃ (i : Nat) (c : add_jobs_call), cs[i]? = some c ∧ c.returned = false) := by
  intro cs
  induction cs with
  | nil => simp [committed, pending]
  | cons c cs ih =>
    unfold committed pending at ih ⊢
    simp only [List.map_cons, List.sum_cons]
    cases hr : c.returned with
    | false =>
      simp only [Bool.false_eq_true, if_false]
      refine ⟨fun h => absurd h (by omega), fun _ => ⟨0, c, by simp, hr⟩⟩
    | true =>
      simp only [if_true, zero_add]
      refine ⟨fun h => by rw [ih.1 h], fun h => ?_⟩
      obtain ⟨i, x, hx, hxr⟩ := ih.2 h
      exact ⟨i + 1, x, by simpa using hx, hxr⟩

/-- From any state whose calls are sound some continuation lets every call
return. -/
theorem disk_completes :
    ∀ (n : Nat) (s : disk_shared), steps_left s ≤ n → (∀ c ∈ s.calls, c.sound) →
      ∃ sched s2, disk_interleave s sched = some s2 ∧ pending s2.calls = 0 := by
  intro n
  induction n with
  | zero =>
    intro s hn hs
    by_cases hp : pending s.calls = 0
    · exact ⟨[], s, rfl, hp⟩
    · obtain ⟨i, c, hc, hr⟩ := (pending_spec s.calls).2 hp
      obtain ⟨s2, h2⟩ := Option.isSome_iff_exists.mp (disk_step_enabled s i c 0 (0 + (0 : Nat)) hc hr)
      have := (disk_step_invariant s s2 i 0 (0 + (0 : Nat)) (by omega) hs h2).2.2.2
      omega
  | succ n ih =>
    intro s hn hs
    by_cases hp : pending s.calls = 0
    · exact ⟨[], s, rfl, hp⟩
    · obtain ⟨i, c, hc, hr⟩ := (pending_spec s.calls).2 hp
      obtain ⟨s2, h2⟩ := Option.isSome_iff_exists.mp (disk_step_enabled s i c 0 (0 + (0 : Nat)) hc hr)
      obtain ⟨a1, _, _, a4⟩ := disk_step_invariant s s2 i 0 (0 + (0 : Nat)) (by omega) hs h2
      obtain ⟨sched, s3, h3, hp3⟩ := ih s2 (by omega) a1
      refine ⟨(i, 0, 0) :: sched, s3, ?_, hp3⟩
      rw [disk_interleave, h2]
      exact h3

/-- A call alone, with both clock readings equal, is the sequential
`add_jobs`: one `load`, one exchange that succeeds. -/
theorem add_jobs_alone (dcf : disk_conf) (now : Int) (d : disk_sim) (count : Int) :
    add_jobs dcf now d count
      = (add_jobs_enter dcf count).bind (fun c =>
          (disk_interleave { expected_finish := d.expected_finish, calls := [c] }
            [(0, now, 0), (0, now, 0)]).map
            (fun s => (s.expected_finish, { expected_finish := s.expected_finish }))) := by
  unfold add_jobs add_jobs_enter
  split_ifs with hz
  · rfl
  · simp [disk_interleave, disk_step, add_jobs_atomic]

/-- C23 (disk_sim::add_jobs called concurrently).  Calls of `add_jobs` entered
by several threads against an `expected_finish` of `e0` are run under any
interleaving `sched` of their atomic steps (the `load`, the
`compare_exchange_strong`), reaching the state `s1`.  Then: the calls carry
the durations of the sequential `add_jobs`, which never change; the schedule
has at most `2 N + 2 N * N` steps for `N` calls, so no interleaving goes on
for ever; every call that has not returned can take its next step whatever
the clock reads, so the run stops only when every call has returned, and
some continuation of the run lets every call return; each
thread has stored into `expected_finish` exactly once if its call has returned
and never otherwise; `expected_finish` is at least `e0` plus the durations of
the calls that have returned, and at least `e0` plus the sum of all durations
once every call has returned. -/
theorem concurrent_add_jobs (dcf : disk_conf) (e0 : Int) (counts : List Int)
    (calls : List add_jobs_call) (sched : List (Nat × Int × Nat)) (s1 : disk_shared)
    (henter : add_jobs_enter_all dcf counts = some calls)
    (hrun : disk_interleave { expected_finish := e0, calls := calls } sched = some s1) :
    calls.map add_jobs_call.excpected_duration
      = counts.map (fun count => to_i64 (((1000000000 * to_u64 count) % 2 ^ 64
          / to_u64 dcf.consume_per_second : Nat) : Int)) ∧
    s1.calls.map add_jobs_call.excpected_duration
      = calls.map add_jobs_call.excpected_duration ∧
    sched.length + steps_left s1 ≤ 2 * counts.length + 2 * counts.length * counts.length ∧
    (∀ i c, s1.calls[i]? = some c → c.returned = false →
      ∀ (now : Int) (later : Nat), ∃ s2, disk_step s1 i now (now + later) = some s2) ∧
    (pending s1.calls = 0 ∨
      ∃ i, ∀ (now : Int) (later : Nat), ∃ s2, disk_interleave s1 [(i, now, later)] = some s2) ∧
    (∃ sched2 s2, disk_interleave s1 sched2 = some s2 ∧ pending s2.calls = 0) ∧
    (∀ j c, s1.calls[j]? = some c →
      commits_of j { expected_finish := e0, calls := calls } sched
        = if c.returned then 1 else 0) ∧
    e0 + committed s1.calls ≤ s1.expected_finish ∧
    (pending s1.calls = 0 →
      e0 + (calls.map add_jobs_call.excpected_duration).sum ≤ s1.expected_finish) := by
  obtain ⟨hlen, hstart, hdur⟩ := add_jobs_enter_all_spec dcf counts calls henter
  obtain ⟨hsound, hcom0, hpen0, hsum0⟩ := all_start_spec e0 calls hstart
  obtain ⟨b1, b2, b3, b4⟩ := disk_interleave_invariant sched
    { expected_finish := e0, calls := calls } s1 hsound hrun
  dsimp only at b2 b3
  rw [hcom0] at b3
  have hleft : steps_left { expected_finish := e0, calls := calls }
      = 2 * counts.length + 2 * counts.length * counts.length := by
    unfold steps_left
    dsimp only
    rw [hsum0, hpen0, hlen]
  rw [hleft] at b4
  have hen : ∀ i c, s1.calls[i]? = some c → c.returned = false →
      ∀ (now : Int) (later : Nat), ∃ s2, disk_step s1 i now (now + later) = some s2 := by
    intro i c hc hr now later
    exact Option.isSome_iff_exists.mp (disk_step_enabled s1 i c now (now + later) hc hr)
  refine ⟨hdur, b2, b4, hen, ?_, disk_completes (steps_left s1) s1 (le_refl _) b1, ?_,
    by omega, ?_⟩
  · by_cases hp : pending s1.calls = 0
    · exact Or.inl hp
    · obtain ⟨i, c, hc, hr⟩ := (pending_spec s1.calls).2 hp
      refine Or.inr ⟨i, fun now later => ?_⟩
      obtain ⟨s2, h2⟩ := hen i c hc hr now later
      exact ⟨s2, by rw [disk_interleave, h2]; rfl⟩
  · intro j c hc
    have hlen1 : s1.calls.length = calls.length := by
      have := congrArg List.length b2
      simpa using this
    have hjlt : j < calls.length := by
      rw [← hlen1]
      exact (List.getElem?_eq_some_iff.mp hc).1
    have hj0 : calls[j]? = some (calls[j]) := List.getElem?_eq_getElem hjlt
    obtain ⟨c1, hc1, e1⟩ := commits_of_returned sched
      { expected_finish := e0, calls := calls } s1 j (calls[j]) hrun hj0
    rw [hc] at hc1
    simp only [Option.some.injEq] at hc1
    subst hc1
    have r0 : (calls[j]).returned = false := by
      unfold add_jobs_call.returned
      rw [hstart _ (List.getElem_mem hjlt)]
    rw [r0] at e1
    simpa using e1
  · intro hp
    rw [(pending_spec s1.calls).1 hp, b2] at b3
    omega

/-- Witness for C23: two threads submit 32 and 64 buffers to a disk of rate
32 per second; thread 1 loses the first exchange to thread 0 and goes round
the loop; after six atomic steps both have returned, each has stored once, and
`expected_finish` stands at 3 s, the sum of the two durations. -/
theorem concurrent_add_jobs_witness :
    add_jobs_enter_all {} [32, 64] = some two_calls.calls ∧
    disk_interleave { expected_finish := 0, calls := two_calls.calls } two_calls_schedule
      = some two_calls_end ∧
    two_calls.calls.map add_jobs_call.excpected_duration = [1000000000, 2000000000] ∧
    two_calls_end.expected_finish = 3000000000 ∧
    two_calls_end.calls.map add_jobs_call.returned = [true, true] ∧
    commits_of 0 { expected_finish := 0, calls := two_calls.calls } two_calls_schedule = 1 ∧
    commits_of 1 { expected_finish := 0, calls := two_calls.calls } two_calls_schedule = 1 ∧
    (pending two_calls_end.calls = 0 →
      0 + (two_calls.calls.map add_jobs_call.excpected_duration).sum
        ≤ two_calls_end.expected_finish) :=
  ⟨by decide, by decide, by decide, by decide, by decide, by decide, by decide,
    (concurrent_add_jobs {} 0 [32, 64] two_calls.calls two_calls_schedule two_calls_end
      (by decide) (by decide)).2.2.2.2.2.2.2.2⟩

end Capuchinos
